import Mathlib

/-!
# Detours kernel core (`src/detours_kernel.cpp`): a shallow embedding

Conventions of the embedding.

* Memory is one flat byte map `Mem := Nat → Nat` (address to byte).  Target code, the
  caller's function-pointer slots and the contents of every trampoline slot live in it;
  trampoline fields are read and written at the byte offsets of `_DETOUR_TRAMPOLINE`
  (the sizes are the ones the source asserts with `C_ASSERT`).
* The four architectures with a complete definition in the source (X86, X64, ARM, ARM64)
  are selected by a value of type `Arch` instead of the preprocessor.
* The process-wide statics (`s_pRegions`, `s_nPendingError`, ...) are the fields of `State`.
  Region headers and pending-operation records are kept as records in lists (the list order
  is the `pNext` chain); a region is identified by its page address `base`.
* Host primitives are oracles: pure ones are fields of `Host`, per-call outcomes
  (pool allocation, page allocation, remapping) are passed with the call.
* The writable alias returned by `detour_remap_address` is the target address itself:
  a store through the alias is a store to the target bytes.
* A page that the host hands out for a new region is not initialised by the embedding: its
  bytes are the ones the memory held there.  A statement that relies on the zero-filled
  pages of `MmAllocatePagesForMdlEx` has the zero page as a hypothesis.
* The rendezvous of the commit is a step function on the shared state: `KeIpiGenericCall`
  places every processor at the entry of the callback before any of them runs it, the steps
  of the processors interleave in any order, an interlocked operation on the counter is one
  step, and the processors are numbered from 0.  `DetourTransactionCommitEx` itself is
  embedded with the outcome of a completed rendezvous, the memory `commit_apply` yields.
-/

namespace Detours

/-! ## Bytes and memory -/

/-- Byte-addressed memory. -/
abbrev Mem := Nat → Nat

/-- Store the bytes `bs` at consecutive addresses starting at `a`. -/
def writeBytes (m : Mem) (a : Nat) (bs : List Nat) : Mem :=
  fun x => if a ≤ x ∧ x < a + bs.length then bs.getD (x - a) 0 else m x

/-- Load `n` consecutive bytes starting at `a`. -/
def readBytes (m : Mem) (a n : Nat) : List Nat :=
  (List.range n).map fun i => m (a + i)

/-- Little-endian encoding of `v` on `n` bytes (truncating). -/
def leBytes : Nat → Nat → List Nat
  | 0, _ => []
  | n + 1, v => v % 256 :: leBytes n (v / 256)

/-- Little-endian load of `n` bytes at `a`. -/
def readLE (m : Mem) (a : Nat) : Nat → Nat
  | 0 => 0
  | n + 1 => m a + 256 * readLE m (a + 1) n

/-- Little-endian store of `v` on `n` bytes at `a`. -/
def writeLE (m : Mem) (a n v : Nat) : Mem := writeBytes m a (leBytes n v)

/-- The C `memcpy` (source read before any byte is stored). -/
def memcpy (m : Mem) (dst src n : Nat) : Mem := writeBytes m dst (readBytes m src n)

/-- The C `memset`. -/
def memset (m : Mem) (dst v n : Nat) : Mem := writeBytes m dst (List.replicate n v)

/-- Add to `base` the `bits`-bit two-complement value `v`, modulo `2 ^ w`. -/
def addSigned (w base bits v : Nat) : Nat :=
  (base + v % 2 ^ bits + (if v % 2 ^ bits < 2 ^ (bits - 1) then 0 else 2 ^ w - 2 ^ bits)) % 2 ^ w

/-! ## Architectures and the layout of `_DETOUR_TRAMPOLINE` -/

/-- The architectures whose trampoline and helpers are fully defined in the source. -/
inductive Arch
  | X86
  | X64
  | ARM
  | ARM64
  deriving DecidableEq, Repr

/-- Size of a pointer (`PBYTE`) in bytes. -/
def ptrSize : Arch → Nat
  | .X86 => 4
  | .X64 => 8
  | .ARM => 4
  | .ARM64 => 8

/-- Width of an address in bits. -/
def ptrBits (arch : Arch) : Nat := 8 * ptrSize arch

/-- The constant `SIZE_OF_JMP` of each architecture. -/
def SIZE_OF_JMP : Arch → Nat
  | .X86 => 5
  | .X64 => 12
  | .ARM => 8
  | .ARM64 => 16

/-- The constant `SIZE_OF_JMP_TO_REMAIN` (X64 only). -/
def SIZE_OF_JMP_TO_REMAIN : Nat := 6

/-- The value of `sizeof(pTrampoline->rbCode)`. -/
def sizeof_rbCode : Arch → Nat
  | .X86 => 30
  | .X64 => 30
  | .ARM => 62
  | .ARM64 => 128

/-- The value of `sizeof(pTrampoline->rbRestore)`. -/
def sizeof_rbRestore : Arch → Nat
  | .X86 => 22
  | .X64 => 30
  | .ARM => 22
  | .ARM64 => 24

/-- The value of `ARRAYSIZE(pTrampoline->rAlign)`. -/
def sizeof_rAlign : Nat := 8

/-- Offset of `cbCode` (the field after `rbCode`, which is at offset 0). -/
def off_cbCode (arch : Arch) : Nat := sizeof_rbCode arch

/-- Offset of `rbRestore`. -/
def off_rbRestore : Arch → Nat
  | .X86 => 32
  | .X64 => 32
  | .ARM => 64
  | .ARM64 => 132

/-- Offset of `cbRestore`. -/
def off_cbRestore (arch : Arch) : Nat := off_rbRestore arch + sizeof_rbRestore arch

/-- Offset of `rAlign`. -/
def off_rAlign : Arch → Nat
  | .X86 => 56
  | .X64 => 64
  | .ARM => 88
  | .ARM64 => 160

/-- Offset of `pbRemain`. -/
def off_pbRemain (arch : Arch) : Nat := off_rAlign arch + sizeof_rAlign

/-- Offset of `pbDetour`. -/
def off_pbDetour (arch : Arch) : Nat := off_pbRemain arch + ptrSize arch

/-- Offset of `rbCodeIn` (X64 only). -/
def off_rbCodeIn : Nat := 88

/-- The value of `sizeof(_DETOUR_TRAMPOLINE)`, as asserted by the source. -/
def sizeof_DETOUR_TRAMPOLINE : Arch → Nat
  | .X86 => 72
  | .X64 => 96
  | .ARM => 104
  | .ARM64 => 184

/-- Load a pointer. -/
def readPtr (arch : Arch) (m : Mem) (a : Nat) : Nat := readLE m a (ptrSize arch)

/-- Store a pointer. -/
def writePtr (arch : Arch) (m : Mem) (a v : Nat) : Mem := writeLE m a (ptrSize arch) v

/-- Modelled from the spec: `DETOURS_PFUNC_TO_PBYTE` of the absent header; on ARM a function
pointer carries the Thumb tag in bit 0, which this clears. -/
def DETOURS_PFUNC_TO_PBYTE (p : Nat) : Nat := p - p % 2

/-- Modelled from the spec: `DETOURS_PBYTE_TO_PFUNC` of the absent header; tags a code address
as a Thumb function pointer. -/
def DETOURS_PBYTE_TO_PFUNC (p : Nat) : Nat := p - p % 2 + 1

/-! ## Host oracles and status codes -/

/-- Modelled from the spec: the status codes `DETOURS_STATUS_*` of the absent header, plus
the codes a host primitive may report. -/
inductive Status
  | success
  | invalid_operation
  | invalid_parameter
  | invalid_handle
  | invalid_block
  | insufficient_resources
  | outofmemory
  | host (code : Nat)
  deriving DecidableEq, Repr

/-- Pure host queries. -/
structure Host where
  /-- The `AllocationBase` reported by `DetoursQueryModuleMemoryBaseInformationForAddress`. -/
  allocationBase : Nat → Nat
  /-- Whether a load at the address completes (otherwise it raises an access violation). -/
  readable : Nat → Bool
  /-- Result of `MmProtectMdlSystemAddress mdl protection`. -/
  protect : Nat → Nat → Status

/-- The test `NT_SUCCESS`. -/
def NT_SUCCESS (st : Status) : Bool := decide (st = Status.success)

/-- The constant `IMAGE_DOS_SIGNATURE` (the letters MZ). -/
def IMAGE_DOS_SIGNATURE : Nat := 0x5A4D

/-- The constant `IMAGE_NT_SIGNATURE` (the letters PE and two zero bytes). -/
def IMAGE_NT_SIGNATURE : Nat := 0x00004550

/-- Offset, inside `IMAGE_NT_HEADERS`, of `OptionalHeader.DataDirectory[IMAGE_DIRECTORY_ENTRY_IAT]`
(entry 12; the optional header is the 32-bit one on X86 and ARM and the 64-bit one otherwise). -/
def off_IAT_directory : Arch → Nat
  | .X86 => 0xD8
  | .X64 => 0xE8
  | .ARM => 0xD8
  | .ARM64 => 0xE8

/-- Function `detour_is_imported`: is `pbAddress` inside the IAT directory of the module holding `pbCode`?
A load that faults is caught and answers `false`. -/
def detour_is_imported (arch : Arch) (h : Host) (m : Mem) (pbCode pbAddress : Nat) : Bool :=
  let pDosHeader := h.allocationBase pbCode
  if !h.readable pDosHeader then false
  else if readLE m pDosHeader 2 ≠ IMAGE_DOS_SIGNATURE then false
  else
    let pNtHeader := addSigned (ptrBits arch) pDosHeader 32 (readLE m (pDosHeader + 0x3C) 4)
    if !h.readable pNtHeader then false
    else if readLE m pNtHeader 4 ≠ IMAGE_NT_SIGNATURE then false
    else
      let va := readLE m (pNtHeader + off_IAT_directory arch) 4
      let sz := readLE m (pNtHeader + off_IAT_directory arch + 4) 4
      decide ((pDosHeader + va) % 2 ^ ptrBits arch ≤ pbAddress ∧
        pbAddress < (pDosHeader + va + sz) % 2 ^ ptrBits arch)

/-- Function `detour_2gb_below`. -/
def detour_2gb_below (address : Nat) : Nat :=
  if address > 0x7ff80000 then address - 0x7ff80000 else 0x80000

/-- Function `detour_2gb_above` (the `DETOURS_64BIT` variant on X64 and ARM64). -/
def detour_2gb_above (arch : Arch) (address : Nat) : Nat :=
  match arch with
  | .X64 | .ARM64 =>
    if address < 0xffffffff80000000 then address + 0x7ff80000 else 0xfffffffffff80000
  | .X86 | .ARM =>
    if address < 0x80000000 then address + 0x7ff80000 else 0xfff80000

/-- Difference `a - b` modulo `2 ^ w`. -/
def subMod (w a b : Nat) : Nat := (a % 2 ^ w + (2 ^ w - b % 2 ^ w)) % 2 ^ w

/-! ## Architecture pack: X86 and X64 -/

/-- Function `detour_gen_jmp_immediate` (X86, X64): `jmp +imm32`; yields the memory and the
advanced cursor. -/
def detour_gen_jmp_immediate_x86 (m : Mem) (pbCode pbJmpSrc pbJmpVal : Nat) : Mem × Nat :=
  let pbJmpSrc := pbJmpSrc + 5
  let m := writeBytes m pbCode [0xE9]
  let m := writeLE m (pbCode + 1) 4 (subMod 32 pbJmpVal pbJmpSrc)
  (m, pbCode + 5)

/-- Function `detour_gen_jmp_indirect` of X86: `jmp [+imm32]` with an absolute operand. -/
def detour_gen_jmp_indirect_X86 (m : Mem) (pbCode ppbJmpVal : Nat) : Mem × Nat :=
  let m := writeBytes m pbCode [0xff]
  let m := writeBytes m (pbCode + 1) [0x25]
  let m := writeLE m (pbCode + 2) 4 (ppbJmpVal % 2 ^ 32)
  (m, pbCode + 6)

/-- Function `detour_gen_jmp_indirect` of X64: `jmp [rip+imm32]`. -/
def detour_gen_jmp_indirect_X64 (m : Mem) (pbCode pbJmpSrc ppbJmpVal : Nat) : Mem × Nat :=
  let pbJmpSrc := pbJmpSrc + 6
  let m := writeBytes m pbCode [0xff]
  let m := writeBytes m (pbCode + 1) [0x25]
  let m := writeLE m (pbCode + 2) 4 (subMod 32 ppbJmpVal pbJmpSrc)
  (m, pbCode + 6)

/-- The array `Jumper` of `detour_gen_jmp_far`: `mov rax, imm64; push rax; ret`. -/
def Jumper : List Nat :=
  [0x48, 0xb8, 0x00, 0x00, 0x00, 0x00, 0x00, 0x00, 0x00, 0x00, 0x50, 0xc3]

/-- Function `detour_gen_jmp_far` (X64): the 12-byte absolute jump. -/
def detour_gen_jmp_far (m : Mem) (pbCode pbJmpVal : Nat) : Mem × Nat :=
  let m := writeBytes m pbCode Jumper
  let m := writeLE m (pbCode + 2) 8 pbJmpVal
  (m, pbCode + Jumper.length)

/-- One import-vector test of `detour_skip_jmp` (X86, X64): at a `jmp [..]` whose operand
is an IAT entry, follow the entry. -/
def skip_import_x86 (arch : Arch) (h : Host) (m : Mem) (pbCode : Nat) : Nat :=
  if m pbCode = 0xff ∧ m (pbCode + 1) = 0x25 then
    let pbTarget :=
      match arch with
      | .X64 => addSigned 64 (pbCode + 6) 32 (readLE m (pbCode + 2) 4)
      | _ => readLE m (pbCode + 2) 4
    if detour_is_imported arch h m pbCode pbTarget then readPtr arch m pbTarget else pbCode
  else pbCode

/-- Function `detour_skip_jmp` of X86 and X64 (`ppGlobals` only receives null). -/
def detour_skip_jmp_x86 (arch : Arch) (h : Host) (m : Mem) (pbCode : Nat) : Nat :=
  if pbCode = 0 then 0
  else
    -- First, skip over the import vector if there is one.
    let pbCode := skip_import_x86 arch h m pbCode
    -- Then, skip over a patch jump
    if m pbCode = 0xeb then
      let pbNew := addSigned (ptrBits arch) (pbCode + 2) 8 (m (pbCode + 1))
      let pbCode := pbNew
      if m pbCode = 0xff ∧ m (pbCode + 1) = 0x25 then
        skip_import_x86 arch h m pbCode
      else if m pbCode = 0xe9 then
        addSigned (ptrBits arch) (pbCode + 5) 32 (readLE m (pbCode + 1) 4)
      else pbCode
    else pbCode

/-- Function `detour_find_jmp_bounds` of X86 and X64: the pair `(lo, hi)`. -/
def detour_find_jmp_bounds_x86 (arch : Arch) (m : Mem) (pbCode : Nat) : Nat × Nat :=
  let lo := detour_2gb_below pbCode
  let hi := detour_2gb_above arch pbCode
  if arch = Arch.X64 ∧ m pbCode = 0xff ∧ m (pbCode + 1) = 0x25 then
    let pbNew := addSigned 64 (pbCode + 6) 32 (readLE m (pbCode + 2) 4)
    if pbNew < pbCode then (lo, detour_2gb_above arch pbNew)
    else (detour_2gb_below pbNew, hi)
  else if m pbCode = 0xe9 then
    let pbNew := addSigned (ptrBits arch) (pbCode + 5) 32 (readLE m (pbCode + 1) 4)
    if pbNew < pbCode then (lo, detour_2gb_above arch pbNew)
    else (detour_2gb_below pbNew, hi)
  else (lo, hi)

/-- Function `detour_does_code_end_function` of X86 and X64. -/
def detour_does_code_end_function_x86 (m : Mem) (pbCode : Nat) : Bool :=
  if m pbCode = 0xeb ∨ m pbCode = 0xe9 ∨ m pbCode = 0xe0 ∨ m pbCode = 0xc2 ∨
      m pbCode = 0xc3 ∨ m pbCode = 0xcc then true
  else if m pbCode = 0xf3 ∧ m (pbCode + 1) = 0xc3 then true
  else if m pbCode = 0xff ∧ m (pbCode + 1) = 0x25 then true
  else if (m pbCode = 0x26 ∨ m pbCode = 0x2e ∨ m pbCode = 0x36 ∨ m pbCode = 0x3e ∨
      m pbCode = 0x64 ∨ m pbCode = 0x65) ∧ m (pbCode + 1) = 0xff ∧ m (pbCode + 2) = 0x25 then true
  else false

/-- Function `detour_is_code_filler` of X86 and X64. -/
def detour_is_code_filler_x86 (m : Mem) (pbCode : Nat) : Nat :=
  if m pbCode = 0x90 then 1
  else if readBytes m pbCode 2 = [0x66, 0x90] then 2
  else if readBytes m pbCode 3 = [0x0F, 0x1F, 0x00] then 3
  else if readBytes m pbCode 4 = [0x0F, 0x1F, 0x40, 0x00] then 4
  else if readBytes m pbCode 5 = [0x0F, 0x1F, 0x44, 0x00, 0x00] then 5
  else if readBytes m pbCode 6 = [0x66, 0x0F, 0x1F, 0x44, 0x00, 0x00] then 6
  else if readBytes m pbCode 7 = [0x0F, 0x1F, 0x80, 0x00, 0x00, 0x00, 0x00] then 7
  else if readBytes m pbCode 8 = [0x0F, 0x1F, 0x84, 0x00, 0x00, 0x00, 0x00, 0x00] then 8
  else if readBytes m pbCode 9 = [0x66, 0x0F, 0x1F, 0x84, 0x00, 0x00, 0x00, 0x00, 0x00] then 9
  else if readBytes m pbCode 10 =
      [0x66, 0x66, 0x0F, 0x1F, 0x84, 0x00, 0x00, 0x00, 0x00, 0x00] then 10
  else if readBytes m pbCode 11 =
      [0x66, 0x66, 0x66, 0x0F, 0x1F, 0x84, 0x00, 0x00, 0x00, 0x00, 0x00] then 11
  else if m pbCode = 0xcc then 1
  else 0

/-! ## Architecture pack: ARM (Thumb-2) -/

/-- Function `align4`. -/
def align4 (pValue : Nat) : Nat := pValue % 2 ^ 32 - pValue % 4

/-- Function `fetch_thumb_opcode`. -/
def fetch_thumb_opcode (m : Mem) (pbCode : Nat) : Nat :=
  let Opcode := readLE m pbCode 2
  if Opcode ≥ 0xe800 then ((Opcode <<< 16) ||| readLE m (pbCode + 2) 2) % 2 ^ 32 else Opcode

/-- Function `write_thumb_opcode`: yields the memory and the advanced cursor. -/
def write_thumb_opcode (m : Mem) (pbCode Opcode : Nat) : Mem × Nat :=
  let (m, pbCode) :=
    if Opcode ≥ 0x10000 then (writeLE m pbCode 2 (Opcode >>> 16), pbCode + 2) else (m, pbCode)
  (writeLE m pbCode 2 Opcode, pbCode + 2)

/-- Function `detour_gen_jmp_immediate` of ARM: `ldr pc, [pc + n]` with its literal, which is
taken from the pool when `ppPool` is given.  Yields memory, cursor and pool cursor. -/
def detour_gen_jmp_immediate_ARM (m : Mem) (pbCode : Nat) (ppPool : Option Nat) (pbJmpVal : Nat) :
    Mem × Nat × Option Nat :=
  let ppPool := ppPool.map fun pool => pool - 4
  let pbLiteral :=
    match ppPool with
    | some pool => pool
    | none => align4 (pbCode + 6)
  let m := writeLE m pbLiteral 4 (DETOURS_PBYTE_TO_PFUNC pbJmpVal)
  let delta := subMod 32 pbLiteral (align4 (pbCode + 4))
  let (m, pbCode) := write_thumb_opcode m pbCode (0xf8dff000 ||| delta)
  match ppPool with
  | some pool => (m, pbCode, some pool)
  | none =>
    let (m, pbCode) :=
      if pbCode % 4 / 2 ≠ 0 then write_thumb_opcode m pbCode 0xdefe else (m, pbCode)
    (m, pbCode + 4, none)

/-- Function `detour_skip_jmp` of ARM. -/
def detour_skip_jmp_ARM (h : Host) (m : Mem) (pbCode : Nat) : Nat :=
  if pbCode = 0 then 0
  else
    let pbCode := DETOURS_PFUNC_TO_PBYTE pbCode
    let Opcode := fetch_thumb_opcode m pbCode
    if Opcode &&& 0xfbf08f00 = 0xf2400c00 then
      let Opcode2 := fetch_thumb_opcode m (pbCode + 4)
      if Opcode2 &&& 0xfbf08f00 = 0xf2c00c00 then
        let Opcode3 := fetch_thumb_opcode m (pbCode + 8)
        if Opcode3 = 0xf8dcf000 then
          let pbTarget :=
            ((Opcode2 <<< 12) &&& 0xf7000000) ||| ((Opcode2 <<< 1) &&& 0x08000000) |||
            ((Opcode2 <<< 16) &&& 0x00ff0000) ||| ((Opcode >>> 4) &&& 0x0000f700) |||
            ((Opcode >>> 15) &&& 0x00000800) ||| ((Opcode >>> 0) &&& 0x000000ff)
          if detour_is_imported Arch.ARM h m pbCode pbTarget then
            DETOURS_PFUNC_TO_PBYTE (readPtr Arch.ARM m pbTarget)
          else pbCode
        else pbCode
      else pbCode
    else pbCode

/-- Function `detour_does_code_end_function` of ARM. -/
def detour_does_code_end_function_ARM (m : Mem) (pbCode : Nat) : Bool :=
  let Opcode := fetch_thumb_opcode m pbCode
  if Opcode &&& 0xffffff87 = 0x4700 ∨ Opcode &&& 0xf800d000 = 0xf0009000 then true
  else if Opcode &&& 0xffff8000 = 0xe8bd8000 then true
  else if Opcode &&& 0xffffff00 = 0x0000bd00 then true
  else false

/-- Function `detour_is_code_filler` of ARM. -/
def detour_is_code_filler_ARM (m : Mem) (pbCode : Nat) : Nat :=
  if m pbCode = 0x00 ∧ m (pbCode + 1) = 0xbf then 2
  else if m pbCode = 0x00 ∧ m (pbCode + 1) = 0x00 then 2
  else 0

/-! ## Architecture pack: ARM64 -/

/-- Function `fetch_opcode`. -/
def fetch_opcode (m : Mem) (pbCode : Nat) : Nat := readLE m pbCode 4

/-- Function `write_opcode`. -/
def write_opcode (m : Mem) (pbCode Opcode : Nat) : Mem × Nat :=
  (writeLE m pbCode 4 Opcode, pbCode + 4)

/-- The C expression `(delta / 4) << 5` on the 32-bit signed `delta` (given modulo `2 ^ 32`),
as a 32-bit pattern: the division truncates towards zero. -/
def ldrImmField (delta : Nat) : Nat :=
  if delta < 2 ^ 31 then (delta / 4 * 32) % 2 ^ 32
  else (2 ^ 32 - (2 ^ 32 - delta) / 4 * 32 % 2 ^ 32) % 2 ^ 32

/-- Function `detour_gen_jmp_immediate` of ARM64: `ldr x17, [pc + n]; br x17` with its
literal.  Yields memory, cursor and pool cursor. -/
def detour_gen_jmp_immediate_ARM64 (m : Mem) (pbCode : Nat) (ppPool : Option Nat)
    (pbJmpVal : Nat) : Mem × Nat × Option Nat :=
  let ppPool := ppPool.map fun pool => pool - 8
  let pbLiteral :=
    match ppPool with
    | some pool => pool
    | none => pbCode + 8
  let m := writeLE m pbLiteral 8 pbJmpVal
  let delta := subMod 32 pbLiteral pbCode
  let (m, pbCode) := write_opcode m pbCode (0x58000011 ||| ldrImmField delta)
  let (m, pbCode) := write_opcode m pbCode (0xd61f0000 ||| (17 <<< 5))
  match ppPool with
  | some pool => (m, pbCode, some pool)
  | none => (m, pbCode + 8, none)

/-- Function `detour_sign_extend`, on 64-bit patterns. -/
def detour_sign_extend (value bits : Nat) : Nat :=
  let left := 64 - bits
  let wide := (value <<< left) % 2 ^ 64
  let sign := if wide ≥ 2 ^ 63 then (2 ^ 64 - 1) <<< left % 2 ^ 64 else 0
  value ||| sign

/-- Function `detour_skip_jmp` of ARM64. -/
def detour_skip_jmp_ARM64 (h : Host) (m : Mem) (pbCode : Nat) : Nat :=
  if pbCode = 0 then 0
  else
    let Opcode := fetch_opcode m pbCode
    if Opcode &&& 0x9f00001f = 0x90000010 then
      let Opcode2 := fetch_opcode m (pbCode + 4)
      if Opcode2 &&& 0xffe003ff = 0xf9400210 then
        let Opcode3 := fetch_opcode m (pbCode + 8)
        if Opcode3 = 0xd61f0200 then
          let pageLow2 := (Opcode >>> 29) &&& 3
          let pageHigh19 := (Opcode >>> 5) &&& 0x7ffff
          let page := (detour_sign_extend ((pageHigh19 <<< 2) ||| pageLow2) 21 <<< 12) % 2 ^ 64
          let offset := ((Opcode2 >>> 10) &&& 0xfff) <<< 3
          let pbTarget := ((pbCode &&& 0xfffffffffffff000) + page + offset) % 2 ^ 64
          if detour_is_imported Arch.ARM64 h m pbCode pbTarget then
            readPtr Arch.ARM64 m pbTarget
          else pbCode
        else pbCode
      else pbCode
    else pbCode

/-- Function `detour_does_code_end_function` of ARM64. -/
def detour_does_code_end_function_ARM64 (m : Mem) (pbCode : Nat) : Bool :=
  let Opcode := fetch_opcode m pbCode
  if Opcode &&& 0xfffffc1f = 0xd65f0000 ∨ Opcode &&& 0xfc000000 = 0x14000000 then true
  else false

/-- Function `detour_is_code_filler` of ARM64. -/
def detour_is_code_filler_ARM64 (m : Mem) (pbCode : Nat) : Nat :=
  if readLE m pbCode 4 = 0xd503201f then 4
  else if readLE m pbCode 4 = 0x00000000 then 4
  else 0

/-! ## Architecture dispatch -/

/-- Function `detour_skip_jmp`. -/
def detour_skip_jmp (arch : Arch) (h : Host) (m : Mem) (pbCode : Nat) : Nat :=
  match arch with
  | .X86 => detour_skip_jmp_x86 Arch.X86 h m pbCode
  | .X64 => detour_skip_jmp_x86 Arch.X64 h m pbCode
  | .ARM => detour_skip_jmp_ARM h m pbCode
  | .ARM64 => detour_skip_jmp_ARM64 h m pbCode

/-- Function `DetourCodeFromPointer`. -/
def DetourCodeFromPointer (arch : Arch) (h : Host) (m : Mem) (pPointer : Nat) : Nat :=
  detour_skip_jmp arch h m pPointer

/-- Function `detour_find_jmp_bounds`: the pair `(lo, hi)`. -/
def detour_find_jmp_bounds (arch : Arch) (m : Mem) (pbCode : Nat) : Nat × Nat :=
  match arch with
  | .X86 => detour_find_jmp_bounds_x86 Arch.X86 m pbCode
  | .X64 => detour_find_jmp_bounds_x86 Arch.X64 m pbCode
  | .ARM => (detour_2gb_below pbCode, detour_2gb_above Arch.ARM pbCode)
  | .ARM64 => (detour_2gb_below pbCode, detour_2gb_above Arch.ARM64 pbCode)

/-- Function `detour_does_code_end_function`. -/
def detour_does_code_end_function (arch : Arch) (m : Mem) (pbCode : Nat) : Bool :=
  match arch with
  | .X86 => detour_does_code_end_function_x86 m pbCode
  | .X64 => detour_does_code_end_function_x86 m pbCode
  | .ARM => detour_does_code_end_function_ARM m pbCode
  | .ARM64 => detour_does_code_end_function_ARM64 m pbCode

/-- Function `detour_is_code_filler`. -/
def detour_is_code_filler (arch : Arch) (m : Mem) (pbCode : Nat) : Nat :=
  match arch with
  | .X86 => detour_is_code_filler_x86 m pbCode
  | .X64 => detour_is_code_filler_x86 m pbCode
  | .ARM => detour_is_code_filler_ARM m pbCode
  | .ARM64 => detour_is_code_filler_ARM64 m pbCode

/-- The break opcode stored by one iteration of `detour_gen_brk`: `0xcc` on X86 and X64,
the Thumb `0xdefe`, the ARM64 `0xd4100000 | (0xf000 << 5)`. -/
def brkBytes : Arch → List Nat
  | .X86 => [0xcc]
  | .X64 => [0xcc]
  | .ARM => leBytes 2 0xdefe
  | .ARM64 => leBytes 4 (0xd4100000 ||| (0xf000 <<< 5))

/-- The loop of `detour_gen_brk`; `fuel` bounds the number of iterations. -/
def detour_gen_brk_loop (arch : Arch) (pbLimit : Nat) : Nat → Mem → Nat → Mem × Nat
  | 0, m, pbCode => (m, pbCode)
  | fuel + 1, m, pbCode =>
    if pbCode < pbLimit then
      detour_gen_brk_loop arch pbLimit fuel (writeBytes m pbCode (brkBytes arch))
        (pbCode + (brkBytes arch).length)
    else (m, pbCode)

/-- Function `detour_gen_brk`: every iteration advances the cursor, so `pbLimit - pbCode`
iterations always reach the limit. -/
def detour_gen_brk (arch : Arch) (m : Mem) (pbCode pbLimit : Nat) : Mem × Nat :=
  detour_gen_brk_loop arch pbLimit (pbLimit - pbCode) m pbCode

/-! ## Trampoline memory management -/

/-- A region header `DETOUR_REGION`, with the page address it sits at; the `pNext` link is the
order of the list `s_pRegions`. -/
structure DETOUR_REGION where
  /-- Address of the region (of its page). -/
  base : Nat
  /-- Field `dwSignature`. -/
  dwSignature : Nat
  /-- Field `pMdl`. -/
  pMdl : Nat
  /-- Field `pFree`: head of the list of free trampolines, linked through `pbRemain`. -/
  pFree : Nat

/-- The constant `DETOUR_REGION_SIGNATURE` (the characters Rrtd). -/
def DETOUR_REGION_SIGNATURE : Nat := 0x52727464

/-- The constant `DETOUR_REGION_SIZE`, the page size. -/
def DETOUR_REGION_SIZE : Nat := 4096

/-- The constant `DETOUR_TRAMPOLINES_PER_REGION`. -/
def DETOUR_TRAMPOLINES_PER_REGION (arch : Arch) : Nat :=
  DETOUR_REGION_SIZE / sizeof_DETOUR_TRAMPOLINE arch - 1

/-- Offset of `pFree` in `DETOUR_REGION` (used for a region that is not in the list). -/
def off_pFree (arch : Arch) : Nat := 3 * ptrSize arch

/-- Page protections. -/
def PAGE_EXECUTE_READ : Nat := 0x20

/-- Page protection with write access. -/
def PAGE_EXECUTE_READWRITE : Nat := 0x40

/-- A pending operation `DetourOperation`; `pNext` is the order of the pending list. -/
structure DetourOperation where
  /-- Field `fIsRemove`. -/
  fIsRemove : Bool
  /-- Field `ppbPointer`. -/
  ppbPointer : Nat
  /-- Field `pbTarget`. -/
  pbTarget : Nat
  /-- Field `pbTargetEditable`. -/
  pbTargetEditable : Nat
  /-- Field `pbTargetMdl`. -/
  pbTargetMdl : Nat
  /-- Field `pTrampoline`. -/
  pTrampoline : Nat
  deriving DecidableEq, Repr

/-- The process-wide state: memory, the statics of the source, and the protection the host
currently gives to the pages of each MDL. -/
structure State where
  /-- Byte memory. -/
  mem : Mem
  /-- Protection of the pages described by an MDL. -/
  protection : Nat → Nat
  /-- List of all regions, head first. -/
  s_pRegions : List DETOUR_REGION
  /-- Default region (its address), 0 when null. -/
  s_pRegion : Nat
  /-- Static `s_fIgnoreTooSmall`. -/
  s_fIgnoreTooSmall : Bool
  /-- Static `s_fRetainRegions`. -/
  s_fRetainRegions : Bool
  /-- Thread owning the pending transaction, 0 when none. -/
  s_nPendingThreadId : Nat
  /-- Static `s_nPendingError`. -/
  s_nPendingError : Status
  /-- Static `s_ppPendingError`. -/
  s_ppPendingError : Nat
  /-- Pending operations, head first. -/
  s_pPendingOperations : List DetourOperation

/-- The listed region at address `p`, if any. -/
def regionAt (rs : List DETOUR_REGION) (p : Nat) : Option DETOUR_REGION :=
  rs.find? fun r => decide (r.base = p)

/-- Assign `pFree` in the header of the listed region at address `p`. -/
def setFree (rs : List DETOUR_REGION) (p v : Nat) : List DETOUR_REGION :=
  rs.map fun r => if r.base = p then { r with pFree := v } else r

/-- Function `detour_writable_trampoline_regions`, as a walk over the region list: the status
and the protections after it. -/
def detour_writable_trampoline_regions (h : Host) :
    List DETOUR_REGION → (Nat → Nat) → Status × (Nat → Nat)
  | [], prot => (Status.success, prot)
  | r :: rs, prot =>
    let Status := h.protect r.pMdl PAGE_EXECUTE_READWRITE
    if !NT_SUCCESS Status then (Status, prot)
    else
      detour_writable_trampoline_regions h rs
        (fun mdl => if mdl = r.pMdl then PAGE_EXECUTE_READWRITE else prot mdl)

/-- Function `detour_runnable_trampoline_regions`: the protections after it. -/
def detour_runnable_trampoline_regions (h : Host) :
    List DETOUR_REGION → (Nat → Nat) → (Nat → Nat)
  | [], prot => prot
  | r :: rs, prot =>
    detour_runnable_trampoline_regions h rs
      (if NT_SUCCESS (h.protect r.pMdl PAGE_EXECUTE_READ) then
        fun mdl => if mdl = r.pMdl then PAGE_EXECUTE_READ else prot mdl
      else prot)

/-- The loop of `detour_alloc_trampoline` that threads the slots of a new region: the loop
variable runs from `i` down while `i > 1`; `pTrampoline` is the first slot after the header. -/
def alloc_thread_loop (arch : Arch) (pTrampoline : Nat) : Nat → Mem → Nat → Mem × Nat
  | 0, m, pFree => (m, pFree)
  | i + 1, m, pFree =>
    if i + 1 > 1 then
      let slot := pTrampoline + (i + 1) * sizeof_DETOUR_TRAMPOLINE arch
      alloc_thread_loop arch pTrampoline i (writePtr arch m (slot + off_pbRemain arch) pFree) slot
    else (m, pFree)

/-- The label `found_region` of `detour_alloc_trampoline`, for the default region `r`. -/
def alloc_found_region (arch : Arch) (s : State) (r : DETOUR_REGION) (pLo pHi : Nat) :
    Nat × State :=
  let pTrampoline := r.pFree
  if arch ≠ Arch.X64 ∧ (pTrampoline < pLo ∨ pTrampoline > pHi) then (0, s)
  else
    let next := readPtr arch s.mem (pTrampoline + off_pbRemain arch)
    let m := memset s.mem pTrampoline 0xcc (sizeof_DETOUR_TRAMPOLINE arch)
    (pTrampoline, { s with mem := m, s_pRegions := setFree s.s_pRegions r.base next })

/-- The header of the region that `detour_alloc_trampoline` builds in the new page `pbTry`:
every slot but the first of the array that follows the header is threaded, by the loop with
`i` from `DETOUR_TRAMPOLINES_PER_REGION - 1` down while `i > 1`. -/
def new_region (arch : Arch) (m : Mem) (pMdl pbTry : Nat) : DETOUR_REGION :=
  { base := pbTry, dwSignature := DETOUR_REGION_SIGNATURE, pMdl := pMdl,
    pFree := (alloc_thread_loop arch (pbTry + sizeof_DETOUR_TRAMPOLINE arch)
      (DETOUR_TRAMPOLINES_PER_REGION arch - 1) m 0).2 }

/-- The state of `detour_alloc_trampoline` once the new region in the page `pbTry` is linked
at the head of the region list and is the default region. -/
def alloc_new_region (arch : Arch) (s : State) (pMdl pbTry : Nat) : State :=
  { s with
    mem := (alloc_thread_loop arch (pbTry + sizeof_DETOUR_TRAMPOLINE arch)
      (DETOUR_TRAMPOLINES_PER_REGION arch - 1) s.mem 0).1,
    s_pRegion := pbTry,
    s_pRegions := new_region arch s.mem pMdl pbTry :: s.s_pRegions }

/-- The default region after the first statement of `detour_alloc_trampoline`: the head of
the region list if there was no default region. -/
def alloc_default_region (s : State) : Nat :=
  match s.s_pRegions with
  | r :: _ => if s.s_pRegion = 0 then r.base else s.s_pRegion
  | [] => s.s_pRegion

/-- Function `detour_alloc_trampoline`.  `page` is what the host hands out when a new region
is needed: `some (pMdl, pbTry)`, or `none` when either allocation step fails.  The result is
the trampoline (0 for null) and the state. -/
def detour_alloc_trampoline (arch : Arch) (page : Option (Nat × Nat)) (s : State)
    (pbTarget : Nat) : Nat × State :=
  let pLo := (detour_find_jmp_bounds arch s.mem pbTarget).1
  let pHi := (detour_find_jmp_bounds arch s.mem pbTarget).2
  -- Insure that there is a default region.
  let pRegion := alloc_default_region s
  -- First check the default region for an valid free block.
  match (regionAt s.s_pRegions pRegion).filter (fun r => decide (pRegion ≠ 0 ∧ r.pFree ≠ 0)) with
  | some r => alloc_found_region arch { s with s_pRegion := pRegion } r pLo pHi
  | none =>
    -- Then check the existing regions for a valid free block.
    match s.s_pRegions.find? (fun r => decide (r.pFree ≠ 0)) with
    | some r => alloc_found_region arch { s with s_pRegion := r.base } r pLo pHi
    | none =>
      -- We need to allocate a new region.
      match page with
      | none => (0, { s with s_pRegion := 0 })
      | some (pMdl, pbTry) =>
        if pbTry = 0 then (0, { s with s_pRegion := 0 })
        else
          alloc_found_region arch (alloc_new_region arch s pMdl pbTry)
            (new_region arch s.mem pMdl pbTry) pLo pHi

/-- Function `detour_free_trampoline`.  The region is found by masking the slot address; when
no listed region sits there, its `pFree` field is the pointer at that place in memory. -/
def detour_free_trampoline (arch : Arch) (s : State) (pTrampoline : Nat) : State :=
  let pRegion := pTrampoline - pTrampoline % DETOUR_REGION_SIZE
  let listed := (regionAt s.s_pRegions pRegion).isSome
  let m := memset s.mem pTrampoline 0 (sizeof_DETOUR_TRAMPOLINE arch)
  -- pTrampoline->pbRemain = (PBYTE)pRegion->pFree;
  let pFree :=
    match regionAt s.s_pRegions pRegion with
    | some r => r.pFree
    | none => readPtr arch m (pRegion + off_pFree arch)
  let m := writePtr arch m (pTrampoline + off_pbRemain arch) pFree
  -- pRegion->pFree = pTrampoline;
  { s with mem := if listed then m else writePtr arch m (pRegion + off_pFree arch) pTrampoline,
           s_pRegions := setFree s.s_pRegions pRegion pTrampoline }

/-- Function `detour_is_region_empty`. -/
def detour_is_region_empty (arch : Arch) (m : Mem) (pRegion : DETOUR_REGION) : Bool :=
  if pRegion.dwSignature ≠ DETOUR_REGION_SIGNATURE then false
  else
    let pbRegionBeg := pRegion.base
    let pbRegionLim := pbRegionBeg + DETOUR_REGION_SIZE
    let pTrampoline := pRegion.base + sizeof_DETOUR_TRAMPOLINE arch
    (List.range (DETOUR_TRAMPOLINES_PER_REGION arch)).all fun i =>
      let pbRemain := readPtr arch m
        (pTrampoline + i * sizeof_DETOUR_TRAMPOLINE arch + off_pbRemain arch)
      !(decide (pbRemain ≠ 0 ∧ (pbRemain < pbRegionBeg ∨ pbRemain ≥ pbRegionLim)))

/-- Function `detour_free_unused_trampoline_regions`: every empty region is unlinked and its
pages are released; the default region is reset when one was. -/
def detour_free_unused_trampoline_regions (arch : Arch) (s : State) : State :=
  { s with
    s_pRegions := s.s_pRegions.filter fun r => !detour_is_region_empty arch s.mem r,
    s_pRegion := if s.s_pRegions.any fun r => detour_is_region_empty arch s.mem r then 0
                 else s.s_pRegion }

/-! ## The external instruction copier and the per-call host outcomes -/

/-- Modelled from the spec: one call of the external `DetourCopyInstruction` (section 6 of the
specification).  It copies one instruction of `len` source bytes: `code` is stored at the
destination cursor, `lExtra` is the number of bytes reported beyond the source length, `pool`
is the pool cursor after the call and `poolBytes` is stored at it. -/
structure CopyResult where
  /-- Source length of the instruction: the cursor returned is `pbSrc + len`. -/
  len : Nat
  /-- Out-parameter `lExtra`. -/
  lExtra : Nat
  /-- Bytes stored at the destination. -/
  code : List Nat
  /-- Pool cursor after the call. -/
  pool : Nat
  /-- Bytes stored at the new pool cursor. -/
  poolBytes : List Nat

/-- Modelled from the spec: the external copier, a function of the memory, the destination,
the pool cursor and the source. -/
abbrev Copier := Mem → Nat → Nat → Nat → CopyResult

/-- What the host answers during one attach or detach call. -/
structure HostCall where
  /-- Whether `ExAllocatePoolWithTag` supplies the operation record. -/
  opAlloc : Bool
  /-- The new page `some (pMdl, address)` supplied if a region has to be allocated. -/
  page : Option (Nat × Nat)
  /-- The MDL returned by `detour_remap_address`, 0 when it fails. -/
  remapMdl : Nat
  /-- The value of `DetoursGetLastError()` after a failed remapping. -/
  lastError : Status

/-! ## Transaction APIs -/

/-- Function `DetourSetIgnoreTooSmall`. -/
def DetourSetIgnoreTooSmall (s : State) (fIgnore : Bool) : Bool × State :=
  (s.s_fIgnoreTooSmall, { s with s_fIgnoreTooSmall := fIgnore })

/-- Function `DetourSetRetainRegions`. -/
def DetourSetRetainRegions (s : State) (fRetain : Bool) : Bool × State :=
  (s.s_fRetainRegions, { s with s_fRetainRegions := fRetain })

/-- Function `DetourTransactionBegin`, called by thread `tid`. -/
def DetourTransactionBegin (h : Host) (tid : Nat) (s : State) : Status × State :=
  if s.s_nPendingThreadId ≠ 0 then (Status.invalid_operation, s)
  else
    let (st, prot) := detour_writable_trampoline_regions h s.s_pRegions s.protection
    (st, { s with s_nPendingThreadId := tid, s_pPendingOperations := [], s_ppPendingError := 0,
                  protection := prot, s_nPendingError := st })

/-- The loop of `DetourTransactionAbort` over the pending operations. -/
def abort_loop (arch : Arch) : List DetourOperation → State → State
  | [], s => s
  | o :: os, s =>
    abort_loop arch os
      (if !o.fIsRemove ∧ o.pTrampoline ≠ 0 then detour_free_trampoline arch s o.pTrampoline else s)

/-- Function `DetourTransactionAbort`, called by thread `tid`. -/
def DetourTransactionAbort (arch : Arch) (h : Host) (tid : Nat) (s : State) : Status × State :=
  if s.s_nPendingThreadId ≠ tid then (Status.invalid_operation, s)
  else
    let s := abort_loop arch s.s_pPendingOperations s
    (Status.success,
      { s with s_pPendingOperations := [],
               protection := detour_runnable_trampoline_regions h s.s_pRegions s.protection,
               s_nPendingThreadId := 0 })

/-- The removal branch of the commit loop. -/
def commit_remove (arch : Arch) (m : Mem) (o : DetourOperation) : Mem :=
  let m := memcpy m o.pbTargetEditable (o.pTrampoline + off_rbRestore arch)
    (m (o.pTrampoline + off_cbRestore arch))
  match arch with
  | .ARM => writePtr arch m o.ppbPointer (DETOURS_PBYTE_TO_PFUNC o.pbTarget)
  | _ => writePtr arch m o.ppbPointer o.pbTarget

/-- The jump that the install branch of the commit loop emits at the target (on X64 after
the indirect jump through `pbDetour` has been stored in `rbCodeIn`): the memory and the cursor
`pbCode` that follows the jump. -/
def commit_jump (arch : Arch) (m : Mem) (o : DetourOperation) : Mem × Nat :=
  let t := o.pTrampoline
  match arch with
  | .X64 =>
    let m := (detour_gen_jmp_indirect_X64 m (t + off_rbCodeIn) (t + off_rbCodeIn)
      (t + off_pbDetour arch)).1
    detour_gen_jmp_far m o.pbTargetEditable (t + off_rbCodeIn)
  | .X86 =>
    detour_gen_jmp_immediate_x86 m o.pbTargetEditable o.pbTarget
      (readPtr arch m (t + off_pbDetour arch))
  | .ARM =>
    let j := detour_gen_jmp_immediate_ARM m o.pbTargetEditable none
      (readPtr arch m (t + off_pbDetour arch))
    (j.1, j.2.1)
  | .ARM64 =>
    let j := detour_gen_jmp_immediate_ARM64 m o.pbTargetEditable none
      (readPtr arch m (t + off_pbDetour arch))
    (j.1, j.2.1)

/-- The install branch of the commit loop: the jump, the break fill up to
`pbTargetEditable + cbRestore`, and the store of the trampoline address through
`ppbPointer`. -/
def commit_install (arch : Arch) (m : Mem) (o : DetourOperation) : Mem :=
  let t := o.pTrampoline
  let j := commit_jump arch m o
  let m := (detour_gen_brk arch j.1 j.2 (o.pbTargetEditable + j.1 (t + off_cbRestore arch))).1
  match arch with
  | .ARM => writePtr arch m o.ppbPointer (DETOURS_PBYTE_TO_PFUNC t)
  | _ => writePtr arch m o.ppbPointer t

/-- The loop of the commit callback on the issuing processor: insert or remove each of the
detours, in the order of the pending list. -/
def commit_apply (arch : Arch) : List DetourOperation → Mem → Mem
  | [], m => m
  | o :: os, m =>
    commit_apply arch os (if o.fIsRemove then commit_remove arch m o else commit_install arch m o)

/-- The loop of `DetourTransactionCommitEx` after the rendezvous: the state and the flag
`freed`. -/
def commit_cleanup (arch : Arch) : List DetourOperation → State → Bool → State × Bool
  | [], s, freed => (s, freed)
  | o :: os, s, freed =>
    if o.fIsRemove ∧ o.pTrampoline ≠ 0 then
      commit_cleanup arch os (detour_free_trampoline arch s o.pTrampoline) true
    else commit_cleanup arch os s freed

/-- Function `DetourTransactionCommitEx`, called by thread `tid`: the status, the value stored
through `pppFailedPointer`, and the state. -/
def DetourTransactionCommitEx (arch : Arch) (h : Host) (tid : Nat) (s : State) :
    Status × Nat × State :=
  if s.s_nPendingThreadId ≠ tid then (Status.invalid_operation, s.s_ppPendingError, s)
  else if s.s_nPendingError ≠ Status.success then
    -- If any of the pending operations failed, then we abort the whole transaction.
    let s1 := (DetourTransactionAbort arch h tid s).2
    (s1.s_nPendingError, s.s_ppPendingError, s1)
  else
    let s1 : State := { s with mem := commit_apply arch s.s_pPendingOperations s.mem }
    let c := commit_cleanup arch s1.s_pPendingOperations s1 false
    let s2 : State := { c.1 with s_pPendingOperations := [] }
    -- Free any trampoline regions that are now unused.
    let s3 := if c.2 ∧ !s2.s_fRetainRegions then detour_free_unused_trampoline_regions arch s2
              else s2
    let s4 : State :=
      { s3 with protection := detour_runnable_trampoline_regions h s3.s_pRegions s3.protection,
                s_nPendingThreadId := 0 }
    (s4.s_nPendingError, s4.s_ppPendingError, s4)

/-- Function `DetourTransactionCommit`. -/
def DetourTransactionCommit (arch : Arch) (h : Host) (tid : Nat) (s : State) : Status × State :=
  let r := DetourTransactionCommitEx arch h tid s
  (r.1, r.2.2)

/-! ## Transacted APIs -/

/-- The label `stop` of `DetourAttachEx`. -/
def attach_stop (arch : Arch) (s : State) (error : Status) (pTrampoline ppPointer : Nat) :
    Status × State :=
  let s := if pTrampoline ≠ 0 then detour_free_trampoline arch s pTrampoline else s
  (error, { s with s_ppPendingError := ppPointer })

/-- The label `fail` of `DetourAttachEx`. -/
def attach_fail (arch : Arch) (s : State) (error : Status) (pTrampoline ppPointer : Nat) :
    Status × State :=
  attach_stop arch { s with s_nPendingError := error } error pTrampoline ppPointer

/-- The local variables of the copy loops of `DetourAttachEx`. -/
structure CopyState where
  /-- Memory. -/
  mem : Mem
  /-- Source cursor `pbSrc`. -/
  pbSrc : Nat
  /-- Destination cursor `pbTrampoline`. -/
  pbTrampoline : Nat
  /-- Pool cursor `pbPool`. -/
  pbPool : Nat
  /-- Number of target bytes consumed. -/
  cbTarget : Nat
  /-- Index into `rAlign`. -/
  nAlign : Nat

/-- The ARM prelude of `DetourAttachEx`: the jump size for the alignment of the target, and
the copy of an existing `ldr pc, [pc]` jump. -/
def attach_arm_prelude (pbTarget : Nat) (st : CopyState) : Nat × CopyState :=
  if pbTarget % 4 / 2 ≠ 0 then
    if fetch_thumb_opcode st.mem st.pbSrc = 0xbf00 ∧
        fetch_thumb_opcode st.mem (st.pbSrc + 2) = 0xf8dff000 then
      let m := memcpy st.mem st.pbTrampoline st.pbSrc 2
      let m := memcpy m (st.pbTrampoline + 2) (st.pbSrc + 2) 4
      let m := memcpy m (st.pbTrampoline + 6) (st.pbSrc + 6) 4
      (SIZE_OF_JMP Arch.ARM + 2,
        { st with mem := m, pbSrc := st.pbSrc + 10, pbTrampoline := st.pbTrampoline + 10,
                  cbTarget := st.pbSrc + 10 - pbTarget })
    else (SIZE_OF_JMP Arch.ARM + 2, st)
  else
    if fetch_thumb_opcode st.mem st.pbSrc = 0xf8dff000 then
      let m := memcpy st.mem st.pbTrampoline st.pbSrc 4
      let m := memcpy m (st.pbTrampoline + 4) (st.pbSrc + 4) 4
      (SIZE_OF_JMP Arch.ARM,
        { st with mem := m, pbSrc := st.pbSrc + 8, pbTrampoline := st.pbTrampoline + 8,
                  cbTarget := st.pbSrc + 8 - pbTarget })
    else (SIZE_OF_JMP Arch.ARM, st)

/-- The first loop of `DetourAttachEx`: copy instructions while fewer than `cbJump` target
bytes are covered.  Every iteration increments `nAlign` and the loop is left once it reaches
the size of `rAlign`, so 8 units of `fuel` are never used up. -/
def attach_copy_loop (arch : Arch) (copier : Copier) (pbTarget pTrampoline cbJump : Nat) :
    Nat → CopyState → CopyState
  | 0, st => st
  | fuel + 1, st =>
    if st.cbTarget < cbJump then
      let pbOp := st.pbSrc
      let r := copier st.mem st.pbTrampoline st.pbPool st.pbSrc
      let m := writeBytes (writeBytes st.mem st.pbTrampoline r.code) r.pool r.poolBytes
      let pbSrc := st.pbSrc + r.len
      let pbTrampoline := st.pbTrampoline + (pbSrc - pbOp) + r.lExtra
      let cbTarget := pbSrc - pbTarget
      -- rAlign[nAlign].obTarget (3 bits) and rAlign[nAlign].obTrampoline (5 bits)
      let m := writeBytes m (pTrampoline + off_rAlign arch + st.nAlign)
        [cbTarget % 8 + 8 * ((pbTrampoline - pTrampoline) % 32)]
      let st1 : CopyState :=
        { mem := m, pbSrc := pbSrc, pbTrampoline := pbTrampoline, pbPool := r.pool,
          cbTarget := cbTarget, nAlign := st.nAlign + 1 }
      if st1.nAlign ≥ sizeof_rAlign then st1
      else if detour_does_code_end_function arch m pbOp then st1
      else attach_copy_loop arch copier pbTarget pTrampoline cbJump fuel st1
    else st

/-- The second loop of `DetourAttachEx`: consume padding.  Every iteration adds at least one
byte, so `cbJump` units of `fuel` are never used up. -/
def attach_filler_loop (arch : Arch) (pbTarget cbJump : Nat) : Nat → CopyState → CopyState
  | 0, st => st
  | fuel + 1, st =>
    if st.cbTarget < cbJump then
      let cFiller := detour_is_code_filler arch st.mem st.pbSrc
      if cFiller = 0 then st
      else
        attach_filler_loop arch pbTarget cbJump fuel
          { st with pbSrc := st.pbSrc + cFiller, cbTarget := st.pbSrc + cFiller - pbTarget }
    else st

/-- The two loops of `DetourAttachEx` after the ARM prelude: the jump size `cbJump` that the
loops use, and the local variables when the second loop is left. -/
def attach_scan (arch : Arch) (copier : Copier) (pbTarget pTrampoline : Nat) (st0 : CopyState) :
    Nat × CopyState :=
  let pre : Nat × CopyState :=
    match arch with
    | .ARM => attach_arm_prelude pbTarget st0
    | _ => (SIZE_OF_JMP arch, st0)
  let st1 := attach_copy_loop arch copier pbTarget pTrampoline pre.1 sizeof_rAlign pre.2
  (pre.1, attach_filler_loop arch pbTarget pre.1 pre.1 st1)

/-- The end of `DetourAttachEx`: the jump from the copied code to `pbRemain`, and the break
fill up to the pool. -/
def attach_jump_to_remain (arch : Arch) (m : Mem) (pTrampoline pbTrampoline pbPool : Nat) : Mem :=
  match arch with
  | .X64 =>
    let j := detour_gen_jmp_indirect_X64 m pbTrampoline pbTrampoline
      (pTrampoline + off_pbRemain arch)
    (detour_gen_brk arch j.1 j.2 pbPool).1
  | .X86 =>
    let j := detour_gen_jmp_immediate_x86 m pbTrampoline pbTrampoline
      (readPtr arch m (pTrampoline + off_pbRemain arch))
    (detour_gen_brk arch j.1 j.2 pbPool).1
  | .ARM =>
    let j := detour_gen_jmp_immediate_ARM m pbTrampoline (some pbPool)
      (readPtr arch m (pTrampoline + off_pbRemain arch))
    (detour_gen_brk arch j.1 j.2.1 (j.2.2.getD pbPool)).1
  | .ARM64 =>
    let j := detour_gen_jmp_immediate_ARM64 m pbTrampoline (some pbPool)
      (readPtr arch m (pTrampoline + off_pbRemain arch))
    (detour_gen_brk arch j.1 j.2.1 (j.2.2.getD pbPool)).1

/-- The stores of `DetourAttachEx` once the loops have covered enough bytes: `cbCode`,
`cbRestore` and the copy of the original target bytes into `rbRestore`. -/
def attach_store (arch : Arch) (m : Mem) (pTrampoline pbTrampoline pbTarget cbTarget : Nat) :
    Mem :=
  let m := writeBytes m (pTrampoline + off_cbCode arch) [(pbTrampoline - pTrampoline) % 256]
  let m := writeBytes m (pTrampoline + off_cbRestore arch) [cbTarget % 256]
  memcpy m (pTrampoline + off_rbRestore arch) pbTarget cbTarget

/-- The stores of `DetourAttachEx` that follow the test for too many instructions:
`pbRemain`, `pbDetour`, and the jump to `pbRemain` placed after `cbCode` bytes of `rbCode`. -/
def attach_link (arch : Arch) (m : Mem) (pTrampoline pbTarget cbTarget pDetour pbPool : Nat) :
    Mem :=
  let m := writePtr arch m (pTrampoline + off_pbRemain arch) (pbTarget + cbTarget)
  let m := writePtr arch m (pTrampoline + off_pbDetour arch) pDetour
  attach_jump_to_remain arch m pTrampoline (pTrampoline + m (pTrampoline + off_cbCode arch))
    pbPool

/-- The local variables of `DetourAttachEx` when the copy loops start. -/
def attach_init (arch : Arch) (m : Mem) (pbTarget pTrampoline : Nat) : CopyState :=
  { -- RtlSecureZeroMemory(pTrampoline->rAlign, sizeof(pTrampoline->rAlign));
    mem := memset m (pTrampoline + off_rAlign arch) 0 sizeof_rAlign,
    pbSrc := pbTarget, pbTrampoline := pTrampoline,
    pbPool := pTrampoline + sizeof_rbCode arch, cbTarget := 0, nAlign := 0 }

/-- The operation record that a successful `DetourAttachEx` links into the pending list. -/
def attach_operation (hc : HostCall) (ppPointer pbTarget pTrampoline : Nat) : DetourOperation :=
  { fIsRemove := false, ppbPointer := ppPointer, pTrampoline := pTrampoline,
    pbTarget := pbTarget, pbTargetEditable := pbTarget, pbTargetMdl := hc.remapMdl }

/-- The part of `DetourAttachEx` that follows the allocation of the trampoline
`pTrampoline`, in state `s`. -/
def attach_with_trampoline (arch : Arch) (copier : Copier) (hc : HostCall) (s : State)
    (ppPointer pbTarget pDetour pTrampoline : Nat) : Status × State :=
  let scan := attach_scan arch copier pbTarget pTrampoline
    (attach_init arch s.mem pbTarget pTrampoline)
  let cbJump := scan.1
  let st := scan.2
  if st.cbTarget < cbJump ∨ st.nAlign > sizeof_rAlign then
    -- Too few instructions.
    if s.s_fIgnoreTooSmall then
      attach_stop arch { s with mem := st.mem } Status.outofmemory pTrampoline ppPointer
    else attach_fail arch { s with mem := st.mem } Status.outofmemory pTrampoline ppPointer
  else if st.pbTrampoline > st.pbPool then
    attach_fail arch { s with mem := st.mem } Status.outofmemory pTrampoline ppPointer
  else if st.cbTarget >
      sizeof_rbCode arch - (if arch = Arch.X64 then SIZE_OF_JMP_TO_REMAIN else cbJump) then
    -- Too many instructions.
    attach_fail arch
      { s with mem := attach_store arch st.mem pTrampoline st.pbTrampoline pbTarget st.cbTarget }
      Status.outofmemory pTrampoline ppPointer
  else if hc.remapMdl = 0 then
    attach_fail arch
      { s with mem := attach_link arch (attach_store arch st.mem pTrampoline st.pbTrampoline
                        pbTarget st.cbTarget) pTrampoline pbTarget st.cbTarget pDetour st.pbPool }
      hc.lastError pTrampoline ppPointer
  else
    (Status.success,
      { s with
        mem := attach_link arch (attach_store arch st.mem pTrampoline st.pbTrampoline
                 pbTarget st.cbTarget) pTrampoline pbTarget st.cbTarget pDetour st.pbPool,
        s_pPendingOperations :=
          attach_operation hc ppPointer pbTarget pTrampoline :: s.s_pPendingOperations })

/-- Function `DetourAttachEx` (and `DetourAttach`, which passes null for the three optional
out-parameters), called by thread `tid`. -/
def DetourAttachEx (arch : Arch) (h : Host) (copier : Copier) (hc : HostCall) (tid : Nat)
    (s : State) (ppPointer pDetour : Nat) : Status × State :=
  if pDetour = 0 then (Status.invalid_parameter, s)
  else if s.s_nPendingThreadId ≠ tid then (Status.invalid_operation, s)
  else if s.s_nPendingError ≠ Status.success then (s.s_nPendingError, s)
  else if ppPointer = 0 then (Status.invalid_handle, s)
  else if readPtr arch s.mem ppPointer = 0 then
    (Status.invalid_handle,
      { s with s_nPendingError := Status.invalid_handle, s_ppPendingError := ppPointer })
  else
    let pbTarget := DetourCodeFromPointer arch h s.mem (readPtr arch s.mem ppPointer)
    let pDetour := DetourCodeFromPointer arch h s.mem pDetour
    -- Don't follow a jump if its destination is the target function.
    if pDetour = pbTarget then
      if s.s_fIgnoreTooSmall then attach_stop arch s Status.success 0 ppPointer
      else attach_fail arch s Status.success 0 ppPointer
    else if !hc.opAlloc then
      attach_fail arch s Status.insufficient_resources 0 ppPointer
    else
      let a := detour_alloc_trampoline arch hc.page s pbTarget
      if a.1 = 0 then attach_fail arch a.2 Status.insufficient_resources 0 ppPointer
      else attach_with_trampoline arch copier hc a.2 ppPointer pbTarget pDetour a.1

/-- Function `DetourAttach`. -/
def DetourAttach (arch : Arch) (h : Host) (copier : Copier) (hc : HostCall) (tid : Nat)
    (s : State) (ppPointer pDetour : Nat) : Status × State :=
  DetourAttachEx arch h copier hc tid s ppPointer pDetour

/-- The labels `fail` and `stop` of `DetourDetach`; `latch` tells which one. -/
def detach_stop (s : State) (latch : Bool) (error : Status) (ppPointer : Nat) : Status × State :=
  (error, { s with s_nPendingError := if latch then error else s.s_nPendingError,
                   s_ppPendingError := ppPointer })

/-- Function `DetourDetach`, called by thread `tid`. -/
def DetourDetach (arch : Arch) (h : Host) (hc : HostCall) (tid : Nat) (s : State)
    (ppPointer pDetour : Nat) : Status × State :=
  if s.s_nPendingThreadId ≠ tid then (Status.invalid_operation, s)
  else if s.s_nPendingError ≠ Status.success then (s.s_nPendingError, s)
  else if pDetour = 0 then (Status.invalid_parameter, s)
  else if ppPointer = 0 then (Status.invalid_handle, s)
  else if readPtr arch s.mem ppPointer = 0 then
    (Status.invalid_handle,
      { s with s_nPendingError := Status.invalid_handle, s_ppPendingError := ppPointer })
  else if !hc.opAlloc then detach_stop s true Status.insufficient_resources ppPointer
  else
    let pTrampoline := DetourCodeFromPointer arch h s.mem (readPtr arch s.mem ppPointer)
    let pDetour := DetourCodeFromPointer arch h s.mem pDetour
    ------------------------------------ Verify that Trampoline is in place.
    let cbTarget := s.mem (pTrampoline + off_cbRestore arch)
    let pbTarget := subMod (ptrBits arch) (readPtr arch s.mem (pTrampoline + off_pbRemain arch))
      cbTarget
    if cbTarget = 0 ∨ cbTarget > sizeof_rbCode arch then
      detach_stop s (!s.s_fIgnoreTooSmall) Status.invalid_block ppPointer
    else if readPtr arch s.mem (pTrampoline + off_pbDetour arch) ≠ pDetour then
      detach_stop s (!s.s_fIgnoreTooSmall) Status.invalid_block ppPointer
    else if hc.remapMdl = 0 then detach_stop s true hc.lastError ppPointer
    else
      let o : DetourOperation :=
        { fIsRemove := true, ppbPointer := ppPointer, pTrampoline := pTrampoline,
          pbTarget := pbTarget, pbTargetEditable := pbTarget, pbTargetMdl := hc.remapMdl }
      (Status.success, { s with s_pPendingOperations := o :: s.s_pPendingOperations })

/-! ## Sequences of transacted calls -/

/-- One transacted call made inside a transaction, with what the host answers during it. -/
inductive Call
  | attach (hc : HostCall) (ppPointer pDetour : Nat)
  | detach (hc : HostCall) (ppPointer pDetour : Nat)

/-- The pointer-slot argument of a call. -/
def Call.ppPointer : Call → Nat
  | .attach _ pp _ => pp
  | .detach _ pp _ => pp

/-- Run one call on behalf of thread `tid`. -/
def step (arch : Arch) (h : Host) (copier : Copier) (tid : Nat) (s : State) : Call → Status × State
  | .attach hc pp d => DetourAttachEx arch h copier hc tid s pp d
  | .detach hc pp d => DetourDetach arch h hc tid s pp d

/-- Run a sequence of calls, first call first. -/
def run (arch : Arch) (h : Host) (copier : Copier) (tid : Nat) : State → List Call → State
  | s, [] => s
  | s, c :: cs => run arch h copier tid (step arch h copier tid s c).2 cs

/-! ## Vocabulary of the statements -/

/-- The page (region address) that `detour_free_trampoline` computes from a slot address. -/
def pageOf (a : Nat) : Nat := a - a % DETOUR_REGION_SIZE

/-- The address `x` lies in the trampoline slot at `t`. -/
def inSlot (arch : Arch) (t x : Nat) : Prop := t ≤ x ∧ x < t + sizeof_DETOUR_TRAMPOLINE arch

/-- The address `x` lies in the header (the first slot) of the page of the slot `t`. -/
def inHeader (arch : Arch) (t x : Nat) : Prop :=
  pageOf t ≤ x ∧ x < pageOf t + sizeof_DETOUR_TRAMPOLINE arch

/-- The address `x` lies in the page at `base`. -/
def inPage (base x : Nat) : Prop := base ≤ x ∧ x < base + DETOUR_REGION_SIZE

/-- The address `a` is one of the trampoline slots that follow the header of the region at
`base`: slot `k` for some `1 ≤ k ≤ DETOUR_TRAMPOLINES_PER_REGION`. -/
def IsSlot (arch : Arch) (base a : Nat) : Prop :=
  ∃ k, 1 ≤ k ∧ k ≤ DETOUR_TRAMPOLINES_PER_REGION arch ∧
    a = base + k * sizeof_DETOUR_TRAMPOLINE arch

/-- The addresses of the `n` consecutive slots of the page `base` that start at slot `k`. -/
def slotsFrom (arch : Arch) (base k n : Nat) : List Nat :=
  (List.range n).map fun j => base + (k + j) * sizeof_DETOUR_TRAMPOLINE arch

/-- Walking from `p` through the `pbRemain` links visits exactly the slots of `l`, in order,
and ends at null. -/
def FreeChain (arch : Arch) (m : Mem) : Nat → List Nat → Prop
  | p, [] => p = 0
  | p, a :: l => p = a ∧ a ≠ 0 ∧ FreeChain arch m (readPtr arch m (a + off_pbRemain arch)) l

/-- The trampolines of the pending attach operations that lie in the page `base`, most recent
first. -/
def pendingIn (ops : List DetourOperation) (base : Nat) : List Nat :=
  (ops.filter fun o => !o.fIsRemove && decide (pageOf o.pTrampoline = base)).map (·.pTrampoline)

/-- Well-formed allocator state (memory `m`, region list `rs`), relative to a list `ops` of
pending operations: regions sit at distinct page-aligned addresses, the free list of every
region is a null-terminated chain of slots of that region, the trampoline of every pending
attach is a slot of a listed region, and no slot occurs twice among the free and the pending
ones. -/
structure GoodOps (arch : Arch) (ops : List DetourOperation) (m : Mem)
    (rs : List DETOUR_REGION) : Prop where
  /-- Regions are page-aligned, not null, and inside the address space. -/
  aligned : ∀ r ∈ rs, r.base % DETOUR_REGION_SIZE = 0 ∧ r.base ≠ 0 ∧
    r.base + DETOUR_REGION_SIZE ≤ 2 ^ ptrBits arch
  /-- No two regions share an address. -/
  distinct : (rs.map (·.base)).Nodup
  /-- Free lists and pending trampolines. -/
  chains : ∀ r ∈ rs, ∃ l, FreeChain arch m r.pFree l ∧
    ((pendingIn ops r.base).reverse ++ l).Nodup ∧
    ∀ a ∈ (pendingIn ops r.base).reverse ++ l, IsSlot arch r.base a
  /-- Pending attaches own a trampoline in a listed region. -/
  owned : ∀ o ∈ ops, o.fIsRemove = false → ∃ r ∈ rs, r.base = pageOf o.pTrampoline

/-- Well-formed allocator state, for the pending operations of the state itself. -/
def Good (arch : Arch) (s : State) : Prop :=
  GoodOps arch s.s_pPendingOperations s.mem s.s_pRegions

/-- The memory `m2` agrees with `m1` outside the window from `lo` up to `hi`. -/
def Conf (lo hi : Nat) (m1 m2 : Mem) : Prop := ∀ x, x < lo ∨ hi ≤ x → m2 x = m1 x

/-- The slots of the region `r` that are not live: `l0` lists the trampolines of the pending
attaches `ops` in the region, oldest first, followed by the free list of the region. -/
def Baseline (arch : Arch) (ops : List DetourOperation) (m : Mem) (r : DETOUR_REGION)
    (l0 : List Nat) : Prop :=
  ∃ l, FreeChain arch m r.pFree l ∧ l0 = (pendingIn ops r.base).reverse ++ l

/-- The address `x` lies in a slot that is free or owned by a pending attach of `ops` in a
region of `rs`. -/
def Loose (arch : Arch) (ops : List DetourOperation) (m : Mem) (rs : List DETOUR_REGION)
    (x : Nat) : Prop :=
  ∃ r ∈ rs, ∃ l0, Baseline arch ops m r l0 ∧ ∃ a ∈ l0, inSlot arch a x

/-- The address `x` lies in the page of a region of `rs2` that is not a region of `rs1`. -/
def InNewPage (rs1 rs2 : List DETOUR_REGION) (x : Nat) : Prop :=
  ∃ r ∈ rs2, (∀ r1 ∈ rs1, r1.base ≠ r.base) ∧ inPage r.base x

/-- How an allocator state (`ops2`, `m2`, `rs2`) relates to an earlier one: every region of
`rs1` is still listed with the same non-live slots in the same order, and a byte that changed
lay in a non-live slot of the earlier state or lies in the page of a region created since. -/
structure Evolves (arch : Arch) (ops1 : List DetourOperation) (m1 : Mem)
    (rs1 : List DETOUR_REGION) (ops2 : List DetourOperation) (m2 : Mem)
    (rs2 : List DETOUR_REGION) : Prop where
  /-- Regions persist with the same non-live slots. -/
  base : ∀ r ∈ rs1, ∃ r2 ∈ rs2, r2.base = r.base ∧
    ∀ l0, Baseline arch ops1 m1 r l0 → Baseline arch ops2 m2 r2 l0
  /-- Changed bytes. -/
  frame : ∀ x, m2 x ≠ m1 x → Loose arch ops1 m1 rs1 x ∨ InNewPage rs1 rs2 x

/-- The source length of one instruction on each architecture. -/
def validLen : Arch → Nat → Prop
  | .X86, n => 1 ≤ n ∧ n ≤ 15
  | .X64, n => 1 ≤ n ∧ n ≤ 15
  | .ARM, n => n = 2 ∨ n = 4
  | .ARM64, n => n = 4

/-- The longest instruction. -/
def maxInstr : Arch → Nat
  | .X86 => 15
  | .X64 => 15
  | .ARM => 4
  | .ARM64 => 4

/-- The unit of instruction lengths. -/
def granule : Arch → Nat
  | .X86 => 1
  | .X64 => 1
  | .ARM => 2
  | .ARM64 => 4

/-- Bound on the extra bytes of one relocated instruction. -/
def maxExtra : Arch → Nat
  | .X86 => 4
  | .X64 => 4
  | .ARM => 8
  | .ARM64 => 20

/-- Bound on the literal-pool bytes one instruction takes. -/
def maxPool : Arch → Nat
  | .X86 => 0
  | .X64 => 0
  | .ARM => 4
  | .ARM64 => 8

/-- The copier contract: a call copies exactly one instruction (of a valid length), stores
the instruction plus the reported extra bytes at the destination, and moves the pool cursor
down by the literal bytes it stores. -/
def CopierContract (arch : Arch) (copier : Copier) : Prop :=
  ∀ m dst pool src,
    validLen arch (copier m dst pool src).len ∧
    (copier m dst pool src).lExtra ≤ maxExtra arch ∧
    (copier m dst pool src).code.length =
      (copier m dst pool src).len + (copier m dst pool src).lExtra ∧
    (copier m dst pool src).pool ≤ pool ∧
    pool ≤ (copier m dst pool src).pool + maxPool arch ∧
    (copier m dst pool src).poolBytes.length = pool - (copier m dst pool src).pool

/-- What holds of the local variables of `DetourAttachEx` throughout the copy loops, for the
trampoline `t`, the jump size `cbJump` and the memory `m0` before the loops. -/
structure ScanInv (arch : Arch) (pbTarget t cbJump : Nat) (m0 : Mem) (st : CopyState) :
    Prop where
  /-- The source cursor is `cbTarget` bytes into the target. -/
  src : st.pbSrc = pbTarget + st.cbTarget
  /-- The destination cursor is in the trampoline. -/
  lo : t ≤ st.pbTrampoline
  /-- The destination cursor is ahead by the extra bytes only. -/
  hi : st.pbTrampoline ≤ t + st.cbTarget + st.nAlign * maxExtra arch
  /-- The pool cursor never rises. -/
  poolHi : st.pbPool ≤ t + sizeof_rbCode arch
  /-- The pool cursor falls by the literal bytes only. -/
  poolLo : t + sizeof_rbCode arch ≤ st.pbPool + st.nAlign * maxPool arch
  /-- The index into `rAlign`. -/
  count : st.nAlign ≤ sizeof_rAlign
  /-- At most one instruction past the jump size. -/
  size : st.cbTarget ≤ cbJump - 1 + maxInstr arch
  /-- Whole instructions. -/
  whole : st.cbTarget % granule arch = 0
  /-- Only the trampoline slot has been written. -/
  conf : Conf t (t + sizeof_DETOUR_TRAMPOLINE arch) m0 st.mem

/-- The host answers of a call. -/
def Call.hc : Call → HostCall
  | .attach hc _ _ => hc
  | .detach hc _ _ => hc

/-- The page a call may supply is page-aligned, inside the address space, and is not the
page of a listed region. -/
def FreshPage (arch : Arch) (s : State) (hc : HostCall) : Prop :=
  ∀ pMdl pbTry, hc.page = some (pMdl, pbTry) →
    pbTry % DETOUR_REGION_SIZE = 0 ∧ pbTry + DETOUR_REGION_SIZE ≤ 2 ^ ptrBits arch ∧
    ∀ r ∈ s.s_pRegions, r.base ≠ pbTry

/-- Every call of the sequence is answered with a fresh page (if any). -/
def ValidRun (arch : Arch) (h : Host) (copier : Copier) (tid : Nat) : State → List Call → Prop
  | _, [] => True
  | s, c :: cs =>
    FreshPage arch s c.hc ∧ ValidRun arch h copier tid (step arch h copier tid s c).2 cs

/-- The shape of the state after a transacted call: well formed, related to the state
before, same owner, and at most one operation pushed. -/
structure StepOk (arch : Arch) (s s2 : State) : Prop where
  /-- Well formed. -/
  good : Good arch s2
  /-- Related to the state before. -/
  evolves : Evolves arch s.s_pPendingOperations s.mem s.s_pRegions
    s2.s_pPendingOperations s2.mem s2.s_pRegions
  /-- Same owner. -/
  owner : s2.s_nPendingThreadId = s.s_nPendingThreadId
  /-- The operations before are still pending. -/
  ops : s2.s_pPendingOperations = s.s_pPendingOperations ∨
    ∃ o, s2.s_pPendingOperations = o :: s.s_pPendingOperations

/-- The target address that `DetourAttachEx` computes from the pointer slot `ppPointer`. -/
def attachTarget (arch : Arch) (h : Host) (s : State) (ppPointer : Nat) : Nat :=
  DetourCodeFromPointer arch h s.mem (readPtr arch s.mem ppPointer)

/-- The trampoline that `DetourAttachEx` allocates, and the state after the allocation. -/
def attachAlloc (arch : Arch) (h : Host) (hc : HostCall) (s : State) (ppPointer : Nat) :
    Nat × State :=
  detour_alloc_trampoline arch hc.page s (attachTarget arch h s ppPointer)

/-- The jump size and the local variables of `DetourAttachEx` when its two loops are left. -/
def attachScan (arch : Arch) (h : Host) (copier : Copier) (hc : HostCall) (s : State)
    (ppPointer : Nat) : Nat × CopyState :=
  attach_scan arch copier (attachTarget arch h s ppPointer) (attachAlloc arch h hc s ppPointer).1
    (attach_init arch (attachAlloc arch h hc s ppPointer).2.mem (attachTarget arch h s ppPointer)
      (attachAlloc arch h hc s ppPointer).1)

/-- The state after the transaction `begin; attach(ppPointer, pDetour); commit` of thread
`tid`, started in state `s`. -/
def attachTransaction (arch : Arch) (h : Host) (copier : Copier) (hc : HostCall) (tid : Nat)
    (s : State) (ppPointer pDetour : Nat) : State :=
  (DetourTransactionCommitEx arch h tid
    (DetourAttachEx arch h copier hc tid (DetourTransactionBegin h tid s).2
      ppPointer pDetour).2).2.2

/-- The state after the transaction `begin; detach(ppPointer, pDetour); commit` of thread
`tid`, started in state `s`. -/
def detachTransaction (arch : Arch) (h : Host) (hc : HostCall) (tid : Nat) (s : State)
    (ppPointer pDetour : Nat) : State :=
  (DetourTransactionCommitEx arch h tid
    (DetourDetach arch h hc tid (DetourTransactionBegin h tid s).2 ppPointer pDetour).2).2.2

/-! ## Concrete scenarios -/

namespace Scenario

/-- A copier for the X64 scenarios, written after the interface of section 6: a two-byte
`jcc rel8` (70..7F) is relocated to the six-byte `jcc rel32` form and reports four extra
bytes; `48 89 modrm 24 disp8` (5 bytes), `48 83 modrm imm8` (4 bytes) and every other
opcode (1 byte) are copied verbatim. -/
def copier : Copier := fun m dst pool src =>
  let b := m src
  if 0x70 ≤ b ∧ b ≤ 0x7f then
    { len := 2, lExtra := 4,
      code := [0x0f, 0x80 + b % 16] ++
        leBytes 4 (subMod 32 (addSigned 64 (src + 2) 8 (m (src + 1))) (dst + 6)),
      pool := pool, poolBytes := [] }
  else
    let len :=
      if b = 0x48 ∧ m (src + 1) = 0x89 ∧ m (src + 3) = 0x24 then 5
      else if b = 0x48 ∧ m (src + 1) = 0x83 then 4
      else 1
    { len := len, lExtra := 0, code := readBytes m src len, pool := pool, poolBytes := [] }

/-- A host in which every protection change succeeds and no module is found. -/
def host : Host :=
  { allocationBase := fun _ => 0, readable := fun _ => false,
    protect := fun _ _ => Status.success }

/-- Address of the target function. -/
def target : Nat := 0x140001000

/-- Address of the detour function. -/
def detour : Nat := 0x140002000

/-- Address of the caller's function-pointer slot. -/
def slot : Nat := 0x140003000

/-- Address of the page the host hands out for the first region. -/
def page : Nat := 0x150000000

/-- Host answers of a call: allocations succeed, a new region gets `page`. -/
def hostCall : HostCall :=
  { opAlloc := true, page := some (1, page), remapMdl := 2,
    lastError := Status.insufficient_resources }

/-- The idle state with no region, the given code at `target`, a `ret` at `detour` and the
slot pointing at the target. -/
def idle (code : List Nat) (ignoreTooSmall : Bool) : State :=
  { mem := writePtr Arch.X64
      (writeBytes (writeBytes (fun _ => 0) target code) detour [0xC3]) slot target,
    protection := fun _ => 0, s_pRegions := [], s_pRegion := 0,
    s_fIgnoreTooSmall := ignoreTooSmall, s_fRetainRegions := false, s_nPendingThreadId := 0,
    s_nPendingError := Status.success, s_ppPendingError := 0, s_pPendingOperations := [] }

/-- Four `jo +0` followed by `sub rsp, 28h` and `ret`. -/
def jccCode : List Nat :=
  [0x70, 0x00, 0x70, 0x00, 0x70, 0x00, 0x70, 0x00, 0x48, 0x83, 0xEC, 0x28, 0xC3]

/-- The prologue `mov [rsp+8], rbx; mov [rsp+10h], rsi; push rdi; sub rsp, 20h; ret`. -/
def prologueCode : List Nat :=
  [0x48, 0x89, 0x5C, 0x24, 0x08, 0x48, 0x89, 0x74, 0x24, 0x10, 0x57, 0x48, 0x83, 0xEC, 0x20,
   0xC3]

/-- State after `begin; attach(&slot, detour)` by thread 7 on X64. -/
def attached (code : List Nat) : Status × State :=
  DetourAttach Arch.X64 host copier hostCall 7
    (DetourTransactionBegin host 7 (idle code false)).2 slot detour

/-- State after the commit that follows. -/
def committed (code : List Nat) : Status × State :=
  DetourTransactionCommit Arch.X64 host 7 (attached code).2

/-- State after `begin; detach(&slot, detour)` in the next transaction. -/
def detached (code : List Nat) : Status × State :=
  DetourDetach Arch.X64 host hostCall 7
    (DetourTransactionBegin host 7 (committed code).2).2 slot detour

/-- State after the second commit. -/
def restored (code : List Nat) : Status × State :=
  DetourTransactionCommit Arch.X64 host 7 (detached code).2

/-- The trampoline the attach allocates: the first threaded slot of the new region. -/
def trampoline : Nat := page + 3 * sizeof_DETOUR_TRAMPOLINE Arch.X64

/-- Address of a function-pointer slot that holds null. -/
def nullSlot : Nat := 0x140003100

/-- State after `begin; attach(&nullSlot, detour)` by thread 7 on X64: the attach latches
invalid-handle. -/
def poisoned : Status × State :=
  DetourAttach Arch.X64 host copier hostCall 7
    (DetourTransactionBegin host 7 (idle prologueCode false)).2 nullSlot detour

/-- The code `mov [rsp+8], rbx; mov [rsp+10h], rsi; ret`: 11 bytes up to the end of the
function, followed by zero bytes. -/
def smallCode : List Nat :=
  [0x48, 0x89, 0x5C, 0x24, 0x08, 0x48, 0x89, 0x74, 0x24, 0x10, 0xC3]

/-- The operation that the attach of the scenarios records. -/
def operation : DetourOperation := attach_operation hostCall slot target trampoline

/-- The removal that the detach of the scenarios records. -/
def removal : DetourOperation :=
  { fIsRemove := true, ppbPointer := slot, pTrampoline := trampoline, pbTarget := target,
    pbTargetEditable := target, pbTargetMdl := 2 }

/-- State after `begin` by thread 7 on the idle state. -/
def opened (code : List Nat) (ignoreTooSmall : Bool) : State :=
  (DetourTransactionBegin host 7 (idle code ignoreTooSmall)).2

/-- Address of a page that lies more than 2 GiB above the target. -/
def farPage : Nat := 0x250000000

/-- Host answers of a call: allocations succeed, a new region gets `farPage`. -/
def farCall : HostCall :=
  { opAlloc := true, page := some (1, farPage), remapMdl := 2,
    lastError := Status.insufficient_resources }

/-- The idle state of the prologue scenario after `DetourSetRetainRegions(retain)`. -/
def idleRetain (retain : Bool) : State :=
  (DetourSetRetainRegions (idle prologueCode false) retain).2

end Scenario

/-! ## Sequences of allocator calls -/

/-- One call of the trampoline memory manager: `detour_alloc_trampoline(pbTarget)`, with the
page the host hands out if a new region is needed, or `detour_free_trampoline(pTrampoline)`. -/
inductive AllocCall
  | alloc (page : Option (Nat × Nat)) (pbTarget : Nat)
  | free (pTrampoline : Nat)

/-- Run one allocator call; the second component lists the slots that are allocated (returned
by `detour_alloc_trampoline` and not yet given to `detour_free_trampoline`), newest first. -/
def allocStep (arch : Arch) (sl : State × List Nat) : AllocCall → State × List Nat
  | .alloc page pbTarget =>
    ((detour_alloc_trampoline arch page sl.1 pbTarget).2,
      if (detour_alloc_trampoline arch page sl.1 pbTarget).1 = 0 then sl.2
      else (detour_alloc_trampoline arch page sl.1 pbTarget).1 :: sl.2)
  | .free pTrampoline => (detour_free_trampoline arch sl.1 pTrampoline, sl.2.erase pTrampoline)

/-- Run a sequence of allocator calls, first call first. -/
def allocRun (arch : Arch) : State × List Nat → List AllocCall → State × List Nat
  | sl, [] => sl
  | sl, c :: cs => allocRun arch (allocStep arch sl c) cs

/-- A sequence of allocator calls in which every free is applied to a slot that is allocated
at that moment and every page the host hands out is page-aligned, inside the address space
and not the page of a listed region. -/
def ValidCalls (arch : Arch) : State × List Nat → List AllocCall → Prop
  | _, [] => True
  | sl, c :: cs =>
    (match c with
      | .alloc page _ => ∀ pMdl pbTry, page = some (pMdl, pbTry) →
          pbTry % DETOUR_REGION_SIZE = 0 ∧ pbTry + DETOUR_REGION_SIZE ≤ 2 ^ ptrBits arch ∧
          ∀ r ∈ sl.1.s_pRegions, r.base ≠ pbTry
      | .free pTrampoline => pTrampoline ∈ sl.2) ∧
    ValidCalls arch (allocStep arch sl c) cs

/-- The allocated slots, as pending attach operations (the form the allocator invariant
takes them in). -/
def liveOps (live : List Nat) : List DetourOperation :=
  live.map fun t =>
    { fIsRemove := false, ppbPointer := 0, pbTarget := 0, pbTargetEditable := 0,
      pbTargetMdl := 0, pTrampoline := t }

/-! ## Signed immediates -/

/-- The two-complement value of the low `bits` bits of `v`. -/
def signExtend (bits v : Nat) : Int :=
  if v % 2 ^ bits < 2 ^ (bits - 1) then ((v % 2 ^ bits : Nat) : Int)
  else ((v % 2 ^ bits : Nat) : Int) - 2 ^ bits

/-- The destination `T + 5 + signext32(imm32)` of a `jmp +imm32` at `T`, in unbounded
integers. -/
def jumpDestination (m : Mem) (T : Nat) : Int :=
  (T : Int) + 5 + signExtend 32 (readLE m (T + 1) 4)

namespace Scenario

/-- Three allocator calls: two allocations near `target`, the first of which makes the host
hand out `page`, then the release of the first slot. -/
def allocCalls : List AllocCall :=
  [AllocCall.alloc (some (1, page)) target, AllocCall.alloc none target,
    AllocCall.free trampoline]

end Scenario

/-! ## Import thunks and patch stubs -/

/-- The `IMAGE_NT_HEADERS` of the module that holds `pbCode`: `pDosHeader + e_lfanew`. -/
def ntHeader (arch : Arch) (h : Host) (m : Mem) (pbCode : Nat) : Nat :=
  addSigned (ptrBits arch) (h.allocationBase pbCode) 32
    (readLE m (h.allocationBase pbCode + 0x3C) 4)

/-- The headers of the module that holds `pbCode` can be loaded and carry the MZ and the PE
signature. -/
def ValidImage (arch : Arch) (h : Host) (m : Mem) (pbCode : Nat) : Prop :=
  h.readable (h.allocationBase pbCode) = true ∧
  readLE m (h.allocationBase pbCode) 2 = IMAGE_DOS_SIGNATURE ∧
  h.readable (ntHeader arch h m pbCode) = true ∧
  readLE m (ntHeader arch h m pbCode) 4 = IMAGE_NT_SIGNATURE

instance (arch : Arch) (h : Host) (m : Mem) (pbCode : Nat) :
    Decidable (ValidImage arch h m pbCode) := by
  unfold ValidImage
  exact inferInstance

/-- First address of the IAT directory of the module that holds `pbCode`, in unbounded
integers. -/
def iatStart (arch : Arch) (h : Host) (m : Mem) (pbCode : Nat) : Nat :=
  h.allocationBase pbCode + readLE m (ntHeader arch h m pbCode + off_IAT_directory arch) 4

/-- End of the IAT directory of the module that holds `pbCode`, in unbounded integers. -/
def iatEnd (arch : Arch) (h : Host) (m : Mem) (pbCode : Nat) : Nat :=
  iatStart arch h m pbCode + readLE m (ntHeader arch h m pbCode + off_IAT_directory arch + 4) 4

/-- The address `a` lies inside the IAT directory of the valid image that holds `pbCode`. -/
def InIat (arch : Arch) (h : Host) (m : Mem) (pbCode a : Nat) : Prop :=
  ValidImage arch h m pbCode ∧ iatStart arch h m pbCode ≤ a ∧ a < iatEnd arch h m pbCode

instance (arch : Arch) (h : Host) (m : Mem) (pbCode a : Nat) :
    Decidable (InIat arch h m pbCode a) := by
  unfold InIat
  exact inferInstance

/-- The indirect slot named by a `jmp [..]` (`FF 25 imm32`) at `pbCode`: PC-relative on X64,
absolute on X86. -/
def importSlot (arch : Arch) (m : Mem) (pbCode : Nat) : Nat :=
  match arch with
  | .X64 => addSigned 64 (pbCode + 6) 32 (readLE m (pbCode + 2) 4)
  | _ => readLE m (pbCode + 2) 4

/-- The code at `p` is `FF 25` with a slot that `detour_is_imported` accepts. -/
def IsImportThunk (arch : Arch) (h : Host) (m : Mem) (p : Nat) : Prop :=
  m p = 0xff ∧ m (p + 1) = 0x25 ∧ detour_is_imported arch h m p (importSlot arch m p) = true

instance (arch : Arch) (h : Host) (m : Mem) (p : Nat) : Decidable (IsImportThunk arch h m p) := by
  unfold IsImportThunk
  exact inferInstance

/-- Destination `p + 2 + signext8(imm8)` of a `jmp +imm8` at `p`, in pointer arithmetic. -/
def shortJumpTarget (arch : Arch) (m : Mem) (p : Nat) : Nat :=
  addSigned (ptrBits arch) (p + 2) 8 (m (p + 1))

/-- Destination `q + 5 + signext32(imm32)` of a `jmp +imm32` at `q`, in pointer arithmetic. -/
def longJumpTarget (arch : Arch) (m : Mem) (q : Nat) : Nat :=
  addSigned (ptrBits arch) (q + 5) 32 (readLE m (q + 1) 4)

/-! ## Detach and the order of the commit -/

/-- The block that `DetourDetach` takes for the trampoline:
`DetourCodeFromPointer(*ppPointer)`. -/
def detachBlock (arch : Arch) (h : Host) (m : Mem) (ppPointer : Nat) : Nat :=
  DetourCodeFromPointer arch h m (readPtr arch m ppPointer)

/-- The block at `t` has `cbRestore` between 1 and `sizeof(rbCode)` and its `pbDetour` field
is the code of `pDetour`. -/
def BlockAccepted (arch : Arch) (h : Host) (m : Mem) (t pDetour : Nat) : Prop :=
  1 ≤ m (t + off_cbRestore arch) ∧ m (t + off_cbRestore arch) ≤ sizeof_rbCode arch ∧
  readPtr arch m (t + off_pbDetour arch) = DetourCodeFromPointer arch h m pDetour

instance (arch : Arch) (h : Host) (m : Mem) (t pDetour : Nat) :
    Decidable (BlockAccepted arch h m t pDetour) := by
  unfold BlockAccepted
  exact inferInstance

/-- One iteration of the loop of the commit callback: remove or insert the detour of `o`. -/
def applyOperation (arch : Arch) (m : Mem) (o : DetourOperation) : Mem :=
  if o.fIsRemove then commit_remove arch m o else commit_install arch m o

/-! ## The rendezvous of the commit -/

/-- Where a processor stands in the callback that `detour_ipi_call` broadcasts. -/
inductive IpiPc
  /-- Before the test `cpu_number == KeGetCurrentProcessorNumber()`. -/
  | entry
  /-- In the loop over the pending operations, with the operations still to apply. -/
  | patching (rest : List DetourOperation)
  /-- Before `detour_ipi_signal_done`. -/
  | signal
  /-- In the loop of `detour_ipi_wait_all`. -/
  | wait
  /-- After the return of the callback. -/
  | left
  deriving DecidableEq

/-- The processor has not yet executed `detour_ipi_signal_done`. -/
def IpiPc.unsignalled : IpiPc → Bool
  | IpiPc.entry => true
  | IpiPc.patching _ => true
  | IpiPc.signal => true
  | IpiPc.wait => false
  | IpiPc.left => false

/-- The shared state of a rendezvous. -/
structure IpiState where
  /-- Memory. -/
  mem : Mem
  /-- The field `DetourIpiContext.count`, as a 32-bit pattern. -/
  count : Nat
  /-- The position of each processor, by processor number. -/
  pc : List IpiPc

/-- Function `detour_ipi_signal_done`: `InterlockedDecrement` of the counter. -/
def detour_ipi_signal_done (count : Nat) : Nat := (count + (2 ^ 32 - 1)) % 2 ^ 32

/-- Function `detour_ipi_call` up to the broadcast: the counter receives the number of active
processors reported by the host, and each of the `n` processors that run the callback stands
at its entry. -/
def detour_ipi_call (n activeCount : Nat) (m : Mem) : IpiState :=
  { mem := m, count := activeCount % 2 ^ 32, pc := List.replicate n IpiPc.entry }

/-- One step of processor `cpu` in the callback of `DetourTransactionCommitEx`; `issuer` is
the processor number captured before the broadcast. -/
def ipiStep (arch : Arch) (issuer : Nat) (pending : List DetourOperation) (st : IpiState)
    (cpu : Nat) : IpiState :=
  match st.pc[cpu]? with
  | none => st
  | some IpiPc.entry =>
    { st with pc := st.pc.set cpu (if cpu = issuer then IpiPc.patching pending else IpiPc.signal) }
  | some (IpiPc.patching []) => { st with pc := st.pc.set cpu IpiPc.signal }
  | some (IpiPc.patching (o :: os)) =>
    { st with mem := applyOperation arch st.mem o, pc := st.pc.set cpu (IpiPc.patching os) }
  | some IpiPc.signal =>
    { st with count := detour_ipi_signal_done st.count, pc := st.pc.set cpu IpiPc.wait }
  | some IpiPc.wait => if st.count = 0 then { st with pc := st.pc.set cpu IpiPc.left } else st
  | some IpiPc.left => st

/-- Run the processors in the order of the schedule, one step each. -/
def ipiRun (arch : Arch) (issuer : Nat) (pending : List DetourOperation) :
    IpiState → List Nat → IpiState
  | st, [] => st
  | st, cpu :: sched => ipiRun arch issuer pending (ipiStep arch issuer pending st cpu) sched

/-- Number of steps that a processor at the given position still makes at most, when the
pending list has `len` operations. -/
def IpiPc.rank (len : Nat) : IpiPc → Nat
  | IpiPc.entry => len + 4
  | IpiPc.patching rest => rest.length + 3
  | IpiPc.signal => 2
  | IpiPc.wait => 1
  | IpiPc.left => 0

/-- The invariant of the rendezvous started in memory `m` on `n` processors: the counter is
the number of processors that have not signalled, only the issuing processor is in the patch
loop, the memory is the initial one before that loop, the final one after it, and inside the
loop the operations still to apply lead to the final one; once a processor has left, the
counter is 0. -/
def IpiInv (arch : Arch) (issuer : Nat) (pending : List DetourOperation) (m : Mem) (n : Nat)
    (st : IpiState) : Prop :=
  st.pc.length = n ∧
  st.count = st.pc.countP IpiPc.unsignalled ∧
  (∀ (cpu : Nat) (os : List DetourOperation),
    st.pc[cpu]? = some (IpiPc.patching os) → cpu = issuer) ∧
  (st.pc[issuer]? = some IpiPc.entry → st.mem = m) ∧
  (∀ os, st.pc[issuer]? = some (IpiPc.patching os) →
    commit_apply arch os st.mem = commit_apply arch pending m) ∧
  (st.pc[issuer]? = some IpiPc.signal ∨ st.pc[issuer]? = some IpiPc.wait ∨
    st.pc[issuer]? = some IpiPc.left → st.mem = commit_apply arch pending m) ∧
  ((∃ cpu : Nat, st.pc[cpu]? = some IpiPc.left) → st.count = 0)

namespace Scenario

/-- Base address of the module that holds the code of the scenarios. -/
def moduleBase : Nat := 0x140000000

/-- A host that finds the module at `moduleBase` for every address and in which every load
completes. -/
def moduleHost : Host :=
  { allocationBase := fun _ => moduleBase, readable := fun _ => true,
    protect := fun _ _ => Status.success }

/-- Address of an import thunk `jmp [rip+imm32]`. -/
def thunk : Nat := 0x140004000

/-- Address of the IAT entry that the thunks go through. -/
def iatEntry : Nat := 0x140005010

/-- Address of a patch stub `jmp +imm8` that leads to a `jmp +imm32` to `thunk`. -/
def stub : Nat := 0x140004100

/-- Address of a patch stub `jmp +imm8` that leads to an import thunk. -/
def stubToThunk : Nat := 0x140004200

/-- Address of an ARM64 import thunk `adrp x16, #-1 ; ldr x16, [x16, #0x10] ; br x16`. -/
def armThunk : Nat := 0x140006000

/-- Memory of a module image: MZ header, `e_lfanew = 0x80`, PE signature, an IAT directory of
0x100 bytes at offset 0x5000 whose entry at `iatEntry` holds `target`, an import thunk, two
patch stubs and an ARM64 import thunk. -/
def moduleMem : Mem :=
  writeBytes
    (writeBytes
      (writeBytes
        (writeBytes
          (writeBytes
            (writeBytes
              (writePtr Arch.X64
                (writeBytes
                  (writeBytes
                    (writeBytes
                      (writeBytes (idle prologueCode false).mem moduleBase [0x4D, 0x5A])
                      (moduleBase + 0x3C) [0x80, 0, 0, 0])
                    (moduleBase + 0x80) [0x50, 0x45, 0, 0])
                  (moduleBase + 0x80 + 0xE8) [0x00, 0x50, 0, 0, 0x00, 0x01, 0, 0])
                iatEntry target)
              thunk [0xFF, 0x25, 0x0A, 0x10, 0x00, 0x00])
            stub [0xEB, 0x0E])
          (stub + 0x10) [0xE9, 0xEB, 0xFE, 0xFF, 0xFF])
        stubToThunk [0xEB, 0x0E])
      (stubToThunk + 0x10) [0xFF, 0x25, 0xFA, 0x0D, 0x00, 0x00])
    armThunk [0xF0, 0xFF, 0xFF, 0xF0, 0x10, 0x0A, 0x40, 0xF9, 0x00, 0x02, 0x1F, 0xD6]

/-- Address of a block of plain memory that is no trampoline slot. -/
def forged : Nat := 0x140007000

/-- Address of a function-pointer slot that holds `forged`. -/
def forgedSlot : Nat := 0x140003200

/-- The open transaction of thread 7 with no region and no detour, in which the block at
`forged` carries `cbRestore = 5`, `pbRemain = target + 5` and `pbDetour = detour`. -/
def forgedState : State :=
  { opened prologueCode false with
    mem := writePtr Arch.X64
      (writePtr Arch.X64
        (writePtr Arch.X64
          (writeBytes (opened prologueCode false).mem (forged + off_cbRestore Arch.X64) [5])
          (forged + off_pbRemain Arch.X64) (target + 5))
        (forged + off_pbDetour Arch.X64) detour)
      forgedSlot forged }

/-- Address of a second function-pointer slot that holds `target`. -/
def slot2 : Nat := 0x140003300

/-- Address of a second detour function. -/
def detour2 : Nat := 0x140002100

/-- The open transaction of thread 7 with both slots pointing at `target`. -/
def twoSlots : State :=
  { opened prologueCode false with
    mem := writePtr Arch.X64
      (writeBytes (opened prologueCode false).mem detour2 [0xC3]) slot2 target }

/-- The calls `attach(&slot, detour)` and then `attach(&slot2, detour2)`. -/
def twoAttaches : List Call :=
  [Call.attach hostCall slot detour, Call.attach hostCall slot2 detour2]

/-- The operation that the second of the two attaches records. -/
def operation2 : DetourOperation :=
  attach_operation hostCall slot2 target (trampoline + sizeof_DETOUR_TRAMPOLINE Arch.X64)

/-- State after the two attaches. -/
def doubleAttach : State := run Arch.X64 host copier 7 twoSlots twoAttaches

/-- Result of the commit after the two attaches. -/
def doubleCommitted : Status × Nat × State := DetourTransactionCommitEx Arch.X64 host 7 doubleAttach

end Scenario

/-! ## Thumb-2 and ARM64 encodings -/

/-- The expression by which `detour_skip_jmp` of ARM rebuilds the address of the slot from the
opcode of the `movw` and the opcode of the `movt`. -/
def thumbSlot (Opcode Opcode2 : Nat) : Nat :=
  ((Opcode2 <<< 12) &&& 0xf7000000) ||| ((Opcode2 <<< 1) &&& 0x08000000) |||
  ((Opcode2 <<< 16) &&& 0x00ff0000) ||| ((Opcode >>> 4) &&& 0x0000f700) |||
  ((Opcode >>> 15) &&& 0x00000800) ||| ((Opcode >>> 0) &&& 0x000000ff)

/-- The immediate fields of a Thumb-2 `movw` or `movt`: the immediate is split as
`imm4:i:imm3:imm8` into the opcode bits 19..16, 26, 14..12 and 7..0. -/
def thumbImmFields (imm16 : Nat) : Nat :=
  (((imm16 >>> 12) &&& 0xf) <<< 16) ||| (((imm16 >>> 11) &&& 1) <<< 26) |||
  (((imm16 >>> 8) &&& 7) <<< 12) ||| (imm16 &&& 0xff)

/-- The Thumb-2 encoding T3 of `movw rd, #imm16`; the register is in bits 11..8. -/
def thumbMovw (rd imm16 : Nat) : Nat :=
  0xf2400000 ||| ((rd &&& 0xf) <<< 8) ||| thumbImmFields imm16

/-- The Thumb-2 encoding T1 of `movt rd, #imm16`; the register is in bits 11..8. -/
def thumbMovt (rd imm16 : Nat) : Nat :=
  0xf2c00000 ||| ((rd &&& 0xf) <<< 8) ||| thumbImmFields imm16

/-- The immediate `imm4:i:imm3:imm8` held by a `movw` or `movt` opcode. -/
def thumbImm16 (Opcode : Nat) : Nat :=
  ((((Opcode >>> 16) &&& 0xf) <<< 12) ||| (((Opcode >>> 26) &&& 1) <<< 11) |||
    (((Opcode >>> 12) &&& 7) <<< 8)) ||| (Opcode &&& 0xff)

/-- The ARM64 encoding of `br xn`. -/
def arm64Br (rn : Nat) : Nat := 0xd61f0000 ||| (rn <<< 5)

/-- The ARM64 encoding of `ret xn`. -/
def arm64Ret (rn : Nat) : Nat := 0xd65f0000 ||| (rn <<< 5)

/-- The ARM64 encoding of `b` with the 26-bit immediate `imm26`. -/
def arm64B (imm26 : Nat) : Nat := 0x14000000 ||| imm26

/-! ## The iterations of the copy loops -/

/-- What one iteration of the first loop of `DetourAttachEx` does: the instruction at `pbOp`
of `len` source bytes is copied, the entry `index` of `rAlign` receives the offsets
`obTarget` and `obTrampoline` reached after it, and `ends` is the answer of
`detour_does_code_end_function(pbOp)`. -/
structure CopiedInstr where
  /-- Address of the instruction. -/
  pbOp : Nat
  /-- Number of source bytes. -/
  len : Nat
  /-- Index `nAlign` of the entry written. -/
  index : Nat
  /-- The byte offset `cbTarget` in the target after the instruction. -/
  obTarget : Nat
  /-- The byte offset `pbTrampoline - rbCode` after the instruction. -/
  obTrampoline : Nat
  /-- Whether the instruction ends the function. -/
  ends : Bool
  deriving DecidableEq, Repr

/-- The body of the first loop of `DetourAttachEx`, up to the increment of `nAlign`: the
local variables after one more instruction is copied. -/
def attach_copy_body (arch : Arch) (copier : Copier) (pbTarget pTrampoline : Nat)
    (st : CopyState) : CopyState :=
  let pbOp := st.pbSrc
  let r := copier st.mem st.pbTrampoline st.pbPool st.pbSrc
  let m := writeBytes (writeBytes st.mem st.pbTrampoline r.code) r.pool r.poolBytes
  let pbSrc := st.pbSrc + r.len
  let pbTrampoline := st.pbTrampoline + (pbSrc - pbOp) + r.lExtra
  let cbTarget := pbSrc - pbTarget
  -- rAlign[nAlign].obTarget (3 bits) and rAlign[nAlign].obTrampoline (5 bits)
  let m := writeBytes m (pTrampoline + off_rAlign arch + st.nAlign)
    [cbTarget % 8 + 8 * ((pbTrampoline - pTrampoline) % 32)]
  { mem := m, pbSrc := pbSrc, pbTrampoline := pbTrampoline, pbPool := r.pool,
    cbTarget := cbTarget, nAlign := st.nAlign + 1 }

/-- The record of the iteration that `attach_copy_body` performs. -/
def attach_copy_item (arch : Arch) (copier : Copier) (pbTarget pTrampoline : Nat)
    (st : CopyState) : CopiedInstr :=
  { pbOp := st.pbSrc, len := (copier st.mem st.pbTrampoline st.pbPool st.pbSrc).len,
    index := st.nAlign,
    obTarget := (attach_copy_body arch copier pbTarget pTrampoline st).cbTarget,
    obTrampoline :=
      (attach_copy_body arch copier pbTarget pTrampoline st).pbTrampoline - pTrampoline,
    ends := detour_does_code_end_function arch
      (attach_copy_body arch copier pbTarget pTrampoline st).mem st.pbSrc }

/-- The iterations of the first loop of `DetourAttachEx`, in order (the loop is
`attach_copy_loop`). -/
def attach_copy_trace (arch : Arch) (copier : Copier) (pbTarget pTrampoline cbJump : Nat) :
    Nat → CopyState → List CopiedInstr
  | 0, _ => []
  | fuel + 1, st =>
    if st.cbTarget < cbJump then
      if (attach_copy_body arch copier pbTarget pTrampoline st).nAlign ≥ sizeof_rAlign then
        [attach_copy_item arch copier pbTarget pTrampoline st]
      else if (attach_copy_item arch copier pbTarget pTrampoline st).ends then
        [attach_copy_item arch copier pbTarget pTrampoline st]
      else
        attach_copy_item arch copier pbTarget pTrampoline st ::
          attach_copy_trace arch copier pbTarget pTrampoline cbJump fuel
            (attach_copy_body arch copier pbTarget pTrampoline st)
    else []

/-- The iterations of the second loop of `DetourAttachEx`, in order (the loop is
`attach_filler_loop`): the address and the length of each piece of padding consumed. -/
def attach_filler_trace (arch : Arch) (pbTarget cbJump : Nat) : Nat → CopyState → List (Nat × Nat)
  | 0, _ => []
  | fuel + 1, st =>
    if st.cbTarget < cbJump then
      let cFiller := detour_is_code_filler arch st.mem st.pbSrc
      if cFiller = 0 then []
      else
        (st.pbSrc, cFiller) ::
          attach_filler_trace arch pbTarget cbJump fuel
            { st with pbSrc := st.pbSrc + cFiller, cbTarget := st.pbSrc + cFiller - pbTarget }
    else []

/-- The jump size and the local variables of `DetourAttachEx` when its first loop starts
(on ARM after the test for an existing `ldr pc, [pc]` jump). -/
def attachPre (arch : Arch) (h : Host) (hc : HostCall) (s : State) (ppPointer : Nat) :
    Nat × CopyState :=
  match arch with
  | .ARM =>
    attach_arm_prelude (attachTarget arch h s ppPointer)
      (attach_init arch (attachAlloc arch h hc s ppPointer).2.mem (attachTarget arch h s ppPointer)
        (attachAlloc arch h hc s ppPointer).1)
  | _ =>
    (SIZE_OF_JMP arch,
      attach_init arch (attachAlloc arch h hc s ppPointer).2.mem (attachTarget arch h s ppPointer)
        (attachAlloc arch h hc s ppPointer).1)

/-- The instructions that `DetourAttachEx` copies, in order. -/
def attachCopied (arch : Arch) (h : Host) (copier : Copier) (hc : HostCall) (s : State)
    (ppPointer : Nat) : List CopiedInstr :=
  attach_copy_trace arch copier (attachTarget arch h s ppPointer)
    (attachAlloc arch h hc s ppPointer).1 (attachPre arch h hc s ppPointer).1 sizeof_rAlign
    (attachPre arch h hc s ppPointer).2

/-- The pieces of padding that `DetourAttachEx` consumes, in order. -/
def attachFillers (arch : Arch) (h : Host) (copier : Copier) (hc : HostCall) (s : State)
    (ppPointer : Nat) : List (Nat × Nat) :=
  attach_filler_trace arch (attachTarget arch h s ppPointer) (attachPre arch h hc s ppPointer).1
    (attachPre arch h hc s ppPointer).1
    (attach_copy_loop arch copier (attachTarget arch h s ppPointer)
      (attachAlloc arch h hc s ppPointer).1 (attachPre arch h hc s ppPointer).1 sizeof_rAlign
      (attachPre arch h hc s ppPointer).2)

/-- The pieces `(address, length)` follow one another from `a` to `b` without gap. -/
def Chained : Nat → List (Nat × Nat) → Nat → Prop
  | a, [], b => a = b
  | a, (x, l) :: cs, b => x = a ∧ Chained (a + l) cs b

instance instDecidableFreeChain (arch : Arch) (m : Mem) :
    (p : Nat) → (l : List Nat) → Decidable (FreeChain arch m p l)
  | p, [] => inferInstanceAs (Decidable (p = 0))
  | _, a :: l =>
    @instDecidableAnd _ _ _
      (@instDecidableAnd _ _ _
        (instDecidableFreeChain arch m (readPtr arch m (a + off_pbRemain arch)) l))

instance instDecidableChained : (a : Nat) → (l : List (Nat × Nat)) → (b : Nat) →
    Decidable (Chained a l b)
  | a, [], b => inferInstanceAs (Decidable (a = b))
  | a, (_, l) :: cs, b => @instDecidableAnd _ _ _ (instDecidableChained (a + l) cs b)

namespace Scenario

/-- A host in which no protection change succeeds. -/
def failHost : Host :=
  { allocationBase := fun _ => 0, readable := fun _ => false,
    protect := fun _ _ => Status.host 5 }

/-- Result of `abort` after `begin; attach(&slot, detour)` on the prologue. -/
def aborted : Status × State :=
  DetourTransactionAbort Arch.X64 host 7 (attached prologueCode).2

/-- Result of `attach(&slot, detour)` on the 11-byte function, with too-small targets
ignored. -/
def attachedSmall : Status × State :=
  DetourAttach Arch.X64 host copier hostCall 7 (opened smallCode true) slot detour

/-- Result of the commit that follows the ignored attach. -/
def skipped : Status × State := DetourTransactionCommit Arch.X64 host 7 attachedSmall.2

/-- The state after the committed attach on the prologue, in which the caller has copied the
function pointer of `slot` into `slot2` and placed a second detour function. -/
def pointerCopied : State :=
  { (committed prologueCode).2 with
    mem := writePtr Arch.X64 (writeBytes (committed prologueCode).2.mem detour2 [0xC3]) slot2
      (readPtr Arch.X64 (committed prologueCode).2.mem slot) }

/-- The state after a second transaction `begin; attach(&slot2, detour2); commit`: the target
of the second detour is the trampoline of the first. -/
def stacked : State :=
  attachTransaction Arch.X64 host copier hostCall 7 pointerCopied slot2 detour2

/-- The state after a third transaction `begin; detach(&slot, detour); commit`. -/
def unstacked : State := detachTransaction Arch.X64 host hostCall 7 stacked slot detour

/-- The state `stacked` after `DetourSetRetainRegions(TRUE)` and a third transaction
`begin; detach(&slot, detour); commit`: the region list is as the commit leaves it before any
region is released. -/
def unstackedRetained : State :=
  detachTransaction Arch.X64 host hostCall 7 (DetourSetRetainRegions stacked true).2 slot detour

/-- Address of a Thumb-2 import thunk (with the Thumb tag in bit 0). -/
def thumbThunk : Nat := 0x10001

/-- Memory that holds `movw r12, #0x5010 ; movt r12, #0x4000 ; ldr pc, [r12]` at 0x10000. -/
def thumbMem : Mem :=
  (write_thumb_opcode
    (write_thumb_opcode
      (write_thumb_opcode (fun _ => 0) 0x10000 (thumbMovw 12 0x5010)).1
      0x10004 (thumbMovt 12 0x4000)).1
    0x10008 0xf8dcf000).1

end Scenario

namespace Scenario

/-- Address of a second target function. -/
def target2 : Nat := 0x140001100

/-- The open transaction of thread 7 in which `slot` points at `target` and `slot2` at
`target2`, a second copy of the prologue. -/
def twoTargets : State :=
  { opened prologueCode false with
    mem := writePtr Arch.X64
      (writeBytes (writeBytes (opened prologueCode false).mem target2 prologueCode)
        detour2 [0xC3])
      slot2 target2 }

/-- State after `attach(&slot, detour)` and `attach(&slot2, detour2)` on the two targets. -/
def twoTargetAttach : State := run Arch.X64 host copier 7 twoTargets twoAttaches

/-- A rendezvous on four processors in two processor groups of two: the host reports the two
active processors of group 0 and runs the callback on all four. -/
def shortCall : IpiState := detour_ipi_call 4 2 twoTargetAttach.mem

/-- A schedule in which the processors 2 and 3 test the processor number and signal, and
processor 2 then passes the wait loop. -/
def earlySchedule : List Nat := [2, 2, 3, 3, 2]

/-- A rendezvous on 128 processors in two groups of 64, with 64 reported. -/
def wideCall : IpiState := detour_ipi_call 128 64 twoTargetAttach.mem

/-- A schedule in which the processors 64 to 127 test the processor number and signal, and
processor 64 then passes the wait loop. -/
def wideSchedule : List Nat := (List.range 64).flatMap (fun i => [64 + i, 64 + i]) ++ [64]

end Scenario

/-! # Theorems -/

/-! ## Memory lemmas -/

theorem leBytes_length (n v : Nat) : (leBytes n v).length = n := by
  induction n generalizing v with
  | zero => rfl
  | succ n ih => simp [leBytes, ih]

theorem writeBytes_outside (m : Mem) (a : Nat) (bs : List Nat) (x : Nat)
    (hx : x < a ∨ a + bs.length ≤ x) : writeBytes m a bs x = m x := by
  unfold writeBytes
  rw [if_neg]
  omega

theorem writeBytes_inside (m : Mem) (a : Nat) (bs : List Nat) (x : Nat)
    (hx : a ≤ x ∧ x < a + bs.length) : writeBytes m a bs x = bs.getD (x - a) 0 := by
  unfold writeBytes
  rw [if_pos hx]

theorem conf_refl (lo hi : Nat) (m : Mem) : Conf lo hi m m := fun _ _ => rfl

theorem conf_trans {lo hi : Nat} {m1 m2 m3 : Mem} (h12 : Conf lo hi m1 m2)
    (h23 : Conf lo hi m2 m3) : Conf lo hi m1 m3 :=
  fun x hx => (h23 x hx).trans (h12 x hx)

theorem conf_mono {lo hi lo2 hi2 : Nat} {m1 m2 : Mem} (h : Conf lo hi m1 m2)
    (hlo : lo2 ≤ lo) (hhi : hi ≤ hi2) : Conf lo2 hi2 m1 m2 :=
  fun x hx => h x (by omega)

theorem conf_writeBytes (lo hi : Nat) (m : Mem) (a : Nat) (bs : List Nat)
    (h : bs.length = 0 ∨ (lo ≤ a ∧ a + bs.length ≤ hi)) : Conf lo hi m (writeBytes m a bs) := by
  intro x hx
  apply writeBytes_outside
  omega

theorem conf_writeLE (lo hi : Nat) (m : Mem) (a n v : Nat) (h : lo ≤ a ∧ a + n ≤ hi) :
    Conf lo hi m (writeLE m a n v) := by
  unfold writeLE
  apply conf_writeBytes
  rw [leBytes_length]
  exact Or.inr h

theorem conf_writePtr (arch : Arch) (lo hi : Nat) (m : Mem) (a v : Nat)
    (h : lo ≤ a ∧ a + ptrSize arch ≤ hi) : Conf lo hi m (writePtr arch m a v) :=
  conf_writeLE lo hi m a _ v h

theorem conf_memset (lo hi : Nat) (m : Mem) (a v n : Nat) (h : lo ≤ a ∧ a + n ≤ hi) :
    Conf lo hi m (memset m a v n) := by
  unfold memset
  apply conf_writeBytes
  simp only [List.length_replicate]
  exact Or.inr h

theorem conf_memcpy (lo hi : Nat) (m : Mem) (dst src n : Nat) (h : lo ≤ dst ∧ dst + n ≤ hi) :
    Conf lo hi m (memcpy m dst src n) := by
  unfold memcpy
  apply conf_writeBytes
  simp only [readBytes, List.length_map, List.length_range]
  exact Or.inr h

theorem readLE_congr (m1 m2 : Mem) (a n : Nat) (h : ∀ i, i < n → m2 (a + i) = m1 (a + i)) :
    readLE m2 a n = readLE m1 a n := by
  induction n generalizing a with
  | zero => rfl
  | succ n ih =>
    simp only [readLE]
    have h0 := h 0 (by omega)
    simp only [Nat.add_zero] at h0
    rw [h0, ih (a + 1)]
    intro i hi
    have := h (i + 1) (by omega)
    rw [show a + 1 + i = a + (i + 1) by omega]
    exact this

theorem readLE_writeLE (m : Mem) (a n v : Nat) (hv : v < 256 ^ n) :
    readLE (writeLE m a n v) a n = v := by
  induction n generalizing a v m with
  | zero => simp [readLE] at *; omega
  | succ n ih =>
    have hrest : readLE (writeLE m a (n + 1) v) (a + 1) n = v / 256 := by
      rw [← ih (writeLE m a (n + 1) v) (a + 1) (v / 256)
        (by rw [Nat.div_lt_iff_lt_mul (by decide)]; rw [Nat.pow_succ] at hv; exact hv)]
      apply readLE_congr
      intro i hi
      unfold writeLE
      rw [writeBytes_inside _ _ _ _ (by rw [leBytes_length]; omega),
        writeBytes_inside _ _ _ _ (by rw [leBytes_length]; omega)]
      simp only [leBytes]
      rw [show a + 1 + i - a = (a + 1 + i - (a + 1)) + 1 by omega]
      simp
    simp only [readLE, hrest]
    unfold writeLE
    rw [writeBytes_inside _ _ _ _ (by rw [leBytes_length]; omega)]
    simp only [leBytes, Nat.sub_self, List.getD_cons_zero]
    omega

theorem readPtr_writePtr (arch : Arch) (m : Mem) (a v : Nat) (hv : v < 2 ^ ptrBits arch) :
    readPtr arch (writePtr arch m a v) a = v := by
  unfold readPtr writePtr
  apply readLE_writeLE
  have : (256 : Nat) ^ ptrSize arch = 2 ^ ptrBits arch := by
    cases arch <;> simp [ptrBits, ptrSize]
  omega

theorem readPtr_congr (arch : Arch) (m1 m2 : Mem) (a : Nat)
    (h : ∀ x, a ≤ x → x < a + ptrSize arch → m2 x = m1 x) :
    readPtr arch m2 a = readPtr arch m1 a := by
  apply readLE_congr
  intro i hi
  exact h (a + i) (by omega) (by omega)

/-! ## Slots, pages and free chains -/

theorem slot_size_bounds (arch : Arch) :
    off_pbRemain arch + ptrSize arch ≤ sizeof_DETOUR_TRAMPOLINE arch ∧
    0 < sizeof_DETOUR_TRAMPOLINE arch ∧
    (DETOUR_TRAMPOLINES_PER_REGION arch + 1) * sizeof_DETOUR_TRAMPOLINE arch ≤
      DETOUR_REGION_SIZE := by
  cases arch <;> decide

theorem isSlot_inPage {arch : Arch} {base a x : Nat} (ha : IsSlot arch base a)
    (hx : inSlot arch a x) : inPage base x := by
  obtain ⟨k, hk1, hk2, rfl⟩ := ha
  unfold inSlot at hx
  unfold inPage
  have hb := (slot_size_bounds arch).2.2
  have : (k + 1) * sizeof_DETOUR_TRAMPOLINE arch ≤
      (DETOUR_TRAMPOLINES_PER_REGION arch + 1) * sizeof_DETOUR_TRAMPOLINE arch :=
    Nat.mul_le_mul_right _ (by omega)
  rw [Nat.add_mul] at this
  omega

theorem isSlot_ne_zero {arch : Arch} {base a : Nat} (ha : IsSlot arch base a) : a ≠ 0 := by
  obtain ⟨k, hk1, hk2, rfl⟩ := ha
  have hb := (slot_size_bounds arch).2.1
  have : 1 * sizeof_DETOUR_TRAMPOLINE arch ≤ k * sizeof_DETOUR_TRAMPOLINE arch :=
    Nat.mul_le_mul_right _ hk1
  omega

theorem isSlot_pageOf {arch : Arch} {base a : Nat} (ha : IsSlot arch base a)
    (hb : base % DETOUR_REGION_SIZE = 0) : pageOf a = base := by
  have h1 : inPage base a := isSlot_inPage ha ⟨Nat.le_refl _, by
    have := (slot_size_bounds arch).2.1; omega⟩
  unfold inPage at h1
  unfold pageOf
  unfold DETOUR_REGION_SIZE at *
  omega

theorem isSlot_lt {arch : Arch} {base a : Nat} (ha : IsSlot arch base a)
    (hb : base + DETOUR_REGION_SIZE ≤ 2 ^ ptrBits arch) : a < 2 ^ ptrBits arch := by
  have h1 : inPage base a := isSlot_inPage ha ⟨Nat.le_refl _, by
    have := (slot_size_bounds arch).2.1; omega⟩
  unfold inPage at h1
  omega

theorem isSlot_disjoint {arch : Arch} {base a b x : Nat} (ha : IsSlot arch base a)
    (hb : IsSlot arch base b) (hne : a ≠ b) (hx : inSlot arch a x) : ¬ inSlot arch b x := by
  obtain ⟨k, -, -, rfl⟩ := ha
  obtain ⟨j, -, -, rfl⟩ := hb
  unfold inSlot at *
  intro hx2
  have hkj : k ≠ j := fun h => hne (by rw [h])
  rcases Nat.lt_or_gt_of_ne hkj with h | h
  · have : (k + 1) * sizeof_DETOUR_TRAMPOLINE arch ≤ j * sizeof_DETOUR_TRAMPOLINE arch :=
      Nat.mul_le_mul_right _ h
    rw [Nat.add_mul] at this
    omega
  · have : (j + 1) * sizeof_DETOUR_TRAMPOLINE arch ≤ k * sizeof_DETOUR_TRAMPOLINE arch :=
      Nat.mul_le_mul_right _ h
    rw [Nat.add_mul] at this
    omega

theorem inPage_disjoint {b1 b2 x : Nat} (h1 : b1 % DETOUR_REGION_SIZE = 0)
    (h2 : b2 % DETOUR_REGION_SIZE = 0) (hne : b1 ≠ b2) (hx : inPage b1 x) : ¬ inPage b2 x := by
  unfold inPage DETOUR_REGION_SIZE at *
  omega

theorem link_inSlot (arch : Arch) (a x : Nat) (h1 : a + off_pbRemain arch ≤ x)
    (h2 : x < a + off_pbRemain arch + ptrSize arch) : inSlot arch a x := by
  have := (slot_size_bounds arch).1
  unfold inSlot
  omega

theorem freeChain_congr (arch : Arch) (m1 m2 : Mem) (p : Nat) (l : List Nat)
    (hc : FreeChain arch m1 p l) (h : ∀ a ∈ l, ∀ x, inSlot arch a x → m2 x = m1 x) :
    FreeChain arch m2 p l := by
  induction l generalizing p with
  | nil => exact hc
  | cons a l ih =>
    obtain ⟨h1, h2, h3⟩ := hc
    refine ⟨h1, h2, ?_⟩
    rw [readPtr_congr arch m1 m2 _ (fun x hx1 hx2 =>
      h a (List.mem_cons_self _ _) x (link_inSlot arch a x hx1 hx2))]
    exact ih _ h3 (fun b hb => h b (List.mem_cons_of_mem _ hb))

theorem freeChain_unique (arch : Arch) (m : Mem) (p : Nat) (l1 l2 : List Nat)
    (h1 : FreeChain arch m p l1) (h2 : FreeChain arch m p l2) : l1 = l2 := by
  induction l1 generalizing p l2 with
  | nil =>
    cases l2 with
    | nil => rfl
    | cons b l2 =>
      simp only [FreeChain] at h1 h2
      omega
  | cons a l1 ih =>
    cases l2 with
    | nil =>
      simp only [FreeChain] at h1 h2
      omega
    | cons b l2 =>
      obtain ⟨ha, -, hr1⟩ := h1
      obtain ⟨hb, -, hr2⟩ := h2
      have hab : a = b := by omega
      subst hab
      rw [ih _ _ hr1 hr2]

theorem freeChain_head (arch : Arch) (m : Mem) (p : Nat) (l : List Nat)
    (h : FreeChain arch m p l) (hp : p ≠ 0) :
    ∃ l2, l = p :: l2 ∧ FreeChain arch m (readPtr arch m (p + off_pbRemain arch)) l2 := by
  cases l with
  | nil => exact absurd h hp
  | cons a l2 =>
    obtain ⟨h1, -, h3⟩ := h
    subst h1
    exact ⟨l2, rfl, h3⟩

theorem freeChain_null (arch : Arch) (m : Mem) (l : List Nat) (h : FreeChain arch m 0 l) :
    l = [] := by
  cases l with
  | nil => rfl
  | cons a l2 =>
    obtain ⟨h1, h2, -⟩ := h
    omega

/-! ## The region list -/

theorem setFree_map_base (rs : List DETOUR_REGION) (p v : Nat) :
    (setFree rs p v).map (·.base) = rs.map (·.base) := by
  induction rs with
  | nil => rfl
  | cons r rs ih =>
    simp only [setFree, List.map_cons, List.map_map] at *
    rw [ih]
    congr 1
    split <;> rfl

theorem mem_setFree {rs : List DETOUR_REGION} {p v : Nat} {r2 : DETOUR_REGION}
    (h : r2 ∈ setFree rs p v) :
    ∃ r ∈ rs, r2.base = r.base ∧
      ((r.base = p ∧ r2.pFree = v) ∨ (r.base ≠ p ∧ r2 = r)) := by
  simp only [setFree, List.mem_map] at h
  obtain ⟨r, hr, rfl⟩ := h
  refine ⟨r, hr, ?_⟩
  by_cases hb : r.base = p
  · simp [hb]
  · simp [hb]

theorem setFree_mem {rs : List DETOUR_REGION} (p v : Nat) {r : DETOUR_REGION} (h : r ∈ rs) :
    ∃ r2 ∈ setFree rs p v, r2.base = r.base ∧
      ((r.base = p ∧ r2.pFree = v) ∨ (r.base ≠ p ∧ r2 = r)) := by
  refine ⟨if r.base = p then { r with pFree := v } else r, ?_, ?_⟩
  · simp only [setFree, List.mem_map]
    exact ⟨r, h, rfl⟩
  · by_cases hb : r.base = p
    · simp [hb]
    · simp [hb]

theorem regionAt_some {rs : List DETOUR_REGION} {p : Nat} {r : DETOUR_REGION}
    (h : regionAt rs p = some r) : r ∈ rs ∧ r.base = p := by
  unfold regionAt at h
  refine ⟨List.mem_of_find?_eq_some h, ?_⟩
  have := List.find?_some h
  simpa using this

theorem regionAt_of_mem {rs : List DETOUR_REGION} {r : DETOUR_REGION} (h : r ∈ rs)
    (hd : (rs.map (·.base)).Nodup) : regionAt rs r.base = some r := by
  induction rs with
  | nil => cases h
  | cons a rs ih =>
    simp only [List.map_cons, List.nodup_cons, List.mem_map, not_exists, not_and] at hd
    unfold regionAt
    rw [List.find?_cons]
    rcases List.mem_cons.mp h with rfl | h
    · simp
    · have : a.base ≠ r.base := fun e => hd.1 r h e.symm
      simp only [this, decide_False]
      exact ih h hd.2

theorem base_eq_of_nodup {rs : List DETOUR_REGION} {r1 r2 : DETOUR_REGION} (h1 : r1 ∈ rs)
    (h2 : r2 ∈ rs) (hb : r1.base = r2.base) (hd : (rs.map (·.base)).Nodup) : r1 = r2 := by
  have e1 := regionAt_of_mem h1 hd
  have e2 := regionAt_of_mem h2 hd
  rw [hb, e2] at e1
  exact (Option.some.inj e1).symm

theorem pendingIn_cons (o : DetourOperation) (ops : List DetourOperation) (b : Nat) :
    pendingIn (o :: ops) b =
      if o.fIsRemove = false ∧ pageOf o.pTrampoline = b then o.pTrampoline :: pendingIn ops b
      else pendingIn ops b := by
  unfold pendingIn
  rw [List.filter_cons]
  by_cases h1 : o.fIsRemove = false
  · by_cases h2 : pageOf o.pTrampoline = b
    · simp [h1, h2]
    · simp [h1, h2]
  · simp [h1]

theorem mem_pendingIn {ops : List DetourOperation} {b t : Nat} :
    t ∈ pendingIn ops b ↔
      ∃ o ∈ ops, o.fIsRemove = false ∧ pageOf o.pTrampoline = b ∧ o.pTrampoline = t := by
  unfold pendingIn
  simp only [List.mem_map, List.mem_filter, Bool.and_eq_true, Bool.not_eq_true',
    decide_eq_true_eq]
  constructor
  · rintro ⟨o, ⟨ho, h1, h2⟩, rfl⟩
    exact ⟨o, ho, h1, h2, rfl⟩
  · rintro ⟨o, ho, h1, h2, rfl⟩
    exact ⟨o, ⟨ho, h1, h2⟩, rfl⟩

/-! ## Well-formed allocator states -/

theorem slots_disjoint {arch : Arch} {b1 b2 a1 a2 x : Nat} (h1 : IsSlot arch b1 a1)
    (h2 : IsSlot arch b2 a2) (hb1 : b1 % DETOUR_REGION_SIZE = 0)
    (hb2 : b2 % DETOUR_REGION_SIZE = 0) (hne : a1 ≠ a2) (hx : inSlot arch a1 x) :
    ¬ inSlot arch a2 x := by
  by_cases hb : b1 = b2
  · subst hb
    exact isSlot_disjoint h1 h2 hne hx
  · intro hx2
    exact inPage_disjoint hb1 hb2 hb (isSlot_inPage h1 hx) (isSlot_inPage h2 hx2)

theorem pending_isSlot {arch : Arch} {ops : List DetourOperation} {m : Mem}
    {rs : List DETOUR_REGION} (hg : GoodOps arch ops m rs) {o : DetourOperation}
    (ho : o ∈ ops) (hr : o.fIsRemove = false) :
    ∃ r ∈ rs, r.base = pageOf o.pTrampoline ∧ IsSlot arch r.base o.pTrampoline ∧
      o.pTrampoline ∈ pendingIn ops r.base := by
  obtain ⟨r, hrs, hb⟩ := hg.owned o ho hr
  obtain ⟨l, -, -, hs⟩ := hg.chains r hrs
  have hm : o.pTrampoline ∈ pendingIn ops r.base :=
    mem_pendingIn.mpr ⟨o, ho, hr, hb.symm, rfl⟩
  exact ⟨r, hrs, hb, hs _ (List.mem_append_left _ (List.mem_reverse.mpr hm)), hm⟩

theorem free_slot_facts {arch : Arch} {ops : List DetourOperation} {m : Mem}
    {rs : List DETOUR_REGION} (hg : GoodOps arch ops m rs) {r : DETOUR_REGION} (hr : r ∈ rs)
    {l : List Nat} (hl : FreeChain arch m r.pFree l) {a : Nat} (ha : a ∈ l) :
    IsSlot arch r.base a ∧
      ∀ o ∈ ops, o.fIsRemove = false → a ≠ o.pTrampoline := by
  obtain ⟨l2, hl2, hnd, hs⟩ := hg.chains r hr
  have e := freeChain_unique arch m _ _ _ hl hl2
  subst e
  have hsa := hs a (List.mem_append_right _ ha)
  refine ⟨hsa, ?_⟩
  intro o ho hrm heq
  obtain ⟨rt, hrt, hbt, hst, hmt⟩ := pending_isSlot hg ho hrm
  have hp1 := isSlot_pageOf hsa (hg.aligned r hr).1
  have hp2 := isSlot_pageOf hst (hg.aligned rt hrt).1
  have hbb : rt.base = r.base := by rw [← hp1, ← hp2, heq]
  have hrr := base_eq_of_nodup hrt hr hbb hg.distinct
  subst hrr
  rw [List.nodup_append] at hnd
  exact hnd.2.2 (List.mem_reverse.mpr hmt) (heq ▸ ha)

theorem goodOps_congr {arch : Arch} {ops : List DetourOperation} {m m2 : Mem}
    {rs : List DETOUR_REGION} (hg : GoodOps arch ops m rs)
    (h : ∀ r ∈ rs, ∀ l, FreeChain arch m r.pFree l → ∀ a ∈ l, ∀ x, inSlot arch a x →
      m2 x = m x) :
    GoodOps arch ops m2 rs ∧
      ∀ r ∈ rs, ∀ l0, Baseline arch ops m r l0 → Baseline arch ops m2 r l0 := by
  constructor
  · refine ⟨hg.aligned, hg.distinct, ?_, hg.owned⟩
    intro r hr
    obtain ⟨l, hl, hnd, hs⟩ := hg.chains r hr
    exact ⟨l, freeChain_congr arch m m2 _ l hl (h r hr l hl), hnd, hs⟩
  · intro r hr l0 ⟨l, hl, e⟩
    exact ⟨l, freeChain_congr arch m m2 _ l hl (h r hr l hl), e⟩

theorem evolves_refl (arch : Arch) (ops : List DetourOperation) (m : Mem)
    (rs : List DETOUR_REGION) : Evolves arch ops m rs ops m rs :=
  ⟨fun r hr => ⟨r, hr, rfl, fun _ h => h⟩, fun _ hx => absurd rfl hx⟩

theorem conf_pending_slot {arch : Arch} {ops : List DetourOperation} {m m2 : Mem}
    {rs : List DETOUR_REGION} (hg : GoodOps arch ops m rs) {o : DetourOperation}
    (ho : o ∈ ops) (hr : o.fIsRemove = false)
    (hc : Conf o.pTrampoline (o.pTrampoline + sizeof_DETOUR_TRAMPOLINE arch) m m2) :
    GoodOps arch ops m2 rs ∧ Evolves arch ops m rs ops m2 rs := by
  obtain ⟨rt, hrt, hbt, hst, hmt⟩ := pending_isSlot hg ho hr
  have key : ∀ r ∈ rs, ∀ l, FreeChain arch m r.pFree l → ∀ a ∈ l, ∀ x, inSlot arch a x →
      m2 x = m x := by
    intro r hrr l hl a ha x hx
    obtain ⟨hsa, hne⟩ := free_slot_facts hg hrr hl ha
    have hd := slots_disjoint hsa hst (hg.aligned r hrr).1 (hg.aligned rt hrt).1
      (hne o ho hr) hx
    apply hc
    unfold inSlot at hd
    omega
  obtain ⟨g2, b2⟩ := goodOps_congr hg key
  refine ⟨g2, ⟨fun r hrr => ⟨r, hrr, rfl, b2 r hrr⟩, ?_⟩⟩
  intro x hx
  left
  obtain ⟨l, hl, -, -⟩ := hg.chains rt hrt
  refine ⟨rt, hrt, _, ⟨l, hl, rfl⟩, o.pTrampoline,
    List.mem_append_left _ (List.mem_reverse.mpr hmt), ?_⟩
  unfold inSlot
  by_contra hcon
  exact hx (hc x (by omega))

theorem goodOps_skip {arch : Arch} {o : DetourOperation} {ops : List DetourOperation}
    {m : Mem} {rs : List DETOUR_REGION} (hr : o.fIsRemove = true) :
    (GoodOps arch (o :: ops) m rs ↔ GoodOps arch ops m rs) ∧
    ∀ r l0, Baseline arch (o :: ops) m r l0 ↔ Baseline arch ops m r l0 := by
  have hp : ∀ b, pendingIn (o :: ops) b = pendingIn ops b := by
    intro b
    rw [pendingIn_cons]
    simp [hr]
  refine ⟨⟨fun hg => ⟨hg.aligned, hg.distinct, ?_, ?_⟩, fun hg => ⟨hg.aligned, hg.distinct, ?_, ?_⟩⟩, ?_⟩
  · intro r hrr
    have := hg.chains r hrr
    rw [hp] at this
    exact this
  · intro o2 ho2 hr2
    exact hg.owned o2 (List.mem_cons_of_mem _ ho2) hr2
  · intro r hrr
    rw [hp]
    exact hg.chains r hrr
  · intro o2 ho2 hr2
    rcases List.mem_cons.mp ho2 with rfl | h2
    · rw [hr] at hr2
      cases hr2
    · exact hg.owned o2 h2 hr2
  · intro r l0
    unfold Baseline
    rw [hp]

theorem pFree_lt {arch : Arch} {ops : List DetourOperation} {m : Mem}
    {rs : List DETOUR_REGION} (hg : GoodOps arch ops m rs) {r : DETOUR_REGION} (hr : r ∈ rs) :
    r.pFree < 2 ^ ptrBits arch := by
  obtain ⟨l, hl, -, hs⟩ := hg.chains r hr
  cases l with
  | nil =>
    have : r.pFree = 0 := hl
    rw [this]
    exact Nat.two_pow_pos _
  | cons a l =>
    obtain ⟨h1, -, -⟩ := hl
    rw [h1]
    exact isSlot_lt (hs a (List.mem_append_right _ (List.mem_cons_self _ _)))
      (hg.aligned r hr).2.2

theorem free_trampoline_listed (arch : Arch) (s : State) (t : Nat) (r : DETOUR_REGION)
    (h : regionAt s.s_pRegions (pageOf t) = some r) :
    (detour_free_trampoline arch s t).mem =
      writePtr arch (memset s.mem t 0 (sizeof_DETOUR_TRAMPOLINE arch)) (t + off_pbRemain arch)
        r.pFree ∧
    (detour_free_trampoline arch s t).s_pRegions = setFree s.s_pRegions (pageOf t) t := by
  unfold pageOf at h
  simp [detour_free_trampoline, h, pageOf]

theorem conf_free_listed (arch : Arch) (m : Mem) (t v : Nat) :
    Conf t (t + sizeof_DETOUR_TRAMPOLINE arch) m
      (writePtr arch (memset m t 0 (sizeof_DETOUR_TRAMPOLINE arch)) (t + off_pbRemain arch) v) := by
  have hb := (slot_size_bounds arch).1
  exact conf_trans (conf_memset _ _ _ _ _ _ ⟨Nat.le_refl _, Nat.le_refl _⟩)
    (conf_writePtr arch _ _ _ _ _ ⟨by omega, by omega⟩)

theorem good_free {arch : Arch} {o : DetourOperation} {ops : List DetourOperation} (s : State)
    (hg : GoodOps arch (o :: ops) s.mem s.s_pRegions) (hr : o.fIsRemove = false) :
    GoodOps arch ops (detour_free_trampoline arch s o.pTrampoline).mem
      (detour_free_trampoline arch s o.pTrampoline).s_pRegions ∧
    Evolves arch (o :: ops) s.mem s.s_pRegions ops
      (detour_free_trampoline arch s o.pTrampoline).mem
      (detour_free_trampoline arch s o.pTrampoline).s_pRegions := by
  obtain ⟨rt, hrt, hbt, hst, hmt⟩ := pending_isSlot hg (List.mem_cons_self _ _) hr
  have hreg : regionAt s.s_pRegions (pageOf o.pTrampoline) = some rt := by
    rw [← hbt]
    exact regionAt_of_mem hrt hg.distinct
  obtain ⟨em, er⟩ := free_trampoline_listed arch s _ rt hreg
  rw [em, er]
  have hconf := conf_free_listed arch s.mem o.pTrampoline rt.pFree
  generalize hm2 : writePtr arch (memset s.mem o.pTrampoline 0 (sizeof_DETOUR_TRAMPOLINE arch))
    (o.pTrampoline + off_pbRemain arch) rt.pFree = m2 at hconf
  have hread : readPtr arch m2 (o.pTrampoline + off_pbRemain arch) = rt.pFree := by
    rw [← hm2]
    exact readPtr_writePtr arch _ _ _ (pFree_lt hg hrt)
  have key : ∀ r ∈ s.s_pRegions, ∀ l, FreeChain arch s.mem r.pFree l → ∀ a ∈ l, ∀ x,
      inSlot arch a x → m2 x = s.mem x := by
    intro r hrr l hl a ha x hx
    obtain ⟨hsa, hne⟩ := free_slot_facts hg hrr hl ha
    have hd := slots_disjoint hsa hst (hg.aligned r hrr).1 (hg.aligned rt hrt).1
      (hne o (List.mem_cons_self _ _) hr) hx
    apply hconf
    unfold inSlot at hd
    omega
  have hpt : pendingIn (o :: ops) rt.base = o.pTrampoline :: pendingIn ops rt.base := by
    rw [pendingIn_cons]
    simp [hr, hbt]
  have hpo : ∀ b, b ≠ pageOf o.pTrampoline → pendingIn (o :: ops) b = pendingIn ops b := by
    intro b hb
    rw [pendingIn_cons]
    simp [hr, Ne.symm hb]
  have hlist : ∀ l : List Nat, (pendingIn (o :: ops) rt.base).reverse ++ l =
      (pendingIn ops rt.base).reverse ++ (o.pTrampoline :: l) := by
    intro l
    rw [hpt]
    simp
  have hchain : ∀ l, FreeChain arch s.mem rt.pFree l →
      FreeChain arch m2 o.pTrampoline (o.pTrampoline :: l) := by
    intro l hl
    refine ⟨rfl, isSlot_ne_zero hst, ?_⟩
    rw [hread]
    exact freeChain_congr arch s.mem m2 _ l hl (key rt hrt l hl)
  constructor
  · refine ⟨?_, ?_, ?_, ?_⟩
    · intro r2 hr2
      obtain ⟨r, hrr, hb, -⟩ := mem_setFree hr2
      rw [hb]
      exact hg.aligned r hrr
    · rw [setFree_map_base]
      exact hg.distinct
    · intro r2 hr2
      obtain ⟨r, hrr, hb, hcase⟩ := mem_setFree hr2
      obtain ⟨l, hl, hnd, hs⟩ := hg.chains r hrr
      rcases hcase with ⟨hbp, hf⟩ | ⟨hbp, rfl⟩
      · have hrr2 : r = rt := base_eq_of_nodup hrr hrt (by rw [hbp, hbt]) hg.distinct
        subst hrr2
        rw [hb, hf]
        rw [hlist] at hnd hs
        exact ⟨_, hchain l hl, hnd, hs⟩
      · rw [hpo _ hbp] at hnd hs
        exact ⟨l, freeChain_congr arch s.mem m2 _ l hl (key _ hrr l hl), hnd, hs⟩
    · intro o2 ho2 hr2
      obtain ⟨r, hrr, hb⟩ := hg.owned o2 (List.mem_cons_of_mem _ ho2) hr2
      obtain ⟨r2, hr2m, hb2, -⟩ := setFree_mem (pageOf o.pTrampoline) o.pTrampoline hrr
      exact ⟨r2, hr2m, by rw [hb2, hb]⟩
  · constructor
    · intro r hrr
      obtain ⟨r2, hr2m, hb2, hcase⟩ := setFree_mem (pageOf o.pTrampoline) o.pTrampoline hrr
      refine ⟨r2, hr2m, hb2, ?_⟩
      intro l0 ⟨l, hl, e⟩
      rcases hcase with ⟨hbp, hf⟩ | ⟨hbp, rfl⟩
      · have hrr2 : r = rt := base_eq_of_nodup hrr hrt (by rw [hbp, hbt]) hg.distinct
        subst hrr2
        refine ⟨o.pTrampoline :: l, ?_, ?_⟩
        · rw [hf]
          exact hchain l hl
        · rw [hb2, e, hlist]
      · refine ⟨l, freeChain_congr arch s.mem m2 _ l hl (key _ hrr l hl), ?_⟩
        rw [e, hpo _ hbp]
    · intro x hx
      left
      obtain ⟨l, hl, -, -⟩ := hg.chains rt hrt
      refine ⟨rt, hrt, _, ⟨l, hl, rfl⟩, o.pTrampoline,
        List.mem_append_left _ (List.mem_reverse.mpr hmt), ?_⟩
      unfold inSlot
      by_contra hcon
      exact hx (hconf x (by omega))

theorem baseline_unique {arch : Arch} {ops : List DetourOperation} {m : Mem}
    {r : DETOUR_REGION} {l1 l2 : List Nat} (h1 : Baseline arch ops m r l1)
    (h2 : Baseline arch ops m r l2) : l1 = l2 := by
  obtain ⟨a, ha, ea⟩ := h1
  obtain ⟨b, hb, eb⟩ := h2
  rw [ea, eb, freeChain_unique arch m _ _ _ ha hb]

theorem evolves_trans {arch : Arch} {ops1 ops2 ops3 : List DetourOperation} {m1 m2 m3 : Mem}
    {rs1 rs2 rs3 : List DETOUR_REGION} (g1 : GoodOps arch ops1 m1 rs1)
    (g2 : GoodOps arch ops2 m2 rs2) (h12 : Evolves arch ops1 m1 rs1 ops2 m2 rs2)
    (h23 : Evolves arch ops2 m2 rs2 ops3 m3 rs3) : Evolves arch ops1 m1 rs1 ops3 m3 rs3 := by
  constructor
  · intro r hr
    obtain ⟨r2, hr2, hb2, hbl2⟩ := h12.base r hr
    obtain ⟨r3, hr3, hb3, hbl3⟩ := h23.base r2 hr2
    exact ⟨r3, hr3, by rw [hb3, hb2], fun l0 h => hbl3 l0 (hbl2 l0 h)⟩
  · intro x hx
    have newpage : ∀ r2 ∈ rs2, (∀ r1 ∈ rs1, r1.base ≠ r2.base) → inPage r2.base x →
        InNewPage rs1 rs3 x := by
      intro r2 hr2 hnew hp
      obtain ⟨r3, hr3, hb3, -⟩ := h23.base r2 hr2
      exact ⟨r3, hr3, by rw [hb3]; exact hnew, by rw [hb3]; exact hp⟩
    by_cases h : m2 x = m1 x
    · have hx2 : m3 x ≠ m2 x := by rw [h]; exact hx
      rcases h23.frame x hx2 with hl | hn
      · obtain ⟨r2, hr2, l0, hbl, a, ha, hin⟩ := hl
        by_cases hex : ∃ r1 ∈ rs1, r1.base = r2.base
        · obtain ⟨r1, hr1, hb1⟩ := hex
          obtain ⟨r2b, hr2b, hb2b, hbl2⟩ := h12.base r1 hr1
          have e : r2b = r2 := base_eq_of_nodup hr2b hr2 (by rw [hb2b, hb1]) g2.distinct
          subst e
          obtain ⟨l1, hl1, -, -⟩ := g1.chains r1 hr1
          have hb1l : Baseline arch ops1 m1 r1 ((pendingIn ops1 r1.base).reverse ++ l1) :=
            ⟨l1, hl1, rfl⟩
          have e2 := baseline_unique (hbl2 _ hb1l) hbl
          left
          exact ⟨r1, hr1, _, hb1l, a, by rw [e2]; exact ha, hin⟩
        · right
          obtain ⟨l2, hl2, -, hs2⟩ := g2.chains r2 hr2
          have e3 := baseline_unique hbl ⟨l2, hl2, rfl⟩
          apply newpage r2 hr2
          · intro r1 hr1 hb
            exact hex ⟨r1, hr1, hb⟩
          · exact isSlot_inPage (hs2 a (by rw [← e3]; exact ha)) hin
      · right
        obtain ⟨r3, hr3, hnew, hp⟩ := hn
        refine ⟨r3, hr3, ?_, hp⟩
        intro r1 hr1 hb
        obtain ⟨r2, hr2, hb2, -⟩ := h12.base r1 hr1
        exact hnew r2 hr2 (by rw [hb2, hb])
    · rcases h12.frame x h with hl | hn
      · exact Or.inl hl
      · obtain ⟨r2, hr2, hnew, hp⟩ := hn
        exact Or.inr (newpage r2 hr2 hnew hp)

theorem good_pop {arch : Arch} {ops : List DetourOperation} (s : State)
    (hg : GoodOps arch ops s.mem s.s_pRegions) (r : DETOUR_REGION) (hr : r ∈ s.s_pRegions)
    (hf : r.pFree ≠ 0) (o : DetourOperation) (hro : o.fIsRemove = false)
    (hot : o.pTrampoline = r.pFree) :
    GoodOps arch (o :: ops) (memset s.mem r.pFree 0xcc (sizeof_DETOUR_TRAMPOLINE arch))
      (setFree s.s_pRegions r.base (readPtr arch s.mem (r.pFree + off_pbRemain arch))) ∧
    Evolves arch ops s.mem s.s_pRegions (o :: ops)
      (memset s.mem r.pFree 0xcc (sizeof_DETOUR_TRAMPOLINE arch))
      (setFree s.s_pRegions r.base (readPtr arch s.mem (r.pFree + off_pbRemain arch))) := by
  obtain ⟨l, hl, hnd, hs⟩ := hg.chains r hr
  obtain ⟨l2, rfl, hl2⟩ := freeChain_head arch s.mem _ l hl hf
  have hst : IsSlot arch r.base r.pFree :=
    hs _ (List.mem_append_right _ (List.mem_cons_self _ _))
  have hpg2 : pageOf r.pFree = r.base := isSlot_pageOf hst (hg.aligned r hr).1
  have hpg : pageOf o.pTrampoline = r.base := by
    rw [hot]
    exact hpg2
  have hconf : Conf r.pFree (r.pFree + sizeof_DETOUR_TRAMPOLINE arch) s.mem
      (memset s.mem r.pFree 0xcc (sizeof_DETOUR_TRAMPOLINE arch)) :=
    conf_memset _ _ _ _ _ _ ⟨Nat.le_refl _, Nat.le_refl _⟩
  generalize memset s.mem r.pFree 0xcc (sizeof_DETOUR_TRAMPOLINE arch) = m2 at hconf
  generalize hnext : readPtr arch s.mem (r.pFree + off_pbRemain arch) = next at hl2
  have hpt : pendingIn (o :: ops) r.base = r.pFree :: pendingIn ops r.base := by
    rw [pendingIn_cons]
    simp [hro, hpg2, hot]
  have hpo : ∀ b, b ≠ r.base → pendingIn (o :: ops) b = pendingIn ops b := by
    intro b hb
    rw [pendingIn_cons]
    simp [hro, hpg2, hot, Ne.symm hb]
  have hlist : ∀ l : List Nat, (pendingIn (o :: ops) r.base).reverse ++ l =
      (pendingIn ops r.base).reverse ++ (r.pFree :: l) := by
    intro l
    rw [hpt]
    simp
  have key : ∀ r2 ∈ s.s_pRegions, ∀ l, FreeChain arch s.mem r2.pFree l → ∀ a ∈ l,
      a ≠ r.pFree → ∀ x, inSlot arch a x → m2 x = s.mem x := by
    intro r2 hr2 l hl a ha hne x hx
    obtain ⟨hsa, -⟩ := free_slot_facts hg hr2 hl ha
    have hd := slots_disjoint hsa hst (hg.aligned r2 hr2).1 (hg.aligned r hr).1 hne hx
    apply hconf
    unfold inSlot at hd
    omega
  have hne2 : ∀ a ∈ l2, a ≠ r.pFree := by
    intro a ha e
    rw [List.nodup_append] at hnd
    have := hnd.2.1
    rw [List.nodup_cons] at this
    exact this.1 (e ▸ ha)
  have hother : ∀ r2 ∈ s.s_pRegions, r2.base ≠ r.base → ∀ l, FreeChain arch s.mem r2.pFree l →
      ∀ a ∈ l, a ≠ r.pFree := by
    intro r2 hr2 hb l hl a ha e
    obtain ⟨hsa, -⟩ := free_slot_facts hg hr2 hl ha
    have h1 := isSlot_pageOf hsa (hg.aligned r2 hr2).1
    have h2 := isSlot_pageOf hst (hg.aligned r hr).1
    rw [e, h2] at h1
    exact hb h1.symm
  have hchain2 : FreeChain arch m2 next l2 :=
    freeChain_congr arch s.mem m2 _ l2 hl2 (fun a ha x hx =>
      key r hr _ hl a (List.mem_cons_of_mem _ ha) (hne2 a ha) x hx)
  constructor
  · refine ⟨?_, ?_, ?_, ?_⟩
    · intro r2 hr2
      obtain ⟨r1, hr1, hb, -⟩ := mem_setFree hr2
      rw [hb]
      exact hg.aligned r1 hr1
    · rw [setFree_map_base]
      exact hg.distinct
    · intro r2 hr2
      obtain ⟨r1, hr1, hb, hcase⟩ := mem_setFree hr2
      rcases hcase with ⟨hbp, hfr⟩ | ⟨hbp, rfl⟩
      · have e : r1 = r := base_eq_of_nodup hr1 hr hbp hg.distinct
        subst e
        rw [hb, hfr]
        refine ⟨l2, hchain2, ?_, ?_⟩
        · rw [hlist]
          exact hnd
        · rw [hlist]
          exact hs
      · obtain ⟨l1, hl1, hnd1, hs1⟩ := hg.chains _ hr1
        rw [hpo _ hbp]
        exact ⟨l1, freeChain_congr arch s.mem m2 _ l1 hl1 (fun a ha x hx =>
          key _ hr1 l1 hl1 a ha (hother _ hr1 hbp l1 hl1 a ha) x hx), hnd1, hs1⟩
    · intro o2 ho2 hr2
      have : ∃ r1 ∈ s.s_pRegions, r1.base = pageOf o2.pTrampoline := by
        rcases List.mem_cons.mp ho2 with rfl | h2
        · exact ⟨r, hr, hpg.symm⟩
        · exact hg.owned o2 h2 hr2
      obtain ⟨r1, hr1, hb1⟩ := this
      obtain ⟨r2, hr2m, hb2, -⟩ := setFree_mem r.base next hr1
      exact ⟨r2, hr2m, by rw [hb2, hb1]⟩
  · constructor
    · intro r1 hr1
      obtain ⟨r2, hr2m, hb2, hcase⟩ := setFree_mem r.base next hr1
      refine ⟨r2, hr2m, hb2, ?_⟩
      intro l0 ⟨l1, hl1, e⟩
      rcases hcase with ⟨hbp, hfr⟩ | ⟨hbp, rfl⟩
      · have e2 : r1 = r := base_eq_of_nodup hr1 hr hbp hg.distinct
        subst e2
        have e3 := freeChain_unique arch s.mem _ _ _ hl1 hl
        subst e3
        refine ⟨l2, by rw [hfr]; exact hchain2, ?_⟩
        rw [hb2, e, hlist]
      · refine ⟨l1, freeChain_congr arch s.mem m2 _ l1 hl1 (fun a ha x hx =>
          key _ hr1 l1 hl1 a ha (hother _ hr1 hbp l1 hl1 a ha) x hx), ?_⟩
        rw [e, hpo _ hbp]
    · intro x hx
      left
      refine ⟨r, hr, _, ⟨_, hl, rfl⟩, r.pFree,
        List.mem_append_right _ (List.mem_cons_self _ _), ?_⟩
      unfold inSlot
      by_contra hcon
      exact hx (hconf x (by omega))

theorem thread_loop_spec (arch : Arch) (pT n : Nat) (hpT : 0 < pT)
    (hbits : pT + (n + 1) * sizeof_DETOUR_TRAMPOLINE arch ≤ 2 ^ ptrBits arch) :
    ∀ (i : Nat) (m : Mem) (p : Nat) (l : List Nat), i ≤ n → FreeChain arch m p l → l.Nodup →
      (∀ a ∈ l, ∃ j, i < j ∧ 2 ≤ j ∧ j ≤ n ∧ a = pT + j * sizeof_DETOUR_TRAMPOLINE arch) →
      p < 2 ^ ptrBits arch →
      ∃ l2, FreeChain arch (alloc_thread_loop arch pT i m p).1
          (alloc_thread_loop arch pT i m p).2 l2 ∧ l2.Nodup ∧
        (∀ a ∈ l2, ∃ j, 2 ≤ j ∧ j ≤ n ∧ a = pT + j * sizeof_DETOUR_TRAMPOLINE arch) ∧
        Conf pT (pT + (n + 1) * sizeof_DETOUR_TRAMPOLINE arch) m
          (alloc_thread_loop arch pT i m p).1 ∧
        (2 ≤ i → (alloc_thread_loop arch pT i m p).2 =
          pT + 2 * sizeof_DETOUR_TRAMPOLINE arch) := by
  have hsz := slot_size_bounds arch
  intro i
  induction i with
  | zero =>
    intro m p l _ hl hnd hel _
    refine ⟨l, hl, hnd, ?_, conf_refl _ _ _, ?_⟩
    · intro a ha
      obtain ⟨j, -, h2, h3, h4⟩ := hel a ha
      exact ⟨j, h2, h3, h4⟩
    · intro h
      omega
  | succ i ih =>
    intro m p l hin hl hnd hel hp
    by_cases hi : i + 1 > 1
    · have hstep : alloc_thread_loop arch pT (i + 1) m p =
          alloc_thread_loop arch pT i
            (writePtr arch m (pT + (i + 1) * sizeof_DETOUR_TRAMPOLINE arch + off_pbRemain arch) p)
            (pT + (i + 1) * sizeof_DETOUR_TRAMPOLINE arch) := by
        simp [alloc_thread_loop, hi]
      rw [hstep]
      have hle : (i + 1 + 1) * sizeof_DETOUR_TRAMPOLINE arch ≤
          (n + 1) * sizeof_DETOUR_TRAMPOLINE arch := Nat.mul_le_mul_right _ (by omega)
      rw [Nat.add_mul (i + 1) 1] at hle
      generalize hslot : pT + (i + 1) * sizeof_DETOUR_TRAMPOLINE arch = slot at *
      have hfar : ∀ a ∈ l, slot + sizeof_DETOUR_TRAMPOLINE arch ≤ a := by
        intro a ha
        obtain ⟨j, hj1, -, -, rfl⟩ := hel a ha
        have : (i + 1 + 1) * sizeof_DETOUR_TRAMPOLINE arch ≤ j * sizeof_DETOUR_TRAMPOLINE arch :=
          Nat.mul_le_mul_right _ (by omega)
        rw [Nat.add_mul (i + 1) 1] at this
        omega
      have hchain : FreeChain arch (writePtr arch m (slot + off_pbRemain arch) p) slot
          (slot :: l) := by
        refine ⟨rfl, by omega, ?_⟩
        rw [readPtr_writePtr arch _ _ _ hp]
        apply freeChain_congr arch m _ _ l hl
        intro a ha x hx
        have := hfar a ha
        unfold inSlot at hx
        exact conf_writePtr arch _ _ m _ p ⟨Nat.le_refl _, Nat.le_refl _⟩ x (by omega)
      have hnd2 : (slot :: l).Nodup := by
        rw [List.nodup_cons]
        refine ⟨?_, hnd⟩
        intro hmem
        have := hfar slot hmem
        omega
      have hel2 : ∀ a ∈ slot :: l, ∃ j, i < j ∧ 2 ≤ j ∧ j ≤ n ∧
          a = pT + j * sizeof_DETOUR_TRAMPOLINE arch := by
        intro a ha
        rcases List.mem_cons.mp ha with rfl | h2
        · exact ⟨i + 1, by omega, by omega, hin, hslot.symm⟩
        · obtain ⟨j, hj1, hj2, hj3, hj4⟩ := hel a h2
          exact ⟨j, by omega, hj2, hj3, hj4⟩
      obtain ⟨l2, h1, h2, h3, h4, h5⟩ := ih _ slot (slot :: l) (by omega) hchain hnd2 hel2
        (by omega)
      refine ⟨l2, h1, h2, h3, ?_, ?_⟩
      · refine conf_trans (conf_writePtr arch _ _ _ _ _ ⟨by omega, by omega⟩) h4
      · intro _
        by_cases h2i : 2 ≤ i
        · exact h5 h2i
        · have hi1 : i = 1 := by omega
          subst hi1
          simp [alloc_thread_loop]
          omega
    · have hstep : alloc_thread_loop arch pT (i + 1) m p = (m, p) := by
        simp [alloc_thread_loop, hi]
      rw [hstep]
      refine ⟨l, hl, hnd, ?_, conf_refl _ _ _, ?_⟩
      · intro a ha
        obtain ⟨j, -, h2, h3, h4⟩ := hel a ha
        exact ⟨j, h2, h3, h4⟩
      · intro h
        omega

theorem new_region_facts (arch : Arch) (m : Mem) (pMdl pbTry : Nat)
    (hbits : pbTry + DETOUR_REGION_SIZE ≤ 2 ^ ptrBits arch) :
    ∃ l, FreeChain arch
        (alloc_thread_loop arch (pbTry + sizeof_DETOUR_TRAMPOLINE arch)
          (DETOUR_TRAMPOLINES_PER_REGION arch - 1) m 0).1
        (new_region arch m pMdl pbTry).pFree l ∧ l.Nodup ∧
      (∀ a ∈ l, IsSlot arch pbTry a) ∧
      Conf pbTry (pbTry + DETOUR_REGION_SIZE) m
        (alloc_thread_loop arch (pbTry + sizeof_DETOUR_TRAMPOLINE arch)
          (DETOUR_TRAMPOLINES_PER_REGION arch - 1) m 0).1 ∧
      (new_region arch m pMdl pbTry).pFree ≠ 0 ∧
      (new_region arch m pMdl pbTry).base = pbTry := by
  have hsz := slot_size_bounds arch
  have hN : 2 ≤ DETOUR_TRAMPOLINES_PER_REGION arch - 1 := by cases arch <;> decide
  have hb2 : pbTry + sizeof_DETOUR_TRAMPOLINE arch +
      (DETOUR_TRAMPOLINES_PER_REGION arch - 1 + 1) * sizeof_DETOUR_TRAMPOLINE arch ≤
      pbTry + DETOUR_REGION_SIZE := by
    have h1 : DETOUR_TRAMPOLINES_PER_REGION arch - 1 + 1 = DETOUR_TRAMPOLINES_PER_REGION arch := by
      omega
    rw [h1]
    have h2 := hsz.2.2
    rw [Nat.add_mul] at h2
    omega
  obtain ⟨l, h1, h2, h3, h4, h5⟩ := thread_loop_spec arch (pbTry + sizeof_DETOUR_TRAMPOLINE arch)
    (DETOUR_TRAMPOLINES_PER_REGION arch - 1) (by omega) (by omega)
    (DETOUR_TRAMPOLINES_PER_REGION arch - 1) m 0 [] (Nat.le_refl _) rfl List.nodup_nil
    (fun a ha => by cases ha) (Nat.two_pow_pos _)
  refine ⟨l, h1, h2, ?_, conf_mono h4 (by omega) hb2, ?_, rfl⟩
  · intro a ha
    obtain ⟨j, hj1, hj2, rfl⟩ := h3 a ha
    refine ⟨j + 1, by omega, by omega, ?_⟩
    rw [Nat.add_mul]
    omega
  · show (alloc_thread_loop arch (pbTry + sizeof_DETOUR_TRAMPOLINE arch)
      (DETOUR_TRAMPOLINES_PER_REGION arch - 1) m 0).2 ≠ 0
    rw [h5 hN]
    omega

theorem good_new_region {arch : Arch} {ops : List DetourOperation} (s : State)
    (hg : GoodOps arch ops s.mem s.s_pRegions) (pMdl pbTry : Nat) (hP : pbTry ≠ 0)
    (hal : pbTry % DETOUR_REGION_SIZE = 0)
    (hbits : pbTry + DETOUR_REGION_SIZE ≤ 2 ^ ptrBits arch)
    (hnew : ∀ r ∈ s.s_pRegions, r.base ≠ pbTry) :
    GoodOps arch ops (alloc_new_region arch s pMdl pbTry).mem
      (alloc_new_region arch s pMdl pbTry).s_pRegions ∧
    Evolves arch ops s.mem s.s_pRegions ops (alloc_new_region arch s pMdl pbTry).mem
      (alloc_new_region arch s pMdl pbTry).s_pRegions := by
  obtain ⟨l, hl, hnd, hsl, hconf, -, hbase⟩ := new_region_facts arch s.mem pMdl pbTry hbits
  show GoodOps arch ops (alloc_thread_loop arch (pbTry + sizeof_DETOUR_TRAMPOLINE arch)
      (DETOUR_TRAMPOLINES_PER_REGION arch - 1) s.mem 0).1
      (new_region arch s.mem pMdl pbTry :: s.s_pRegions) ∧
    Evolves arch ops s.mem s.s_pRegions ops
      (alloc_thread_loop arch (pbTry + sizeof_DETOUR_TRAMPOLINE arch)
        (DETOUR_TRAMPOLINES_PER_REGION arch - 1) s.mem 0).1
      (new_region arch s.mem pMdl pbTry :: s.s_pRegions)
  generalize (alloc_thread_loop arch (pbTry + sizeof_DETOUR_TRAMPOLINE arch)
      (DETOUR_TRAMPOLINES_PER_REGION arch - 1) s.mem 0).1 = m1 at hl hconf
  generalize new_region arch s.mem pMdl pbTry = rn at hl hbase
  have hpn : pendingIn ops rn.base = [] := by
    rw [List.eq_nil_iff_forall_not_mem]
    intro t ht
    obtain ⟨o, ho, hr, hpg, -⟩ := mem_pendingIn.mp ht
    obtain ⟨r, hrr, hb⟩ := hg.owned o ho hr
    exact hnew r hrr (by rw [hb, hpg, hbase])
  have key : ∀ r ∈ s.s_pRegions, ∀ l, FreeChain arch s.mem r.pFree l → ∀ a ∈ l, ∀ x,
      inSlot arch a x → m1 x = s.mem x := by
    intro r hr l1 hl1 a ha x hx
    obtain ⟨hsa, -⟩ := free_slot_facts hg hr hl1 ha
    have hp := isSlot_inPage hsa hx
    have hd := inPage_disjoint (hg.aligned r hr).1 hal (hnew r hr) hp
    apply hconf
    unfold inPage at hd
    omega
  obtain ⟨g2, b2⟩ := goodOps_congr hg key
  constructor
  · refine ⟨?_, ?_, ?_, ?_⟩
    · intro r hr
      rcases List.mem_cons.mp hr with rfl | h
      · rw [hbase]
        exact ⟨hal, hP, hbits⟩
      · exact hg.aligned r h
    · rw [List.map_cons, List.nodup_cons]
      refine ⟨?_, hg.distinct⟩
      intro hm
      obtain ⟨r, hr, hb⟩ := List.mem_map.mp hm
      exact hnew r hr (by rw [hb, hbase])
    · intro r hr
      rcases List.mem_cons.mp hr with rfl | h
      · refine ⟨l, hl, ?_, ?_⟩
        · rw [hpn]
          simpa using hnd
        · rw [hpn, hbase]
          simpa using hsl
      · exact g2.chains r h
    · intro o ho hr
      obtain ⟨r, hrr, hb⟩ := hg.owned o ho hr
      exact ⟨r, List.mem_cons_of_mem _ hrr, hb⟩
  · constructor
    · intro r hr
      exact ⟨r, List.mem_cons_of_mem _ hr, rfl, b2 r hr⟩
    · intro x hx
      right
      refine ⟨rn, List.mem_cons_self _ _, ?_, ?_⟩
      · intro r1 hr1
        rw [hbase]
        exact hnew r1 hr1
      · rw [hbase]
        unfold inPage
        by_contra hcon
        exact hx (hconf x (by omega))

theorem found_region_spec {arch : Arch} {ops : List DetourOperation} (s : State)
    (hg : GoodOps arch ops s.mem s.s_pRegions) (r : DETOUR_REGION) (hr : r ∈ s.s_pRegions)
    (hf : r.pFree ≠ 0) (pLo pHi : Nat) :
    ((alloc_found_region arch s r pLo pHi).1 = 0 →
      (alloc_found_region arch s r pLo pHi).2 = s) ∧
    ((alloc_found_region arch s r pLo pHi).1 ≠ 0 →
      ∀ o : DetourOperation, o.fIsRemove = false →
        o.pTrampoline = (alloc_found_region arch s r pLo pHi).1 →
        GoodOps arch (o :: ops) (alloc_found_region arch s r pLo pHi).2.mem
          (alloc_found_region arch s r pLo pHi).2.s_pRegions ∧
        Evolves arch ops s.mem s.s_pRegions (o :: ops)
          (alloc_found_region arch s r pLo pHi).2.mem
          (alloc_found_region arch s r pLo pHi).2.s_pRegions) := by
  unfold alloc_found_region
  dsimp only
  by_cases hc : arch ≠ Arch.X64 ∧ (r.pFree < pLo ∨ r.pFree > pHi)
  · rw [if_pos hc]
    exact ⟨fun _ => rfl, fun h => absurd rfl h⟩
  · rw [if_neg hc]
    refine ⟨fun h => absurd h hf, ?_⟩
    intro _ o hro hot
    exact good_pop s hg r hr hf o hro hot

theorem found_region_fields (arch : Arch) (s : State) (r : DETOUR_REGION) (pLo pHi : Nat) :
    (alloc_found_region arch s r pLo pHi).2.s_pPendingOperations = s.s_pPendingOperations ∧
    (alloc_found_region arch s r pLo pHi).2.s_nPendingError = s.s_nPendingError ∧
    (alloc_found_region arch s r pLo pHi).2.s_ppPendingError = s.s_ppPendingError ∧
    (alloc_found_region arch s r pLo pHi).2.s_nPendingThreadId = s.s_nPendingThreadId ∧
    (alloc_found_region arch s r pLo pHi).2.s_fIgnoreTooSmall = s.s_fIgnoreTooSmall ∧
    (alloc_found_region arch s r pLo pHi).2.s_fRetainRegions = s.s_fRetainRegions ∧
    (alloc_found_region arch s r pLo pHi).2.protection = s.protection := by
  unfold alloc_found_region
  dsimp only
  by_cases hc : arch ≠ Arch.X64 ∧ (r.pFree < pLo ∨ r.pFree > pHi)
  · rw [if_pos hc]
    simp
  · rw [if_neg hc]
    simp

theorem alloc_fields (arch : Arch) (page : Option (Nat × Nat)) (s : State) (T : Nat) :
    (detour_alloc_trampoline arch page s T).2.s_pPendingOperations = s.s_pPendingOperations ∧
    (detour_alloc_trampoline arch page s T).2.s_nPendingError = s.s_nPendingError ∧
    (detour_alloc_trampoline arch page s T).2.s_ppPendingError = s.s_ppPendingError ∧
    (detour_alloc_trampoline arch page s T).2.s_nPendingThreadId = s.s_nPendingThreadId ∧
    (detour_alloc_trampoline arch page s T).2.s_fIgnoreTooSmall = s.s_fIgnoreTooSmall ∧
    (detour_alloc_trampoline arch page s T).2.s_fRetainRegions = s.s_fRetainRegions ∧
    (detour_alloc_trampoline arch page s T).2.protection = s.protection := by
  unfold detour_alloc_trampoline
  dsimp only
  cases h1 : (regionAt s.s_pRegions (alloc_default_region s)).filter
      (fun r => decide (alloc_default_region s ≠ 0 ∧ r.pFree ≠ 0)) with
  | some r => exact found_region_fields arch _ r _ _
  | none =>
    dsimp only
    cases h2 : s.s_pRegions.find? (fun r => decide (r.pFree ≠ 0)) with
    | some r => exact found_region_fields arch _ r _ _
    | none =>
      dsimp only
      cases page with
      | none => simp
      | some pg =>
        obtain ⟨pMdl, pbTry⟩ := pg
        dsimp only
        by_cases h3 : pbTry = 0
        · rw [if_pos h3]
          simp
        · rw [if_neg h3]
          exact found_region_fields arch _ _ _ _

theorem filter_regionAt_some {rs : List DETOUR_REGION} {p : Nat} {r : DETOUR_REGION}
    (h1 : (regionAt rs p).filter (fun r => decide (p ≠ 0 ∧ r.pFree ≠ 0)) = some r) :
    r ∈ rs ∧ r.pFree ≠ 0 := by
  cases hra : regionAt rs p with
  | none =>
    rw [hra] at h1
    simp at h1
  | some r0 =>
    rw [hra] at h1
    simp [Option.filter] at h1
    obtain ⟨h2, h3⟩ := h1
    subst h3
    exact ⟨(regionAt_some hra).1, h2.2⟩

theorem find_free_some {rs : List DETOUR_REGION} {r : DETOUR_REGION}
    (h2 : rs.find? (fun r => decide (r.pFree ≠ 0)) = some r) : r ∈ rs ∧ r.pFree ≠ 0 := by
  refine ⟨List.mem_of_find?_eq_some h2, ?_⟩
  have := List.find?_some h2
  simpa using this

theorem good_alloc {arch : Arch} {ops : List DetourOperation} (page : Option (Nat × Nat))
    (s : State) (T : Nat) (hg : GoodOps arch ops s.mem s.s_pRegions)
    (hfresh : ∀ pMdl pbTry, page = some (pMdl, pbTry) →
      pbTry % DETOUR_REGION_SIZE = 0 ∧ pbTry + DETOUR_REGION_SIZE ≤ 2 ^ ptrBits arch ∧
      ∀ r ∈ s.s_pRegions, r.base ≠ pbTry) :
    ((detour_alloc_trampoline arch page s T).1 = 0 →
      GoodOps arch ops (detour_alloc_trampoline arch page s T).2.mem
        (detour_alloc_trampoline arch page s T).2.s_pRegions ∧
      Evolves arch ops s.mem s.s_pRegions ops (detour_alloc_trampoline arch page s T).2.mem
        (detour_alloc_trampoline arch page s T).2.s_pRegions) ∧
    ((detour_alloc_trampoline arch page s T).1 ≠ 0 →
      ∀ o : DetourOperation, o.fIsRemove = false →
        o.pTrampoline = (detour_alloc_trampoline arch page s T).1 →
        GoodOps arch (o :: ops) (detour_alloc_trampoline arch page s T).2.mem
          (detour_alloc_trampoline arch page s T).2.s_pRegions ∧
        Evolves arch ops s.mem s.s_pRegions (o :: ops)
          (detour_alloc_trampoline arch page s T).2.mem
          (detour_alloc_trampoline arch page s T).2.s_pRegions) := by
  have same : ∀ (v : Nat) (r : DETOUR_REGION) (pLo pHi : Nat), r ∈ s.s_pRegions → r.pFree ≠ 0 →
      ((alloc_found_region arch { s with s_pRegion := v } r pLo pHi).1 = 0 →
        GoodOps arch ops (alloc_found_region arch { s with s_pRegion := v } r pLo pHi).2.mem
          (alloc_found_region arch { s with s_pRegion := v } r pLo pHi).2.s_pRegions ∧
        Evolves arch ops s.mem s.s_pRegions ops
          (alloc_found_region arch { s with s_pRegion := v } r pLo pHi).2.mem
          (alloc_found_region arch { s with s_pRegion := v } r pLo pHi).2.s_pRegions) ∧
      ((alloc_found_region arch { s with s_pRegion := v } r pLo pHi).1 ≠ 0 →
        ∀ o : DetourOperation, o.fIsRemove = false →
          o.pTrampoline = (alloc_found_region arch { s with s_pRegion := v } r pLo pHi).1 →
          GoodOps arch (o :: ops)
            (alloc_found_region arch { s with s_pRegion := v } r pLo pHi).2.mem
            (alloc_found_region arch { s with s_pRegion := v } r pLo pHi).2.s_pRegions ∧
          Evolves arch ops s.mem s.s_pRegions (o :: ops)
            (alloc_found_region arch { s with s_pRegion := v } r pLo pHi).2.mem
            (alloc_found_region arch { s with s_pRegion := v } r pLo pHi).2.s_pRegions) := by
    intro v r pLo pHi hr hf
    obtain ⟨h0, h1⟩ := @found_region_spec arch ops { s with s_pRegion := v } hg
      r hr hf pLo pHi
    refine ⟨fun h => ?_, h1⟩
    rw [h0 h]
    exact ⟨hg, evolves_refl _ _ _ _⟩
  unfold detour_alloc_trampoline
  dsimp only
  cases h1 : (regionAt s.s_pRegions (alloc_default_region s)).filter
      (fun r => decide (alloc_default_region s ≠ 0 ∧ r.pFree ≠ 0)) with
  | some r =>
    obtain ⟨hr, hf⟩ := filter_regionAt_some h1
    exact same _ r _ _ hr hf
  | none =>
    dsimp only
    cases h2 : s.s_pRegions.find? (fun r => decide (r.pFree ≠ 0)) with
    | some r =>
      obtain ⟨hr, hf⟩ := find_free_some h2
      exact same _ r _ _ hr hf
    | none =>
      dsimp only
      cases hpage : page with
      | none => exact ⟨fun _ => ⟨hg, evolves_refl _ _ _ _⟩, fun h => absurd rfl h⟩
      | some pg =>
        obtain ⟨pMdl, pbTry⟩ := pg
        dsimp only
        by_cases h3 : pbTry = 0
        · rw [if_pos h3]
          exact ⟨fun _ => ⟨hg, evolves_refl _ _ _ _⟩, fun h => absurd rfl h⟩
        · rw [if_neg h3]
          obtain ⟨hal, hbits, hnew⟩ := hfresh pMdl pbTry hpage
          obtain ⟨gn, en⟩ := good_new_region s hg pMdl pbTry h3 hal hbits hnew
          obtain ⟨_, -, -, -, -, hfn, -⟩ := new_region_facts arch s.mem pMdl pbTry hbits
          obtain ⟨h0, hp⟩ := found_region_spec (alloc_new_region arch s pMdl pbTry) gn
            (new_region arch s.mem pMdl pbTry) (List.mem_cons_self _ _) hfn
            (detour_find_jmp_bounds arch s.mem T).1 (detour_find_jmp_bounds arch s.mem T).2
          constructor
          · intro h
            rw [h0 h]
            exact ⟨gn, en⟩
          · intro h o hro hot
            obtain ⟨g3, e3⟩ := hp h o hro hot
            exact ⟨g3, evolves_trans hg gn en e3⟩

/-! ## The copy loops of attach -/

theorem arch_bounds (arch : Arch) :
    SIZE_OF_JMP arch + 2 - 1 + maxInstr arch + 8 * maxExtra arch ≤
      sizeof_DETOUR_TRAMPOLINE arch ∧
    8 * maxPool arch ≤ sizeof_rbCode arch ∧
    off_rAlign arch + sizeof_rAlign ≤ sizeof_DETOUR_TRAMPOLINE arch ∧
    off_rbRestore arch + (SIZE_OF_JMP arch + 2 - 1 + maxInstr arch) ≤ off_cbRestore arch ∧
    off_cbCode arch = sizeof_rbCode arch ∧
    sizeof_rbCode arch + 8 ≤ off_rbRestore arch + 6 ∧
    off_cbRestore arch + 1 ≤ off_rAlign arch ∧
    off_pbDetour arch + ptrSize arch ≤ sizeof_DETOUR_TRAMPOLINE arch ∧
    off_pbRemain arch = off_rAlign arch + sizeof_rAlign ∧
    off_pbDetour arch = off_pbRemain arch + ptrSize arch ∧
    sizeof_rAlign = 8 ∧ 1 ≤ SIZE_OF_JMP arch ∧ 0 < granule arch ∧
    sizeof_rbCode arch < 256 ∧ off_cbCode arch < off_rbRestore arch := by
  cases arch <;> decide

theorem validLen_bounds {arch : Arch} {n : Nat} (h : validLen arch n) :
    1 ≤ n ∧ n ≤ maxInstr arch ∧ n % granule arch = 0 := by
  cases arch <;> simp [validLen, maxInstr, granule] at * <;> omega

theorem ite_le_of {c : Prop} [Decidable c] {a b n : Nat} (ha : a ≤ n) (hb : b ≤ n) :
    (if c then a else b) ≤ n := by
  split <;> assumption

theorem filler_x86_le (m : Mem) (p : Nat) : detour_is_code_filler_x86 m p ≤ 11 := by
  unfold detour_is_code_filler_x86
  repeat' apply ite_le_of
  all_goals decide

theorem filler_ARM_cases (m : Mem) (p : Nat) :
    detour_is_code_filler_ARM m p = 0 ∨ detour_is_code_filler_ARM m p = 2 := by
  unfold detour_is_code_filler_ARM
  split_ifs <;> simp

theorem filler_ARM64_cases (m : Mem) (p : Nat) :
    detour_is_code_filler_ARM64 m p = 0 ∨ detour_is_code_filler_ARM64 m p = 4 := by
  unfold detour_is_code_filler_ARM64
  split_ifs <;> simp

theorem filler_bounds (arch : Arch) (m : Mem) (p : Nat) :
    detour_is_code_filler arch m p ≤ maxInstr arch ∧
    detour_is_code_filler arch m p % granule arch = 0 := by
  cases arch
  · have := filler_x86_le m p
    simp only [detour_is_code_filler, maxInstr, granule]
    omega
  · have := filler_x86_le m p
    simp only [detour_is_code_filler, maxInstr, granule]
    omega
  · have := filler_ARM_cases m p
    simp only [detour_is_code_filler, maxInstr, granule]
    omega
  · have := filler_ARM64_cases m p
    simp only [detour_is_code_filler, maxInstr, granule]
    omega

theorem copy_loop_inv (arch : Arch) (copier : Copier) (hcop : CopierContract arch copier)
    (pbTarget t cbJump : Nat) (m0 : Mem) (hj1 : 1 ≤ cbJump)
    (hj2 : cbJump ≤ SIZE_OF_JMP arch + 2) :
    ∀ (fuel : Nat) (st : CopyState), ScanInv arch pbTarget t cbJump m0 st →
      st.nAlign < sizeof_rAlign →
      ScanInv arch pbTarget t cbJump m0
        (attach_copy_loop arch copier pbTarget t cbJump fuel st) := by
  have hK := arch_bounds arch
  intro fuel
  induction fuel with
  | zero =>
    intro st hinv _
    exact hinv
  | succ fuel ih =>
    intro st hinv hn
    unfold attach_copy_loop
    by_cases hlt : st.cbTarget < cbJump
    · rw [if_pos hlt]
      dsimp only
      obtain ⟨hv, hex, hcl, hpl, hph, hpb⟩ :=
        hcop st.mem st.pbTrampoline st.pbPool st.pbSrc
      obtain ⟨hv1, hv2, hv3⟩ := validLen_bounds hv
      generalize copier st.mem st.pbTrampoline st.pbPool st.pbSrc = r at *
      have hsrc := hinv.src
      have hlo := hinv.lo
      have hhi := hinv.hi
      have hpH := hinv.poolHi
      have hpL := hinv.poolLo
      have hsz := hinv.size
      have hnE : st.nAlign * maxExtra arch ≤ 7 * maxExtra arch :=
        Nat.mul_le_mul_right _ (by omega)
      have hnP : st.nAlign * maxPool arch ≤ 7 * maxPool arch :=
        Nat.mul_le_mul_right _ (by omega)
      have hsE : (st.nAlign + 1) * maxExtra arch = st.nAlign * maxExtra arch + maxExtra arch :=
        Nat.succ_mul _ _
      have hsP : (st.nAlign + 1) * maxPool arch = st.nAlign * maxPool arch + maxPool arch :=
        Nat.succ_mul _ _
      have hst1 : ScanInv arch pbTarget t cbJump m0
          { mem := writeBytes
              (writeBytes (writeBytes st.mem st.pbTrampoline r.code) r.pool r.poolBytes)
              (t + off_rAlign arch + st.nAlign)
              [(st.pbSrc + r.len - pbTarget) % 8 +
                8 * ((st.pbTrampoline + (st.pbSrc + r.len - st.pbSrc) + r.lExtra - t) % 32)],
            pbSrc := st.pbSrc + r.len,
            pbTrampoline := st.pbTrampoline + (st.pbSrc + r.len - st.pbSrc) + r.lExtra,
            pbPool := r.pool, cbTarget := st.pbSrc + r.len - pbTarget,
            nAlign := st.nAlign + 1 } := by
        refine ⟨?_, ?_, ?_, ?_, ?_, ?_, ?_, ?_, ?_⟩
        · show st.pbSrc + r.len = pbTarget + (st.pbSrc + r.len - pbTarget)
          omega
        · show t ≤ st.pbTrampoline + (st.pbSrc + r.len - st.pbSrc) + r.lExtra
          omega
        · show st.pbTrampoline + (st.pbSrc + r.len - st.pbSrc) + r.lExtra ≤
            t + (st.pbSrc + r.len - pbTarget) + (st.nAlign + 1) * maxExtra arch
          omega
        · show r.pool ≤ t + sizeof_rbCode arch
          omega
        · show t + sizeof_rbCode arch ≤ r.pool + (st.nAlign + 1) * maxPool arch
          omega
        · show st.nAlign + 1 ≤ sizeof_rAlign
          omega
        · show st.pbSrc + r.len - pbTarget ≤ cbJump - 1 + maxInstr arch
          omega
        · show (st.pbSrc + r.len - pbTarget) % granule arch = 0
          have e : st.pbSrc + r.len - pbTarget = st.cbTarget + r.len := by omega
          rw [e, Nat.add_mod, hinv.whole, hv3]
          simp
        · refine conf_trans hinv.conf ?_
          refine conf_trans (conf_trans (conf_writeBytes _ _ _ _ _ (Or.inr ⟨hlo, ?_⟩))
            (conf_writeBytes _ _ _ _ _ ?_)) (conf_writeBytes _ _ _ _ _ (Or.inr ⟨?_, ?_⟩))
          · rw [hcl]
            omega
          · rw [hpb]
            by_cases hz : st.pbPool - r.pool = 0
            · exact Or.inl hz
            · exact Or.inr ⟨by omega, by omega⟩
          · omega
          · simp only [List.length_singleton]
            omega
      split
      · exact hst1
      · split
        · exact hst1
        · rename_i hge _
          exact ih _ hst1 (by
            show st.nAlign + 1 < sizeof_rAlign
            simp only [ge_iff_le, not_le] at hge
            exact hge)
    · rw [if_neg hlt]
      exact hinv

theorem filler_loop_inv (arch : Arch) (pbTarget t cbJump : Nat) (m0 : Mem) (hj1 : 1 ≤ cbJump) :
    ∀ (fuel : Nat) (st : CopyState), ScanInv arch pbTarget t cbJump m0 st →
      ScanInv arch pbTarget t cbJump m0 (attach_filler_loop arch pbTarget cbJump fuel st) := by
  intro fuel
  induction fuel with
  | zero =>
    intro st hinv
    exact hinv
  | succ fuel ih =>
    intro st hinv
    unfold attach_filler_loop
    by_cases hlt : st.cbTarget < cbJump
    · rw [if_pos hlt]
      dsimp only
      by_cases hz : detour_is_code_filler arch st.mem st.pbSrc = 0
      · rw [if_pos hz]
        exact hinv
      · rw [if_neg hz]
        apply ih
        obtain ⟨hf1, hf2⟩ := filler_bounds arch st.mem st.pbSrc
        generalize detour_is_code_filler arch st.mem st.pbSrc = c at *
        have hsrc := hinv.src
        have hhi := hinv.hi
        have hsz := hinv.size
        refine ⟨?_, hinv.lo, ?_, hinv.poolHi, hinv.poolLo, hinv.count, ?_, ?_, hinv.conf⟩
        · show st.pbSrc + c = pbTarget + (st.pbSrc + c - pbTarget)
          omega
        · show st.pbTrampoline ≤ t + (st.pbSrc + c - pbTarget) + st.nAlign * maxExtra arch
          omega
        · show st.pbSrc + c - pbTarget ≤ cbJump - 1 + maxInstr arch
          omega
        · show (st.pbSrc + c - pbTarget) % granule arch = 0
          have e : st.pbSrc + c - pbTarget = st.cbTarget + c := by omega
          rw [e, Nat.add_mod, hinv.whole, hf2]
          simp
    · rw [if_neg hlt]
      exact hinv

theorem arm_prelude_inv (pbTarget t : Nat) (m0 : Mem) (st : CopyState)
    (hsrc : st.pbSrc = pbTarget) (hpt : st.pbTrampoline = t) (hcb : st.cbTarget = 0)
    (hn : st.nAlign = 0) (hpool : st.pbPool = t + sizeof_rbCode Arch.ARM)
    (hconf : Conf t (t + sizeof_DETOUR_TRAMPOLINE Arch.ARM) m0 st.mem) :
    SIZE_OF_JMP Arch.ARM ≤ (attach_arm_prelude pbTarget st).1 ∧
    (attach_arm_prelude pbTarget st).1 ≤ SIZE_OF_JMP Arch.ARM + 2 ∧
    (attach_arm_prelude pbTarget st).2.nAlign = 0 ∧
    ScanInv Arch.ARM pbTarget t (attach_arm_prelude pbTarget st).1 m0
      (attach_arm_prelude pbTarget st).2 := by
  have hbase : ∀ j, SIZE_OF_JMP Arch.ARM ≤ j → ScanInv Arch.ARM pbTarget t j m0 st := by
    intro j hj
    refine ⟨?_, ?_, ?_, ?_, ?_, ?_, ?_, ?_, hconf⟩
    · omega
    · omega
    · rw [hpt, hcb, hn]
      omega
    · omega
    · rw [hpool]
      omega
    · rw [hn]
      exact Nat.zero_le _
    · rw [hcb]
      exact Nat.zero_le _
    · rw [hcb]
      rfl
  unfold attach_arm_prelude
  split
  · have hA : SIZE_OF_JMP Arch.ARM ≤ SIZE_OF_JMP Arch.ARM + 2 := Nat.le_add_right _ _
    have hB : SIZE_OF_JMP Arch.ARM + 2 ≤ SIZE_OF_JMP Arch.ARM + 2 := Nat.le_refl _
    split
    · refine ⟨hA, hB, hn, ?_, ?_, ?_, ?_, ?_, ?_, ?_, ?_, ?_⟩
      · show st.pbSrc + 10 = pbTarget + (st.pbSrc + 10 - pbTarget)
        omega
      · show t ≤ st.pbTrampoline + 10
        omega
      · show st.pbTrampoline + 10 ≤ t + (st.pbSrc + 10 - pbTarget) + st.nAlign * maxExtra Arch.ARM
        omega
      · show st.pbPool ≤ t + sizeof_rbCode Arch.ARM
        omega
      · show t + sizeof_rbCode Arch.ARM ≤ st.pbPool + st.nAlign * maxPool Arch.ARM
        omega
      · show st.nAlign ≤ sizeof_rAlign
        omega
      · show st.pbSrc + 10 - pbTarget ≤ SIZE_OF_JMP Arch.ARM + 2 - 1 + maxInstr Arch.ARM
        simp only [SIZE_OF_JMP, maxInstr]
        omega
      · show (st.pbSrc + 10 - pbTarget) % granule Arch.ARM = 0
        simp only [granule]
        omega
      · refine conf_trans hconf ?_
        have hS : sizeof_DETOUR_TRAMPOLINE Arch.ARM = 104 := rfl
        refine conf_trans (conf_trans (conf_memcpy _ _ _ _ _ _ ⟨?_, ?_⟩)
          (conf_memcpy _ _ _ _ _ _ ⟨?_, ?_⟩)) (conf_memcpy _ _ _ _ _ _ ⟨?_, ?_⟩) <;> omega
    · exact ⟨hA, hB, hn, hbase _ hA⟩
  · have hA : SIZE_OF_JMP Arch.ARM ≤ SIZE_OF_JMP Arch.ARM := Nat.le_refl _
    have hB : SIZE_OF_JMP Arch.ARM ≤ SIZE_OF_JMP Arch.ARM + 2 := Nat.le_add_right _ _
    split
    · refine ⟨hA, hB, hn, ?_, ?_, ?_, ?_, ?_, ?_, ?_, ?_, ?_⟩
      · show st.pbSrc + 8 = pbTarget + (st.pbSrc + 8 - pbTarget)
        omega
      · show t ≤ st.pbTrampoline + 8
        omega
      · show st.pbTrampoline + 8 ≤ t + (st.pbSrc + 8 - pbTarget) + st.nAlign * maxExtra Arch.ARM
        omega
      · show st.pbPool ≤ t + sizeof_rbCode Arch.ARM
        omega
      · show t + sizeof_rbCode Arch.ARM ≤ st.pbPool + st.nAlign * maxPool Arch.ARM
        omega
      · show st.nAlign ≤ sizeof_rAlign
        omega
      · show st.pbSrc + 8 - pbTarget ≤ SIZE_OF_JMP Arch.ARM - 1 + maxInstr Arch.ARM
        simp only [SIZE_OF_JMP, maxInstr]
        omega
      · show (st.pbSrc + 8 - pbTarget) % granule Arch.ARM = 0
        simp only [granule]
        omega
      · refine conf_trans hconf ?_
        have hS : sizeof_DETOUR_TRAMPOLINE Arch.ARM = 104 := rfl
        refine conf_trans (conf_memcpy _ _ _ _ _ _ ⟨?_, ?_⟩)
          (conf_memcpy _ _ _ _ _ _ ⟨?_, ?_⟩) <;> omega
    · exact ⟨hA, hB, hn, hbase _ hA⟩

theorem loops_inv (arch : Arch) (copier : Copier) (hcop : CopierContract arch copier)
    (m : Mem) (pbTarget t : Nat) (pre : Nat × CopyState) (h1 : SIZE_OF_JMP arch ≤ pre.1)
    (h2 : pre.1 ≤ SIZE_OF_JMP arch + 2) (h4 : pre.2.nAlign = 0)
    (h5 : ScanInv arch pbTarget t pre.1 m pre.2) :
    ScanInv arch pbTarget t pre.1 m
      (attach_filler_loop arch pbTarget pre.1 pre.1
        (attach_copy_loop arch copier pbTarget t pre.1 sizeof_rAlign pre.2)) := by
  have hK := arch_bounds arch
  apply filler_loop_inv arch pbTarget t pre.1 m (by omega)
  apply copy_loop_inv arch copier hcop pbTarget t pre.1 m (by omega) h2 _ _ h5
  rw [h4]
  decide

theorem init_inv (arch : Arch) (m : Mem) (pbTarget t : Nat) :
    ScanInv arch pbTarget t (SIZE_OF_JMP arch) m (attach_init arch m pbTarget t) := by
  have hK := arch_bounds arch
  refine ⟨?_, ?_, ?_, ?_, ?_, ?_, ?_, ?_, ?_⟩
  · rfl
  · exact Nat.le_refl _
  · show t ≤ t + 0 + 0 * maxExtra arch
    omega
  · exact Nat.le_refl _
  · show t + sizeof_rbCode arch ≤ t + sizeof_rbCode arch + 0 * maxPool arch
    omega
  · exact Nat.zero_le _
  · exact Nat.zero_le _
  · exact Nat.zero_mod _
  · exact conf_memset _ _ _ _ _ _ ⟨by omega, by omega⟩

theorem attach_scan_eq (arch : Arch) (copier : Copier) (pbTarget t : Nat) (st0 : CopyState)
    (pre : Nat × CopyState)
    (hpre : (match arch with
      | .ARM => attach_arm_prelude pbTarget st0
      | _ => (SIZE_OF_JMP arch, st0)) = pre) :
    attach_scan arch copier pbTarget t st0 =
      (pre.1, attach_filler_loop arch pbTarget pre.1 pre.1
        (attach_copy_loop arch copier pbTarget t pre.1 sizeof_rAlign pre.2)) := by
  unfold attach_scan
  dsimp only
  rw [hpre]

theorem scan_inv (arch : Arch) (copier : Copier) (hcop : CopierContract arch copier)
    (m : Mem) (pbTarget t : Nat) :
    SIZE_OF_JMP arch ≤ (attach_scan arch copier pbTarget t (attach_init arch m pbTarget t)).1 ∧
    (attach_scan arch copier pbTarget t (attach_init arch m pbTarget t)).1 ≤
      SIZE_OF_JMP arch + 2 ∧
    (arch ≠ Arch.ARM →
      (attach_scan arch copier pbTarget t (attach_init arch m pbTarget t)).1 =
        SIZE_OF_JMP arch) ∧
    ScanInv arch pbTarget t (attach_scan arch copier pbTarget t (attach_init arch m pbTarget t)).1
      m (attach_scan arch copier pbTarget t (attach_init arch m pbTarget t)).2 := by
  have hi := init_inv arch m pbTarget t
  have key : ∀ pre : Nat × CopyState,
      attach_scan arch copier pbTarget t (attach_init arch m pbTarget t) =
        (pre.1, attach_filler_loop arch pbTarget pre.1 pre.1
          (attach_copy_loop arch copier pbTarget t pre.1 sizeof_rAlign pre.2)) →
      SIZE_OF_JMP arch ≤ pre.1 → pre.1 ≤ SIZE_OF_JMP arch + 2 →
      (arch ≠ Arch.ARM → pre.1 = SIZE_OF_JMP arch) → pre.2.nAlign = 0 →
      ScanInv arch pbTarget t pre.1 m pre.2 →
      SIZE_OF_JMP arch ≤
        (attach_scan arch copier pbTarget t (attach_init arch m pbTarget t)).1 ∧
      (attach_scan arch copier pbTarget t (attach_init arch m pbTarget t)).1 ≤
        SIZE_OF_JMP arch + 2 ∧
      (arch ≠ Arch.ARM →
        (attach_scan arch copier pbTarget t (attach_init arch m pbTarget t)).1 =
          SIZE_OF_JMP arch) ∧
      ScanInv arch pbTarget t
        (attach_scan arch copier pbTarget t (attach_init arch m pbTarget t)).1
        m (attach_scan arch copier pbTarget t (attach_init arch m pbTarget t)).2 := by
    intro pre hpre h1 h2 h3 h4 h5
    rw [hpre]
    exact ⟨h1, h2, h3, loops_inv arch copier hcop m pbTarget t pre h1 h2 h4 h5⟩
  cases arch
  · exact key (SIZE_OF_JMP Arch.X86, attach_init Arch.X86 m pbTarget t)
      (attach_scan_eq Arch.X86 copier pbTarget t _ _ rfl) (Nat.le_refl _)
      (Nat.le_add_right _ _) (fun _ => rfl) rfl hi
  · exact key (SIZE_OF_JMP Arch.X64, attach_init Arch.X64 m pbTarget t)
      (attach_scan_eq Arch.X64 copier pbTarget t _ _ rfl) (Nat.le_refl _)
      (Nat.le_add_right _ _) (fun _ => rfl) rfl hi
  · obtain ⟨h1, h2, h3, h4⟩ := arm_prelude_inv pbTarget t m (attach_init Arch.ARM m pbTarget t)
      rfl rfl rfl rfl rfl hi.conf
    exact key _ (attach_scan_eq Arch.ARM copier pbTarget t _ _ rfl) h1 h2
      (fun h => absurd rfl h) h3 h4
  · exact key (SIZE_OF_JMP Arch.ARM64, attach_init Arch.ARM64 m pbTarget t)
      (attach_scan_eq Arch.ARM64 copier pbTarget t _ _ rfl) (Nat.le_refl _)
      (Nat.le_add_right _ _) (fun _ => rfl) rfl hi

/-! ## The code emitters write only where they say -/

theorem brk_length_pos (arch : Arch) : 0 < (brkBytes arch).length := by
  cases arch <;> decide

theorem brk_length_le (arch : Arch) : (brkBytes arch).length ≤ 4 := by
  cases arch <;> decide

theorem brk_length_eq (arch : Arch) : (brkBytes arch).length = granule arch := by
  cases arch <;> decide

theorem gen_brk_loop_conf (arch : Arch) (lim : Nat) :
    ∀ (fuel : Nat) (m : Mem) (c : Nat),
      Conf c (lim + 3) m (detour_gen_brk_loop arch lim fuel m c).1 := by
  have hl := brk_length_le arch
  intro fuel
  induction fuel with
  | zero => intro m c; exact conf_refl _ _ _
  | succ f ih =>
    intro m c
    unfold detour_gen_brk_loop
    by_cases hc : c < lim
    · rw [if_pos hc]
      intro x hx
      rw [ih _ _ x (by omega)]
      exact writeBytes_outside _ _ _ _ (by omega)
    · rw [if_neg hc]
      exact conf_refl _ _ _

theorem gen_brk_conf (arch : Arch) (m : Mem) (c lim : Nat) :
    Conf c (lim + 3) m (detour_gen_brk arch m c lim).1 :=
  gen_brk_loop_conf arch lim _ m c

theorem gen_brk_loop_exact (arch : Arch) (lim : Nat) :
    ∀ (n fuel : Nat) (m : Mem) (c : Nat), lim = c + n * (brkBytes arch).length → n ≤ fuel →
      (∀ x, x < c ∨ lim ≤ x → (detour_gen_brk_loop arch lim fuel m c).1 x = m x) ∧
      (∀ x, c ≤ x → x < lim → (detour_gen_brk_loop arch lim fuel m c).1 x =
        (brkBytes arch).getD ((x - c) % (brkBytes arch).length) 0) := by
  have hl := brk_length_pos arch
  intro n
  induction n with
  | zero =>
    intro fuel m c hlim _
    have hlc : lim = c := by simpa using hlim
    have hr : detour_gen_brk_loop arch lim fuel m c = (m, c) := by
      cases fuel with
      | zero => rfl
      | succ f =>
        unfold detour_gen_brk_loop
        rw [if_neg (by omega)]
    rw [hr]
    exact ⟨fun _ _ => rfl, fun x h1 h2 => by omega⟩
  | succ n ih =>
    intro fuel m c hlim hfuel
    cases fuel with
    | zero => omega
    | succ f =>
      have hexp : (n + 1) * (brkBytes arch).length =
          n * (brkBytes arch).length + (brkBytes arch).length := Nat.succ_mul _ _
      have hc : c < lim := by omega
      unfold detour_gen_brk_loop
      rw [if_pos hc]
      obtain ⟨h1, h2⟩ := ih f (writeBytes m c (brkBytes arch)) (c + (brkBytes arch).length)
        (by omega) (by omega)
      constructor
      · intro x hx
        rw [h1 x (by omega)]
        exact writeBytes_outside _ _ _ _ (by omega)
      · intro x hx1 hx2
        by_cases hx : x < c + (brkBytes arch).length
        · rw [h1 x (Or.inl hx), writeBytes_inside _ _ _ _ ⟨hx1, hx⟩,
            Nat.mod_eq_of_lt (by omega)]
        · rw [h2 x (by omega) hx2]
          have e : x - c = x - (c + (brkBytes arch).length) + (brkBytes arch).length := by
            omega
          rw [e, Nat.add_mod_right]

theorem gen_brk_exact (arch : Arch) (m : Mem) (c n : Nat) :
    (∀ x, x < c ∨ c + n * (brkBytes arch).length ≤ x →
      (detour_gen_brk arch m c (c + n * (brkBytes arch).length)).1 x = m x) ∧
    (∀ x, c ≤ x → x < c + n * (brkBytes arch).length →
      (detour_gen_brk arch m c (c + n * (brkBytes arch).length)).1 x =
        (brkBytes arch).getD ((x - c) % (brkBytes arch).length) 0) := by
  have hl := brk_length_pos arch
  apply gen_brk_loop_exact arch _ n _ m c rfl
  have : n * 1 ≤ n * (brkBytes arch).length := Nat.mul_le_mul_left n hl
  omega

theorem jmp_immediate_x86_spec (m : Mem) (c src val : Nat) :
    Conf c (c + 5) m (detour_gen_jmp_immediate_x86 m c src val).1 ∧
    (detour_gen_jmp_immediate_x86 m c src val).2 = c + 5 := by
  refine ⟨?_, rfl⟩
  unfold detour_gen_jmp_immediate_x86
  exact conf_trans (conf_writeBytes _ _ _ _ _ (Or.inr ⟨Nat.le_refl _, by simp⟩))
    (conf_writeLE _ _ _ _ _ _ ⟨by omega, by omega⟩)

theorem jmp_indirect_X64_spec (m : Mem) (c src val : Nat) :
    Conf c (c + 6) m (detour_gen_jmp_indirect_X64 m c src val).1 ∧
    (detour_gen_jmp_indirect_X64 m c src val).2 = c + 6 := by
  refine ⟨?_, rfl⟩
  unfold detour_gen_jmp_indirect_X64
  exact conf_trans (conf_trans (conf_writeBytes _ _ _ _ _ (Or.inr ⟨Nat.le_refl _, by simp⟩))
    (conf_writeBytes _ _ _ _ _ (Or.inr ⟨by omega, by simp⟩)))
    (conf_writeLE _ _ _ _ _ _ ⟨by omega, by omega⟩)

theorem jmp_far_spec (m : Mem) (c val : Nat) :
    Conf c (c + 12) m (detour_gen_jmp_far m c val).1 ∧
    (detour_gen_jmp_far m c val).2 = c + 12 := by
  refine ⟨?_, rfl⟩
  unfold detour_gen_jmp_far
  exact conf_trans (conf_writeBytes _ _ _ _ _ (Or.inr ⟨Nat.le_refl _, by simp [Jumper]⟩))
    (conf_writeLE _ _ _ _ _ _ ⟨by omega, by omega⟩)

theorem write_thumb_wide (m : Mem) (c op : Nat) (h : 0x10000 ≤ op) :
    write_thumb_opcode m c op = (writeLE (writeLE m c 2 (op >>> 16)) (c + 2) 2 op, c + 2 + 2) := by
  unfold write_thumb_opcode
  rw [if_pos h]

theorem write_thumb_narrow (m : Mem) (c op : Nat) (h : op < 0x10000) :
    write_thumb_opcode m c op = (writeLE m c 2 op, c + 2) := by
  unfold write_thumb_opcode
  rw [if_neg (by omega)]

theorem ldr_wide (delta : Nat) : 0x10000 ≤ 0xf8dff000 ||| delta := by
  have h : (0xf8dff000 ||| delta).testBit 16 = true := by
    rw [Nat.testBit_or, (by decide : Nat.testBit 0xf8dff000 16 = true)]
    rfl
  exact Nat.testBit_implies_ge h

theorem jmp_ARM_pool_spec (m : Mem) (c p val : Nat) :
    (∀ x, (x < c ∨ c + 4 ≤ x) → (x < p - 4 ∨ p - 4 + 4 ≤ x) →
      (detour_gen_jmp_immediate_ARM m c (some p) val).1 x = m x) ∧
    (detour_gen_jmp_immediate_ARM m c (some p) val).2.1 = c + 4 ∧
    (detour_gen_jmp_immediate_ARM m c (some p) val).2.2 = some (p - 4) := by
  unfold detour_gen_jmp_immediate_ARM
  simp only [Option.map_some']
  rw [write_thumb_wide _ _ _ (ldr_wide _)]
  refine ⟨?_, by simp⟩
  intro x h1 h2
  show writeLE (writeLE (writeLE m (p - 4) 4 _) c 2 _) (c + 2) 2 _ x = m x
  rw [conf_writeLE (c + 2) (c + 4) _ _ _ _ ⟨Nat.le_refl _, Nat.le_refl _⟩ x (by omega),
    conf_writeLE c (c + 2) _ _ _ _ ⟨Nat.le_refl _, Nat.le_refl _⟩ x (by omega),
    conf_writeLE (p - 4) (p - 4 + 4) _ _ _ _ ⟨Nat.le_refl _, Nat.le_refl _⟩ x (by omega)]

theorem jmp_ARM64_pool_spec (m : Mem) (c p val : Nat) :
    (∀ x, (x < c ∨ c + 8 ≤ x) → (x < p - 8 ∨ p - 8 + 8 ≤ x) →
      (detour_gen_jmp_immediate_ARM64 m c (some p) val).1 x = m x) ∧
    (detour_gen_jmp_immediate_ARM64 m c (some p) val).2.1 = c + 8 ∧
    (detour_gen_jmp_immediate_ARM64 m c (some p) val).2.2 = some (p - 8) := by
  unfold detour_gen_jmp_immediate_ARM64 write_opcode
  simp only [Option.map_some']
  refine ⟨?_, by simp⟩
  intro x h1 h2
  show writeLE (writeLE (writeLE m (p - 8) 8 _) c 4 _) (c + 4) 4 _ x = m x
  rw [conf_writeLE (c + 4) (c + 8) _ _ _ _ ⟨Nat.le_refl _, Nat.le_refl _⟩ x (by omega),
    conf_writeLE c (c + 4) _ _ _ _ ⟨Nat.le_refl _, Nat.le_refl _⟩ x (by omega),
    conf_writeLE (p - 8) (p - 8 + 8) _ _ _ _ ⟨Nat.le_refl _, Nat.le_refl _⟩ x (by omega)]

theorem jmp_ARM64_none_spec (m : Mem) (c val : Nat) :
    Conf c (c + 16) m (detour_gen_jmp_immediate_ARM64 m c none val).1 ∧
    (detour_gen_jmp_immediate_ARM64 m c none val).2.1 = c + 16 := by
  unfold detour_gen_jmp_immediate_ARM64 write_opcode
  simp only [Option.map_none']
  refine ⟨?_, by simp⟩
  intro x hx
  show writeLE (writeLE (writeLE m (c + 8) 8 _) c 4 _) (c + 4) 4 _ x = m x
  rw [conf_writeLE (c + 4) (c + 8) _ _ _ _ ⟨Nat.le_refl _, Nat.le_refl _⟩ x (by omega),
    conf_writeLE c (c + 4) _ _ _ _ ⟨Nat.le_refl _, Nat.le_refl _⟩ x (by omega),
    conf_writeLE (c + 8) (c + 16) _ _ _ _ ⟨Nat.le_refl _, Nat.le_refl _⟩ x (by omega)]

theorem arch_bounds2 (arch : Arch) :
    9 * maxPool arch ≤ sizeof_rbCode arch ∧
    sizeof_rbCode arch + 8 ≤ off_cbRestore arch ∧
    SIZE_OF_JMP arch + 2 - 1 + maxInstr arch ≤ sizeof_rbRestore arch ∧
    sizeof_rbCode arch + 8 ≤ sizeof_DETOUR_TRAMPOLINE arch ∧
    off_cbRestore arch + 1 ≤ off_pbRemain arch ∧
    off_cbCode arch + 1 ≤ off_rbRestore arch ∧
    sizeof_rbRestore arch < 256 ∧
    maxPool arch ≤ 8 ∧
    off_cbRestore arch = off_rbRestore arch + sizeof_rbRestore arch := by
  cases arch <;> decide

theorem jump_to_remain_conf (arch : Arch) (m : Mem) (t c p : Nat) (h1 : t ≤ c)
    (h2 : c ≤ t + sizeof_rbCode arch) (h3 : p ≤ t + sizeof_rbCode arch)
    (h4 : t + maxPool arch ≤ p) :
    Conf t (t + sizeof_rbCode arch + 8) m (attach_jump_to_remain arch m t c p) := by
  intro x hx
  cases arch
  · have e : sizeof_rbCode Arch.X86 = 30 := rfl
    rw [e] at h2 h3 hx
    unfold attach_jump_to_remain
    dsimp only
    rw [(jmp_immediate_x86_spec _ _ _ _).2, gen_brk_conf _ _ _ _ x (by omega),
      (jmp_immediate_x86_spec _ _ _ _).1 x (by omega)]
  · have e : sizeof_rbCode Arch.X64 = 30 := rfl
    rw [e] at h2 h3 hx
    unfold attach_jump_to_remain
    dsimp only
    rw [(jmp_indirect_X64_spec _ _ _ _).2, gen_brk_conf _ _ _ _ x (by omega),
      (jmp_indirect_X64_spec _ _ _ _).1 x (by omega)]
  · have e : sizeof_rbCode Arch.ARM = 62 := rfl
    have e2 : maxPool Arch.ARM = 4 := rfl
    rw [e] at h2 h3 hx
    rw [e2] at h4
    unfold attach_jump_to_remain
    dsimp only
    rw [(jmp_ARM_pool_spec _ _ _ _).2.1, (jmp_ARM_pool_spec _ _ _ _).2.2, Option.getD_some,
      gen_brk_conf _ _ _ _ x (by omega),
      (jmp_ARM_pool_spec _ _ _ _).1 x (by omega) (by omega)]
  · have e : sizeof_rbCode Arch.ARM64 = 128 := rfl
    have e2 : maxPool Arch.ARM64 = 8 := rfl
    rw [e] at h2 h3 hx
    rw [e2] at h4
    unfold attach_jump_to_remain
    dsimp only
    rw [(jmp_ARM64_pool_spec _ _ _ _).2.1, (jmp_ARM64_pool_spec _ _ _ _).2.2, Option.getD_some,
      gen_brk_conf _ _ _ _ x (by omega),
      (jmp_ARM64_pool_spec _ _ _ _).1 x (by omega) (by omega)]

theorem attach_store_spec (arch : Arch) (m : Mem) (t pbT T cb : Nat)
    (hcb : cb ≤ sizeof_rbRestore arch) :
    Conf t (t + sizeof_DETOUR_TRAMPOLINE arch) m (attach_store arch m t pbT T cb) ∧
    attach_store arch m t pbT T cb (t + off_cbRestore arch) = cb % 256 ∧
    attach_store arch m t pbT T cb (t + off_cbCode arch) = (pbT - t) % 256 := by
  have hK := arch_bounds arch
  have hK2 := arch_bounds2 arch
  unfold attach_store
  dsimp only
  refine ⟨?_, ?_, ?_⟩
  · refine conf_trans (conf_trans (conf_writeBytes _ _ _ _ _ (Or.inr ⟨by omega, ?_⟩))
      (conf_writeBytes _ _ _ _ _ (Or.inr ⟨by omega, ?_⟩)))
      (conf_memcpy _ _ _ _ _ _ ⟨by omega, by omega⟩)
    · simp only [List.length_singleton]
      omega
    · simp only [List.length_singleton]
      omega
  · rw [conf_memcpy (t + off_rbRestore arch) (t + off_cbRestore arch) _ _ _ _
      ⟨Nat.le_refl _, by omega⟩ _ (Or.inr (Nat.le_refl _))]
    rw [writeBytes_inside _ _ _ _ ⟨Nat.le_refl _, by simp⟩]
    simp
  · rw [conf_memcpy (t + off_rbRestore arch) (t + off_cbRestore arch) _ _ _ _
      ⟨Nat.le_refl _, by omega⟩ _ (Or.inl (by omega))]
    rw [writeBytes_outside _ _ _ _ (Or.inl (by omega))]
    rw [writeBytes_inside _ _ _ _ ⟨Nat.le_refl _, by simp⟩]
    simp

theorem attach_link_spec (arch : Arch) (m : Mem) (t T cb D p : Nat)
    (hc : m (t + off_cbCode arch) ≤ sizeof_rbCode arch) (h3 : p ≤ t + sizeof_rbCode arch)
    (h4 : t + maxPool arch ≤ p) :
    Conf t (t + sizeof_DETOUR_TRAMPOLINE arch) m (attach_link arch m t T cb D p) ∧
    ∀ x, t + sizeof_rbCode arch + 8 ≤ x → x < t + off_pbRemain arch →
      attach_link arch m t T cb D p x = m x := by
  have hK := arch_bounds arch
  have hK2 := arch_bounds2 arch
  have hw1 := conf_writePtr arch (t + off_pbRemain arch) (t + off_pbRemain arch + ptrSize arch)
    m (t + off_pbRemain arch) (T + cb) ⟨Nat.le_refl _, Nat.le_refl _⟩
  have hw2 := conf_writePtr arch (t + off_pbDetour arch) (t + off_pbDetour arch + ptrSize arch)
    (writePtr arch m (t + off_pbRemain arch) (T + cb)) (t + off_pbDetour arch) D
    ⟨Nat.le_refl _, Nat.le_refl _⟩
  have hcode : writePtr arch (writePtr arch m (t + off_pbRemain arch) (T + cb))
      (t + off_pbDetour arch) D (t + off_cbCode arch) = m (t + off_cbCode arch) := by
    rw [hw2 _ (Or.inl (by omega)), hw1 _ (Or.inl (by omega))]
  have hj := jump_to_remain_conf arch
    (writePtr arch (writePtr arch m (t + off_pbRemain arch) (T + cb)) (t + off_pbDetour arch) D)
    t (t + m (t + off_cbCode arch)) p (Nat.le_add_right _ _) (by omega) h3 h4
  unfold attach_link
  dsimp only
  rw [hcode]
  constructor
  · intro x hx
    rw [hj x (by omega), hw2 x (by omega), hw1 x (by omega)]
  · intro x hx1 hx2
    rw [hj x (by omega), hw2 x (by omega), hw1 x (by omega)]

theorem tail_spec (arch : Arch) (T t cbJump D : Nat) (m0 : Mem) (st : CopyState)
    (hj : cbJump ≤ SIZE_OF_JMP arch + 2) (hs : ScanInv arch T t cbJump m0 st)
    (hp : ¬ st.pbTrampoline > st.pbPool) :
    Conf t (t + sizeof_DETOUR_TRAMPOLINE arch) m0
      (attach_store arch st.mem t st.pbTrampoline T st.cbTarget) ∧
    Conf t (t + sizeof_DETOUR_TRAMPOLINE arch) m0
      (attach_link arch (attach_store arch st.mem t st.pbTrampoline T st.cbTarget)
        t T st.cbTarget D st.pbPool) ∧
    attach_link arch (attach_store arch st.mem t st.pbTrampoline T st.cbTarget)
      t T st.cbTarget D st.pbPool (t + off_cbRestore arch) = st.cbTarget ∧
    st.cbTarget ≤ sizeof_rbRestore arch := by
  have hK := arch_bounds arch
  have hK2 := arch_bounds2 arch
  have hsz := hs.size
  have hcb : st.cbTarget ≤ sizeof_rbRestore arch := by omega
  obtain ⟨s1, s2, s3⟩ := attach_store_spec arch st.mem t st.pbTrampoline T st.cbTarget hcb
  have hlo := hs.lo
  have hph := hs.poolHi
  have hpl := hs.poolLo
  have hcnt := hs.count
  have hmul : st.nAlign * maxPool arch ≤ 8 * maxPool arch :=
    Nat.mul_le_mul_right _ (by omega)
  have hcode : attach_store arch st.mem t st.pbTrampoline T st.cbTarget (t + off_cbCode arch) ≤
      sizeof_rbCode arch := by
    rw [s3, Nat.mod_eq_of_lt (by omega)]
    omega
  obtain ⟨l1, l2⟩ := attach_link_spec arch
    (attach_store arch st.mem t st.pbTrampoline T st.cbTarget) t T st.cbTarget D st.pbPool
    hcode hph (by omega)
  refine ⟨conf_trans hs.conf s1, conf_trans (conf_trans hs.conf s1) l1, ?_, hcb⟩
  rw [l2 _ (by omega) (by omega), s2, Nat.mod_eq_of_lt (by omega)]

theorem attach_stop_eq (arch : Arch) (s : State) (e : Status) (t pp : Nat) (ht : t ≠ 0) :
    attach_stop arch s e t pp =
      (e, { detour_free_trampoline arch s t with s_ppPendingError := pp }) := by
  unfold attach_stop
  dsimp only
  rw [if_pos ht]

theorem attach_fail_eq (arch : Arch) (s : State) (e : Status) (t pp : Nat) (ht : t ≠ 0) :
    attach_fail arch s e t pp =
      (e, { detour_free_trampoline arch { s with s_nPendingError := e } t with
            s_ppPendingError := pp }) := by
  unfold attach_fail
  rw [attach_stop_eq _ _ _ _ _ ht]

/-- The outcomes of `attach_with_trampoline`: a memory that differs from the one before only
in the slot of the trampoline, and either the recorded operation or the freed trampoline. -/
theorem with_trampoline_spec (arch : Arch) (copier : Copier) (hcop : CopierContract arch copier)
    (hc : HostCall) (s : State) (pp T D t : Nat) (ht : t ≠ 0) :
    ∃ M, Conf t (t + sizeof_DETOUR_TRAMPOLINE arch) s.mem M ∧
      ((attach_with_trampoline arch copier hc s pp T D t =
          (Status.success,
            { s with
              mem := M,
              s_pPendingOperations := attach_operation hc pp T t :: s.s_pPendingOperations }) ∧
        (attach_scan arch copier T t (attach_init arch s.mem T t)).1 ≤
          M (t + off_cbRestore arch) ∧
        M (t + off_cbRestore arch) ≤ sizeof_rbRestore arch ∧
        M (t + off_cbRestore arch) % granule arch = 0) ∨
      (∃ (e : Status) (latch : Bool), attach_with_trampoline arch copier hc s pp T D t =
          (e, { detour_free_trampoline arch
                  { s with mem := M,
                           s_nPendingError := if latch then e else s.s_nPendingError } t with
                s_ppPendingError := pp }))) := by
  obtain ⟨hj1, hj2, -, hs⟩ := scan_inv arch copier hcop s.mem T t
  unfold attach_with_trampoline
  dsimp only
  generalize attach_scan arch copier T t (attach_init arch s.mem T t) = scan at hj1 hj2 hs
  by_cases h1 : scan.2.cbTarget < scan.1 ∨ scan.2.nAlign > sizeof_rAlign
  · rw [if_pos h1]
    refine ⟨scan.2.mem, hs.conf, Or.inr ?_⟩
    by_cases hi : s.s_fIgnoreTooSmall = true
    · rw [if_pos hi, attach_stop_eq _ _ _ _ _ ht]
      exact ⟨Status.outofmemory, false, rfl⟩
    · rw [if_neg hi, attach_fail_eq _ _ _ _ _ ht]
      exact ⟨Status.outofmemory, true, rfl⟩
  rw [if_neg h1]
  by_cases h2 : scan.2.pbTrampoline > scan.2.pbPool
  · rw [if_pos h2, attach_fail_eq _ _ _ _ _ ht]
    exact ⟨scan.2.mem, hs.conf, Or.inr ⟨Status.outofmemory, true, rfl⟩⟩
  rw [if_neg h2]
  obtain ⟨t1, t2, t3, t4⟩ := tail_spec arch T t scan.1 D s.mem scan.2 hj2 hs h2
  by_cases h3 : scan.2.cbTarget >
      sizeof_rbCode arch - (if arch = Arch.X64 then SIZE_OF_JMP_TO_REMAIN else scan.1)
  · rw [if_pos h3, attach_fail_eq _ _ _ _ _ ht]
    exact ⟨_, t1, Or.inr ⟨Status.outofmemory, true, rfl⟩⟩
  rw [if_neg h3]
  by_cases h4 : hc.remapMdl = 0
  · rw [if_pos h4, attach_fail_eq _ _ _ _ _ ht]
    exact ⟨_, t2, Or.inr ⟨hc.lastError, true, rfl⟩⟩
  rw [if_neg h4]
  refine ⟨_, t2, Or.inl ⟨rfl, ?_, ?_, ?_⟩⟩
  · rw [t3]
    omega
  · rw [t3]
    exact t4
  · rw [t3]
    exact hs.whole

/-- When the loops cover fewer than `cbJump` bytes, `attach_with_trampoline` leaves through
`stop` or `fail` with out-of-memory. -/
theorem with_trampoline_small (arch : Arch) (copier : Copier) (hc : HostCall) (s : State)
    (pp T D t : Nat)
    (hsmall : (attach_scan arch copier T t (attach_init arch s.mem T t)).2.cbTarget <
      (attach_scan arch copier T t (attach_init arch s.mem T t)).1) :
    attach_with_trampoline arch copier hc s pp T D t =
      if s.s_fIgnoreTooSmall then
        attach_stop arch
          { s with mem := (attach_scan arch copier T t (attach_init arch s.mem T t)).2.mem }
          Status.outofmemory t pp
      else
        attach_fail arch
          { s with mem := (attach_scan arch copier T t (attach_init arch s.mem T t)).2.mem }
          Status.outofmemory t pp := by
  unfold attach_with_trampoline
  dsimp only
  rw [if_pos (Or.inl hsmall)]

/-! ## Frame and bookkeeping of the transaction functions -/

theorem free_trampoline_frame (arch : Arch) (s : State) (t x : Nat)
    (hs : ¬ inSlot arch t x) (hh : ¬ inHeader arch t x) :
    (detour_free_trampoline arch s t).mem x = s.mem x := by
  unfold inSlot at hs
  unfold inHeader pageOf at hh
  have hK := arch_bounds arch
  have h1 : ∀ (m : Mem) v, writePtr arch m (t + off_pbRemain arch) v x = m x := by
    intro m v
    apply conf_writePtr arch _ _ m _ v ⟨Nat.le_refl _, Nat.le_refl _⟩ x
    omega
  have h2 : ∀ (m : Mem) v,
      writePtr arch m (t - t % DETOUR_REGION_SIZE + off_pFree arch) v x = m x := by
    intro m v
    apply conf_writePtr arch _ _ m _ v ⟨Nat.le_refl _, Nat.le_refl _⟩ x
    cases arch <;> simp [off_pFree, ptrSize, sizeof_DETOUR_TRAMPOLINE] at * <;> omega
  have h3 : memset s.mem t 0 (sizeof_DETOUR_TRAMPOLINE arch) x = s.mem x := by
    apply conf_memset _ _ _ _ _ _ ⟨Nat.le_refl _, Nat.le_refl _⟩ x
    omega
  simp only [detour_free_trampoline]
  split <;> simp [h1, h2, h3]

theorem free_trampoline_fields (arch : Arch) (s : State) (t : Nat) :
    (detour_free_trampoline arch s t).s_nPendingThreadId = s.s_nPendingThreadId ∧
    (detour_free_trampoline arch s t).s_nPendingError = s.s_nPendingError ∧
    (detour_free_trampoline arch s t).s_ppPendingError = s.s_ppPendingError ∧
    (detour_free_trampoline arch s t).s_pPendingOperations = s.s_pPendingOperations ∧
    (detour_free_trampoline arch s t).s_fIgnoreTooSmall = s.s_fIgnoreTooSmall ∧
    (detour_free_trampoline arch s t).s_fRetainRegions = s.s_fRetainRegions ∧
    (detour_free_trampoline arch s t).s_pRegion = s.s_pRegion ∧
    (detour_free_trampoline arch s t).protection = s.protection := by
  simp [detour_free_trampoline]

theorem step_of_latched (arch : Arch) (h : Host) (copier : Copier) (tid : Nat) (s : State)
    (c : Call) (hown : s.s_nPendingThreadId = tid) (herr : s.s_nPendingError ≠ Status.success) :
    (step arch h copier tid s c).2 = s ∧
    (match c with
      | .attach _ _ d =>
        (step arch h copier tid s c).1 =
          if d = 0 then Status.invalid_parameter else s.s_nPendingError
      | .detach _ _ _ => (step arch h copier tid s c).1 = s.s_nPendingError) := by
  cases c with
  | attach hc pp d =>
    by_cases hd : d = 0
    · simp [step, DetourAttachEx, hd]
    · simp [step, DetourAttachEx, hd, hown, herr]
  | detach hc pp d =>
    simp [step, DetourDetach, hown, herr]

theorem run_of_latched (arch : Arch) (h : Host) (copier : Copier) (tid : Nat) (s : State)
    (cs : List Call) (hown : s.s_nPendingThreadId = tid)
    (herr : s.s_nPendingError ≠ Status.success) :
    run arch h copier tid s cs = s := by
  induction cs with
  | nil => rfl
  | cons c cs ih =>
    simp only [run]
    rw [(step_of_latched arch h copier tid s c hown herr).1]
    exact ih

theorem abort_loop_frame (arch : Arch) (ops : List DetourOperation) (s : State) (x : Nat)
    (hx : ∀ o ∈ ops, o.fIsRemove = false →
      ¬ inSlot arch o.pTrampoline x ∧ ¬ inHeader arch o.pTrampoline x) :
    (abort_loop arch ops s).mem x = s.mem x := by
  induction ops generalizing s with
  | nil => rfl
  | cons o os ih =>
    simp only [abort_loop]
    rw [ih _ (fun o' ho' => hx o' (List.mem_cons_of_mem _ ho'))]
    split
    · rename_i hc
      have := hx o (List.mem_cons_self _ _) (by simpa using hc.1)
      exact free_trampoline_frame arch s _ x this.1 this.2
    · rfl

theorem abort_loop_fields (arch : Arch) (ops : List DetourOperation) (s : State) :
    (abort_loop arch ops s).s_nPendingThreadId = s.s_nPendingThreadId ∧
    (abort_loop arch ops s).s_nPendingError = s.s_nPendingError ∧
    (abort_loop arch ops s).s_ppPendingError = s.s_ppPendingError ∧
    (abort_loop arch ops s).s_fIgnoreTooSmall = s.s_fIgnoreTooSmall ∧
    (abort_loop arch ops s).s_fRetainRegions = s.s_fRetainRegions ∧
    (abort_loop arch ops s).s_pRegion = s.s_pRegion ∧
    (abort_loop arch ops s).protection = s.protection := by
  induction ops generalizing s with
  | nil => simp [abort_loop]
  | cons o os ih =>
    simp only [abort_loop]
    split
    · have h1 := ih (detour_free_trampoline arch s o.pTrampoline)
      have h2 := free_trampoline_fields arch s o.pTrampoline
      simp only [h1, h2, and_self]
    · exact ih s

theorem abort_result (arch : Arch) (h : Host) (tid : Nat) (s : State)
    (hown : s.s_nPendingThreadId = tid) :
    (DetourTransactionAbort arch h tid s).1 = Status.success ∧
    (DetourTransactionAbort arch h tid s).2.s_pPendingOperations = [] ∧
    (DetourTransactionAbort arch h tid s).2.s_nPendingThreadId = 0 ∧
    (DetourTransactionAbort arch h tid s).2.s_nPendingError = s.s_nPendingError ∧
    (DetourTransactionAbort arch h tid s).2.s_ppPendingError = s.s_ppPendingError ∧
    (DetourTransactionAbort arch h tid s).2.mem =
      (abort_loop arch s.s_pPendingOperations s).mem ∧
    (DetourTransactionAbort arch h tid s).2.s_pRegions =
      (abort_loop arch s.s_pPendingOperations s).s_pRegions := by
  have hf := abort_loop_fields arch s.s_pPendingOperations s
  simp [DetourTransactionAbort, hown, hf]

theorem commit_of_latched (arch : Arch) (h : Host) (tid : Nat) (s : State)
    (hown : s.s_nPendingThreadId = tid) (herr : s.s_nPendingError ≠ Status.success) :
    DetourTransactionCommitEx arch h tid s =
      (s.s_nPendingError, s.s_ppPendingError, (DetourTransactionAbort arch h tid s).2) := by
  have ha := abort_result arch h tid s hown
  simp [DetourTransactionCommitEx, hown, herr, ha]

/-- The abort loop returns the trampoline of every pending attach to its free list. -/
theorem abort_loop_good (arch : Arch) :
    ∀ (ops : List DetourOperation) (s : State), GoodOps arch ops s.mem s.s_pRegions →
      GoodOps arch [] (abort_loop arch ops s).mem (abort_loop arch ops s).s_pRegions ∧
      Evolves arch ops s.mem s.s_pRegions [] (abort_loop arch ops s).mem
        (abort_loop arch ops s).s_pRegions := by
  intro ops
  induction ops with
  | nil => intro s hg; exact ⟨hg, evolves_refl _ _ _ _⟩
  | cons o os ih =>
    intro s hg
    unfold abort_loop
    cases hr : o.fIsRemove with
    | true =>
      have hsk := @goodOps_skip arch o os s.mem s.s_pRegions hr
      have hg2 := hsk.1.1 hg
      obtain ⟨g3, e3⟩ := ih s hg2
      rw [if_neg (by simp)]
      refine ⟨g3, ⟨?_, ?_⟩⟩
      · intro r hrm
        obtain ⟨r2, hr2, hb, hbl⟩ := e3.base r hrm
        exact ⟨r2, hr2, hb, fun l0 hl0 => hbl l0 ((hsk.2 r l0).1 hl0)⟩
      · intro x hx
        rcases e3.frame x hx with hL | hN
        · left
          obtain ⟨r, hrm, l0, hbl, a, ha, hin⟩ := hL
          exact ⟨r, hrm, l0, (hsk.2 r l0).2 hbl, a, ha, hin⟩
        · exact Or.inr hN
    | false =>
      have hne : o.pTrampoline ≠ 0 := by
        obtain ⟨r, hrm, hb, hsl, -⟩ := pending_isSlot hg (List.mem_cons_self _ _) hr
        exact isSlot_ne_zero hsl
      rw [if_pos (by simp [hne])]
      obtain ⟨g2, e2⟩ := good_free s hg hr
      obtain ⟨g3, e3⟩ := ih _ g2
      exact ⟨g3, evolves_trans hg g2 e2 e3⟩

/-! ## The transacted calls keep the allocator well formed -/

theorem attach_stop_zero (arch : Arch) (s : State) (e : Status) (pp : Nat) :
    attach_stop arch s e 0 pp = (e, { s with s_ppPendingError := pp }) := by
  unfold attach_stop
  dsimp only
  rw [if_neg (by simp)]

theorem attach_fail_zero (arch : Arch) (s : State) (e : Status) (pp : Nat) :
    attach_fail arch s e 0 pp =
      (e, { s with s_nPendingError := e, s_ppPendingError := pp }) := by
  unfold attach_fail
  rw [attach_stop_zero]

theorem stepOk_same (arch : Arch) (s s2 : State) (hg : Good arch s) (hm : s2.mem = s.mem)
    (hr : s2.s_pRegions = s.s_pRegions)
    (ho : s2.s_pPendingOperations = s.s_pPendingOperations)
    (hw : s2.s_nPendingThreadId = s.s_nPendingThreadId) : StepOk arch s s2 := by
  refine ⟨?_, ?_, hw, Or.inl ho⟩
  · unfold Good
    rw [hm, hr, ho]
    exact hg
  · rw [hm, hr, ho]
    exact evolves_refl _ _ _ _

theorem stepOk_free (arch : Arch) (s0 sF : State) (o : DetourOperation) (pp : Nat)
    (hg0 : Good arch s0) (hro : o.fIsRemove = false)
    (hops : sF.s_pPendingOperations = s0.s_pPendingOperations)
    (hown : sF.s_nPendingThreadId = s0.s_nPendingThreadId)
    (g2 : GoodOps arch (o :: s0.s_pPendingOperations) sF.mem sF.s_pRegions)
    (e02 : Evolves arch s0.s_pPendingOperations s0.mem s0.s_pRegions
      (o :: s0.s_pPendingOperations) sF.mem sF.s_pRegions) :
    StepOk arch s0
      { detour_free_trampoline arch sF o.pTrampoline with s_ppPendingError := pp } := by
  obtain ⟨g3, e3⟩ := good_free sF g2 hro
  have hf := free_trampoline_fields arch sF o.pTrampoline
  refine ⟨?_, ?_, ?_, Or.inl ?_⟩
  · show GoodOps arch (detour_free_trampoline arch sF o.pTrampoline).s_pPendingOperations
      (detour_free_trampoline arch sF o.pTrampoline).mem
      (detour_free_trampoline arch sF o.pTrampoline).s_pRegions
    rw [hf.2.2.2.1, hops]
    exact g3
  · show Evolves arch _ _ _ (detour_free_trampoline arch sF o.pTrampoline).s_pPendingOperations
      (detour_free_trampoline arch sF o.pTrampoline).mem
      (detour_free_trampoline arch sF o.pTrampoline).s_pRegions
    rw [hf.2.2.2.1, hops]
    exact evolves_trans hg0 g2 e02 e3
  · show (detour_free_trampoline arch sF o.pTrampoline).s_nPendingThreadId = _
    rw [hf.1]
    exact hown
  · show (detour_free_trampoline arch sF o.pTrampoline).s_pPendingOperations = _
    rw [hf.2.2.2.1]
    exact hops

theorem with_trampoline_good (arch : Arch) (copier : Copier)
    (hcop : CopierContract arch copier) (hc : HostCall) (s0 a : State) (pp T D t : Nat)
    (hg0 : Good arch s0)
    (hops : a.s_pPendingOperations = s0.s_pPendingOperations)
    (hown : a.s_nPendingThreadId = s0.s_nPendingThreadId)
    (hga : GoodOps arch (attach_operation hc pp T t :: s0.s_pPendingOperations) a.mem
      a.s_pRegions)
    (hea : Evolves arch s0.s_pPendingOperations s0.mem s0.s_pRegions
      (attach_operation hc pp T t :: s0.s_pPendingOperations) a.mem a.s_pRegions) :
    StepOk arch s0 (attach_with_trampoline arch copier hc a pp T D t).2 := by
  have hro : (attach_operation hc pp T t).fIsRemove = false := rfl
  have ht : t ≠ 0 := by
    obtain ⟨r, -, -, hsl, -⟩ := pending_isSlot hga (List.mem_cons_self _ _) hro
    exact isSlot_ne_zero hsl
  obtain ⟨M, hM, hcase⟩ := with_trampoline_spec arch copier hcop hc a pp T D t ht
  obtain ⟨g2, e2⟩ := conf_pending_slot hga (List.mem_cons_self _ _) hro hM
  have e02 := evolves_trans hg0 hga hea e2
  rcases hcase with ⟨heq, -⟩ | ⟨e, latch, heq⟩
  · rw [heq]
    refine ⟨?_, ?_, hown, Or.inr ⟨attach_operation hc pp T t, ?_⟩⟩
    · show GoodOps arch (attach_operation hc pp T t :: a.s_pPendingOperations) M a.s_pRegions
      rw [hops]
      exact g2
    · show Evolves arch _ _ _ (attach_operation hc pp T t :: a.s_pPendingOperations) M
        a.s_pRegions
      rw [hops]
      exact e02
    · show attach_operation hc pp T t :: a.s_pPendingOperations = _
      rw [hops]
  · rw [heq]
    exact stepOk_free arch s0
      { a with mem := M, s_nPendingError := if latch then e else a.s_nPendingError }
      (attach_operation hc pp T t) pp hg0 hro hops hown g2 e02

theorem attach_good (arch : Arch) (h : Host) (copier : Copier)
    (hcop : CopierContract arch copier) (hc : HostCall) (tid : Nat) (s : State) (pp d : Nat)
    (hg : Good arch s) (hfresh : FreshPage arch s hc) :
    StepOk arch s (DetourAttachEx arch h copier hc tid s pp d).2 := by
  have hsame := stepOk_same arch s s hg rfl rfl rfl rfl
  unfold DetourAttachEx
  by_cases h1 : d = 0
  · rw [if_pos h1]; exact hsame
  rw [if_neg h1]
  by_cases h2 : s.s_nPendingThreadId ≠ tid
  · rw [if_pos h2]; exact hsame
  rw [if_neg h2]
  by_cases h3 : s.s_nPendingError ≠ Status.success
  · rw [if_pos h3]; exact hsame
  rw [if_neg h3]
  by_cases h4 : pp = 0
  · rw [if_pos h4]; exact hsame
  rw [if_neg h4]
  by_cases h5 : readPtr arch s.mem pp = 0
  · rw [if_pos h5]; exact stepOk_same arch s _ hg rfl rfl rfl rfl
  rw [if_neg h5]
  dsimp only
  by_cases h6 : DetourCodeFromPointer arch h s.mem d =
      DetourCodeFromPointer arch h s.mem (readPtr arch s.mem pp)
  · rw [if_pos h6]
    by_cases h7 : s.s_fIgnoreTooSmall = true
    · rw [if_pos h7, attach_stop_zero]; exact stepOk_same arch s _ hg rfl rfl rfl rfl
    · rw [if_neg h7, attach_fail_zero]; exact stepOk_same arch s _ hg rfl rfl rfl rfl
  rw [if_neg h6]
  by_cases h8 : (!hc.opAlloc) = true
  · rw [if_pos h8, attach_fail_zero]; exact stepOk_same arch s _ hg rfl rfl rfl rfl
  rw [if_neg h8]
  have hf := alloc_fields arch hc.page s
    (DetourCodeFromPointer arch h s.mem (readPtr arch s.mem pp))
  obtain ⟨ga0, ga1⟩ := good_alloc hc.page s
    (DetourCodeFromPointer arch h s.mem (readPtr arch s.mem pp)) hg hfresh
  by_cases h9 : (detour_alloc_trampoline arch hc.page s
      (DetourCodeFromPointer arch h s.mem (readPtr arch s.mem pp))).1 = 0
  · rw [if_pos h9, attach_fail_zero]
    obtain ⟨g1, e1⟩ := ga0 h9
    refine ⟨?_, ?_, hf.2.2.2.1, Or.inl hf.1⟩
    · show GoodOps arch (detour_alloc_trampoline arch hc.page s _).2.s_pPendingOperations _ _
      rw [hf.1]
      exact g1
    · show Evolves arch _ _ _ (detour_alloc_trampoline arch hc.page s _).2.s_pPendingOperations
        _ _
      rw [hf.1]
      exact e1
  · rw [if_neg h9]
    obtain ⟨g1, e1⟩ := ga1 h9 (attach_operation hc pp
      (DetourCodeFromPointer arch h s.mem (readPtr arch s.mem pp))
      (detour_alloc_trampoline arch hc.page s
        (DetourCodeFromPointer arch h s.mem (readPtr arch s.mem pp))).1) rfl rfl
    exact with_trampoline_good arch copier hcop hc s _ pp _ _ _ hg hf.1 hf.2.2.2.1 g1 e1

theorem detach_good (arch : Arch) (h : Host) (hc : HostCall) (tid : Nat) (s : State)
    (pp d : Nat) (hg : Good arch s) :
    StepOk arch s (DetourDetach arch h hc tid s pp d).2 := by
  have hsame := stepOk_same arch s s hg rfl rfl rfl rfl
  unfold DetourDetach
  by_cases h2 : s.s_nPendingThreadId ≠ tid
  · rw [if_pos h2]; exact hsame
  rw [if_neg h2]
  by_cases h3 : s.s_nPendingError ≠ Status.success
  · rw [if_pos h3]; exact hsame
  rw [if_neg h3]
  by_cases h1 : d = 0
  · rw [if_pos h1]; exact hsame
  rw [if_neg h1]
  by_cases h4 : pp = 0
  · rw [if_pos h4]; exact hsame
  rw [if_neg h4]
  by_cases h5 : readPtr arch s.mem pp = 0
  · rw [if_pos h5]; exact stepOk_same arch s _ hg rfl rfl rfl rfl
  rw [if_neg h5]
  by_cases h8 : (!hc.opAlloc) = true
  · rw [if_pos h8]; exact stepOk_same arch s _ hg rfl rfl rfl rfl
  rw [if_neg h8]
  dsimp only
  by_cases h9 : s.mem (DetourCodeFromPointer arch h s.mem (readPtr arch s.mem pp) +
      off_cbRestore arch) = 0 ∨
      s.mem (DetourCodeFromPointer arch h s.mem (readPtr arch s.mem pp) + off_cbRestore arch) >
        sizeof_rbCode arch
  · rw [if_pos h9]; exact stepOk_same arch s _ hg rfl rfl rfl rfl
  rw [if_neg h9]
  by_cases h10 : readPtr arch s.mem (DetourCodeFromPointer arch h s.mem (readPtr arch s.mem pp) +
      off_pbDetour arch) ≠ DetourCodeFromPointer arch h s.mem d
  · rw [if_pos h10]; exact stepOk_same arch s _ hg rfl rfl rfl rfl
  rw [if_neg h10]
  by_cases h11 : hc.remapMdl = 0
  · rw [if_pos h11]; exact stepOk_same arch s _ hg rfl rfl rfl rfl
  rw [if_neg h11]
  have hsk := fun (o : DetourOperation) (hr : o.fIsRemove = true) =>
    @goodOps_skip arch o s.s_pPendingOperations s.mem s.s_pRegions hr
  refine ⟨(hsk _ rfl).1.2 hg, ⟨?_, fun x hx => absurd rfl hx⟩, rfl, Or.inr ⟨_, rfl⟩⟩
  intro r hr
  exact ⟨r, hr, rfl, fun l0 hl0 => ((hsk _ rfl).2 r l0).2 hl0⟩

theorem step_good (arch : Arch) (h : Host) (copier : Copier)
    (hcop : CopierContract arch copier) (tid : Nat) (s : State) (c : Call)
    (hg : Good arch s) (hfresh : FreshPage arch s c.hc) :
    StepOk arch s (step arch h copier tid s c).2 := by
  cases c with
  | attach hc pp d => exact attach_good arch h copier hcop hc tid s pp d hg hfresh
  | detach hc pp d => exact detach_good arch h hc tid s pp d hg

theorem run_good (arch : Arch) (h : Host) (copier : Copier)
    (hcop : CopierContract arch copier) (tid : Nat) :
    ∀ (cs : List Call) (s : State), Good arch s → ValidRun arch h copier tid s cs →
      Good arch (run arch h copier tid s cs) ∧
      Evolves arch s.s_pPendingOperations s.mem s.s_pRegions
        (run arch h copier tid s cs).s_pPendingOperations (run arch h copier tid s cs).mem
        (run arch h copier tid s cs).s_pRegions ∧
      (run arch h copier tid s cs).s_nPendingThreadId = s.s_nPendingThreadId := by
  intro cs
  induction cs with
  | nil => intro s hg _; exact ⟨hg, evolves_refl _ _ _ _, rfl⟩
  | cons c cs ih =>
    intro s hg hv
    have hs := step_good arch h copier hcop tid s c hg hv.1
    obtain ⟨g2, e2, w2⟩ := ih _ hs.good hv.2
    exact ⟨g2, evolves_trans hg hs.good hs.evolves e2, w2.trans hs.owner⟩

/-! ## The jump emitted at commit -/

theorem jmp_ARM_none_spec (m : Mem) (c val : Nat) (hc : c + 10 ≤ 2 ^ 32) :
    Conf c (c + (if c % 4 / 2 ≠ 0 then 10 else 8)) m
      (detour_gen_jmp_immediate_ARM m c none val).1 ∧
    (detour_gen_jmp_immediate_ARM m c none val).2.1 =
      c + (if c % 4 / 2 ≠ 0 then 10 else 8) := by
  have hal : align4 (c + 6) = c + 6 - (c + 6) % 4 := by
    unfold align4
    rw [Nat.mod_eq_of_lt (by omega)]
  unfold detour_gen_jmp_immediate_ARM
  simp only [Option.map_none']
  rw [write_thumb_wide _ _ _ (ldr_wide _), hal]
  dsimp only
  by_cases hp : c % 4 / 2 ≠ 0
  · have hp2 : (c + 2 + 2) % 4 / 2 ≠ 0 := by omega
    rw [if_pos hp2, if_pos hp, write_thumb_narrow _ _ _ (by decide)]
    refine ⟨?_, by omega⟩
    intro x hx
    show writeLE (writeLE (writeLE (writeLE m _ 4 _) c 2 _) (c + 2) 2 _) (c + 2 + 2) 2 _ x = m x
    rw [conf_writeLE (c + 2 + 2) (c + 2 + 2 + 2) _ _ _ _ ⟨Nat.le_refl _, Nat.le_refl _⟩ x
        (by omega),
      conf_writeLE (c + 2) (c + 4) _ _ _ _ ⟨Nat.le_refl _, Nat.le_refl _⟩ x (by omega),
      conf_writeLE c (c + 2) _ _ _ _ ⟨Nat.le_refl _, Nat.le_refl _⟩ x (by omega),
      conf_writeLE (c + 6 - (c + 6) % 4) (c + 6 - (c + 6) % 4 + 4) _ _ _ _
        ⟨Nat.le_refl _, Nat.le_refl _⟩ x (by omega)]
  · have hp2 : ¬ (c + 2 + 2) % 4 / 2 ≠ 0 := by omega
    rw [if_neg hp2, if_neg hp]
    refine ⟨?_, by omega⟩
    intro x hx
    show writeLE (writeLE (writeLE m _ 4 _) c 2 _) (c + 2) 2 _ x = m x
    rw [conf_writeLE (c + 2) (c + 4) _ _ _ _ ⟨Nat.le_refl _, Nat.le_refl _⟩ x (by omega),
      conf_writeLE c (c + 2) _ _ _ _ ⟨Nat.le_refl _, Nat.le_refl _⟩ x (by omega),
      conf_writeLE (c + 6 - (c + 6) % 4) (c + 6 - (c + 6) % 4 + 4) _ _ _ _
        ⟨Nat.le_refl _, Nat.le_refl _⟩ x (by omega)]

theorem prelude_cbJump (T : Nat) (st : CopyState) :
    (attach_arm_prelude T st).1 = if T % 4 / 2 ≠ 0 then 10 else 8 := by
  unfold attach_arm_prelude
  by_cases hp : T % 4 / 2 ≠ 0
  · rw [if_pos hp, if_pos hp]
    split <;> rfl
  · rw [if_neg hp, if_neg hp]
    split <;> rfl

/-- The jump size `cbJump` that the loops of `DetourAttachEx` use. -/
theorem scan_cbJump (arch : Arch) (copier : Copier) (T t : Nat) (st0 : CopyState) :
    (attach_scan arch copier T t st0).1 =
      match arch with
      | .ARM => if T % 4 / 2 ≠ 0 then 10 else 8
      | _ => SIZE_OF_JMP arch := by
  cases arch
  · rw [attach_scan_eq Arch.X86 copier T t st0 _ rfl]
  · rw [attach_scan_eq Arch.X64 copier T t st0 _ rfl]
  · rw [attach_scan_eq Arch.ARM copier T t st0 _ rfl]
    exact prelude_cbJump T st0
  · rw [attach_scan_eq Arch.ARM64 copier T t st0 _ rfl]

theorem scan_cbJump_granule (arch : Arch) (copier : Copier) (T t : Nat) (st0 : CopyState) :
    (attach_scan arch copier T t st0).1 % granule arch = 0 := by
  rw [scan_cbJump]
  cases arch
  · show SIZE_OF_JMP Arch.X86 % granule Arch.X86 = 0
    decide
  · show SIZE_OF_JMP Arch.X64 % granule Arch.X64 = 0
    decide
  · show (if T % 4 / 2 ≠ 0 then 10 else 8) % 2 = 0
    split <;> rfl
  · show SIZE_OF_JMP Arch.ARM64 % granule Arch.ARM64 = 0
    decide

theorem commit_install_eq (arch : Arch) (m : Mem) (o : DetourOperation) :
    commit_install arch m o =
      writePtr arch
        (detour_gen_brk arch (commit_jump arch m o).1 (commit_jump arch m o).2
          (o.pbTargetEditable +
            (commit_jump arch m o).1 (o.pTrampoline + off_cbRestore arch))).1
        o.ppbPointer
        (if arch = Arch.ARM then DETOURS_PBYTE_TO_PFUNC o.pTrampoline else o.pTrampoline) := by
  cases arch <;> rfl

/-- The jump emitted at commit is `cbJump` bytes long, and besides these bytes at the target
only `rbCodeIn` of the trampoline is written. -/
theorem commit_jump_spec (arch : Arch) (copier : Copier) (m : Mem) (o : DetourOperation)
    (t : Nat) (st0 : CopyState) (harm : arch = Arch.ARM → o.pbTargetEditable + 10 ≤ 2 ^ 32) :
    (commit_jump arch m o).2 =
      o.pbTargetEditable + (attach_scan arch copier o.pbTargetEditable t st0).1 ∧
    ∀ x, (x < o.pbTargetEditable ∨ (commit_jump arch m o).2 ≤ x) →
      (arch = Arch.X64 →
        x < o.pTrampoline + off_rbCodeIn ∨ o.pTrampoline + off_rbCodeIn + 6 ≤ x) →
      (commit_jump arch m o).1 x = m x := by
  have hsc := scan_cbJump arch copier o.pbTargetEditable t st0
  cases arch
  · rw [hsc]
    unfold commit_jump
    dsimp only
    refine ⟨(jmp_immediate_x86_spec _ _ _ _).2, ?_⟩
    intro x hx _
    rw [(jmp_immediate_x86_spec _ _ _ _).2] at hx
    exact (jmp_immediate_x86_spec _ _ _ _).1 x hx
  · rw [hsc]
    unfold commit_jump
    dsimp only
    refine ⟨(jmp_far_spec _ _ _).2, ?_⟩
    intro x hx hs
    rw [(jmp_far_spec _ _ _).2] at hx
    rw [(jmp_far_spec _ _ _).1 x hx]
    exact (jmp_indirect_X64_spec _ _ _ _).1 x (hs rfl)
  · rw [hsc]
    have h := jmp_ARM_none_spec m o.pbTargetEditable
      (readPtr Arch.ARM m (o.pTrampoline + off_pbDetour Arch.ARM)) (harm rfl)
    unfold commit_jump
    dsimp only
    refine ⟨h.2, ?_⟩
    intro x hx _
    rw [h.2] at hx
    exact h.1 x hx
  · rw [hsc]
    have h := jmp_ARM64_none_spec m o.pbTargetEditable
      (readPtr Arch.ARM64 m (o.pTrampoline + off_pbDetour Arch.ARM64))
    unfold commit_jump
    dsimp only
    refine ⟨h.2, ?_⟩
    intro x hx _
    rw [h.2] at hx
    exact h.1 x hx

theorem attach_cases (arch : Arch) (h : Host) (copier : Copier)
    (hcop : CopierContract arch copier) (hc : HostCall) (tid : Nat) (s : State) (pp d : Nat) :
    (DetourAttachEx arch h copier hc tid s pp d).2.s_pPendingOperations =
      s.s_pPendingOperations ∨
    ((DetourAttachEx arch h copier hc tid s pp d).1 = Status.success ∧
      (DetourAttachEx arch h copier hc tid s pp d).2.s_pPendingOperations =
        attach_operation hc pp (attachTarget arch h s pp) (attachAlloc arch h hc s pp).1 ::
          s.s_pPendingOperations ∧
      (attachScan arch h copier hc s pp).1 ≤
        (DetourAttachEx arch h copier hc tid s pp d).2.mem
          ((attachAlloc arch h hc s pp).1 + off_cbRestore arch) ∧
      (DetourAttachEx arch h copier hc tid s pp d).2.mem
        ((attachAlloc arch h hc s pp).1 + off_cbRestore arch) ≤ sizeof_rbRestore arch ∧
      (DetourAttachEx arch h copier hc tid s pp d).2.mem
        ((attachAlloc arch h hc s pp).1 + off_cbRestore arch) % granule arch = 0) := by
  unfold attachScan attachAlloc attachTarget
  unfold DetourAttachEx
  by_cases h1 : d = 0
  · rw [if_pos h1]; exact Or.inl rfl
  rw [if_neg h1]
  by_cases h2 : s.s_nPendingThreadId ≠ tid
  · rw [if_pos h2]; exact Or.inl rfl
  rw [if_neg h2]
  by_cases h3 : s.s_nPendingError ≠ Status.success
  · rw [if_pos h3]; exact Or.inl rfl
  rw [if_neg h3]
  by_cases h4 : pp = 0
  · rw [if_pos h4]; exact Or.inl rfl
  rw [if_neg h4]
  by_cases h5 : readPtr arch s.mem pp = 0
  · rw [if_pos h5]; exact Or.inl rfl
  rw [if_neg h5]
  dsimp only
  by_cases h6 : DetourCodeFromPointer arch h s.mem d =
      DetourCodeFromPointer arch h s.mem (readPtr arch s.mem pp)
  · rw [if_pos h6]
    by_cases h7 : s.s_fIgnoreTooSmall = true
    · rw [if_pos h7, attach_stop_zero]; exact Or.inl rfl
    · rw [if_neg h7, attach_fail_zero]; exact Or.inl rfl
  rw [if_neg h6]
  by_cases h8 : (!hc.opAlloc) = true
  · rw [if_pos h8, attach_fail_zero]; exact Or.inl rfl
  rw [if_neg h8]
  have hf := alloc_fields arch hc.page s
    (DetourCodeFromPointer arch h s.mem (readPtr arch s.mem pp))
  generalize detour_alloc_trampoline arch hc.page s
    (DetourCodeFromPointer arch h s.mem (readPtr arch s.mem pp)) = a at hf ⊢
  by_cases h9 : a.1 = 0
  · rw [if_pos h9, attach_fail_zero]
    exact Or.inl hf.1
  · rw [if_neg h9]
    obtain ⟨M, -, hcase⟩ := with_trampoline_spec arch copier hcop hc a.2 pp
      (DetourCodeFromPointer arch h s.mem (readPtr arch s.mem pp))
      (DetourCodeFromPointer arch h s.mem d) a.1 h9
    rcases hcase with ⟨heq, b1, b2, b3⟩ | ⟨e, latch, heq⟩
    · rw [heq]
      refine Or.inr ⟨rfl, ?_, b1, b2, b3⟩
      show attach_operation hc pp _ _ :: a.2.s_pPendingOperations = _
      rw [hf.1]
    · rw [heq]
      left
      have hp := (free_trampoline_fields arch
        { a.2 with mem := M, s_nPendingError := if latch then e else a.2.s_nPendingError }
        a.1).2.2.2.1
      exact hp.trans hf.1

theorem attach_recorded (arch : Arch) (h : Host) (copier : Copier)
    (hcop : CopierContract arch copier) (hc : HostCall) (tid : Nat) (s : State) (pp d : Nat)
    (o : DetourOperation)
    (hrec : (DetourAttachEx arch h copier hc tid s pp d).2.s_pPendingOperations =
      o :: s.s_pPendingOperations) :
    (DetourAttachEx arch h copier hc tid s pp d).1 = Status.success ∧
    o = attach_operation hc pp (attachTarget arch h s pp) (attachAlloc arch h hc s pp).1 ∧
    (attachScan arch h copier hc s pp).1 ≤
      (DetourAttachEx arch h copier hc tid s pp d).2.mem
        (o.pTrampoline + off_cbRestore arch) ∧
    (DetourAttachEx arch h copier hc tid s pp d).2.mem
      (o.pTrampoline + off_cbRestore arch) ≤ sizeof_rbRestore arch ∧
    (DetourAttachEx arch h copier hc tid s pp d).2.mem
      (o.pTrampoline + off_cbRestore arch) % granule arch = 0 := by
  rcases attach_cases arch h copier hcop hc tid s pp d with hsame | ⟨h1, h2, h3, h4, h5⟩
  · rw [hsame] at hrec
    exact absurd hrec.symm (List.cons_ne_self _ _)
  · rw [h2] at hrec
    have ho : o = attach_operation hc pp (attachTarget arch h s pp)
        (attachAlloc arch h hc s pp).1 := (List.cons.inj hrec).1.symm
    subst ho
    exact ⟨h1, rfl, h3, h4, h5⟩

/-- What the install branch of the commit loop does for an operation recorded by
`DetourAttachEx`. -/
theorem install_spec (arch : Arch) (h : Host) (copier : Copier)
    (hc : HostCall) (tid : Nat) (s : State) (pp d : Nat) (o : DetourOperation) (m : Mem)
    (hcop : CopierContract arch copier)
    (hrec : (DetourAttachEx arch h copier hc tid s pp d).2.s_pPendingOperations =
      o :: s.s_pPendingOperations)
    (hm : m (o.pTrampoline + off_cbRestore arch) =
      (DetourAttachEx arch h copier hc tid s pp d).2.mem (o.pTrampoline + off_cbRestore arch))
    (hdisj : o.pTrampoline + sizeof_DETOUR_TRAMPOLINE arch ≤ o.pbTarget ∨
      o.pbTarget + sizeof_rbRestore arch ≤ o.pTrampoline)
    (harm : arch = Arch.ARM → o.pbTarget + 10 ≤ 2 ^ 32) :
    o.pbTarget + SIZE_OF_JMP arch ≤ (commit_jump arch m o).2 ∧
    (commit_jump arch m o).2 ≤ o.pbTarget + m (o.pTrampoline + off_cbRestore arch) ∧
    (∀ x, x < (commit_jump arch m o).2 ∨
        o.pbTarget + m (o.pTrampoline + off_cbRestore arch) ≤ x →
      ¬ (o.ppbPointer ≤ x ∧ x < o.ppbPointer + ptrSize arch) →
      commit_install arch m o x = (commit_jump arch m o).1 x) ∧
    (∀ x, (commit_jump arch m o).2 ≤ x →
      x < o.pbTarget + m (o.pTrampoline + off_cbRestore arch) →
      ¬ (o.ppbPointer ≤ x ∧ x < o.ppbPointer + ptrSize arch) →
      commit_install arch m o x =
        (brkBytes arch).getD ((x - (commit_jump arch m o).2) % (brkBytes arch).length) 0) ∧
    (∀ x, x < o.pbTarget ∨ o.pbTarget + m (o.pTrampoline + off_cbRestore arch) ≤ x →
      ¬ inSlot arch o.pTrampoline x →
      ¬ (o.ppbPointer ≤ x ∧ x < o.ppbPointer + ptrSize arch) →
      commit_install arch m o x = m x) := by
  obtain ⟨-, ho, h3, h4, h5⟩ := attach_recorded arch h copier hcop hc tid s pp d o hrec
  rw [← hm] at h3 h4 h5
  have hK := arch_bounds arch
  have hK2 := arch_bounds2 arch
  have hT : o.pbTargetEditable = o.pbTarget := by rw [ho]; rfl
  have hTt : attachTarget arch h s pp = o.pbTarget := by rw [ho]; rfl
  have htt : (attachAlloc arch h hc s pp).1 = o.pTrampoline := by rw [ho]; rfl
  obtain ⟨j1, j2⟩ := commit_jump_spec arch copier m o (attachAlloc arch h hc s pp).1
    (attach_init arch (attachAlloc arch h hc s pp).2.mem (attachTarget arch h s pp)
      (attachAlloc arch h hc s pp).1) (by rw [hT]; exact harm)
  have hsc : attach_scan arch copier o.pbTargetEditable (attachAlloc arch h hc s pp).1
      (attach_init arch (attachAlloc arch h hc s pp).2.mem (attachTarget arch h s pp)
        (attachAlloc arch h hc s pp).1) = attachScan arch h copier hc s pp := by
    rw [hT, ← hTt]
    rfl
  rw [hsc, hT] at j1
  rw [hT] at j2
  have hg := scan_cbJump_granule arch copier (attachTarget arch h s pp)
    (attachAlloc arch h hc s pp).1
    (attach_init arch (attachAlloc arch h hc s pp).2.mem (attachTarget arch h s pp)
      (attachAlloc arch h hc s pp).1)
  have hlow := (scan_inv arch copier hcop (attachAlloc arch h hc s pp).2.mem
    (attachTarget arch h s pp) (attachAlloc arch h hc s pp).1).1
  change (attachScan arch h copier hc s pp).1 % granule arch = 0 at hg
  change SIZE_OF_JMP arch ≤ (attachScan arch h copier hc s pp).1 at hlow
  generalize (attachScan arch h copier hc s pp).1 = J at j1 h3 hg hlow
  generalize hR : m (o.pTrampoline + off_cbRestore arch) = R at h3 h4 h5 hm ⊢
  have hread : (commit_jump arch m o).1 (o.pTrampoline + off_cbRestore arch) = R := by
    rw [j2 _ (by omega) ?_]
    · exact hR
    · intro e
      subst e
      have e1 : off_rbCodeIn = 88 := rfl
      have e2 : off_cbRestore Arch.X64 = 62 := rfl
      omega
  have hlen := brk_length_eq arch
  have hdvd : (brkBytes arch).length ∣ R - J := by
    rw [hlen]
    exact Nat.dvd_sub' (Nat.dvd_of_mod_eq_zero h5) (Nat.dvd_of_mod_eq_zero hg)
  obtain ⟨n, hn⟩ := hdvd
  have hlim : o.pbTarget + R = (commit_jump arch m o).2 + n * (brkBytes arch).length := by
    rw [j1, Nat.mul_comm, ← hn]
    omega
  obtain ⟨b1, b2⟩ := gen_brk_exact arch (commit_jump arch m o).1 (commit_jump arch m o).2 n
  rw [← hlim] at b1 b2
  have hw : ∀ x, ¬ (o.ppbPointer ≤ x ∧ x < o.ppbPointer + ptrSize arch) →
      commit_install arch m o x =
        (detour_gen_brk arch (commit_jump arch m o).1 (commit_jump arch m o).2
          (o.pbTarget + R)).1 x := by
    intro x hx
    rw [commit_install_eq, hT, hread]
    exact conf_writePtr arch _ _ _ _ _ ⟨Nat.le_refl _, Nat.le_refl _⟩ x (by omega)
  refine ⟨by omega, by omega, ?_, ?_, ?_⟩
  · intro x hx hp
    rw [hw x hp, b1 x hx]
  · intro x hx1 hx2 hp
    rw [hw x hp, b2 x hx1 hx2]
  · intro x hx hs hp
    rw [hw x hp, b1 x (by omega)]
    apply j2 x (by omega)
    intro e
    subst e
    unfold inSlot at hs
    have e1 : off_rbCodeIn = 88 := rfl
    have e2 : sizeof_DETOUR_TRAMPOLINE Arch.X64 = 96 := rfl
    omega

/-! ## Lemmas for the transaction-level statements -/

theorem baseline_nil (arch : Arch) (m : Mem) (r : DETOUR_REGION) (l : List Nat) :
    Baseline arch [] m r l ↔ FreeChain arch m r.pFree l := by
  unfold Baseline
  constructor
  · rintro ⟨l2, h1, h2⟩
    have e : l = l2 := by simpa [pendingIn] using h2
    rw [e]
    exact h1
  · intro hl
    exact ⟨l, hl, by simp [pendingIn]⟩

theorem begin_fields (h : Host) (tid : Nat) (s : State) (hidle : s.s_nPendingThreadId = 0) :
    (DetourTransactionBegin h tid s).2.mem = s.mem ∧
    (DetourTransactionBegin h tid s).2.s_pRegions = s.s_pRegions ∧
    (DetourTransactionBegin h tid s).2.s_pPendingOperations = [] ∧
    (DetourTransactionBegin h tid s).2.s_nPendingThreadId = tid := by
  simp [DetourTransactionBegin, hidle]

/-- After the abort loop the trampoline of every attach that was pending is on the free list
of its region. -/
theorem abort_loop_returns (arch : Arch) (ops : List DetourOperation) (s : State)
    (hg : GoodOps arch ops s.mem s.s_pRegions) (o : DetourOperation) (ho : o ∈ ops)
    (hr : o.fIsRemove = false) :
    ∃ r2 ∈ (abort_loop arch ops s).s_pRegions, r2.base = pageOf o.pTrampoline ∧
      ∃ l, FreeChain arch (abort_loop arch ops s).mem r2.pFree l ∧ o.pTrampoline ∈ l := by
  obtain ⟨-, e2⟩ := abort_loop_good arch ops s hg
  obtain ⟨r, hrm, hb, -, hin⟩ := pending_isSlot hg ho hr
  obtain ⟨l, hl, -, -⟩ := hg.chains r hrm
  obtain ⟨r2, hr2, hb2, hbl⟩ := e2.base r hrm
  have h1 := (baseline_nil arch _ r2 _).1 (hbl _ ⟨l, hl, rfl⟩)
  refine ⟨r2, hr2, hb2.trans hb, _, h1, ?_⟩
  exact List.mem_append_left _ (List.mem_reverse.2 hin)

/-- Freeing the trampoline of a pending attach makes it the head of the free list of its
region. -/
theorem free_returns (arch : Arch) (o : DetourOperation) (ops : List DetourOperation)
    (s : State) (hg : GoodOps arch (o :: ops) s.mem s.s_pRegions) (hr : o.fIsRemove = false) :
    ∃ r2 ∈ (detour_free_trampoline arch s o.pTrampoline).s_pRegions,
      r2.base = pageOf o.pTrampoline ∧ r2.pFree = o.pTrampoline := by
  obtain ⟨r, hrm, hb, -, -⟩ := pending_isSlot hg (List.mem_cons_self _ _) hr
  have hra := regionAt_of_mem hrm hg.distinct
  rw [hb] at hra
  rw [(free_trampoline_listed arch s o.pTrampoline r hra).2]
  obtain ⟨r2, hr2, hb2, hcase⟩ := setFree_mem (pageOf o.pTrampoline) o.pTrampoline hrm
  refine ⟨r2, hr2, hb2.trans hb, ?_⟩
  rcases hcase with ⟨-, h2⟩ | ⟨h1, -⟩
  · exact h2
  · exact absurd hb h1

theorem commit_empty (arch : Arch) (h : Host) (tid : Nat) (s : State)
    (hown : s.s_nPendingThreadId = tid) (hclean : s.s_nPendingError = Status.success)
    (hempty : s.s_pPendingOperations = []) :
    (DetourTransactionCommitEx arch h tid s).1 = Status.success ∧
    (DetourTransactionCommitEx arch h tid s).2.2.mem = s.mem ∧
    (DetourTransactionCommitEx arch h tid s).2.2.s_pRegions = s.s_pRegions ∧
    (DetourTransactionCommitEx arch h tid s).2.2.s_pPendingOperations = [] ∧
    (DetourTransactionCommitEx arch h tid s).2.2.s_nPendingThreadId = 0 := by
  simp [DetourTransactionCommitEx, hown, hclean, hempty, commit_apply, commit_cleanup]

theorem detach_latch (arch : Arch) (h : Host) (hc : HostCall) (tid : Nat) (s : State)
    (pp d : Nat) (hclean : s.s_nPendingError = Status.success) :
    (DetourDetach arch h hc tid s pp d).2.s_nPendingError ≠ Status.success →
    (DetourDetach arch h hc tid s pp d).1 =
      (DetourDetach arch h hc tid s pp d).2.s_nPendingError ∧
    (DetourDetach arch h hc tid s pp d).2.s_ppPendingError = pp := by
  unfold DetourDetach detach_stop
  by_cases h2 : s.s_nPendingThreadId ≠ tid
  · rw [if_pos h2]; exact fun hl => absurd hclean hl
  rw [if_neg h2]
  by_cases h3 : s.s_nPendingError ≠ Status.success
  · rw [if_pos h3]; exact fun hl => absurd hclean hl
  rw [if_neg h3]
  by_cases h1 : d = 0
  · rw [if_pos h1]; exact fun hl => absurd hclean hl
  rw [if_neg h1]
  by_cases h4 : pp = 0
  · rw [if_pos h4]; exact fun hl => absurd hclean hl
  rw [if_neg h4]
  by_cases h5 : readPtr arch s.mem pp = 0
  · rw [if_pos h5]; exact fun _ => ⟨rfl, rfl⟩
  rw [if_neg h5]
  by_cases h8 : (!hc.opAlloc) = true
  · rw [if_pos h8]; exact fun _ => ⟨rfl, rfl⟩
  rw [if_neg h8]
  dsimp only
  by_cases h9 : s.mem (DetourCodeFromPointer arch h s.mem (readPtr arch s.mem pp) +
      off_cbRestore arch) = 0 ∨
      s.mem (DetourCodeFromPointer arch h s.mem (readPtr arch s.mem pp) + off_cbRestore arch) >
        sizeof_rbCode arch
  · rw [if_pos h9]
    cases hi : s.s_fIgnoreTooSmall with
    | true => exact fun hl => absurd hclean hl
    | false => exact fun _ => ⟨rfl, rfl⟩
  rw [if_neg h9]
  by_cases h10 : readPtr arch s.mem (DetourCodeFromPointer arch h s.mem (readPtr arch s.mem pp) +
      off_pbDetour arch) ≠ DetourCodeFromPointer arch h s.mem d
  · rw [if_pos h10]
    cases hi : s.s_fIgnoreTooSmall with
    | true => exact fun hl => absurd hclean hl
    | false => exact fun _ => ⟨rfl, rfl⟩
  rw [if_neg h10]
  by_cases h11 : hc.remapMdl = 0
  · rw [if_pos h11]; exact fun _ => ⟨rfl, rfl⟩
  rw [if_neg h11]
  exact fun hl => absurd hclean hl

theorem attach_latch (arch : Arch) (h : Host) (copier : Copier)
    (hcop : CopierContract arch copier) (hc : HostCall) (tid : Nat) (s : State) (pp d : Nat)
    (hclean : s.s_nPendingError = Status.success) :
    (DetourAttachEx arch h copier hc tid s pp d).2.s_nPendingError ≠ Status.success →
    (DetourAttachEx arch h copier hc tid s pp d).1 =
      (DetourAttachEx arch h copier hc tid s pp d).2.s_nPendingError ∧
    (DetourAttachEx arch h copier hc tid s pp d).2.s_ppPendingError = pp := by
  unfold DetourAttachEx
  by_cases h1 : d = 0
  · rw [if_pos h1]; exact fun hl => absurd hclean hl
  rw [if_neg h1]
  by_cases h2 : s.s_nPendingThreadId ≠ tid
  · rw [if_pos h2]; exact fun hl => absurd hclean hl
  rw [if_neg h2]
  by_cases h3 : s.s_nPendingError ≠ Status.success
  · rw [if_pos h3]; exact fun hl => absurd hclean hl
  rw [if_neg h3]
  by_cases h4 : pp = 0
  · rw [if_pos h4]; exact fun hl => absurd hclean hl
  rw [if_neg h4]
  by_cases h5 : readPtr arch s.mem pp = 0
  · rw [if_pos h5]; exact fun _ => ⟨rfl, rfl⟩
  rw [if_neg h5]
  dsimp only
  by_cases h6 : DetourCodeFromPointer arch h s.mem d =
      DetourCodeFromPointer arch h s.mem (readPtr arch s.mem pp)
  · rw [if_pos h6]
    by_cases h7 : s.s_fIgnoreTooSmall = true
    · rw [if_pos h7, attach_stop_zero]; exact fun hl => absurd hclean hl
    · rw [if_neg h7, attach_fail_zero]; exact fun _ => ⟨rfl, rfl⟩
  rw [if_neg h6]
  by_cases h8 : (!hc.opAlloc) = true
  · rw [if_pos h8, attach_fail_zero]; exact fun _ => ⟨rfl, rfl⟩
  rw [if_neg h8]
  have hf := alloc_fields arch hc.page s
    (DetourCodeFromPointer arch h s.mem (readPtr arch s.mem pp))
  generalize detour_alloc_trampoline arch hc.page s
    (DetourCodeFromPointer arch h s.mem (readPtr arch s.mem pp)) = a at hf ⊢
  have hca : a.2.s_nPendingError = Status.success := hf.2.1.trans hclean
  by_cases h9 : a.1 = 0
  · rw [if_pos h9, attach_fail_zero]; exact fun _ => ⟨rfl, rfl⟩
  · rw [if_neg h9]
    obtain ⟨M, -, hcase⟩ := with_trampoline_spec arch copier hcop hc a.2 pp
      (DetourCodeFromPointer arch h s.mem (readPtr arch s.mem pp))
      (DetourCodeFromPointer arch h s.mem d) a.1 h9
    rcases hcase with ⟨heq, -⟩ | ⟨e, latch, heq⟩
    · rw [heq]
      exact fun hl => absurd hca hl
    · rw [heq]
      intro hl
      have hp : (detour_free_trampoline arch
          { a.2 with mem := M, s_nPendingError := if latch then e else a.2.s_nPendingError }
          a.1).s_nPendingError = (if latch then e else a.2.s_nPendingError) :=
        (free_trampoline_fields arch _ a.1).2.1
      have hl2 : (if latch then e else a.2.s_nPendingError) ≠ Status.success :=
        fun hh => hl (hp.trans hh)
      refine ⟨?_, rfl⟩
      cases latch with
      | true => exact hp.symm
      | false => exact absurd hca hl2

theorem step_latch (arch : Arch) (h : Host) (copier : Copier)
    (hcop : CopierContract arch copier) (tid : Nat) (s : State) (c : Call)
    (hclean : s.s_nPendingError = Status.success)
    (hl : (step arch h copier tid s c).2.s_nPendingError ≠ Status.success) :
    (step arch h copier tid s c).1 = (step arch h copier tid s c).2.s_nPendingError ∧
    (step arch h copier tid s c).2.s_ppPendingError = c.ppPointer := by
  cases c with
  | attach hc pp d => exact attach_latch arch h copier hcop hc tid s pp d hclean hl
  | detach hc pp d => exact detach_latch arch h hc tid s pp d hclean hl

/-- A slot that is neither free nor pending in a well-formed state keeps its bytes in every
state that evolves from it. -/
theorem live_slot_frame {arch : Arch} {m1 m2 : Mem} {rs1 rs2 : List DETOUR_REGION}
    {ops2 : List DetourOperation} (g1 : GoodOps arch [] m1 rs1)
    (g2 : GoodOps arch ops2 m2 rs2) (e : Evolves arch [] m1 rs1 ops2 m2 rs2)
    {r : DETOUR_REGION} (hr : r ∈ rs1) {t : Nat} (hs : IsSlot arch r.base t) {l : List Nat}
    (hl : FreeChain arch m1 r.pFree l) (ht : t ∉ l) {x : Nat} (hx : inSlot arch t x) :
    m2 x = m1 x := by
  by_contra hne
  rcases e.frame x hne with ⟨r1, hr1, l0, hbl, a, ha, hax⟩ | ⟨r2, hr2, hnew, hpage⟩
  · have hl0 := (baseline_nil arch m1 r1 l0).1 hbl
    have hsa := (free_slot_facts g1 hr1 hl0 ha).1
    have hat : a ≠ t := by
      intro heq
      rw [heq] at hsa ha
      have hb : r1.base = r.base :=
        (isSlot_pageOf hsa (g1.aligned r1 hr1).1).symm.trans
          (isSlot_pageOf hs (g1.aligned r hr).1)
      have hrr := base_eq_of_nodup hr1 hr hb g1.distinct
      rw [hrr] at hl0
      rw [freeChain_unique arch m1 _ _ _ hl0 hl] at ha
      exact ht ha
    exact slots_disjoint hsa hs (g1.aligned r1 hr1).1 (g1.aligned r hr).1 hat hax hx
  · obtain ⟨r3, hr3, hb3, -⟩ := e.base r hr
    have hne2 : r.base ≠ r2.base := hnew r hr
    exact inPage_disjoint (g1.aligned r hr).1 (g2.aligned r2 hr2).1 hne2
      (isSlot_inPage hs hx) hpage

theorem attach_small (arch : Arch) (h : Host) (copier : Copier) (hc : HostCall) (tid : Nat)
    (s : State) (pp d : Nat) (hd : d ≠ 0) (hown : s.s_nPendingThreadId = tid)
    (hclean : s.s_nPendingError = Status.success) (hpp : pp ≠ 0)
    (hp : readPtr arch s.mem pp ≠ 0)
    (hne : DetourCodeFromPointer arch h s.mem d ≠ attachTarget arch h s pp)
    (hop : hc.opAlloc = true) (ha : (attachAlloc arch h hc s pp).1 ≠ 0)
    (hsmall : (attachScan arch h copier hc s pp).2.cbTarget <
      (attachScan arch h copier hc s pp).1) :
    DetourAttachEx arch h copier hc tid s pp d =
      (Status.outofmemory,
        { detour_free_trampoline arch
            { (attachAlloc arch h hc s pp).2 with
              mem := (attachScan arch h copier hc s pp).2.mem,
              s_nPendingError :=
                if s.s_fIgnoreTooSmall then s.s_nPendingError else Status.outofmemory }
            (attachAlloc arch h hc s pp).1 with
          s_ppPendingError := pp }) := by
  have hf := alloc_fields arch hc.page s (attachTarget arch h s pp)
  unfold DetourAttachEx
  rw [if_neg hd, if_neg (by simpa using hown), if_neg (by simpa using hclean), if_neg hpp,
    if_neg hp]
  dsimp only
  have hne2 : ¬ DetourCodeFromPointer arch h s.mem d =
      DetourCodeFromPointer arch h s.mem (readPtr arch s.mem pp) := hne
  rw [if_neg hne2, if_neg (by simp [hop])]
  change (if (attachAlloc arch h hc s pp).1 = 0 then _ else
    attach_with_trampoline arch copier hc (attachAlloc arch h hc s pp).2 pp
      (attachTarget arch h s pp) (DetourCodeFromPointer arch h s.mem d)
      (attachAlloc arch h hc s pp).1) = _
  rw [if_neg ha, with_trampoline_small arch copier hc _ pp _ _ _ hsmall]
  have hi : (attachAlloc arch h hc s pp).2.s_fIgnoreTooSmall = s.s_fIgnoreTooSmall := hf.2.2.2.2.1
  have he : (attachAlloc arch h hc s pp).2.s_nPendingError = s.s_nPendingError := hf.2.1
  rw [hi]
  cases hig : s.s_fIgnoreTooSmall with
  | true =>
    rw [if_pos rfl, attach_stop_eq _ _ _ _ _ ha]
    simp only [if_true, ← he]
    rfl
  | false =>
    rw [if_neg (by simp), attach_fail_eq _ _ _ _ _ ha]
    rfl

/-! ## Facts about the concrete scenarios -/

theorem readBytes_length (m : Mem) (a n : Nat) : (readBytes m a n).length = n := by
  simp [readBytes]

theorem scenario_copier_contract : CopierContract Arch.X64 Scenario.copier := by
  have hL : ∀ (c1 c2 : Prop) [Decidable c1] [Decidable c2],
      1 ≤ (if c1 then 5 else if c2 then 4 else 1) ∧
      (if c1 then 5 else if c2 then 4 else 1) ≤ 15 := by
    intro c1 c2 _ _
    by_cases h1 : c1 <;> by_cases h2 : c2 <;> simp [h1, h2]
  intro m dst pool src
  unfold Scenario.copier
  dsimp only
  by_cases hj : 0x70 ≤ m src ∧ m src ≤ 0x7f
  · rw [if_pos hj]
    refine ⟨?_, ?_, ?_, Nat.le_refl _, Nat.le_refl _, by simp⟩
    · show 1 ≤ 2 ∧ 2 ≤ 15
      decide
    · show 4 ≤ 4
      exact Nat.le_refl _
    · simp [leBytes_length]
  · rw [if_neg hj]
    refine ⟨hL _ _, ?_, ?_, Nat.le_refl _, Nat.le_refl _, by simp⟩
    · show 0 ≤ 4
      exact Nat.zero_le _
    · simp [readBytes_length]

theorem goodOps_no_regions (arch : Arch) (m : Mem) : GoodOps arch [] m [] := by
  refine ⟨?_, List.nodup_nil, ?_, ?_⟩
  · intro r hr
    cases hr
  · intro r hr
    cases hr
  · intro o ho
    cases ho

theorem scenario_fresh (s : State) (hs : s.s_pRegions = []) :
    FreshPage Arch.X64 s Scenario.hostCall := by
  intro pMdl pbTry hp
  have e : pbTry = Scenario.page := by
    have h2 : (1, Scenario.page) = (pMdl, pbTry) := Option.some.inj hp
    exact (Prod.mk.inj h2).2.symm
  subst e
  refine ⟨by decide, by decide, ?_⟩
  rw [hs]
  exact fun _ h => nomatch h

/-! ## The bytes of the X64 jumps -/

theorem subMod_lt (w a b : Nat) : subMod w a b < 2 ^ w :=
  Nat.mod_lt _ (Nat.two_pow_pos _)

theorem jmp_far_bytes (m : Mem) (c val : Nat) (hv : val < 2 ^ 64) :
    (detour_gen_jmp_far m c val).1 c = 0x48 ∧
    (detour_gen_jmp_far m c val).1 (c + 1) = 0xb8 ∧
    readLE (detour_gen_jmp_far m c val).1 (c + 2) 8 = val ∧
    (detour_gen_jmp_far m c val).1 (c + 10) = 0x50 ∧
    (detour_gen_jmp_far m c val).1 (c + 11) = 0xc3 := by
  have hout : ∀ x, x < c + 2 ∨ c + 2 + 8 ≤ x →
      (detour_gen_jmp_far m c val).1 x = writeBytes m c Jumper x := fun x hx =>
    conf_writeLE (c + 2) (c + 2 + 8) _ _ _ _ ⟨Nat.le_refl _, Nat.le_refl _⟩ x hx
  have hin : ∀ i, i < 12 → writeBytes m c Jumper (c + i) = Jumper.getD i 0 := by
    intro i hi
    have hlen : Jumper.length = 12 := rfl
    rw [writeBytes_inside m c Jumper (c + i) ⟨Nat.le_add_right _ _, by omega⟩,
      Nat.add_sub_cancel_left]
  refine ⟨?_, ?_, ?_, ?_, ?_⟩
  · rw [hout c (by omega)]
    exact hin 0 (by decide)
  · rw [hout (c + 1) (by omega)]
    exact hin 1 (by decide)
  · exact readLE_writeLE _ _ _ _ (by
      have e : (256 : Nat) ^ 8 = 2 ^ 64 := by decide
      rw [e]
      exact hv)
  · rw [hout (c + 10) (by omega)]
    exact hin 10 (by decide)
  · rw [hout (c + 11) (by omega)]
    exact hin 11 (by decide)

theorem jmp_indirect_X64_bytes (m : Mem) (c v : Nat) :
    (detour_gen_jmp_indirect_X64 m c c v).1 c = 0xff ∧
    (detour_gen_jmp_indirect_X64 m c c v).1 (c + 1) = 0x25 ∧
    readLE (detour_gen_jmp_indirect_X64 m c c v).1 (c + 2) 4 = subMod 32 v (c + 6) := by
  refine ⟨?_, ?_, ?_⟩
  · show writeLE (writeBytes (writeBytes m c [0xff]) (c + 1) [0x25]) (c + 2) 4 _ c = _
    rw [conf_writeLE (c + 2) (c + 2 + 4) _ _ _ _ ⟨Nat.le_refl _, Nat.le_refl _⟩ c (by omega),
      writeBytes_outside _ _ _ _ (by omega),
      writeBytes_inside _ _ _ _ ⟨Nat.le_refl _, by simp⟩]
    simp
  · show writeLE (writeBytes (writeBytes m c [0xff]) (c + 1) [0x25]) (c + 2) 4 _ (c + 1) = _
    rw [conf_writeLE (c + 2) (c + 2 + 4) _ _ _ _ ⟨Nat.le_refl _, Nat.le_refl _⟩ (c + 1)
        (by omega),
      writeBytes_inside _ _ _ _ ⟨Nat.le_refl _, by simp⟩]
    simp
  · exact readLE_writeLE _ _ _ _ (by
      have e : (256 : Nat) ^ 4 = 2 ^ 32 := by decide
      rw [e]
      exact subMod_lt _ _ _)

/-- The operand of the indirect jump in `rbCodeIn` addresses the field `pbDetour`. -/
theorem rbCodeIn_operand (t : Nat) (ht : t + sizeof_DETOUR_TRAMPOLINE Arch.X64 ≤ 2 ^ 64) :
    addSigned 64 (t + off_rbCodeIn + 6) 32
      (subMod 32 (t + off_pbDetour Arch.X64) (t + off_rbCodeIn + 6)) =
      t + off_pbDetour Arch.X64 := by
  have e1 : off_rbCodeIn = 88 := rfl
  have e2 : off_pbDetour Arch.X64 = 80 := rfl
  have e3 : sizeof_DETOUR_TRAMPOLINE Arch.X64 = 96 := rfl
  rw [e1, e2]
  rw [e3] at ht
  unfold addSigned subMod
  norm_num at ht ⊢
  split <;> omega

theorem readBytes_two (m : Mem) (a : Nat) : readBytes m a 2 = [m a, m (a + 1)] := by
  simp [readBytes, List.range_succ]

/-- The bytes that the install branch of the commit loop leaves at the target and in
`rbCodeIn` on X64, for an operation recorded by `DetourAttachEx`. -/
theorem install_X64_bytes (h : Host) (copier : Copier) (hc : HostCall) (tid : Nat) (s : State)
    (pp d : Nat) (o : DetourOperation) (m : Mem) (hcop : CopierContract Arch.X64 copier)
    (hrec : (DetourAttachEx Arch.X64 h copier hc tid s pp d).2.s_pPendingOperations =
      o :: s.s_pPendingOperations)
    (hm : m (o.pTrampoline + off_cbRestore Arch.X64) =
      (DetourAttachEx Arch.X64 h copier hc tid s pp d).2.mem
        (o.pTrampoline + off_cbRestore Arch.X64))
    (hdisj : o.pTrampoline + sizeof_DETOUR_TRAMPOLINE Arch.X64 ≤ o.pbTarget ∨
      o.pbTarget + sizeof_rbRestore Arch.X64 ≤ o.pTrampoline)
    (hpT : o.ppbPointer + ptrSize Arch.X64 ≤ o.pbTarget ∨
      o.pbTarget + SIZE_OF_JMP Arch.X64 ≤ o.ppbPointer)
    (hpt : o.ppbPointer + ptrSize Arch.X64 ≤ o.pTrampoline ∨
      o.pTrampoline + sizeof_DETOUR_TRAMPOLINE Arch.X64 ≤ o.ppbPointer)
    (hbits : o.pTrampoline + sizeof_DETOUR_TRAMPOLINE Arch.X64 ≤ 2 ^ 64) :
    SIZE_OF_JMP Arch.X64 = 12 ∧
    12 ≤ m (o.pTrampoline + off_cbRestore Arch.X64) ∧
    readBytes (commit_install Arch.X64 m o) o.pbTarget 2 = [0x48, 0xB8] ∧
    readLE (commit_install Arch.X64 m o) (o.pbTarget + 2) 8 = o.pTrampoline + off_rbCodeIn ∧
    readBytes (commit_install Arch.X64 m o) (o.pbTarget + 10) 2 = [0x50, 0xC3] ∧
    readBytes (commit_install Arch.X64 m o) (o.pTrampoline + off_rbCodeIn) 2 = [0xFF, 0x25] ∧
    addSigned 64 (o.pTrampoline + off_rbCodeIn + 6) 32
      (readLE (commit_install Arch.X64 m o) (o.pTrampoline + off_rbCodeIn + 2) 4) =
      o.pTrampoline + off_pbDetour Arch.X64 ∧
    readPtr Arch.X64 (commit_install Arch.X64 m o) o.ppbPointer = o.pTrampoline := by
  obtain ⟨-, ho, -, h4, -⟩ := attach_recorded Arch.X64 h copier hcop hc tid s pp d o hrec
  rw [← hm] at h4
  obtain ⟨i1, i2, i3, -, -⟩ :=
    install_spec Arch.X64 h copier hc tid s pp d o m hcop hrec hm hdisj (fun e => nomatch e)
  have hT : o.pbTargetEditable = o.pbTarget := by rw [ho]; rfl
  have e1 : off_rbCodeIn = 88 := rfl
  have e2 : sizeof_DETOUR_TRAMPOLINE Arch.X64 = 96 := rfl
  have e3 : sizeof_rbRestore Arch.X64 = 30 := rfl
  have e4 : SIZE_OF_JMP Arch.X64 = 12 := rfl
  have e5 : ptrSize Arch.X64 = 8 := rfl
  rw [e2] at hdisj hpt hbits
  rw [e3] at hdisj h4
  rw [e4] at i1 hpT
  rw [e5] at hpT hpt i3
  have hj : commit_jump Arch.X64 m o =
      detour_gen_jmp_far
        (detour_gen_jmp_indirect_X64 m (o.pTrampoline + off_rbCodeIn)
          (o.pTrampoline + off_rbCodeIn) (o.pTrampoline + off_pbDetour Arch.X64)).1
        o.pbTarget (o.pTrampoline + off_rbCodeIn) := by
    rw [← hT]
    rfl
  obtain ⟨f1, f2, f3, f4, f5⟩ := jmp_far_bytes
    (detour_gen_jmp_indirect_X64 m (o.pTrampoline + off_rbCodeIn)
      (o.pTrampoline + off_rbCodeIn) (o.pTrampoline + off_pbDetour Arch.X64)).1
    o.pbTarget (o.pTrampoline + off_rbCodeIn) (by omega)
  obtain ⟨g1, g2, g3⟩ := jmp_indirect_X64_bytes m (o.pTrampoline + off_rbCodeIn)
    (o.pTrampoline + off_pbDetour Arch.X64)
  have hfar := (jmp_far_spec
    (detour_gen_jmp_indirect_X64 m (o.pTrampoline + off_rbCodeIn)
      (o.pTrampoline + off_rbCodeIn) (o.pTrampoline + off_pbDetour Arch.X64)).1
    o.pbTarget (o.pTrampoline + off_rbCodeIn)).1
  -- bytes of the target window
  have hwin : ∀ i, i < 12 → commit_install Arch.X64 m o (o.pbTarget + i) =
      (detour_gen_jmp_far
        (detour_gen_jmp_indirect_X64 m (o.pTrampoline + off_rbCodeIn)
          (o.pTrampoline + off_rbCodeIn) (o.pTrampoline + off_pbDetour Arch.X64)).1
        o.pbTarget (o.pTrampoline + off_rbCodeIn)).1 (o.pbTarget + i) := by
    intro i hi
    rw [i3 _ (Or.inl (by omega)) (by omega), hj]
  -- bytes of `rbCodeIn`
  have hin : ∀ i, i < 6 → commit_install Arch.X64 m o (o.pTrampoline + off_rbCodeIn + i) =
      (detour_gen_jmp_indirect_X64 m (o.pTrampoline + off_rbCodeIn)
        (o.pTrampoline + off_rbCodeIn) (o.pTrampoline + off_pbDetour Arch.X64)).1
        (o.pTrampoline + off_rbCodeIn + i) := by
    intro i hi
    rw [i3 _ (by omega) (by omega), hj, hfar _ (by omega)]
  have w0 : commit_install Arch.X64 m o o.pbTarget = 0x48 := (hwin 0 (by decide)).trans f1
  have w1 : commit_install Arch.X64 m o (o.pbTarget + 1) = 0xB8 :=
    (hwin 1 (by decide)).trans f2
  have w10 : commit_install Arch.X64 m o (o.pbTarget + 10) = 0x50 :=
    (hwin 10 (by decide)).trans f4
  have w11 : commit_install Arch.X64 m o (o.pbTarget + 10 + 1) = 0xC3 :=
    (hwin 11 (by decide)).trans f5
  have v0 : commit_install Arch.X64 m o (o.pTrampoline + off_rbCodeIn) = 0xFF :=
    (hin 0 (by decide)).trans g1
  have v1 : commit_install Arch.X64 m o (o.pTrampoline + off_rbCodeIn + 1) = 0x25 :=
    (hin 1 (by decide)).trans g2
  refine ⟨rfl, by omega, ?_, ?_, ?_, ?_, ?_, ?_⟩
  · rw [readBytes_two, w0, w1]
  · rw [← f3]
    apply readLE_congr
    intro i hi
    rw [Nat.add_assoc, hwin (2 + i) (by omega)]
  · rw [readBytes_two, w10, w11]
  · rw [readBytes_two, v0, v1]
  · have hr : readLE (commit_install Arch.X64 m o) (o.pTrampoline + off_rbCodeIn + 2) 4 =
        subMod 32 (o.pTrampoline + off_pbDetour Arch.X64) (o.pTrampoline + off_rbCodeIn + 6) := by
      rw [← g3]
      apply readLE_congr
      intro i hi
      rw [Nat.add_assoc, hin (2 + i) (by omega)]
    rw [hr]
    exact rbCodeIn_operand _ (by rw [e2]; exact hbits)
  · rw [commit_install_eq, if_neg (by decide)]
    exact readPtr_writePtr _ _ _ _ (by
      show o.pTrampoline < 2 ^ 64
      omega)

/-! ## The range check and the threading of a new region -/

theorem found_region_range (arch : Arch) (s : State) (r : DETOUR_REGION) (pLo pHi : Nat)
    (hx : arch ≠ Arch.X64) (hnz : (alloc_found_region arch s r pLo pHi).1 ≠ 0) :
    pLo ≤ (alloc_found_region arch s r pLo pHi).1 ∧
    (alloc_found_region arch s r pLo pHi).1 ≤ pHi := by
  unfold alloc_found_region at hnz ⊢
  dsimp only at hnz ⊢
  by_cases hc : arch ≠ Arch.X64 ∧ (r.pFree < pLo ∨ r.pFree > pHi)
  · rw [if_pos hc] at hnz
    exact absurd rfl hnz
  · rw [if_neg hc]
    have h2 : ¬ (r.pFree < pLo ∨ r.pFree > pHi) := fun h => hc ⟨hx, h⟩
    show pLo ≤ r.pFree ∧ r.pFree ≤ pHi
    omega

theorem found_region_eq (arch : Arch) (s : State) (r : DETOUR_REGION) (pLo pHi : Nat)
    (hnz : (alloc_found_region arch s r pLo pHi).1 ≠ 0) :
    alloc_found_region arch s r pLo pHi =
      (r.pFree,
        { s with mem := memset s.mem r.pFree 0xcc (sizeof_DETOUR_TRAMPOLINE arch),
                 s_pRegions := setFree s.s_pRegions r.base
                   (readPtr arch s.mem (r.pFree + off_pbRemain arch)) }) := by
  unfold alloc_found_region at hnz ⊢
  dsimp only at hnz ⊢
  by_cases hc : arch ≠ Arch.X64 ∧ (r.pFree < pLo ∨ r.pFree > pHi)
  · rw [if_pos hc] at hnz
    exact absurd rfl hnz
  · rw [if_neg hc]

theorem alloc_range (arch : Arch) (page : Option (Nat × Nat)) (s : State) (T : Nat)
    (hx : arch ≠ Arch.X64) (hnz : (detour_alloc_trampoline arch page s T).1 ≠ 0) :
    (detour_find_jmp_bounds arch s.mem T).1 ≤ (detour_alloc_trampoline arch page s T).1 ∧
    (detour_alloc_trampoline arch page s T).1 ≤ (detour_find_jmp_bounds arch s.mem T).2 := by
  unfold detour_alloc_trampoline at hnz ⊢
  dsimp only at hnz ⊢
  cases h1 : (regionAt s.s_pRegions (alloc_default_region s)).filter
      (fun r => decide (alloc_default_region s ≠ 0 ∧ r.pFree ≠ 0)) with
  | some r =>
    rw [h1] at hnz
    exact found_region_range arch _ r _ _ hx hnz
  | none =>
    rw [h1] at hnz
    dsimp only at hnz ⊢
    cases h2 : s.s_pRegions.find? (fun r => decide (r.pFree ≠ 0)) with
    | some r =>
      rw [h2] at hnz
      exact found_region_range arch _ r _ _ hx hnz
    | none =>
      rw [h2] at hnz
      dsimp only at hnz ⊢
      cases page with
      | none => exact absurd rfl hnz
      | some pg =>
        obtain ⟨pMdl, pbTry⟩ := pg
        dsimp only at hnz ⊢
        by_cases h3 : pbTry = 0
        · rw [if_pos h3] at hnz
          exact absurd rfl hnz
        · rw [if_neg h3] at hnz ⊢
          exact found_region_range arch _ _ _ _ hx hnz

/-- The links that the threading loop stores: started at `i` with `pFree = p`, it leaves the
head at slot 2 of the array, slot `j` linked to slot `j + 1` for `2 ≤ j < i`, slot `i` linked
to `p`, and every byte below slot 2 or from slot `i + 1` on as it was. -/
theorem thread_loop_links (arch : Arch) (pT n : Nat)
    (hbits : pT + (n + 1) * sizeof_DETOUR_TRAMPOLINE arch ≤ 2 ^ ptrBits arch) :
    ∀ (i : Nat) (m : Mem) (p : Nat), i ≤ n → p < 2 ^ ptrBits arch →
      (2 ≤ i → (alloc_thread_loop arch pT i m p).2 = pT + 2 * sizeof_DETOUR_TRAMPOLINE arch) ∧
      (i < 2 → (alloc_thread_loop arch pT i m p).2 = p) ∧
      (∀ j, 2 ≤ j → j < i →
        readPtr arch (alloc_thread_loop arch pT i m p).1
          (pT + j * sizeof_DETOUR_TRAMPOLINE arch + off_pbRemain arch) =
          pT + (j + 1) * sizeof_DETOUR_TRAMPOLINE arch) ∧
      (2 ≤ i →
        readPtr arch (alloc_thread_loop arch pT i m p).1
          (pT + i * sizeof_DETOUR_TRAMPOLINE arch + off_pbRemain arch) = p) ∧
      (∀ x, x < pT + 2 * sizeof_DETOUR_TRAMPOLINE arch ∨
          pT + (i + 1) * sizeof_DETOUR_TRAMPOLINE arch ≤ x →
        (alloc_thread_loop arch pT i m p).1 x = m x) := by
  have hsz := slot_size_bounds arch
  intro i
  induction i with
  | zero =>
    intro m p _ _
    refine ⟨fun h => by omega, fun _ => rfl, fun j h1 h2 => by omega, fun h => by omega,
      fun x _ => rfl⟩
  | succ i ih =>
    intro m p hin hp
    by_cases hi : i + 1 > 1
    · have hstep : alloc_thread_loop arch pT (i + 1) m p =
          alloc_thread_loop arch pT i
            (writePtr arch m (pT + (i + 1) * sizeof_DETOUR_TRAMPOLINE arch + off_pbRemain arch) p)
            (pT + (i + 1) * sizeof_DETOUR_TRAMPOLINE arch) := by
        simp [alloc_thread_loop, hi]
      rw [hstep]
      have hle : (i + 1 + 1) * sizeof_DETOUR_TRAMPOLINE arch ≤
          (n + 1) * sizeof_DETOUR_TRAMPOLINE arch := Nat.mul_le_mul_right _ (by omega)
      have e1 : (i + 1 + 1) * sizeof_DETOUR_TRAMPOLINE arch =
          (i + 1) * sizeof_DETOUR_TRAMPOLINE arch + sizeof_DETOUR_TRAMPOLINE arch := by
        rw [Nat.add_mul (i + 1) 1, Nat.one_mul]
      have e2 : (i + 1) * sizeof_DETOUR_TRAMPOLINE arch =
          i * sizeof_DETOUR_TRAMPOLINE arch + sizeof_DETOUR_TRAMPOLINE arch := by
        rw [Nat.add_mul i 1, Nat.one_mul]
      have e3 : 2 * sizeof_DETOUR_TRAMPOLINE arch ≤ (i + 1) * sizeof_DETOUR_TRAMPOLINE arch :=
        Nat.mul_le_mul_right _ (by omega)
      obtain ⟨a1, a2, a3, a4, a5⟩ := ih
        (writePtr arch m (pT + (i + 1) * sizeof_DETOUR_TRAMPOLINE arch + off_pbRemain arch) p)
        (pT + (i + 1) * sizeof_DETOUR_TRAMPOLINE arch) (by omega) (by omega)
      have hw : ∀ x, x < pT + 2 * sizeof_DETOUR_TRAMPOLINE arch ∨
          pT + (i + 1 + 1) * sizeof_DETOUR_TRAMPOLINE arch ≤ x →
          writePtr arch m (pT + (i + 1) * sizeof_DETOUR_TRAMPOLINE arch + off_pbRemain arch) p x =
            m x := by
        intro x hx
        exact conf_writePtr arch _ _ m _ p ⟨Nat.le_refl _, Nat.le_refl _⟩ x (by omega)
      refine ⟨fun _ => ?_, fun h => by omega, fun j h1 h2 => ?_, fun _ => ?_, fun x hx => ?_⟩
      · by_cases h2i : 2 ≤ i
        · exact a1 h2i
        · have hi1 : i = 1 := by omega
          rw [a2 (by omega)]
          subst hi1
          rfl
      · by_cases hj : j < i
        · exact a3 j h1 hj
        · have hji : j = i := by omega
          subst hji
          exact a4 h1
      · rw [readPtr_congr arch _ _ _ (fun x hx1 hx2 => a5 x (Or.inr (by omega)))]
        exact readPtr_writePtr arch _ _ _ hp
      · rw [a5 x (by omega)]
        exact hw x hx
    · have hstep : alloc_thread_loop arch pT (i + 1) m p = (m, p) := by
        simp [alloc_thread_loop, hi]
      rw [hstep]
      refine ⟨fun h => by omega, fun _ => rfl, fun j h1 h2 => by omega, fun h => by omega,
        fun x _ => rfl⟩

theorem region_count_bounds (arch : Arch) :
    4 ≤ DETOUR_TRAMPOLINES_PER_REGION arch ∧
    DETOUR_TRAMPOLINES_PER_REGION arch + 1 = DETOUR_REGION_SIZE / sizeof_DETOUR_TRAMPOLINE arch := by
  cases arch <;> decide

/-- The links of a new region in page-slot numbers: the head is slot 3, slot `k` is linked
to slot `k + 1` for `3 ≤ k < N`, slot `N` ends the list, and the bytes below slot 3 are as
they were. -/
theorem new_region_links (arch : Arch) (m : Mem) (P : Nat)
    (hbits : P + DETOUR_REGION_SIZE ≤ 2 ^ ptrBits arch) :
    (alloc_thread_loop arch (P + sizeof_DETOUR_TRAMPOLINE arch)
      (DETOUR_TRAMPOLINES_PER_REGION arch - 1) m 0).2 = P + 3 * sizeof_DETOUR_TRAMPOLINE arch ∧
    (∀ k, 3 ≤ k → k < DETOUR_TRAMPOLINES_PER_REGION arch →
      readPtr arch (alloc_thread_loop arch (P + sizeof_DETOUR_TRAMPOLINE arch)
        (DETOUR_TRAMPOLINES_PER_REGION arch - 1) m 0).1
        (P + k * sizeof_DETOUR_TRAMPOLINE arch + off_pbRemain arch) =
        P + (k + 1) * sizeof_DETOUR_TRAMPOLINE arch) ∧
    readPtr arch (alloc_thread_loop arch (P + sizeof_DETOUR_TRAMPOLINE arch)
        (DETOUR_TRAMPOLINES_PER_REGION arch - 1) m 0).1
      (P + DETOUR_TRAMPOLINES_PER_REGION arch * sizeof_DETOUR_TRAMPOLINE arch +
        off_pbRemain arch) = 0 ∧
    (∀ x, x < P + 3 * sizeof_DETOUR_TRAMPOLINE arch ∨
        P + (DETOUR_TRAMPOLINES_PER_REGION arch + 1) * sizeof_DETOUR_TRAMPOLINE arch ≤ x →
      (alloc_thread_loop arch (P + sizeof_DETOUR_TRAMPOLINE arch)
        (DETOUR_TRAMPOLINES_PER_REGION arch - 1) m 0).1 x = m x) := by
  have hsz := slot_size_bounds arch
  have hN := (region_count_bounds arch).1
  generalize hNN : DETOUR_TRAMPOLINES_PER_REGION arch = N at hsz hN ⊢
  generalize hS : sizeof_DETOUR_TRAMPOLINE arch = sz at hsz ⊢
  have hmul : ∀ k, (k + 1) * sz = k * sz + sz := fun k => by
    rw [Nat.add_mul, Nat.one_mul]
  have hN1 : N - 1 + 1 = N := by omega
  have hb : P + sz + (N - 1 + 1) * sz ≤ 2 ^ ptrBits arch := by
    have := hsz.2.2
    rw [hmul N] at this
    rw [hN1]
    omega
  rw [← hS] at hb
  obtain ⟨a1, -, a3, a4, a5⟩ := thread_loop_links arch (P + sizeof_DETOUR_TRAMPOLINE arch)
    (N - 1) hb (N - 1) m 0 (Nat.le_refl _) (Nat.two_pow_pos _)
  rw [hS] at a1 a3 a4 a5
  have h2 : 2 * sz = sz + sz := Nat.two_mul sz
  have h3 : 3 * sz = sz + sz + sz := by omega
  refine ⟨?_, ?_, ?_, ?_⟩
  · rw [a1 (by omega)]
    omega
  · intro k hk1 hk2
    obtain ⟨j, rfl⟩ : ∃ j, k = j + 1 := ⟨k - 1, by omega⟩
    have := a3 j (by omega) (by omega)
    rw [hmul j, hmul (j + 1), hmul j]
    rw [hmul j] at this
    have e : P + (j * sz + sz) + off_pbRemain arch = P + sz + j * sz + off_pbRemain arch := by
      omega
    rw [e, this]
    omega
  · have := a4 (by omega)
    have e : P + N * sz + off_pbRemain arch = P + sz + (N - 1) * sz + off_pbRemain arch := by
      have := hmul (N - 1)
      rw [hN1] at this
      omega
    rw [e]
    exact this
  · intro x hx
    apply a5 x
    have := hmul N
    rw [hN1]
    omega

theorem slotsFrom_succ (arch : Arch) (base k n : Nat) :
    slotsFrom arch base k (n + 1) =
      (base + k * sizeof_DETOUR_TRAMPOLINE arch) :: slotsFrom arch base (k + 1) n := by
  unfold slotsFrom
  rw [List.range_succ_eq_map, List.map_cons, List.map_map]
  congr 1
  apply List.map_congr_left
  intro j _
  show base + (k + (j + 1)) * _ = base + (k + 1 + j) * _
  rw [Nat.add_right_comm k 1 j, Nat.add_assoc k j 1]

theorem slotsFrom_length (arch : Arch) (base k n : Nat) :
    (slotsFrom arch base k n).length = n := by
  unfold slotsFrom
  simp

theorem mem_slotsFrom {arch : Arch} {base k n a : Nat} :
    a ∈ slotsFrom arch base k n ↔ ∃ j, j < n ∧ a = base + (k + j) * sizeof_DETOUR_TRAMPOLINE arch := by
  unfold slotsFrom
  simp only [List.mem_map, List.mem_range]
  constructor
  · rintro ⟨j, hj, rfl⟩
    exact ⟨j, hj, rfl⟩
  · rintro ⟨j, hj, rfl⟩
    exact ⟨j, hj, rfl⟩

/-- A run of consecutive slots linked each to the next and ended by null is a free chain. -/
theorem freeChain_of_links (arch : Arch) (m : Mem) (base : Nat) :
    ∀ (n k : Nat), 1 ≤ k →
      (∀ j, j < n →
        readPtr arch m (base + (k + j) * sizeof_DETOUR_TRAMPOLINE arch + off_pbRemain arch) =
          base + (k + j + 1) * sizeof_DETOUR_TRAMPOLINE arch) →
      readPtr arch m (base + (k + n) * sizeof_DETOUR_TRAMPOLINE arch + off_pbRemain arch) = 0 →
      FreeChain arch m (base + k * sizeof_DETOUR_TRAMPOLINE arch)
        (slotsFrom arch base k (n + 1)) := by
  have hsz := (slot_size_bounds arch).2.1
  intro n
  induction n with
  | zero =>
    intro k hk _ hend
    rw [slotsFrom_succ]
    have hpos : 0 < k * sizeof_DETOUR_TRAMPOLINE arch := Nat.mul_pos (by omega) hsz
    refine ⟨rfl, by omega, ?_⟩
    show _ = 0
    exact hend
  | succ n ih =>
    intro k hk hlink hend
    rw [slotsFrom_succ]
    have hpos : 0 < k * sizeof_DETOUR_TRAMPOLINE arch := Nat.mul_pos (by omega) hsz
    refine ⟨rfl, by omega, ?_⟩
    have h0 := hlink 0 (by omega)
    rw [Nat.add_zero] at h0
    rw [h0]
    apply ih (k + 1) (by omega)
    · intro j hj
      have := hlink (j + 1) (by omega)
      rw [show k + (j + 1) = k + 1 + j by omega] at this
      exact this
    · rw [show k + 1 + n = k + (n + 1) by omega]
      exact hend

theorem setFree_fresh (rs : List DETOUR_REGION) (p v : Nat) (h : ∀ r ∈ rs, r.base ≠ p) :
    setFree rs p v = rs := by
  unfold setFree
  induction rs with
  | nil => rfl
  | cons r rs ih =>
    rw [List.map_cons, if_neg (h r (List.mem_cons_self _ _)),
      ih (fun r2 hr2 => h r2 (List.mem_cons_of_mem _ hr2))]

/-- What `detour_alloc_trampoline` does when no listed region has a free slot and the host
hands out the page `P`: slot 3 of the page is returned, filled with break bytes, and the new
region heads the list with slot 4 as the head of its free list. -/
theorem alloc_new_region_spec (arch : Arch) (s : State) (T pMdl P : Nat)
    (hfull : ∀ r ∈ s.s_pRegions, r.pFree = 0) (hfresh : ∀ r ∈ s.s_pRegions, r.base ≠ P)
    (hbits : P + DETOUR_REGION_SIZE ≤ 2 ^ ptrBits arch)
    (hnz : (detour_alloc_trampoline arch (some (pMdl, P)) s T).1 ≠ 0) :
    detour_alloc_trampoline arch (some (pMdl, P)) s T =
      (P + 3 * sizeof_DETOUR_TRAMPOLINE arch,
        { s with
          mem := memset (alloc_thread_loop arch (P + sizeof_DETOUR_TRAMPOLINE arch)
              (DETOUR_TRAMPOLINES_PER_REGION arch - 1) s.mem 0).1
            (P + 3 * sizeof_DETOUR_TRAMPOLINE arch) 0xcc (sizeof_DETOUR_TRAMPOLINE arch),
          s_pRegion := P,
          s_pRegions :=
            { base := P, dwSignature := DETOUR_REGION_SIGNATURE, pMdl := pMdl,
              pFree := P + 4 * sizeof_DETOUR_TRAMPOLINE arch } :: s.s_pRegions }) := by
  have h1 : (regionAt s.s_pRegions (alloc_default_region s)).filter
      (fun r => decide (alloc_default_region s ≠ 0 ∧ r.pFree ≠ 0)) = none := by
    cases hra : regionAt s.s_pRegions (alloc_default_region s) with
    | none => rfl
    | some r =>
      have := hfull r (regionAt_some hra).1
      simp [Option.filter, this]
  have h2 : s.s_pRegions.find? (fun r => decide (r.pFree ≠ 0)) = none := by
    rw [List.find?_eq_none]
    intro r hr
    simp [hfull r hr]
  have heq : detour_alloc_trampoline arch (some (pMdl, P)) s T =
      if P = 0 then (0, { s with s_pRegion := 0 })
      else alloc_found_region arch (alloc_new_region arch s pMdl P)
        (new_region arch s.mem pMdl P) (detour_find_jmp_bounds arch s.mem T).1
        (detour_find_jmp_bounds arch s.mem T).2 := by
    unfold detour_alloc_trampoline
    dsimp only
    rw [h1]
    dsimp only
    rw [h2]
  rw [heq] at hnz ⊢
  by_cases hP : P = 0
  · rw [if_pos hP] at hnz
    exact absurd rfl hnz
  rw [if_neg hP] at hnz ⊢
  rw [found_region_eq arch _ _ _ _ hnz]
  obtain ⟨l1, l2, -, -⟩ := new_region_links arch s.mem P hbits
  have hN := (region_count_bounds arch).1
  have hf : (new_region arch s.mem pMdl P).pFree = P + 3 * sizeof_DETOUR_TRAMPOLINE arch := l1
  have hb : (new_region arch s.mem pMdl P).base = P := rfl
  have hm : (alloc_new_region arch s pMdl P).mem =
      (alloc_thread_loop arch (P + sizeof_DETOUR_TRAMPOLINE arch)
        (DETOUR_TRAMPOLINES_PER_REGION arch - 1) s.mem 0).1 := rfl
  have hr : (alloc_new_region arch s pMdl P).s_pRegions =
      new_region arch s.mem pMdl P :: s.s_pRegions := rfl
  rw [hf, hb, hm, hr, l2 3 (Nat.le_refl _) (by omega)]
  have hs : setFree (new_region arch s.mem pMdl P :: s.s_pRegions) P
      (P + (3 + 1) * sizeof_DETOUR_TRAMPOLINE arch) =
      { base := P, dwSignature := DETOUR_REGION_SIGNATURE, pMdl := pMdl,
        pFree := P + 4 * sizeof_DETOUR_TRAMPOLINE arch } :: s.s_pRegions := by
    have := setFree_fresh s.s_pRegions P (P + (3 + 1) * sizeof_DETOUR_TRAMPOLINE arch) hfresh
    unfold setFree at this ⊢
    rw [List.map_cons, this, if_pos hb]
    rfl
  rw [hs]
  rfl

/-- The free list of a new region once slot 3 has been handed out: slots 4 to `N`, in any
memory that agrees with the threaded one on those slots. -/
theorem new_region_chain (arch : Arch) (m m2 : Mem) (P : Nat)
    (hbits : P + DETOUR_REGION_SIZE ≤ 2 ^ ptrBits arch)
    (hframe : ∀ x, P + 4 * sizeof_DETOUR_TRAMPOLINE arch ≤ x →
      x < P + (DETOUR_TRAMPOLINES_PER_REGION arch + 1) * sizeof_DETOUR_TRAMPOLINE arch →
      m2 x = (alloc_thread_loop arch (P + sizeof_DETOUR_TRAMPOLINE arch)
        (DETOUR_TRAMPOLINES_PER_REGION arch - 1) m 0).1 x) :
    FreeChain arch m2 (P + 4 * sizeof_DETOUR_TRAMPOLINE arch)
      (slotsFrom arch P 4 (DETOUR_TRAMPOLINES_PER_REGION arch - 3)) := by
  have hsz := slot_size_bounds arch
  have hN := (region_count_bounds arch).1
  obtain ⟨-, l2, l3, -⟩ := new_region_links arch m P hbits
  have hn : DETOUR_TRAMPOLINES_PER_REGION arch - 3 =
      DETOUR_TRAMPOLINES_PER_REGION arch - 4 + 1 := by omega
  rw [hn]
  have hrd : ∀ k, 4 ≤ k → k ≤ DETOUR_TRAMPOLINES_PER_REGION arch →
      readPtr arch m2 (P + k * sizeof_DETOUR_TRAMPOLINE arch + off_pbRemain arch) =
      readPtr arch (alloc_thread_loop arch (P + sizeof_DETOUR_TRAMPOLINE arch)
        (DETOUR_TRAMPOLINES_PER_REGION arch - 1) m 0).1
        (P + k * sizeof_DETOUR_TRAMPOLINE arch + off_pbRemain arch) := by
    intro k hk1 hk2
    apply readPtr_congr
    intro x hx1 hx2
    have e1 : 4 * sizeof_DETOUR_TRAMPOLINE arch ≤ k * sizeof_DETOUR_TRAMPOLINE arch :=
      Nat.mul_le_mul_right _ hk1
    have e2 : (k + 1) * sizeof_DETOUR_TRAMPOLINE arch ≤
        (DETOUR_TRAMPOLINES_PER_REGION arch + 1) * sizeof_DETOUR_TRAMPOLINE arch :=
      Nat.mul_le_mul_right _ (by omega)
    rw [Nat.add_mul k 1, Nat.one_mul] at e2
    exact hframe x (by omega) (by omega)
  apply freeChain_of_links arch m2 P (DETOUR_TRAMPOLINES_PER_REGION arch - 4) 4 (by omega)
  · intro j hj
    rw [hrd (4 + j) (by omega) (by omega)]
    exact l2 (4 + j) (by omega) (by omega)
  · rw [show 4 + (DETOUR_TRAMPOLINES_PER_REGION arch - 4) = DETOUR_TRAMPOLINES_PER_REGION arch
      by omega]
    rw [hrd _ hN (Nat.le_refl _)]
    exact l3

/-! ## The state after a recorded attach, a recorded detach and their commits -/

/-- A call of `DetourAttachEx` either leaves the pending list as it was, or was made by the
owner of a clean transaction, obtained a trampoline, wrote only inside it and pushed the
operation. -/
theorem attach_state_cases (arch : Arch) (h : Host) (copier : Copier)
    (hcop : CopierContract arch copier) (hc : HostCall) (tid : Nat) (s : State) (pp d : Nat) :
    (DetourAttachEx arch h copier hc tid s pp d).2.s_pPendingOperations =
      s.s_pPendingOperations ∨
    ((attachAlloc arch h hc s pp).1 ≠ 0 ∧ s.s_nPendingThreadId = tid ∧
      s.s_nPendingError = Status.success ∧
      ∃ M, Conf (attachAlloc arch h hc s pp).1
          ((attachAlloc arch h hc s pp).1 + sizeof_DETOUR_TRAMPOLINE arch)
          (attachAlloc arch h hc s pp).2.mem M ∧
        DetourAttachEx arch h copier hc tid s pp d =
          (Status.success,
            { (attachAlloc arch h hc s pp).2 with
              mem := M,
              s_pPendingOperations :=
                attach_operation hc pp (attachTarget arch h s pp) (attachAlloc arch h hc s pp).1 ::
                  (attachAlloc arch h hc s pp).2.s_pPendingOperations })) := by
  unfold attachAlloc attachTarget
  unfold DetourAttachEx
  by_cases h1 : d = 0
  · rw [if_pos h1]; exact Or.inl rfl
  rw [if_neg h1]
  by_cases h2 : s.s_nPendingThreadId ≠ tid
  · rw [if_pos h2]; exact Or.inl rfl
  rw [if_neg h2]
  by_cases h3 : s.s_nPendingError ≠ Status.success
  · rw [if_pos h3]; exact Or.inl rfl
  rw [if_neg h3]
  by_cases h4 : pp = 0
  · rw [if_pos h4]; exact Or.inl rfl
  rw [if_neg h4]
  by_cases h5 : readPtr arch s.mem pp = 0
  · rw [if_pos h5]; exact Or.inl rfl
  rw [if_neg h5]
  dsimp only
  by_cases h6 : DetourCodeFromPointer arch h s.mem d =
      DetourCodeFromPointer arch h s.mem (readPtr arch s.mem pp)
  · rw [if_pos h6]
    by_cases h7 : s.s_fIgnoreTooSmall = true
    · rw [if_pos h7, attach_stop_zero]; exact Or.inl rfl
    · rw [if_neg h7, attach_fail_zero]; exact Or.inl rfl
  rw [if_neg h6]
  by_cases h8 : (!hc.opAlloc) = true
  · rw [if_pos h8, attach_fail_zero]; exact Or.inl rfl
  rw [if_neg h8]
  have hf := alloc_fields arch hc.page s
    (DetourCodeFromPointer arch h s.mem (readPtr arch s.mem pp))
  generalize detour_alloc_trampoline arch hc.page s
    (DetourCodeFromPointer arch h s.mem (readPtr arch s.mem pp)) = a at hf ⊢
  by_cases h9 : a.1 = 0
  · rw [if_pos h9, attach_fail_zero]
    exact Or.inl hf.1
  · rw [if_neg h9]
    obtain ⟨M, hM, hcase⟩ := with_trampoline_spec arch copier hcop hc a.2 pp
      (DetourCodeFromPointer arch h s.mem (readPtr arch s.mem pp))
      (DetourCodeFromPointer arch h s.mem d) a.1 h9
    rcases hcase with ⟨heq, -, -, -⟩ | ⟨e, latch, heq⟩
    · rw [heq]
      exact Or.inr ⟨h9, not_not.mp h2, not_not.mp h3, M, hM, rfl⟩
    · rw [heq]
      left
      have hp := (free_trampoline_fields arch
        { a.2 with mem := M, s_nPendingError := if latch then e else a.2.s_nPendingError }
        a.1).2.2.2.1
      exact hp.trans hf.1

/-- The state after a call of `DetourAttachEx` that recorded the operation `o`. -/
theorem attach_recorded_state (arch : Arch) (h : Host) (copier : Copier)
    (hcop : CopierContract arch copier) (hc : HostCall) (tid : Nat) (s : State) (pp d : Nat)
    (o : DetourOperation)
    (hrec : (DetourAttachEx arch h copier hc tid s pp d).2.s_pPendingOperations =
      o :: s.s_pPendingOperations) :
    (attachAlloc arch h hc s pp).1 ≠ 0 ∧ s.s_nPendingThreadId = tid ∧
    s.s_nPendingError = Status.success ∧
    ∃ M, Conf (attachAlloc arch h hc s pp).1
        ((attachAlloc arch h hc s pp).1 + sizeof_DETOUR_TRAMPOLINE arch)
        (attachAlloc arch h hc s pp).2.mem M ∧
      (DetourAttachEx arch h copier hc tid s pp d).2 =
        { (attachAlloc arch h hc s pp).2 with
          mem := M, s_pPendingOperations := o :: s.s_pPendingOperations } := by
  rcases attach_state_cases arch h copier hcop hc tid s pp d with hsame | ⟨h1, h2, h3, M, hM, heq⟩
  · rw [hsame] at hrec
    exact absurd hrec.symm (List.cons_ne_self _ _)
  · refine ⟨h1, h2, h3, M, hM, ?_⟩
    have hf := (alloc_fields arch hc.page s (attachTarget arch h s pp)).1
    change (attachAlloc arch h hc s pp).2.s_pPendingOperations = _ at hf
    rw [heq] at hrec ⊢
    have ho : attach_operation hc pp (attachTarget arch h s pp) (attachAlloc arch h hc s pp).1 ::
        (attachAlloc arch h hc s pp).2.s_pPendingOperations = o :: s.s_pPendingOperations := hrec
    show ({ (attachAlloc arch h hc s pp).2 with
      mem := M,
      s_pPendingOperations :=
        attach_operation hc pp (attachTarget arch h s pp) (attachAlloc arch h hc s pp).1 ::
          (attachAlloc arch h hc s pp).2.s_pPendingOperations } : State) = _
    rw [ho]

/-- The state after a call of `DetourDetach` that recorded the operation `o`. -/
theorem detach_recorded (arch : Arch) (h : Host) (hc : HostCall) (tid : Nat) (s : State)
    (pp d : Nat) (o : DetourOperation)
    (hrec : (DetourDetach arch h hc tid s pp d).2.s_pPendingOperations =
      o :: s.s_pPendingOperations) :
    DetourDetach arch h hc tid s pp d =
      (Status.success, { s with s_pPendingOperations := o :: s.s_pPendingOperations }) ∧
    s.s_nPendingThreadId = tid ∧ s.s_nPendingError = Status.success ∧
    o.fIsRemove = true ∧ o.ppbPointer = pp ∧ o.pbTargetEditable = o.pbTarget ∧
    o.pTrampoline = DetourCodeFromPointer arch h s.mem (readPtr arch s.mem pp) := by
  have hno : ∀ (x : Status × State), x.2.s_pPendingOperations = s.s_pPendingOperations →
      DetourDetach arch h hc tid s pp d = x → False := by
    intro x hx he
    rw [he, hx] at hrec
    exact absurd hrec.symm (List.cons_ne_self _ _)
  unfold DetourDetach at hrec hno ⊢
  by_cases h1 : s.s_nPendingThreadId ≠ tid
  · rw [if_pos h1] at hno; exact (hno _ rfl rfl).elim
  rw [if_neg h1] at hrec hno ⊢
  by_cases h2 : s.s_nPendingError ≠ Status.success
  · rw [if_pos h2] at hno; exact (hno _ rfl rfl).elim
  rw [if_neg h2] at hrec hno ⊢
  by_cases h3 : d = 0
  · rw [if_pos h3] at hno; exact (hno _ rfl rfl).elim
  rw [if_neg h3] at hrec hno ⊢
  by_cases h4 : pp = 0
  · rw [if_pos h4] at hno; exact (hno _ rfl rfl).elim
  rw [if_neg h4] at hrec hno ⊢
  by_cases h5 : readPtr arch s.mem pp = 0
  · rw [if_pos h5] at hno; exact (hno _ rfl rfl).elim
  rw [if_neg h5] at hrec hno ⊢
  by_cases h6 : (!hc.opAlloc) = true
  · rw [if_pos h6] at hno; exact (hno _ rfl rfl).elim
  rw [if_neg h6] at hrec hno ⊢
  dsimp only at hrec hno ⊢
  by_cases h7 : s.mem (DetourCodeFromPointer arch h s.mem (readPtr arch s.mem pp) +
      off_cbRestore arch) = 0 ∨
      s.mem (DetourCodeFromPointer arch h s.mem (readPtr arch s.mem pp) + off_cbRestore arch) >
        sizeof_rbCode arch
  · rw [if_pos h7] at hno; exact (hno _ rfl rfl).elim
  rw [if_neg h7] at hrec hno ⊢
  by_cases h8 : readPtr arch s.mem
      (DetourCodeFromPointer arch h s.mem (readPtr arch s.mem pp) + off_pbDetour arch) ≠
      DetourCodeFromPointer arch h s.mem d
  · rw [if_pos h8] at hno; exact (hno _ rfl rfl).elim
  rw [if_neg h8] at hrec hno ⊢
  by_cases h9 : hc.remapMdl = 0
  · rw [if_pos h9] at hno; exact (hno _ rfl rfl).elim
  rw [if_neg h9] at hrec ⊢
  have ho := (List.cons.inj hrec).1
  rw [ho]
  refine ⟨rfl, not_not.mp h1, not_not.mp h2, ?_, ?_, ?_, ?_⟩
  all_goals rw [← ho]

/-- The commit of a clean transaction whose only operation is an attach. -/
theorem commit_single_install (arch : Arch) (h : Host) (tid : Nat) (s : State)
    (o : DetourOperation) (hown : s.s_nPendingThreadId = tid)
    (hclean : s.s_nPendingError = Status.success) (hops : s.s_pPendingOperations = [o])
    (hr : o.fIsRemove = false) :
    DetourTransactionCommitEx arch h tid s =
      (Status.success, s.s_ppPendingError,
        { s with mem := commit_install arch s.mem o, s_pPendingOperations := [],
                 protection := detour_runnable_trampoline_regions h s.s_pRegions s.protection,
                 s_nPendingThreadId := 0 }) := by
  unfold DetourTransactionCommitEx
  rw [if_neg (not_not.mpr hown), if_neg (not_not.mpr hclean), hops]
  simp [commit_apply, commit_cleanup, hr, hclean]

/-- The commit of a clean transaction whose only operation is a removal: the trampoline is
freed after the target is restored, and the empty regions are released unless retained. -/
theorem commit_single_remove (arch : Arch) (h : Host) (tid : Nat) (s : State)
    (o : DetourOperation) (hown : s.s_nPendingThreadId = tid)
    (hclean : s.s_nPendingError = Status.success) (hops : s.s_pPendingOperations = [o])
    (hr : o.fIsRemove = true) (ht : o.pTrampoline ≠ 0) :
    (DetourTransactionCommitEx arch h tid s).1 = Status.success ∧
    (DetourTransactionCommitEx arch h tid s).2.2.mem =
      (detour_free_trampoline arch { s with mem := commit_remove arch s.mem o }
        o.pTrampoline).mem ∧
    (DetourTransactionCommitEx arch h tid s).2.2.s_pRegions =
      if s.s_fRetainRegions then
        (detour_free_trampoline arch { s with mem := commit_remove arch s.mem o }
          o.pTrampoline).s_pRegions
      else
        (detour_free_trampoline arch { s with mem := commit_remove arch s.mem o }
          o.pTrampoline).s_pRegions.filter fun r =>
            !detour_is_region_empty arch
              (detour_free_trampoline arch { s with mem := commit_remove arch s.mem o }
                o.pTrampoline).mem r := by
  obtain ⟨mem, prot, rs, rg, ign, ret, own, err, pperr, ops⟩ := s
  dsimp only at hown hclean hops ⊢
  subst hops hclean hown
  have hff := free_trampoline_fields arch
    { mem := commit_remove arch mem o, protection := prot, s_pRegions := rs, s_pRegion := rg,
      s_fIgnoreTooSmall := ign, s_fRetainRegions := ret, s_nPendingThreadId := own,
      s_nPendingError := Status.success, s_ppPendingError := pperr,
      s_pPendingOperations := [o] } o.pTrampoline
  unfold DetourTransactionCommitEx
  simp only [commit_apply, commit_cleanup, hr, ht, if_true, ne_eq, not_false_eq_true,
    and_self, true_and, not_true_eq_false, if_false]
  generalize detour_free_trampoline arch
    { mem := commit_remove arch mem o, protection := prot, s_pRegions := rs, s_pRegion := rg,
      s_fIgnoreTooSmall := ign, s_fRetainRegions := ret, s_nPendingThreadId := own,
      s_nPendingError := Status.success, s_ppPendingError := pperr,
      s_pPendingOperations := [o] } o.pTrampoline = sF at hff ⊢
  have hfr : sF.s_fRetainRegions = ret := hff.2.2.2.2.2.1
  have hfe : sF.s_nPendingError = Status.success := hff.2.1
  cases ret
  · simp [detour_free_unused_trampoline_regions, hfr, hfe]
  · simp [hfr, hfe]

/-! ## Reclamation of the region of a single detour -/

theorem readLE_zero (m : Mem) (a n : Nat) (h : ∀ i, i < n → m (a + i) = 0) :
    readLE m a n = 0 := by
  induction n generalizing a with
  | zero => rfl
  | succ n ih =>
    simp only [readLE]
    have h0 := h 0 (by omega)
    simp only [Nat.add_zero] at h0
    rw [h0, ih (a + 1)]
    intro i hi
    have := h (i + 1) (by omega)
    rw [show a + 1 + i = a + (i + 1) by omega]
    exact this

theorem readPtr_zero (arch : Arch) (m : Mem) (a : Nat)
    (h : ∀ x, a ≤ x → x < a + ptrSize arch → m x = 0) : readPtr arch m a = 0 :=
  readLE_zero m a _ (fun i hi => h (a + i) (by omega) (by omega))

theorem commit_remove_frame (arch : Arch) (m : Mem) (o : DetourOperation) (x : Nat)
    (h1 : x < o.pbTargetEditable ∨
      o.pbTargetEditable + m (o.pTrampoline + off_cbRestore arch) ≤ x)
    (h2 : x < o.ppbPointer ∨ o.ppbPointer + ptrSize arch ≤ x) :
    commit_remove arch m o x = m x := by
  have hc := conf_memcpy o.pbTargetEditable
    (o.pbTargetEditable + m (o.pTrampoline + off_cbRestore arch)) m o.pbTargetEditable
    (o.pTrampoline + off_rbRestore arch) (m (o.pTrampoline + off_cbRestore arch))
    ⟨Nat.le_refl _, Nat.le_refl _⟩ x h1
  unfold commit_remove
  cases arch <;> dsimp only <;>
    (rw [conf_writePtr _ _ _ _ _ _ ⟨Nat.le_refl _, Nat.le_refl _⟩ x h2]; exact hc)

theorem begin_flags (h : Host) (tid : Nat) (s : State) (hidle : s.s_nPendingThreadId = 0) :
    (DetourTransactionBegin h tid s).2.s_fRetainRegions = s.s_fRetainRegions ∧
    (DetourTransactionBegin h tid s).2.s_pRegion = s.s_pRegion ∧
    (DetourTransactionBegin h tid s).2.s_nPendingError =
      (detour_writable_trampoline_regions h s.s_pRegions s.protection).1 := by
  simp [DetourTransactionBegin, hidle]

/-- The state after `begin; attach; commit` from an idle state with no region, when the attach
recorded the operation `o` in the page `P` handed out by the host: the trampoline is slot 3 of
the page, the region is the only one listed with slot 4 at the head of its free list, and the
bytes of the page outside the trampoline are those the threading loop left. -/
theorem first_attach_state (arch : Arch) (h : Host) (copier : Copier)
    (hcop : CopierContract arch copier) (hc : HostCall) (tid : Nat) (s : State) (pp d : Nat)
    (o : DetourOperation) (pMdl P : Nat)
    (hidle : s.s_nPendingThreadId = 0) (hnone : s.s_pRegions = [])
    (hpage : hc.page = some (pMdl, P))
    (hbits : P + DETOUR_REGION_SIZE ≤ 2 ^ ptrBits arch)
    (hrec : (DetourAttachEx arch h copier hc tid (DetourTransactionBegin h tid s).2
      pp d).2.s_pPendingOperations = [o])
    (hT : o.pbTarget + sizeof_rbRestore arch ≤ P ∨ P + DETOUR_REGION_SIZE ≤ o.pbTarget)
    (hpp : pp + ptrSize arch ≤ P ∨ P + DETOUR_REGION_SIZE ≤ pp)
    (harm : arch = Arch.ARM → o.pbTarget + 10 ≤ 2 ^ 32) :
    o.pTrampoline = P + 3 * sizeof_DETOUR_TRAMPOLINE arch ∧
    (attachTransaction arch h copier hc tid s pp d).s_pRegions =
      [{ base := P, dwSignature := DETOUR_REGION_SIGNATURE, pMdl := pMdl,
         pFree := P + 4 * sizeof_DETOUR_TRAMPOLINE arch }] ∧
    (attachTransaction arch h copier hc tid s pp d).s_nPendingThreadId = 0 ∧
    (attachTransaction arch h copier hc tid s pp d).s_fRetainRegions = s.s_fRetainRegions ∧
    (attachTransaction arch h copier hc tid s pp d).mem
      (P + 3 * sizeof_DETOUR_TRAMPOLINE arch + off_cbRestore arch) ≤ sizeof_rbRestore arch ∧
    (∀ x, inPage P x → ¬ inSlot arch (P + 3 * sizeof_DETOUR_TRAMPOLINE arch) x →
      (attachTransaction arch h copier hc tid s pp d).mem x =
        (alloc_thread_loop arch (P + sizeof_DETOUR_TRAMPOLINE arch)
          (DETOUR_TRAMPOLINES_PER_REGION arch - 1) s.mem 0).1 x) := by
  have hsz := slot_size_bounds arch
  have hN := (region_count_bounds arch).1
  have hK := arch_bounds arch
  have hK2 := arch_bounds2 arch
  obtain ⟨hBm, hBr, hBp, hBo⟩ := begin_fields h tid s hidle
  obtain ⟨hBf, -, hBe⟩ := begin_flags h tid s hidle
  rw [hnone] at hBe hBr
  have hBe2 : (DetourTransactionBegin h tid s).2.s_nPendingError = Status.success := hBe
  unfold attachTransaction
  generalize (DetourTransactionBegin h tid s).2 = sB at hrec hBm hBr hBp hBo hBf hBe2 ⊢
  have hrec2 : (DetourAttachEx arch h copier hc tid sB pp d).2.s_pPendingOperations =
      o :: sB.s_pPendingOperations := by
    rw [hBp]
    exact hrec
  obtain ⟨ha1, -, -, M, hM, hA⟩ := attach_recorded_state arch h copier hcop hc tid sB pp d o hrec2
  obtain ⟨-, ho, -, h4, -⟩ := attach_recorded arch h copier hcop hc tid sB pp d o hrec2
  have hnz : (detour_alloc_trampoline arch (some (pMdl, P)) sB (attachTarget arch h sB pp)).1 ≠
      0 := by
    have := ha1
    unfold attachAlloc at this
    rw [hpage] at this
    exact this
  have hAl := alloc_new_region_spec arch sB (attachTarget arch h sB pp) pMdl P
    (by rw [hBr]; intro r hr; cases hr) (by rw [hBr]; intro r hr; cases hr) hbits hnz
  have hAeq : attachAlloc arch h hc sB pp =
      detour_alloc_trampoline arch (some (pMdl, P)) sB (attachTarget arch h sB pp) := by
    unfold attachAlloc
    rw [hpage]
  rw [hAeq, hAl] at hM hA ho
  dsimp only at hM hA ho
  have hot : o.pTrampoline = P + 3 * sizeof_DETOUR_TRAMPOLINE arch := by rw [ho]; rfl
  have hoT : o.pbTargetEditable = o.pbTarget := by rw [ho]; rfl
  have hop : o.ppbPointer = pp := by rw [ho]; rfl
  have hor : o.fIsRemove = false := by rw [ho]; rfl
  have h4sz : 4 * sizeof_DETOUR_TRAMPOLINE arch ≤
      (DETOUR_TRAMPOLINES_PER_REGION arch + 1) * sizeof_DETOUR_TRAMPOLINE arch :=
    Nat.mul_le_mul_right _ (by omega)
  have hpg : DETOUR_REGION_SIZE = 4096 := rfl
  have hI := install_spec arch h copier hc tid sB pp d o
    (DetourAttachEx arch h copier hc tid sB pp d).2.mem hcop hrec2 rfl
    (by rw [hot]; omega) harm
  obtain ⟨-, hJ⟩ := commit_jump_spec arch copier
    (DetourAttachEx arch h copier hc tid sB pp d).2.mem o 0
    (attach_init arch (fun _ => 0) 0 0) (fun e => hoT.symm ▸ harm e)
  have hC := commit_single_install arch h tid (DetourAttachEx arch h copier hc tid sB pp d).2 o
    (by rw [hA]; exact hBo) (by rw [hA]; exact hBe2) (by rw [hA, hBp]) hor
  rw [hC]
  dsimp only
  rw [hot, hop] at hI
  rw [hot, hoT] at hJ
  rw [hot] at h4
  obtain ⟨i1, i2, i3, -, i5⟩ := hI
  generalize hR : (DetourAttachEx arch h copier hc tid sB pp d).2.mem
    (P + 3 * sizeof_DETOUR_TRAMPOLINE arch + off_cbRestore arch) = R at i2 i3 i5 h4
  refine ⟨hot, ?_, rfl, ?_, ?_, ?_⟩
  · rw [hA]
    show _ :: sB.s_pRegions = _
    rw [hBr]
  · rw [hA]
    exact hBf
  · have hy : commit_install arch (DetourAttachEx arch h copier hc tid sB pp d).2.mem o
        (P + 3 * sizeof_DETOUR_TRAMPOLINE arch + off_cbRestore arch) = R := by
      rw [i3 _ (by omega) (by omega), hJ _ (by omega) ?_]
      · exact hR
      · intro e
        subst e
        have e1 : off_rbCodeIn = 88 := rfl
        have e2 : off_cbRestore Arch.X64 = 62 := rfl
        omega
    rw [hy]
    exact h4
  · intro x hx hs
    have hs0 := hs
    unfold inPage at hx
    unfold inSlot at hs
    rw [i5 x (by omega) hs0 (by omega)]
    rw [hA]
    show M x = _
    rw [hM x (by omega)]
    show memset _ _ _ _ x = _
    rw [conf_memset _ _ _ _ _ _ ⟨Nat.le_refl _, Nat.le_refl _⟩ x (by omega), hBm]

/-- The state after `begin; detach; commit` from an idle state whose only region `r0` holds
the trampoline of the removal `o2` that the detach recorded: the target is restored, the
trampoline is zeroed and pushed on the free list of `r0`, and the region is released when it
is empty unless regions are retained. -/
theorem single_detach_state (arch : Arch) (h : Host) (hc : HostCall) (tid : Nat) (s : State)
    (pp d : Nat) (o : DetourOperation) (r0 : DETOUR_REGION)
    (hidle : s.s_nPendingThreadId = 0) (hregs : s.s_pRegions = [r0])
    (hrec : (DetourDetach arch h hc tid (DetourTransactionBegin h tid s).2
      pp d).2.s_pPendingOperations = [o])
    (ht : o.pTrampoline ≠ 0) (hpage : pageOf o.pTrampoline = r0.base) :
    o.pbTargetEditable = o.pbTarget ∧ o.ppbPointer = pp ∧
    (detachTransaction arch h hc tid s pp d).mem =
      writePtr arch (memset (commit_remove arch s.mem o) o.pTrampoline 0
        (sizeof_DETOUR_TRAMPOLINE arch)) (o.pTrampoline + off_pbRemain arch) r0.pFree ∧
    (detachTransaction arch h hc tid s pp d).s_pRegions =
      if s.s_fRetainRegions then [{ r0 with pFree := o.pTrampoline }]
      else [{ r0 with pFree := o.pTrampoline }].filter fun r =>
        !detour_is_region_empty arch (detachTransaction arch h hc tid s pp d).mem r := by
  obtain ⟨hBm, hBr, hBp, hBo⟩ := begin_fields h tid s hidle
  obtain ⟨hBf, -, -⟩ := begin_flags h tid s hidle
  unfold detachTransaction
  generalize (DetourTransactionBegin h tid s).2 = sB at hrec hBm hBr hBp hBo hBf ⊢
  have hrec2 : (DetourDetach arch h hc tid sB pp d).2.s_pPendingOperations =
      o :: sB.s_pPendingOperations := by
    rw [hBp]
    exact hrec
  obtain ⟨hD, -, hclean, hr, hop, hoT, -⟩ := detach_recorded arch h hc tid sB pp d o hrec2
  rw [hD]
  dsimp only
  obtain ⟨-, c2, c3⟩ := commit_single_remove arch h tid
    { sB with s_pPendingOperations := o :: sB.s_pPendingOperations } o hBo hclean
    (by show o :: sB.s_pPendingOperations = [o]; rw [hBp]) hr ht
  have hra : regionAt sB.s_pRegions (pageOf o.pTrampoline) = some r0 := by
    rw [hBr, hregs, hpage]
    simp [regionAt]
  have f3 : setFree sB.s_pRegions (pageOf o.pTrampoline) o.pTrampoline =
      [{ r0 with pFree := o.pTrampoline }] := by
    rw [hBr, hregs, hpage]
    simp [setFree]
  have hm : commit_remove arch sB.mem o = commit_remove arch s.mem o := by rw [hBm]
  generalize (DetourTransactionCommitEx arch h tid
    { sB with s_pPendingOperations := o :: sB.s_pPendingOperations }).2.2 = fin at c2 c3 ⊢
  generalize hSF : detour_free_trampoline arch
    { ({ sB with s_pPendingOperations := o :: sB.s_pPendingOperations } : State) with
      mem := commit_remove arch
        ({ sB with s_pPendingOperations := o :: sB.s_pPendingOperations } : State).mem o }
    o.pTrampoline = sF at c2 c3
  have f1 : sF.mem = writePtr arch (memset (commit_remove arch s.mem o) o.pTrampoline 0
      (sizeof_DETOUR_TRAMPOLINE arch)) (o.pTrampoline + off_pbRemain arch) r0.pFree := by
    rw [← hSF, ← hm]
    exact (free_trampoline_listed arch
      { ({ sB with s_pPendingOperations := o :: sB.s_pPendingOperations } : State) with
        mem := commit_remove arch
          ({ sB with s_pPendingOperations := o :: sB.s_pPendingOperations } : State).mem o }
      o.pTrampoline r0 hra).1
  have f2 : sF.s_pRegions = [{ r0 with pFree := o.pTrampoline }] := by
    rw [← hSF, ← f3]
    exact (free_trampoline_listed arch
      { ({ sB with s_pPendingOperations := o :: sB.s_pPendingOperations } : State) with
        mem := commit_remove arch
          ({ sB with s_pPendingOperations := o :: sB.s_pPendingOperations } : State).mem o }
      o.pTrampoline r0 hra).2
  have hfl : ({ sB with s_pPendingOperations := o :: sB.s_pPendingOperations } :
      State).s_fRetainRegions = s.s_fRetainRegions := hBf
  rw [hfl] at c3
  refine ⟨hoT, hop, c2.trans f1, ?_⟩
  rw [c3, c2, f2]

/-- Attach a single target and commit, then detach it and commit, starting with no region and
a zero-filled page `P` handed out by the host: after the second commit the region of `P` is
released unless regions are retained; its free list is the pool it was created with, slots 3
to `N`, and every slot passes the test of `detour_is_region_empty`. -/
theorem reclaim_spec (arch : Arch) (h : Host) (copier : Copier)
    (hcop : CopierContract arch copier) (hc1 hc2 : HostCall) (tid : Nat) (s : State)
    (pp d pp2 d2 : Nat) (o o2 : DetourOperation) (pMdl P : Nat)
    (hidle : s.s_nPendingThreadId = 0) (hnone : s.s_pRegions = [])
    (hpage : hc1.page = some (pMdl, P)) (hal : P % DETOUR_REGION_SIZE = 0)
    (hbits : P + DETOUR_REGION_SIZE ≤ 2 ^ ptrBits arch)
    (hzero : ∀ x, inPage P x → s.mem x = 0)
    (hrec : (DetourAttachEx arch h copier hc1 tid (DetourTransactionBegin h tid s).2
      pp d).2.s_pPendingOperations = [o])
    (hrec2 : (DetourDetach arch h hc2 tid
      (DetourTransactionBegin h tid (attachTransaction arch h copier hc1 tid s pp d)).2
      pp2 d2).2.s_pPendingOperations = [o2])
    (hsame : o2.pTrampoline = o.pTrampoline)
    (hT : o.pbTarget + sizeof_rbRestore arch ≤ P ∨ P + DETOUR_REGION_SIZE ≤ o.pbTarget)
    (hpp : pp + ptrSize arch ≤ P ∨ P + DETOUR_REGION_SIZE ≤ pp)
    (hT2 : o2.pbTarget + sizeof_rbRestore arch ≤ P ∨ P + DETOUR_REGION_SIZE ≤ o2.pbTarget)
    (hpp2 : pp2 + ptrSize arch ≤ P ∨ P + DETOUR_REGION_SIZE ≤ pp2)
    (harm : arch = Arch.ARM → o.pbTarget + 10 ≤ 2 ^ 32) :
    (detachTransaction arch h hc2 tid (attachTransaction arch h copier hc1 tid s pp d)
      pp2 d2).s_pRegions =
      (if s.s_fRetainRegions then
        [{ base := P, dwSignature := DETOUR_REGION_SIGNATURE, pMdl := pMdl,
           pFree := P + 3 * sizeof_DETOUR_TRAMPOLINE arch }]
       else []) ∧
    o.pTrampoline = P + 3 * sizeof_DETOUR_TRAMPOLINE arch ∧
    FreeChain arch
      (detachTransaction arch h hc2 tid (attachTransaction arch h copier hc1 tid s pp d)
        pp2 d2).mem
      (P + 3 * sizeof_DETOUR_TRAMPOLINE arch)
      (slotsFrom arch P 3 (DETOUR_TRAMPOLINES_PER_REGION arch - 2)) ∧
    detour_is_region_empty arch
      (detachTransaction arch h hc2 tid (attachTransaction arch h copier hc1 tid s pp d)
        pp2 d2).mem
      { base := P, dwSignature := DETOUR_REGION_SIGNATURE, pMdl := pMdl,
        pFree := P + 3 * sizeof_DETOUR_TRAMPOLINE arch } = true := by
  have hsz := slot_size_bounds arch
  have hN := (region_count_bounds arch).1
  have hK2 := arch_bounds2 arch
  have hpg : DETOUR_REGION_SIZE = 4096 := rfl
  obtain ⟨hot, hregsA, hownA, hretA, hcbA, hframeA⟩ := first_attach_state arch h copier hcop
    hc1 tid s pp d o pMdl P hidle hnone hpage hbits hrec hT hpp harm
  obtain ⟨l1, l2, l3, l4⟩ := new_region_links arch s.mem P hbits
  generalize attachTransaction arch h copier hc1 tid s pp d = sA at *
  generalize hm1 : (alloc_thread_loop arch (P + sizeof_DETOUR_TRAMPOLINE arch)
    (DETOUR_TRAMPOLINES_PER_REGION arch - 1) s.mem 0).1 = m1 at hframeA l2 l3 l4
  have hmulN : ∀ k, k ≤ DETOUR_TRAMPOLINES_PER_REGION arch →
      k * sizeof_DETOUR_TRAMPOLINE arch + sizeof_DETOUR_TRAMPOLINE arch ≤ DETOUR_REGION_SIZE := by
    intro k hk
    have : (k + 1) * sizeof_DETOUR_TRAMPOLINE arch ≤
        (DETOUR_TRAMPOLINES_PER_REGION arch + 1) * sizeof_DETOUR_TRAMPOLINE arch :=
      Nat.mul_le_mul_right _ (by omega)
    rw [Nat.add_mul k 1, Nat.one_mul] at this
    omega
  have h3 := hmulN 3 (by omega)
  have h4 := hmulN 4 (by omega)
  have e4 : 4 * sizeof_DETOUR_TRAMPOLINE arch =
      3 * sizeof_DETOUR_TRAMPOLINE arch + sizeof_DETOUR_TRAMPOLINE arch := by omega
  have ht : o2.pTrampoline ≠ 0 := by
    rw [hsame, hot]
    omega
  have hpgOf : pageOf o2.pTrampoline = P := by
    rw [hsame, hot]
    exact isSlot_pageOf ⟨3, by omega, by omega, rfl⟩ hal
  obtain ⟨hoT2, hop2, hmD, hrD⟩ := single_detach_state arch h hc2 tid sA pp2 d2 o2
    { base := P, dwSignature := DETOUR_REGION_SIGNATURE, pMdl := pMdl,
      pFree := P + 4 * sizeof_DETOUR_TRAMPOLINE arch } hownA hregsA hrec2 ht hpgOf
  generalize detachTransaction arch h hc2 tid sA pp2 d2 = sD at hmD hrD ⊢
  have hcb2 : sA.mem (o2.pTrampoline + off_cbRestore arch) ≤ sizeof_rbRestore arch := by
    rw [hsame, hot]
    exact hcbA
  rw [hsame, hot] at hmD hrD
  dsimp only at hmD hrD
  -- bytes of the page outside the trampoline are those of the threading loop
  have hfr : ∀ x, inPage P x → ¬ inSlot arch (P + 3 * sizeof_DETOUR_TRAMPOLINE arch) x →
      sD.mem x = m1 x := by
    intro x hx hs
    have hs0 := hs
    have hx0 := hx
    unfold inPage at hx
    unfold inSlot at hs
    rw [hmD, conf_free_listed arch _ _ _ x (by omega),
      commit_remove_frame arch sA.mem o2 x (by rw [hoT2]; omega) (by rw [hop2]; omega)]
    exact hframeA x hx0 hs0
  have hlink3 : readPtr arch sD.mem
      (P + 3 * sizeof_DETOUR_TRAMPOLINE arch + off_pbRemain arch) =
      P + 4 * sizeof_DETOUR_TRAMPOLINE arch := by
    rw [hmD]
    exact readPtr_writePtr arch _ _ _ (by omega)
  have hrd : ∀ k, 1 ≤ k → k ≤ DETOUR_TRAMPOLINES_PER_REGION arch → k ≠ 3 →
      readPtr arch sD.mem (P + k * sizeof_DETOUR_TRAMPOLINE arch + off_pbRemain arch) =
      readPtr arch m1 (P + k * sizeof_DETOUR_TRAMPOLINE arch + off_pbRemain arch) := by
    intro k hk1 hk2 hk3
    apply readPtr_congr
    intro x hx1 hx2
    have := hmulN k hk2
    apply hfr x
    · unfold inPage
      omega
    · unfold inSlot
      by_cases hlt : k < 3
      · have : (k + 1) * sizeof_DETOUR_TRAMPOLINE arch ≤ 3 * sizeof_DETOUR_TRAMPOLINE arch :=
          Nat.mul_le_mul_right _ (by omega)
        rw [Nat.add_mul k 1, Nat.one_mul] at this
        omega
      · have : 4 * sizeof_DETOUR_TRAMPOLINE arch ≤ k * sizeof_DETOUR_TRAMPOLINE arch :=
          Nat.mul_le_mul_right _ (by omega)
        omega
  have hlow : ∀ k, 1 ≤ k → k < 3 →
      readPtr arch sD.mem (P + k * sizeof_DETOUR_TRAMPOLINE arch + off_pbRemain arch) = 0 := by
    intro k hk1 hk2
    rw [hrd k hk1 (by omega) (by omega)]
    apply readPtr_zero
    intro x hx1 hx2
    have : (k + 1) * sizeof_DETOUR_TRAMPOLINE arch ≤ 3 * sizeof_DETOUR_TRAMPOLINE arch :=
      Nat.mul_le_mul_right _ (by omega)
    rw [Nat.add_mul k 1, Nat.one_mul] at this
    rw [l4 x (Or.inl (by omega))]
    apply hzero
    unfold inPage
    omega
  have hempty : detour_is_region_empty arch sD.mem
      { base := P, dwSignature := DETOUR_REGION_SIGNATURE, pMdl := pMdl,
        pFree := P + 3 * sizeof_DETOUR_TRAMPOLINE arch } = true := by
    unfold detour_is_region_empty
    rw [if_neg (not_not.mpr rfl)]
    dsimp only
    rw [List.all_eq_true]
    intro i hi
    have hi2 : i < DETOUR_TRAMPOLINES_PER_REGION arch := List.mem_range.mp hi
    have ea : P + sizeof_DETOUR_TRAMPOLINE arch + i * sizeof_DETOUR_TRAMPOLINE arch =
        P + (i + 1) * sizeof_DETOUR_TRAMPOLINE arch := by
      rw [Nat.add_mul i 1, Nat.one_mul]
      omega
    rw [ea]
    have hv : readPtr arch sD.mem
        (P + (i + 1) * sizeof_DETOUR_TRAMPOLINE arch + off_pbRemain arch) = 0 ∨
        (P ≤ readPtr arch sD.mem
          (P + (i + 1) * sizeof_DETOUR_TRAMPOLINE arch + off_pbRemain arch) ∧
         readPtr arch sD.mem
          (P + (i + 1) * sizeof_DETOUR_TRAMPOLINE arch + off_pbRemain arch) <
          P + DETOUR_REGION_SIZE) := by
      by_cases hlt : i + 1 < 3
      · exact Or.inl (hlow (i + 1) (by omega) hlt)
      by_cases h3i : i + 1 = 3
      · rw [h3i, hlink3]
        exact Or.inr ⟨by omega, by omega⟩
      rw [hrd (i + 1) (by omega) (by omega) h3i]
      by_cases hlast : i + 1 = DETOUR_TRAMPOLINES_PER_REGION arch
      · rw [hlast, l3]
        exact Or.inl rfl
      · rw [l2 (i + 1) (by omega) (by omega)]
        have := hmulN (i + 1 + 1) (by omega)
        exact Or.inr ⟨by omega, by omega⟩
    generalize readPtr arch sD.mem
      (P + (i + 1) * sizeof_DETOUR_TRAMPOLINE arch + off_pbRemain arch) = v at hv
    simp only [Bool.not_eq_true', decide_eq_false_iff_not, ne_eq, ge_iff_le]
    omega
  refine ⟨?_, hot, ?_, hempty⟩
  · rw [hrD, hretA]
    cases s.s_fRetainRegions
    · simp [hempty]
    · simp
  · have hn : DETOUR_TRAMPOLINES_PER_REGION arch - 2 =
        DETOUR_TRAMPOLINES_PER_REGION arch - 3 + 1 := by omega
    rw [hn, slotsFrom_succ]
    refine ⟨rfl, by omega, ?_⟩
    rw [hlink3]
    apply new_region_chain arch s.mem sD.mem P hbits
    intro x hx1 hx2
    rw [hm1]
    apply hfr x
    · unfold inPage
      omega
    · unfold inSlot
      omega

theorem scenario_page_zero (retain : Bool) (x : Nat) (hx : inPage Scenario.page x) :
    (Scenario.idleRetain retain).mem x = 0 := by
  unfold inPage at hx
  have hp : Scenario.page = 0x150000000 := rfl
  have hr : DETOUR_REGION_SIZE = 4096 := rfl
  show writePtr Arch.X64
    (writeBytes (writeBytes (fun _ => 0) Scenario.target Scenario.prologueCode)
      Scenario.detour [0xC3]) Scenario.slot Scenario.target x = 0
  unfold writePtr writeLE
  have ht : Scenario.target = 0x140001000 := rfl
  have hd : Scenario.detour = 0x140002000 := rfl
  have hs : Scenario.slot = 0x140003000 := rfl
  have hl : Scenario.prologueCode.length = 16 := rfl
  have h8 : ptrSize Arch.X64 = 8 := rfl
  rw [writeBytes_outside _ _ _ _ (Or.inr (by rw [leBytes_length]; omega)),
    writeBytes_outside _ _ _ _ (Or.inr (by
      show Scenario.detour + 1 ≤ x
      omega)),
    writeBytes_outside _ _ _ _ (Or.inr (by omega))]

/-! ## Free-list closure under sequences of allocator calls -/

theorem pendingIn_perm {ops ops2 : List DetourOperation} (hp : ops.Perm ops2) (b : Nat) :
    (pendingIn ops b).Perm (pendingIn ops2 b) := by
  unfold pendingIn
  exact (hp.filter _).map _

theorem goodOps_perm {arch : Arch} {ops ops2 : List DetourOperation} {m : Mem}
    {rs : List DETOUR_REGION} (hp : ops.Perm ops2) (hg : GoodOps arch ops m rs) :
    GoodOps arch ops2 m rs := by
  refine ⟨hg.aligned, hg.distinct, ?_, ?_⟩
  · intro r hr
    obtain ⟨l, hl, hnd, hall⟩ := hg.chains r hr
    have hperm : ((pendingIn ops r.base).reverse ++ l).Perm
        ((pendingIn ops2 r.base).reverse ++ l) :=
      List.Perm.append_right l
        (((List.reverse_perm _).trans (pendingIn_perm hp r.base)).trans
          (List.reverse_perm _).symm)
    refine ⟨l, hl, hperm.nodup_iff.mp hnd, ?_⟩
    intro a ha
    exact hall a (hperm.mem_iff.mpr ha)
  · intro o ho hr
    exact hg.owned o (hp.mem_iff.mpr ho) hr

theorem liveOps_cons (t : Nat) (live : List Nat) :
    liveOps (t :: live) =
      { fIsRemove := false, ppbPointer := 0, pbTarget := 0, pbTargetEditable := 0,
        pbTargetMdl := 0, pTrampoline := t } :: liveOps live := rfl

/-- The allocator invariant is kept by every valid call. -/
theorem allocStep_good (arch : Arch) (sl : State × List Nat) (c : AllocCall)
    (hg : GoodOps arch (liveOps sl.2) sl.1.mem sl.1.s_pRegions)
    (hv : ValidCalls arch sl [c]) :
    GoodOps arch (liveOps (allocStep arch sl c).2) (allocStep arch sl c).1.mem
      (allocStep arch sl c).1.s_pRegions := by
  cases c with
  | alloc page T =>
    have hfresh := hv.1
    obtain ⟨g0, g1⟩ := good_alloc page sl.1 T hg hfresh
    show GoodOps arch (liveOps (if (detour_alloc_trampoline arch page sl.1 T).1 = 0 then sl.2
      else (detour_alloc_trampoline arch page sl.1 T).1 :: sl.2))
      (detour_alloc_trampoline arch page sl.1 T).2.mem
      (detour_alloc_trampoline arch page sl.1 T).2.s_pRegions
    by_cases hz : (detour_alloc_trampoline arch page sl.1 T).1 = 0
    · rw [if_pos hz]
      exact (g0 hz).1
    · rw [if_neg hz, liveOps_cons]
      exact (g1 hz _ rfl rfl).1
  | free t =>
    have hmem : t ∈ sl.2 := hv.1
    have hperm : (liveOps sl.2).Perm (liveOps (t :: sl.2.erase t)) :=
      (List.perm_cons_erase hmem).map _
    have hg2 := goodOps_perm hperm hg
    rw [liveOps_cons] at hg2
    exact (good_free sl.1 hg2 rfl).1

theorem allocRun_good (arch : Arch) (cs : List AllocCall) :
    ∀ (sl : State × List Nat), GoodOps arch (liveOps sl.2) sl.1.mem sl.1.s_pRegions →
      ValidCalls arch sl cs →
      GoodOps arch (liveOps (allocRun arch sl cs).2) (allocRun arch sl cs).1.mem
        (allocRun arch sl cs).1.s_pRegions := by
  induction cs with
  | nil =>
    intro sl hg _
    exact hg
  | cons c cs ih =>
    intro sl hg hv
    exact ih _ (allocStep_good arch sl c hg ⟨hv.1, trivial⟩) hv.2

/-- What the allocator invariant says about the free list of a listed region. -/
theorem good_free_list {arch : Arch} {live : List Nat} {m : Mem} {rs : List DETOUR_REGION}
    (hg : GoodOps arch (liveOps live) m rs) (r : DETOUR_REGION) (hr : r ∈ rs) :
    ∃ l, FreeChain arch m r.pFree l ∧ l.Nodup ∧ (∀ a ∈ l, IsSlot arch r.base a) ∧
      ∀ a ∈ l, a ∉ live := by
  obtain ⟨l, hl, hnd, hall⟩ := hg.chains r hr
  refine ⟨l, hl, (List.nodup_append.mp hnd).2.1, ?_, ?_⟩
  · intro a ha
    exact hall a (List.mem_append_right _ ha)
  · intro a ha hlive
    have hf := (free_slot_facts hg hr hl ha).2
      { fIsRemove := false, ppbPointer := 0, pbTarget := 0, pbTargetEditable := 0,
        pbTargetMdl := 0, pTrampoline := a }
      (List.mem_map.mpr ⟨a, hlive, rfl⟩) rfl
    exact hf rfl

/-! ## The reachability range -/

theorem below_cases (a : Nat) :
    (a ≤ 0x7ff80000 → detour_2gb_below a = 0x80000) ∧
    (0x7ff80000 < a → detour_2gb_below a = a - 0x7ff80000) := by
  unfold detour_2gb_below
  constructor
  · intro h
    rw [if_neg (by omega)]
  · intro h
    rw [if_pos h]

theorem above64_cases (a : Nat) :
    (a < 0xffffffff80000000 → detour_2gb_above Arch.X64 a = a + 0x7ff80000) ∧
    (0xffffffff80000000 ≤ a → detour_2gb_above Arch.X64 a = 0xfffffffffff80000) := by
  constructor
  · intro h
    show (if a < 0xffffffff80000000 then a + 0x7ff80000 else 0xfffffffffff80000) = _
    rw [if_pos h]
  · intro h
    show (if a < 0xffffffff80000000 then a + 0x7ff80000 else 0xfffffffffff80000) = _
    rw [if_neg (by omega)]

theorem above32_cases (a : Nat) :
    (a < 0x80000000 → detour_2gb_above Arch.X86 a = a + 0x7ff80000) ∧
    (0x80000000 ≤ a → detour_2gb_above Arch.X86 a = 0xfff80000) := by
  constructor
  · intro h
    show (if a < 0x80000000 then a + 0x7ff80000 else 0xfff80000) = _
    rw [if_pos h]
  · intro h
    show (if a < 0x80000000 then a + 0x7ff80000 else 0xfff80000) = _
    rw [if_neg (by omega)]

/-- The two bounds stay within 2 GiB - 512 KiB of the address, on X86 and X64. -/
theorem bounds_near (arch : Arch) (hx : arch = Arch.X86 ∨ arch = Arch.X64) (a : Nat) :
    a ≤ detour_2gb_below a + 0x7ff80000 ∧ detour_2gb_above arch a ≤ a + 0x7ff80000 ∧
    (a < 2 ^ ptrBits arch →
      detour_2gb_below a ≤ a + 0x7ff80000 ∧ a ≤ detour_2gb_above arch a + 0x7ff80000) := by
  have hb := below_cases a
  rcases hx with rfl | rfl
  · have ha := above32_cases a
    have hp : (2 : Nat) ^ ptrBits Arch.X86 = 0x100000000 := by decide
    rw [hp]
    have e1 : detour_2gb_below a = 0x80000 ∧ a ≤ 0x7ff80000 ∨
        detour_2gb_below a = a - 0x7ff80000 ∧ 0x7ff80000 < a := by
      by_cases h1 : a ≤ 0x7ff80000
      · exact Or.inl ⟨hb.1 h1, h1⟩
      · exact Or.inr ⟨hb.2 (by omega), by omega⟩
    have e2 : detour_2gb_above Arch.X86 a = a + 0x7ff80000 ∧ a < 0x80000000 ∨
        detour_2gb_above Arch.X86 a = 0xfff80000 ∧ 0x80000000 ≤ a := by
      by_cases h2 : a < 0x80000000
      · exact Or.inl ⟨ha.1 h2, h2⟩
      · exact Or.inr ⟨ha.2 (by omega), by omega⟩
    omega
  · have ha := above64_cases a
    have hp : (2 : Nat) ^ ptrBits Arch.X64 = 0x10000000000000000 := by decide
    rw [hp]
    have e1 : detour_2gb_below a = 0x80000 ∧ a ≤ 0x7ff80000 ∨
        detour_2gb_below a = a - 0x7ff80000 ∧ 0x7ff80000 < a := by
      by_cases h1 : a ≤ 0x7ff80000
      · exact Or.inl ⟨hb.1 h1, h1⟩
      · exact Or.inr ⟨hb.2 (by omega), by omega⟩
    have e2 : detour_2gb_above Arch.X64 a = a + 0x7ff80000 ∧ a < 0xffffffff80000000 ∨
        detour_2gb_above Arch.X64 a = 0xfffffffffff80000 ∧ 0xffffffff80000000 ≤ a := by
      by_cases h2 : a < 0xffffffff80000000
      · exact Or.inl ⟨ha.1 h2, h2⟩
      · exact Or.inr ⟨ha.2 (by omega), by omega⟩
    omega

/-- The modular sum of `addSigned` is the integer sum of the base and the sign-extended
immediate, reduced modulo `2 ^ w`. -/
theorem addSigned_int (w base bits v : Nat) (hb : bits ≤ w) :
    ((addSigned w base bits v : Nat) : Int) =
      ((base : Int) + signExtend bits v) % (2 ^ w : Int) := by
  have hBW : 2 ^ bits ≤ 2 ^ w := Nat.pow_le_pow_right (by decide) hb
  unfold addSigned signExtend
  by_cases hc : v % 2 ^ bits < 2 ^ (bits - 1)
  · rw [if_pos hc, if_pos hc]
    push_cast
    rw [Int.add_zero]
  · rw [if_neg hc, if_neg hc]
    push_cast [Nat.cast_sub hBW]
    have e : (base : Int) + (v : Int) % 2 ^ bits + (2 ^ w - 2 ^ bits) =
        (base : Int) + ((v : Int) % 2 ^ bits - 2 ^ bits) + 2 ^ w := by ring
    rw [e, Int.add_emod_self]

/-- Without wrap-around `addSigned` is the integer sum. -/
theorem addSigned_exact (w base bits v : Nat) (hb : bits ≤ w)
    (h0 : 0 ≤ (base : Int) + signExtend bits v)
    (h1 : (base : Int) + signExtend bits v < 2 ^ w) :
    ((addSigned w base bits v : Nat) : Int) = (base : Int) + signExtend bits v := by
  rw [addSigned_int w base bits v hb]
  exact Int.emod_eq_of_lt h0 h1

theorem find_bounds_E9 (arch : Arch) (hx : arch = Arch.X86 ∨ arch = Arch.X64) (m : Mem)
    (T : Nat) (h : m T = 0xE9) :
    detour_find_jmp_bounds arch m T =
      if addSigned (ptrBits arch) (T + 5) 32 (readLE m (T + 1) 4) < T then
        (detour_2gb_below T,
          detour_2gb_above arch (addSigned (ptrBits arch) (T + 5) 32 (readLE m (T + 1) 4)))
      else
        (detour_2gb_below (addSigned (ptrBits arch) (T + 5) 32 (readLE m (T + 1) 4)),
          detour_2gb_above arch T) := by
  rcases hx with rfl | rfl
  · show detour_find_jmp_bounds_x86 Arch.X86 m T = _
    unfold detour_find_jmp_bounds_x86
    dsimp only
    rw [if_neg (fun hc => nomatch hc.1), if_pos h]
  · show detour_find_jmp_bounds_x86 Arch.X64 m T = _
    unfold detour_find_jmp_bounds_x86
    dsimp only
    rw [if_neg (fun hc => by rw [h] at hc; exact absurd hc.2.1 (by decide)), if_pos h]

/-- The shape of the range of `detour_find_jmp_bounds` on X86 and X64: the base pair, or the
base pair with one bound replaced by the bound of an address on that side of the target. -/
theorem find_bounds_shape (arch : Arch) (hx : arch = Arch.X86 ∨ arch = Arch.X64) (m : Mem)
    (T : Nat) :
    ∃ p, detour_find_jmp_bounds arch m T = (detour_2gb_below T, detour_2gb_above arch T) ∨
      (p < T ∧ detour_find_jmp_bounds arch m T = (detour_2gb_below T, detour_2gb_above arch p)) ∨
      (T ≤ p ∧ detour_find_jmp_bounds arch m T = (detour_2gb_below p, detour_2gb_above arch T)) := by
  have key : ∀ a : Arch, detour_find_jmp_bounds_x86 a m T =
      (detour_2gb_below T, detour_2gb_above a T) ∨
      (∃ p, p < T ∧ detour_find_jmp_bounds_x86 a m T =
        (detour_2gb_below T, detour_2gb_above a p)) ∨
      (∃ p, T ≤ p ∧ detour_find_jmp_bounds_x86 a m T =
        (detour_2gb_below p, detour_2gb_above a T)) := by
    intro a
    unfold detour_find_jmp_bounds_x86
    dsimp only
    by_cases h1 : a = Arch.X64 ∧ m T = 0xff ∧ m (T + 1) = 0x25
    · rw [if_pos h1]
      by_cases h2 : addSigned 64 (T + 6) 32 (readLE m (T + 2) 4) < T
      · rw [if_pos h2]
        exact Or.inr (Or.inl ⟨_, h2, rfl⟩)
      · rw [if_neg h2]
        exact Or.inr (Or.inr ⟨_, by omega, rfl⟩)
    · rw [if_neg h1]
      by_cases h3 : m T = 0xe9
      · rw [if_pos h3]
        by_cases h2 : addSigned (ptrBits a) (T + 5) 32 (readLE m (T + 1) 4) < T
        · rw [if_pos h2]
          exact Or.inr (Or.inl ⟨_, h2, rfl⟩)
        · rw [if_neg h2]
          exact Or.inr (Or.inr ⟨_, by omega, rfl⟩)
      · rw [if_neg h3]
        exact Or.inl rfl
  have hd : detour_find_jmp_bounds arch m T = detour_find_jmp_bounds_x86 arch m T := by
    rcases hx with rfl | rfl <;> rfl
  rw [hd]
  rcases key arch with h | ⟨p, h1, h2⟩ | ⟨p, h1, h2⟩
  · exact ⟨0, Or.inl h⟩
  · exact ⟨p, Or.inr (Or.inl ⟨h1, h2⟩)⟩
  · exact ⟨p, Or.inr (Or.inr ⟨h1, h2⟩)⟩

/-! ## Import thunks and patch stubs -/

theorem skip_import_spec (arch : Arch) (h : Host) (m : Mem) (p : Nat) :
    skip_import_x86 arch h m p =
      if IsImportThunk arch h m p then readPtr arch m (importSlot arch m p) else p := by
  have e : skip_import_x86 arch h m p =
      if m p = 0xff ∧ m (p + 1) = 0x25 then
        if detour_is_imported arch h m p (importSlot arch m p) = true then
          readPtr arch m (importSlot arch m p)
        else p
      else p := rfl
  rw [e]
  by_cases c : m p = 0xff ∧ m (p + 1) = 0x25
  · rw [if_pos c]
    by_cases d : detour_is_imported arch h m p (importSlot arch m p) = true
    · rw [if_pos d, if_pos (show IsImportThunk arch h m p from ⟨c.1, c.2, d⟩)]
    · rw [if_neg d, if_neg (fun x : IsImportThunk arch h m p => d x.2.2)]
  · rw [if_neg c, if_neg (fun x : IsImportThunk arch h m p => c ⟨x.1, x.2.1⟩)]

theorem skip_jmp_x86_spec (arch : Arch) (h : Host) (m : Mem) (p : Nat) (hp : p ≠ 0) :
    detour_skip_jmp_x86 arch h m p =
      if m (skip_import_x86 arch h m p) = 0xeb then
        if m (shortJumpTarget arch m (skip_import_x86 arch h m p)) = 0xff ∧
            m (shortJumpTarget arch m (skip_import_x86 arch h m p) + 1) = 0x25 then
          skip_import_x86 arch h m (shortJumpTarget arch m (skip_import_x86 arch h m p))
        else if m (shortJumpTarget arch m (skip_import_x86 arch h m p)) = 0xe9 then
          longJumpTarget arch m (shortJumpTarget arch m (skip_import_x86 arch h m p))
        else shortJumpTarget arch m (skip_import_x86 arch h m p)
      else skip_import_x86 arch h m p := by
  unfold detour_skip_jmp_x86
  rw [if_neg hp]
  rfl

theorem skip_jmp_eq_x86 (arch : Arch) (hx : arch = Arch.X86 ∨ arch = Arch.X64) (h : Host)
    (m : Mem) (p : Nat) : detour_skip_jmp arch h m p = detour_skip_jmp_x86 arch h m p := by
  rcases hx with rfl | rfl <;> rfl

/-- The patch-stub case analysis of `detour_skip_jmp` on X86 and X64. -/
theorem skip_jmp_cases (arch : Arch) (hx : arch = Arch.X86 ∨ arch = Arch.X64) (h : Host)
    (m : Mem) (p : Nat) :
    detour_skip_jmp arch h m 0 = 0 ∧
    (p ≠ 0 → ¬ IsImportThunk arch h m p → m p ≠ 0xEB → detour_skip_jmp arch h m p = p) ∧
    (p ≠ 0 → m p = 0xEB →
      (m (shortJumpTarget arch m p) = 0xE9 →
        detour_skip_jmp arch h m p = longJumpTarget arch m (shortJumpTarget arch m p)) ∧
      (IsImportThunk arch h m (shortJumpTarget arch m p) →
        detour_skip_jmp arch h m p =
          readPtr arch m (importSlot arch m (shortJumpTarget arch m p))) ∧
      (m (shortJumpTarget arch m p) ≠ 0xE9 → ¬ IsImportThunk arch h m (shortJumpTarget arch m p) →
        detour_skip_jmp arch h m p = shortJumpTarget arch m p)) := by
  refine ⟨?_, ?_, ?_⟩
  · rw [skip_jmp_eq_x86 arch hx]
    unfold detour_skip_jmp_x86
    rw [if_pos rfl]
  · intro hp hni hne
    rw [skip_jmp_eq_x86 arch hx, skip_jmp_x86_spec arch h m p hp, skip_import_spec,
      if_neg hni, if_neg hne]
  · intro hp he
    have hni : ¬ IsImportThunk arch h m p := by
      intro x
      have := x.1
      omega
    have e : skip_import_x86 arch h m p = p := by rw [skip_import_spec, if_neg hni]
    rw [skip_jmp_eq_x86 arch hx, skip_jmp_x86_spec arch h m p hp, e, if_pos he]
    generalize shortJumpTarget arch m p = q
    refine ⟨?_, ?_, ?_⟩
    · intro h9
      rw [if_neg (by omega), if_pos h9]
    · intro ht
      rw [if_pos ⟨ht.1, ht.2.1⟩, skip_import_spec, if_pos ht]
    · intro h9 ht
      by_cases c : m q = 0xff ∧ m (q + 1) = 0x25
      · rw [if_pos c, skip_import_spec, if_neg ht]
      · rw [if_neg c, if_neg h9]

/-! ## Detach validation and the order of the commit -/

theorem detach_stop_pending (s : State) (latch : Bool) (error : Status) (pp : Nat) :
    (detach_stop s latch error pp).1 = error ∧
    (detach_stop s latch error pp).2.s_pPendingOperations = s.s_pPendingOperations :=
  ⟨rfl, rfl⟩

/-- The outcome of `DetourDetach` once its argument checks are passed and the host supplies
the operation record and the writable alias. -/
theorem detach_block_cases (arch : Arch) (h : Host) (hc : HostCall) (tid : Nat) (s : State)
    (pp d : Nat) (hown : s.s_nPendingThreadId = tid)
    (herr : s.s_nPendingError = Status.success) (hd : d ≠ 0) (hpp : pp ≠ 0)
    (hslot : readPtr arch s.mem pp ≠ 0) (ha : hc.opAlloc = true) (hr : hc.remapMdl ≠ 0) :
    (BlockAccepted arch h s.mem (detachBlock arch h s.mem pp) d →
      DetourDetach arch h hc tid s pp d =
        (Status.success,
          { s with s_pPendingOperations :=
            { fIsRemove := true, ppbPointer := pp,
              pTrampoline := detachBlock arch h s.mem pp,
              pbTarget := subMod (ptrBits arch)
                (readPtr arch s.mem (detachBlock arch h s.mem pp + off_pbRemain arch))
                (s.mem (detachBlock arch h s.mem pp + off_cbRestore arch)),
              pbTargetEditable := subMod (ptrBits arch)
                (readPtr arch s.mem (detachBlock arch h s.mem pp + off_pbRemain arch))
                (s.mem (detachBlock arch h s.mem pp + off_cbRestore arch)),
              pbTargetMdl := hc.remapMdl } :: s.s_pPendingOperations })) ∧
    (¬ BlockAccepted arch h s.mem (detachBlock arch h s.mem pp) d →
      (DetourDetach arch h hc tid s pp d).1 = Status.invalid_block ∧
      (DetourDetach arch h hc tid s pp d).2.s_pPendingOperations = s.s_pPendingOperations) := by
  unfold BlockAccepted detachBlock
  unfold DetourDetach
  rw [if_neg (not_not.mpr hown), if_neg (not_not.mpr herr), if_neg hd, if_neg hpp, if_neg hslot,
    if_neg (by simp [ha])]
  dsimp only
  generalize DetourCodeFromPointer arch h s.mem (readPtr arch s.mem pp) = t
  constructor
  · intro hb
    rw [if_neg (by omega), if_neg (not_not.mpr hb.2.2), if_neg hr]
  · intro hb
    by_cases c1 : s.mem (t + off_cbRestore arch) = 0 ∨
        s.mem (t + off_cbRestore arch) > sizeof_rbCode arch
    · rw [if_pos c1]
      exact detach_stop_pending _ _ _ _
    · rw [if_neg c1]
      have c2 : readPtr arch s.mem (t + off_pbDetour arch) ≠ DetourCodeFromPointer arch h s.mem d := by
        intro e
        exact hb ⟨by omega, by omega, e⟩
      rw [if_pos c2]
      exact detach_stop_pending _ _ _ _

theorem detach_pending_cases (arch : Arch) (h : Host) (hc : HostCall) (tid : Nat) (s : State)
    (pp d : Nat) :
    (DetourDetach arch h hc tid s pp d).2.s_pPendingOperations = s.s_pPendingOperations ∨
    ∃ o, (DetourDetach arch h hc tid s pp d).2.s_pPendingOperations =
      o :: s.s_pPendingOperations := by
  unfold DetourDetach
  by_cases h1 : s.s_nPendingThreadId ≠ tid
  · rw [if_pos h1]; exact Or.inl rfl
  rw [if_neg h1]
  by_cases h2 : s.s_nPendingError ≠ Status.success
  · rw [if_pos h2]; exact Or.inl rfl
  rw [if_neg h2]
  by_cases h3 : d = 0
  · rw [if_pos h3]; exact Or.inl rfl
  rw [if_neg h3]
  by_cases h4 : pp = 0
  · rw [if_pos h4]; exact Or.inl rfl
  rw [if_neg h4]
  by_cases h5 : readPtr arch s.mem pp = 0
  · rw [if_pos h5]; exact Or.inl rfl
  rw [if_neg h5]
  by_cases h6 : (!hc.opAlloc) = true
  · rw [if_pos h6]; exact Or.inl rfl
  rw [if_neg h6]
  dsimp only
  split_ifs
  · exact Or.inl rfl
  · exact Or.inl rfl
  · exact Or.inl rfl
  · exact Or.inr ⟨_, rfl⟩

/-- A transacted call leaves the pending list as it is or places one operation at its
head. -/
theorem step_pending_cases (arch : Arch) (h : Host) (copier : Copier)
    (hcop : CopierContract arch copier) (tid : Nat) (s : State) (c : Call) :
    (step arch h copier tid s c).2.s_pPendingOperations = s.s_pPendingOperations ∨
    ∃ o, (step arch h copier tid s c).2.s_pPendingOperations = o :: s.s_pPendingOperations := by
  cases c with
  | attach hc pp d =>
    show (DetourAttachEx arch h copier hc tid s pp d).2.s_pPendingOperations = _ ∨ _
    rcases attach_state_cases arch h copier hcop hc tid s pp d with e | ⟨_, _, _, M, _, e⟩
    · exact Or.inl e
    · refine Or.inr ⟨attach_operation hc pp (attachTarget arch h s pp) (attachAlloc arch h hc s pp).1, ?_⟩
      show (DetourAttachEx arch h copier hc tid s pp d).2.s_pPendingOperations = _
      rw [e]
      show _ :: (attachAlloc arch h hc s pp).2.s_pPendingOperations = _
      rw [show (attachAlloc arch h hc s pp).2.s_pPendingOperations = s.s_pPendingOperations from
        (alloc_fields arch hc.page s (attachTarget arch h s pp)).1]
  | detach hc pp d => exact detach_pending_cases arch h hc tid s pp d

theorem commit_apply_cons (arch : Arch) (o : DetourOperation) (os : List DetourOperation)
    (m : Mem) : commit_apply arch (o :: os) m = commit_apply arch os (applyOperation arch m o) :=
  rfl

/-- Of two operations recorded one after the other, the commit loop applies the later
first. -/
theorem commit_order (arch : Arch) (h : Host) (copier : Copier) (tid : Nat) (s : State)
    (cA cB : Call) (oA oB : DetourOperation)
    (hA : (step arch h copier tid s cA).2.s_pPendingOperations = oA :: s.s_pPendingOperations)
    (hB : (step arch h copier tid (step arch h copier tid s cA).2 cB).2.s_pPendingOperations =
      oB :: (step arch h copier tid s cA).2.s_pPendingOperations) (m : Mem) :
    (run arch h copier tid s [cA, cB]).s_pPendingOperations =
      oB :: oA :: s.s_pPendingOperations ∧
    commit_apply arch (run arch h copier tid s [cA, cB]).s_pPendingOperations m =
      commit_apply arch s.s_pPendingOperations
        (applyOperation arch (applyOperation arch m oB) oA) := by
  have e : (run arch h copier tid s [cA, cB]).s_pPendingOperations =
      oB :: oA :: s.s_pPendingOperations := by
    show (step arch h copier tid (step arch h copier tid s cA).2 cB).2.s_pPendingOperations = _
    rw [hB, hA]
  exact ⟨e, by rw [e]; rfl⟩

/-! ## The rendezvous of the commit -/

theorem pc_set_facts (l : List IpiPc) (cpu : Nat) (a b : IpiPc) (h : l[cpu]? = some a) :
    (l.set cpu b).length = l.length ∧
    (l.set cpu b)[cpu]? = some b ∧
    (∀ j, j ≠ cpu → (l.set cpu b)[j]? = l[j]?) ∧
    (l.set cpu b).countP IpiPc.unsignalled + (if a.unsignalled = true then 1 else 0) =
      l.countP IpiPc.unsignalled + (if b.unsignalled = true then 1 else 0) ∧
    (a.unsignalled = true → 1 ≤ l.countP IpiPc.unsignalled) := by
  obtain ⟨hlt, hget⟩ := List.getElem?_eq_some.mp h
  have hpos : a.unsignalled = true → 1 ≤ l.countP IpiPc.unsignalled := by
    intro hu
    exact List.countP_pos_iff.mpr ⟨a, hget ▸ List.getElem_mem hlt, hu⟩
  refine ⟨List.length_set _ _ _, List.getElem?_set_self hlt, ?_, ?_, hpos⟩
  · intro j hj
    exact List.getElem?_set_ne (Ne.symm hj)
  · rw [List.countP_set IpiPc.unsignalled l cpu b hlt, hget]
    by_cases hu : a.unsignalled = true
    · have := hpos hu
      rw [if_pos hu]
      omega
    · rw [if_neg hu]
      omega

theorem ipi_inv_update {arch : Arch} {issuer : Nat} {pending : List DetourOperation} {m : Mem}
    {n : Nat} {st : IpiState} (hinv : IpiInv arch issuer pending m n st)
    (cpu : Nat) (a b : IpiPc) (mem2 : Mem) (count2 : Nat)
    (ha : st.pc[cpu]? = some a)
    (hcount : count2 + (if a.unsignalled = true then 1 else 0) =
      st.count + (if b.unsignalled = true then 1 else 0))
    (hpatch : ∀ os, b = IpiPc.patching os → cpu = issuer)
    (hother : cpu ≠ issuer → mem2 = st.mem)
    (hentry : cpu = issuer → b ≠ IpiPc.entry)
    (hpat : cpu = issuer → ∀ os, b = IpiPc.patching os →
      commit_apply arch os mem2 = commit_apply arch pending m)
    (hfin : cpu = issuer → b = IpiPc.signal ∨ b = IpiPc.wait ∨ b = IpiPc.left →
      mem2 = commit_apply arch pending m)
    (hleft : b = IpiPc.left → count2 = 0)
    (hkeep : a.unsignalled = false → count2 = st.count) :
    IpiInv arch issuer pending m n { mem := mem2, count := count2, pc := st.pc.set cpu b } := by
  obtain ⟨i1, i2, i3, i4, i5, i6, i7⟩ := hinv
  obtain ⟨f1, f2, f3, f4, f5⟩ := pc_set_facts st.pc cpu a b ha
  refine ⟨?_, ?_, ?_, ?_, ?_, ?_, ?_⟩
  · show (st.pc.set cpu b).length = n
    rw [f1, i1]
  · show count2 = (st.pc.set cpu b).countP IpiPc.unsignalled
    omega
  · intro c os hc
    show c = issuer
    by_cases e : c = cpu
    · subst e
      have hc2 : (st.pc.set c b)[c]? = some (IpiPc.patching os) := hc
      rw [f2] at hc2
      exact hpatch os (Option.some.inj hc2)
    · have hc2 : (st.pc.set cpu b)[c]? = some (IpiPc.patching os) := hc
      rw [f3 c e] at hc2
      exact i3 c os hc2
  · intro hc
    show mem2 = m
    have hc2 : (st.pc.set cpu b)[issuer]? = some IpiPc.entry := hc
    by_cases e : cpu = issuer
    · subst e
      rw [f2] at hc2
      exact absurd (Option.some.inj hc2) (hentry rfl)
    · rw [f3 issuer (Ne.symm e)] at hc2
      rw [hother e]
      exact i4 hc2
  · intro os hc
    show commit_apply arch os mem2 = _
    have hc2 : (st.pc.set cpu b)[issuer]? = some (IpiPc.patching os) := hc
    by_cases e : cpu = issuer
    · subst e
      rw [f2] at hc2
      exact hpat rfl os (Option.some.inj hc2)
    · rw [f3 issuer (Ne.symm e)] at hc2
      rw [hother e]
      exact i5 os hc2
  · intro hc
    show mem2 = _
    have hc2 : (st.pc.set cpu b)[issuer]? = some IpiPc.signal ∨
        (st.pc.set cpu b)[issuer]? = some IpiPc.wait ∨
        (st.pc.set cpu b)[issuer]? = some IpiPc.left := hc
    by_cases e : cpu = issuer
    · subst e
      rw [f2] at hc2
      refine hfin rfl ?_
      rcases hc2 with x | x | x
      · exact Or.inl (Option.some.inj x)
      · exact Or.inr (Or.inl (Option.some.inj x))
      · exact Or.inr (Or.inr (Option.some.inj x))
    · rw [f3 issuer (Ne.symm e)] at hc2
      rw [hother e]
      exact i6 hc2
  · rintro ⟨c, hc⟩
    show count2 = 0
    have hc2 : (st.pc.set cpu b)[c]? = some IpiPc.left := hc
    by_cases e : c = cpu
    · subst e
      rw [f2] at hc2
      exact hleft (Option.some.inj hc2)
    · rw [f3 c e] at hc2
      have h0 := i7 ⟨c, hc2⟩
      have hu : a.unsignalled = false := by
        cases hh : a.unsignalled
        · rfl
        · have := f5 hh
          omega
      rw [hkeep hu]
      exact h0

theorem ipi_step_inv {arch : Arch} {issuer : Nat} {pending : List DetourOperation} {m : Mem}
    {n : Nat} {st : IpiState} (hn : n < 2 ^ 32) (hinv : IpiInv arch issuer pending m n st)
    (cpu : Nat) : IpiInv arch issuer pending m n (ipiStep arch issuer pending st cpu) := by
  have hinv0 := hinv
  obtain ⟨i1, i2, i3, i4, i5, i6, i7⟩ := hinv
  unfold ipiStep
  split
  · exact hinv0
  · rename_i hpc
    by_cases e : cpu = issuer
    · rw [if_pos e]
      refine ipi_inv_update hinv0 cpu IpiPc.entry (IpiPc.patching pending) st.mem st.count hpc
        rfl (fun _ _ => e) (fun x => absurd e x) (fun _ x => by cases x) ?_ ?_
        (fun x => by cases x) (fun x => by cases x)
      · intro _ os hos
        cases hos
        rw [i4 (e ▸ hpc)]
      · intro _ x
        rcases x with x | x | x <;> cases x
    · rw [if_neg e]
      exact ipi_inv_update hinv0 cpu IpiPc.entry IpiPc.signal st.mem st.count hpc
        rfl (fun _ x => by cases x) (fun _ => rfl) (fun x => absurd x e)
        (fun x => absurd x e) (fun x => absurd x e) (fun x => by cases x) (fun x => by cases x)
  · rename_i hpc
    have e : cpu = issuer := i3 cpu [] hpc
    refine ipi_inv_update hinv0 cpu (IpiPc.patching []) IpiPc.signal st.mem st.count hpc
      rfl (fun _ x => by cases x) (fun _ => rfl) (fun _ x => by cases x)
      (fun _ _ x => by cases x) ?_ (fun x => by cases x) (fun x => by cases x)
    intro _ _
    exact i5 [] (e ▸ hpc)
  · rename_i o os hpc
    have e : cpu = issuer := i3 cpu (o :: os) hpc
    refine ipi_inv_update hinv0 cpu (IpiPc.patching (o :: os)) (IpiPc.patching os)
      (applyOperation arch st.mem o) st.count hpc
      rfl (fun _ _ => e) (fun x => absurd e x) (fun _ x => by cases x)
      ?_ ?_ (fun x => by cases x) (fun x => by cases x)
    · intro _ os2 hos
      cases hos
      exact i5 (o :: os) (e ▸ hpc)
    · intro _ x
      rcases x with x | x | x <;> cases x
  · rename_i hpc
    obtain ⟨f1, f2, f3, f4, f5⟩ := pc_set_facts st.pc cpu IpiPc.signal IpiPc.wait hpc
    have hle : st.pc.countP IpiPc.unsignalled ≤ st.pc.length := List.countP_le_length _
    have hpos := f5 rfl
    have hdec : detour_ipi_signal_done st.count + 1 = st.count := by
      unfold detour_ipi_signal_done
      have hp : (2 : Nat) ^ 32 = 4294967296 := by decide
      rw [hp] at hn ⊢
      omega
    refine ipi_inv_update hinv0 cpu IpiPc.signal IpiPc.wait st.mem
      (detour_ipi_signal_done st.count) hpc ?_ (fun _ x => by cases x) (fun _ => rfl)
      (fun _ x => by cases x) (fun _ _ x => by cases x) ?_ (fun x => by cases x)
      (fun x => by cases x)
    · show detour_ipi_signal_done st.count + 1 = st.count + 0
      omega
    · intro e _
      exact i6 (Or.inl (e ▸ hpc))
  · rename_i hpc
    by_cases c0 : st.count = 0
    · rw [if_pos c0]
      refine ipi_inv_update hinv0 cpu IpiPc.wait IpiPc.left st.mem st.count hpc
        rfl (fun _ x => by cases x) (fun _ => rfl) (fun _ x => by cases x)
        (fun _ _ x => by cases x) ?_ (fun _ => c0) (fun _ => rfl)
      intro e _
      exact i6 (Or.inr (Or.inl (e ▸ hpc)))
    · rw [if_neg c0]
      exact hinv0
  · exact hinv0

theorem ipi_call_inv (arch : Arch) (issuer : Nat) (pending : List DetourOperation) (m : Mem)
    (n : Nat) (hn : n < 2 ^ 32) :
    IpiInv arch issuer pending m n (detour_ipi_call n n m) := by
  unfold detour_ipi_call
  refine ⟨?_, ?_, ?_, ?_, ?_, ?_, ?_⟩
  · exact List.length_replicate _ _
  · show n % 2 ^ 32 = (List.replicate n IpiPc.entry).countP IpiPc.unsignalled
    rw [List.countP_replicate, Nat.mod_eq_of_lt hn]
    rfl
  · intro c os hc
    have hc2 : (List.replicate n IpiPc.entry)[c]? = some (IpiPc.patching os) := hc
    rw [List.getElem?_replicate] at hc2
    split at hc2
    · cases hc2
    · cases hc2
  · intro _
    rfl
  · intro os hc
    have hc2 : (List.replicate n IpiPc.entry)[issuer]? = some (IpiPc.patching os) := hc
    rw [List.getElem?_replicate] at hc2
    split at hc2
    · cases hc2
    · cases hc2
  · intro hc
    have hc2 : (List.replicate n IpiPc.entry)[issuer]? = some IpiPc.signal ∨
        (List.replicate n IpiPc.entry)[issuer]? = some IpiPc.wait ∨
        (List.replicate n IpiPc.entry)[issuer]? = some IpiPc.left := hc
    rw [List.getElem?_replicate] at hc2
    split at hc2
    · rcases hc2 with x | x | x <;> cases x
    · rcases hc2 with x | x | x <;> cases x
  · rintro ⟨c, hc⟩
    have hc2 : (List.replicate n IpiPc.entry)[c]? = some IpiPc.left := hc
    rw [List.getElem?_replicate] at hc2
    split at hc2
    · cases hc2
    · cases hc2

theorem ipi_run_inv {arch : Arch} {issuer : Nat} {pending : List DetourOperation} {m : Mem}
    {n : Nat} (hn : n < 2 ^ 32) (sched : List Nat) :
    ∀ st, IpiInv arch issuer pending m n st →
      IpiInv arch issuer pending m n (ipiRun arch issuer pending st sched) := by
  induction sched with
  | nil => intro st h; exact h
  | cons c cs ih =>
    intro st h
    exact ih _ (ipi_step_inv hn h c)

/-- What the invariant gives once a processor has left the callback. -/
theorem ipi_inv_left {arch : Arch} {issuer : Nat} {pending : List DetourOperation} {m : Mem}
    {n : Nat} {st : IpiState} (hi : issuer < n) (hinv : IpiInv arch issuer pending m n st)
    (cpu : Nat) (hl : st.pc[cpu]? = some IpiPc.left) :
    st.count = 0 ∧
    (∀ c, c < n → st.pc[c]? = some IpiPc.wait ∨ st.pc[c]? = some IpiPc.left) ∧
    st.mem = commit_apply arch pending m := by
  obtain ⟨i1, i2, i3, i4, i5, i6, i7⟩ := hinv
  have h0 := i7 ⟨cpu, hl⟩
  have hall : ∀ c, c < n → st.pc[c]? = some IpiPc.wait ∨ st.pc[c]? = some IpiPc.left := by
    intro c hc
    have hz : st.pc.countP IpiPc.unsignalled = 0 := by omega
    have hlt : c < st.pc.length := by omega
    have hmem := List.countP_eq_zero.mp hz (st.pc[c]) (List.getElem_mem hlt)
    rw [List.getElem?_eq_getElem hlt]
    cases hh : st.pc[c] with
    | entry => rw [hh] at hmem; exact absurd rfl hmem
    | patching os => rw [hh] at hmem; exact absurd rfl hmem
    | signal => rw [hh] at hmem; exact absurd rfl hmem
    | wait => exact Or.inl rfl
    | left => exact Or.inr rfl
  refine ⟨h0, hall, ?_⟩
  rcases hall issuer hi with x | x
  · exact i6 (Or.inr (Or.inl x))
  · exact i6 (Or.inr (Or.inr x))

/-- Under the invariant only the issuing processor changes the memory. -/
theorem ipi_inv_writer {arch : Arch} {issuer : Nat} {pending : List DetourOperation} {m : Mem}
    {n : Nat} {st : IpiState} (hinv : IpiInv arch issuer pending m n st)
    (cpu : Nat) (hc : cpu ≠ issuer) : (ipiStep arch issuer pending st cpu).mem = st.mem := by
  obtain ⟨i1, i2, i3, i4, i5, i6, i7⟩ := hinv
  unfold ipiStep
  split
  · rfl
  · rfl
  · rfl
  · rename_i o os hpc
    exact absurd (i3 cpu (o :: os) hpc) hc
  · rfl
  · split
    · rfl
    · rfl
  · rfl

/-- When the host reports fewer active processors than run the callback, a processor can
leave the callback before the issuing processor has applied anything. -/
theorem ipi_short_count_leaves_early :
    (ipiRun Arch.X64 1 [] (detour_ipi_call 3 2 (fun _ => 0)) [0, 0, 2, 2, 0]).pc =
      [IpiPc.left, IpiPc.entry, IpiPc.wait] ∧
    (ipiRun Arch.X64 1 [] (detour_ipi_call 3 2 (fun _ => 0)) [0, 0, 2, 2, 0]).count = 0 := by
  decide

/-- For a value whose bit `bits - 1` is clear, `detour_sign_extend` returns the value. -/
theorem sign_extend_nonneg (v : Nat) (hv : v < 2 ^ 20) : detour_sign_extend v 21 = v := by
  unfold detour_sign_extend
  dsimp only
  have h1 : (v <<< (64 - 21)) % 2 ^ 64 < 2 ^ 63 := by
    rw [Nat.shiftLeft_eq]
    have hp : (2 : Nat) ^ 20 = 1048576 := by decide
    have hq : (2 : Nat) ^ (64 - 21) = 8796093022208 := by decide
    have hr : (2 : Nat) ^ 64 = 18446744073709551616 := by decide
    have hs : (2 : Nat) ^ 63 = 9223372036854775808 := by decide
    rw [hp] at hv
    rw [hq, hr, hs]
    omega
  rw [if_neg (by omega)]
  exact Nat.or_zero v

/-! ## Completion of the rendezvous -/

theorem ipiRun_append (arch : Arch) (issuer : Nat) (pending : List DetourOperation)
    (a b : List Nat) : ∀ st, ipiRun arch issuer pending st (a ++ b) =
      ipiRun arch issuer pending (ipiRun arch issuer pending st a) b := by
  induction a with
  | nil => intro st; rfl
  | cons c cs ih => intro st; exact ih _

theorem rank_sum_set (len : Nat) (l : List IpiPc) : ∀ (i : Nat) (a b : IpiPc),
    l[i]? = some a →
    ((l.set i b).map (IpiPc.rank len)).sum + IpiPc.rank len a =
      (l.map (IpiPc.rank len)).sum + IpiPc.rank len b := by
  induction l with
  | nil => intro i a b h; cases h
  | cons x xs ih =>
    intro i a b h
    cases i with
    | zero =>
      have hx : x = a := by simpa using h
      subst hx
      simp only [List.set_cons_zero, List.map_cons, List.sum_cons]
      omega
    | succ j =>
      have hj : xs[j]? = some a := by simpa using h
      have := ih j a b hj
      simp only [List.set_cons_succ, List.map_cons, List.sum_cons]
      omega

/-- A processor that has not left and is not blocked in the wait makes a step that lowers
its rank. -/
theorem ipi_step_rank (arch : Arch) (issuer : Nat) (pending : List DetourOperation)
    (st : IpiState) (cpu : Nat) (a : IpiPc) (ha : st.pc[cpu]? = some a)
    (hl : a ≠ IpiPc.left) (hw : a = IpiPc.wait → st.count = 0) :
    ∃ b, (ipiStep arch issuer pending st cpu).pc = st.pc.set cpu b ∧
      IpiPc.rank pending.length b < IpiPc.rank pending.length a := by
  unfold ipiStep
  split
  · rename_i hpc
    rw [hpc] at ha
    cases ha
  · rename_i hpc
    rw [hpc] at ha
    cases ha
    by_cases e : cpu = issuer
    · rw [if_pos e]
      exact ⟨_, rfl, by show pending.length + 3 < pending.length + 4; omega⟩
    · rw [if_neg e]
      exact ⟨_, rfl, by show 2 < pending.length + 4; omega⟩
  · rename_i hpc
    rw [hpc] at ha
    cases ha
    exact ⟨_, rfl, by simp [IpiPc.rank]⟩
  · rename_i o os hpc
    rw [hpc] at ha
    cases ha
    exact ⟨_, rfl, by show os.length + 3 < (o :: os).length + 3; simp⟩
  · rename_i hpc
    rw [hpc] at ha
    cases ha
    exact ⟨_, rfl, by simp [IpiPc.rank]⟩
  · rename_i hpc
    rw [hpc] at ha
    cases ha
    rw [if_pos (hw rfl)]
    exact ⟨_, rfl, by simp [IpiPc.rank]⟩
  · rename_i hpc
    rw [hpc] at ha
    cases ha
    exact absurd rfl hl

/-- Under the invariant, some processor can make a step that lowers the sum of the ranks,
unless every processor has left. -/
theorem ipi_progress {arch : Arch} {issuer : Nat} {pending : List DetourOperation} {m : Mem}
    {n : Nat} {st : IpiState} (hinv : IpiInv arch issuer pending m n st)
    (hsome : ∃ c, c < n ∧ st.pc[c]? ≠ some IpiPc.left) :
    ∃ cpu, ((ipiStep arch issuer pending st cpu).pc.map (IpiPc.rank pending.length)).sum <
      (st.pc.map (IpiPc.rank pending.length)).sum := by
  obtain ⟨i1, i2, i3, i4, i5, i6, i7⟩ := hinv
  have key : ∀ (cpu : Nat) (a : IpiPc), st.pc[cpu]? = some a → a ≠ IpiPc.left →
      (a = IpiPc.wait → st.count = 0) →
      ((ipiStep arch issuer pending st cpu).pc.map (IpiPc.rank pending.length)).sum <
        (st.pc.map (IpiPc.rank pending.length)).sum := by
    intro cpu a ha hl hw
    obtain ⟨b, hb, hr⟩ := ipi_step_rank arch issuer pending st cpu a ha hl hw
    have hs := rank_sum_set pending.length st.pc cpu a b ha
    rw [hb]
    omega
  by_cases hu : ∃ (c : Nat) (a : IpiPc), st.pc[c]? = some a ∧ a.unsignalled = true
  · obtain ⟨c, a, hc, hua⟩ := hu
    refine ⟨c, key c a hc ?_ ?_⟩
    · intro e; subst e; cases hua
    · intro e; subst e; cases hua
  · obtain ⟨c, hcn, hc⟩ := hsome
    have hlt : c < st.pc.length := by omega
    have hz : st.pc.countP IpiPc.unsignalled = 0 := by
      rw [List.countP_eq_zero]
      intro a ha hua
      obtain ⟨j, hj, hja⟩ := List.getElem_of_mem ha
      exact hu ⟨j, a, by rw [List.getElem?_eq_getElem hj, hja], hua⟩
    have hget : st.pc[c]? = some st.pc[c] := List.getElem?_eq_getElem hlt
    refine ⟨c, key c st.pc[c] hget ?_ ?_⟩
    · intro e
      rw [e] at hget
      exact hc hget
    · intro _
      omega

/-- From every state that satisfies the invariant some schedule leads every processor out of
the callback. -/
theorem ipi_completes {arch : Arch} {issuer : Nat} {pending : List DetourOperation} {m : Mem}
    {n : Nat} (hn : n < 2 ^ 32) : ∀ (k : Nat) (st : IpiState),
    IpiInv arch issuer pending m n st →
    (st.pc.map (IpiPc.rank pending.length)).sum ≤ k →
    ∃ more, ∀ c, c < n →
      (ipiRun arch issuer pending st more).pc[c]? = some IpiPc.left := by
  intro k
  induction k with
  | zero =>
    intro st hinv hk
    by_cases hall : ∀ c, c < n → st.pc[c]? = some IpiPc.left
    · exact ⟨[], hall⟩
    · have hsome : ∃ c, c < n ∧ st.pc[c]? ≠ some IpiPc.left := by
        by_contra hx
        exact hall (fun c hc => by_contra (fun hne => hx ⟨c, hc, hne⟩))
      obtain ⟨cpu, hlt⟩ := ipi_progress hinv hsome
      omega
  | succ k ih =>
    intro st hinv hk
    by_cases hall : ∀ c, c < n → st.pc[c]? = some IpiPc.left
    · exact ⟨[], hall⟩
    · have hsome : ∃ c, c < n ∧ st.pc[c]? ≠ some IpiPc.left := by
        by_contra hx
        exact hall (fun c hc => by_contra (fun hne => hx ⟨c, hc, hne⟩))
      obtain ⟨cpu, hlt⟩ := ipi_progress hinv hsome
      obtain ⟨more, hm⟩ := ih (ipiStep arch issuer pending st cpu) (ipi_step_inv hn hinv cpu)
        (by omega)
      exact ⟨cpu :: more, hm⟩

/-! ## Jump encoders and decoders -/

theorem jmp_immediate_bytes (m : Mem) (c s d : Nat) :
    (detour_gen_jmp_immediate_x86 m c s d).1 c = 0xE9 ∧
    readLE (detour_gen_jmp_immediate_x86 m c s d).1 (c + 1) 4 = subMod 32 d (s + 5) := by
  refine ⟨?_, ?_⟩
  · show writeLE (writeBytes m c [0xE9]) (c + 1) 4 _ c = _
    rw [conf_writeLE (c + 1) (c + 1 + 4) _ _ _ _ ⟨Nat.le_refl _, Nat.le_refl _⟩ c (by omega),
      writeBytes_inside _ _ _ _ ⟨Nat.le_refl _, by simp⟩]
    simp
  · exact readLE_writeLE _ _ _ _ (by
      have e : (256 : Nat) ^ 4 = 2 ^ 32 := by decide
      rw [e]
      exact subMod_lt _ _ _)

theorem jmp_indirect_bytes (m : Mem) (c s v : Nat) :
    (detour_gen_jmp_indirect_X64 m c s v).1 c = 0xff ∧
    (detour_gen_jmp_indirect_X64 m c s v).1 (c + 1) = 0x25 ∧
    readLE (detour_gen_jmp_indirect_X64 m c s v).1 (c + 2) 4 = subMod 32 v (s + 6) := by
  refine ⟨?_, ?_, ?_⟩
  · show writeLE (writeBytes (writeBytes m c [0xff]) (c + 1) [0x25]) (c + 2) 4 _ c = _
    rw [conf_writeLE (c + 2) (c + 2 + 4) _ _ _ _ ⟨Nat.le_refl _, Nat.le_refl _⟩ c (by omega),
      writeBytes_outside _ _ _ _ (by omega),
      writeBytes_inside _ _ _ _ ⟨Nat.le_refl _, by simp⟩]
    simp
  · show writeLE (writeBytes (writeBytes m c [0xff]) (c + 1) [0x25]) (c + 2) 4 _ (c + 1) = _
    rw [conf_writeLE (c + 2) (c + 2 + 4) _ _ _ _ ⟨Nat.le_refl _, Nat.le_refl _⟩ (c + 1)
        (by omega),
      writeBytes_inside _ _ _ _ ⟨Nat.le_refl _, by simp⟩]
    simp
  · exact readLE_writeLE _ _ _ _ (by
      have e : (256 : Nat) ^ 4 = 2 ^ 32 := by decide
      rw [e]
      exact subMod_lt _ _ _)

/-- The displacement stored by the encoders is the difference modulo `2 ^ 32`. -/
theorem subMod_int (a b : Nat) :
    ((subMod 32 a b : Nat) : Int) = ((a : Int) - (b : Int)) % 2 ^ 32 := by
  unfold subMod
  have hp : (2 : Nat) ^ 32 = 4294967296 := by decide
  rw [hp]
  norm_num
  omega

/-- Decoding on X86: always the destination, modulo `2 ^ 32`. -/
theorem decode32 (base d : Nat) (hd : d < 2 ^ 32) :
    addSigned 32 base 32 (subMod 32 d base) = d := by
  unfold addSigned subMod
  have hp : (2 : Nat) ^ 32 = 4294967296 := by decide
  have hq : (2 : Nat) ^ (32 - 1) = 2147483648 := by decide
  rw [hp] at hd ⊢
  rw [hq]
  split <;> omega

/-- Decoding on X64: the destination, when the displacement fits in 32 signed bits. -/
theorem decode64 (base d : Nat) (hd : d < 2 ^ 64)
    (h0 : -(2 ^ 31 : Int) ≤ (d : Int) - (base : Int))
    (h1 : (d : Int) - (base : Int) < 2 ^ 31) :
    addSigned 64 base 32 (subMod 32 d base) = d := by
  unfold addSigned subMod
  have hp : (2 : Nat) ^ 32 = 4294967296 := by decide
  have hq : (2 : Nat) ^ (32 - 1) = 2147483648 := by decide
  have hr : (2 : Nat) ^ 64 = 18446744073709551616 := by decide
  rw [hr] at hd ⊢
  rw [hp, hq]
  norm_num at h0 h1
  split <;> omega

/-! ## Regions at the end of a transaction -/

theorem free_trampoline_bases (arch : Arch) (s : State) (t : Nat) :
    (detour_free_trampoline arch s t).s_pRegions.map (fun r => r.base) =
      s.s_pRegions.map (fun r => r.base) :=
  setFree_map_base _ _ _

theorem abort_loop_bases (arch : Arch) (ops : List DetourOperation) : ∀ s : State,
    (abort_loop arch ops s).s_pRegions.map (fun r => r.base) =
      s.s_pRegions.map (fun r => r.base) := by
  induction ops with
  | nil => intro s; rfl
  | cons o os ih =>
    intro s
    unfold abort_loop
    rw [ih]
    split
    · exact free_trampoline_bases arch s o.pTrampoline
    · rfl

theorem cleanup_no_removal (arch : Arch) (ops : List DetourOperation) (s : State) (f : Bool)
    (h : ∀ o ∈ ops, o.fIsRemove = false) : commit_cleanup arch ops s f = (s, f) := by
  induction ops with
  | nil => rfl
  | cons o os ih =>
    unfold commit_cleanup
    have ho := h o (List.mem_cons_self _ _)
    rw [if_neg (by rw [ho]; simp)]
    exact ih (fun x hx => h x (List.mem_cons_of_mem _ hx))

theorem cleanup_flag_true (arch : Arch) (ops : List DetourOperation) : ∀ s : State,
    (commit_cleanup arch ops s true).2 = true := by
  induction ops with
  | nil => intro s; rfl
  | cons o os ih =>
    intro s
    unfold commit_cleanup
    split
    · exact ih _
    · exact ih _

theorem cleanup_flag (arch : Arch) (ops : List DetourOperation) : ∀ (s : State) (f : Bool),
    (∃ o ∈ ops, o.fIsRemove = true ∧ o.pTrampoline ≠ 0) →
    (commit_cleanup arch ops s f).2 = true := by
  induction ops with
  | nil =>
    intro s f h
    obtain ⟨o, ho, _⟩ := h
    cases ho
  | cons o os ih =>
    intro s f h
    unfold commit_cleanup
    by_cases c : o.fIsRemove = true ∧ o.pTrampoline ≠ 0
    · rw [if_pos c]
      exact cleanup_flag_true arch os _
    · rw [if_neg c]
      obtain ⟨x, hx, hx2⟩ := h
      rcases List.mem_cons.mp hx with e | e
      · subst e
        exact absurd hx2 c
      · exact ih s f ⟨x, e, hx2⟩

theorem cleanup_retain (arch : Arch) (ops : List DetourOperation) : ∀ (s : State) (f : Bool),
    (commit_cleanup arch ops s f).1.s_fRetainRegions = s.s_fRetainRegions := by
  induction ops with
  | nil => intro s f; rfl
  | cons o os ih =>
    intro s f
    unfold commit_cleanup
    split
    · rw [ih]
      exact (free_trampoline_fields arch s o.pTrampoline).2.2.2.2.2.1
    · exact ih s f

/-- The three ways in which a transaction ends, and the region list. -/
theorem regions_at_end (arch : Arch) (h : Host) (tid : Nat) (s : State)
    (hown : s.s_nPendingThreadId = tid) :
    (DetourTransactionAbort arch h tid s).2.s_pRegions.map (fun r => r.base) =
      s.s_pRegions.map (fun r => r.base) ∧
    (s.s_nPendingError ≠ Status.success →
      (DetourTransactionCommitEx arch h tid s).2.2.s_pRegions.map (fun r => r.base) =
        s.s_pRegions.map (fun r => r.base)) ∧
    (s.s_nPendingError = Status.success →
      (∀ o ∈ s.s_pPendingOperations, o.fIsRemove = false) →
      (DetourTransactionCommitEx arch h tid s).2.2.s_pRegions = s.s_pRegions) ∧
    (s.s_nPendingError = Status.success → s.s_fRetainRegions = false →
      (∃ o ∈ s.s_pPendingOperations, o.fIsRemove = true ∧ o.pTrampoline ≠ 0) →
      ∀ r ∈ (DetourTransactionCommitEx arch h tid s).2.2.s_pRegions,
        detour_is_region_empty arch (DetourTransactionCommitEx arch h tid s).2.2.mem r =
          false) := by
  have hab : (DetourTransactionAbort arch h tid s).2.s_pRegions.map (fun r => r.base) =
      s.s_pRegions.map (fun r => r.base) := by
    rw [(abort_result arch h tid s hown).2.2.2.2.2.2]
    exact abort_loop_bases arch _ s
  refine ⟨hab, ?_, ?_, ?_⟩
  · intro herr
    unfold DetourTransactionCommitEx
    rw [if_neg (not_not.mpr hown), if_pos herr]
    exact hab
  · intro herr hno
    unfold DetourTransactionCommitEx
    rw [if_neg (not_not.mpr hown), if_neg (not_not.mpr herr)]
    dsimp only
    rw [cleanup_no_removal arch _ _ false hno]
    simp
  · intro herr hret hex r hr
    unfold DetourTransactionCommitEx at hr ⊢
    rw [if_neg (not_not.mpr hown), if_neg (not_not.mpr herr)] at hr ⊢
    dsimp only at hr ⊢
    have hf := cleanup_flag arch s.s_pPendingOperations
      { s with mem := commit_apply arch s.s_pPendingOperations s.mem } false hex
    have hr2 := cleanup_retain arch s.s_pPendingOperations
      { s with mem := commit_apply arch s.s_pPendingOperations s.mem } false
    generalize commit_cleanup arch s.s_pPendingOperations
      { s with mem := commit_apply arch s.s_pPendingOperations s.mem } false = c at *
    have hcond : (c.2 = true ∧ (!c.1.s_fRetainRegions) = true) := by
      refine ⟨hf, ?_⟩
      rw [hr2]
      show (!s.s_fRetainRegions) = true
      rw [hret]
      rfl
    rw [if_pos hcond] at hr ⊢
    have hm := (List.mem_filter.mp hr).2
    simpa using hm

/-! ## What `detour_free_unused_trampoline_regions` releases -/

theorem free_unused_spec (arch : Arch) (s : State) :
    (∀ r, r ∈ (detour_free_unused_trampoline_regions arch s).s_pRegions ↔
      r ∈ s.s_pRegions ∧ detour_is_region_empty arch s.mem r = false) ∧
    List.Sublist (detour_free_unused_trampoline_regions arch s).s_pRegions s.s_pRegions ∧
    (detour_free_unused_trampoline_regions arch s).mem = s.mem := by
  refine ⟨?_, ?_, rfl⟩
  · intro r
    show r ∈ s.s_pRegions.filter (fun r => !detour_is_region_empty arch s.mem r) ↔ _
    rw [List.mem_filter]
    simp
  · exact List.filter_sublist _

/-- A region with a slot whose `pbRemain` is neither null nor inside the page of the region
does not pass the test of `detour_is_region_empty`. -/
theorem region_not_empty (arch : Arch) (m : Mem) (r : DETOUR_REGION) (i : Nat)
    (hi : i < DETOUR_TRAMPOLINES_PER_REGION arch)
    (h0 : readPtr arch m (r.base + sizeof_DETOUR_TRAMPOLINE arch +
      i * sizeof_DETOUR_TRAMPOLINE arch + off_pbRemain arch) ≠ 0)
    (hout : readPtr arch m (r.base + sizeof_DETOUR_TRAMPOLINE arch +
        i * sizeof_DETOUR_TRAMPOLINE arch + off_pbRemain arch) < r.base ∨
      r.base + DETOUR_REGION_SIZE ≤ readPtr arch m (r.base + sizeof_DETOUR_TRAMPOLINE arch +
        i * sizeof_DETOUR_TRAMPOLINE arch + off_pbRemain arch)) :
    detour_is_region_empty arch m r = false := by
  unfold detour_is_region_empty
  split
  · rfl
  · dsimp only
    rw [Bool.eq_false_iff]
    intro hall
    have := List.all_eq_true.mp hall i (List.mem_range.mpr hi)
    simp only [Bool.not_eq_true', decide_eq_false_iff_not] at this
    exact this ⟨h0, hout⟩

/-! ## Bit fields of the Thumb-2 and ARM64 opcodes -/

theorem testBit_of_lt {x n j : Nat} (h : x < 2 ^ n) (hj : n ≤ j) : x.testBit j = false :=
  Nat.testBit_lt_two_pow (Nat.lt_of_lt_of_le h (Nat.pow_le_pow_right (by decide) hj))

theorem eq_of_bits32 {x y : Nat} (hx : x < 2 ^ 32) (hy : y < 2 ^ 32)
    (h : ∀ j, j < 32 → x.testBit j = y.testBit j) : x = y := by
  apply Nat.eq_of_testBit_eq
  intro j
  by_cases hj : j < 32
  · exact h j hj
  · rw [testBit_of_lt hx (by omega), testBit_of_lt hy (by omega)]

theorem field_lt (x mask w s : Nat) (hm : mask < 2 ^ w) (hs : w + s ≤ 32) :
    (x &&& mask) <<< s < 2 ^ 32 :=
  Nat.lt_of_lt_of_le (Nat.shiftLeft_lt (Nat.and_lt_two_pow x hm))
    (Nat.pow_le_pow_right (by decide) hs)

theorem thumbImmFields_lt (imm : Nat) : thumbImmFields imm < 2 ^ 32 := by
  unfold thumbImmFields
  refine Nat.or_lt_two_pow (Nat.or_lt_two_pow (Nat.or_lt_two_pow ?_ ?_) ?_) ?_
  · exact field_lt _ 0xf 4 16 (by decide) (by decide)
  · exact field_lt _ 1 1 26 (by decide) (by decide)
  · exact field_lt _ 7 3 12 (by decide) (by decide)
  · exact Nat.and_lt_two_pow _ (by decide)

theorem thumbMovw_lt (rd imm : Nat) : thumbMovw rd imm < 2 ^ 32 := by
  unfold thumbMovw
  exact Nat.or_lt_two_pow (Nat.or_lt_two_pow (by decide)
    (field_lt _ 0xf 4 8 (by decide) (by decide))) (thumbImmFields_lt imm)

theorem thumbMovt_lt (rd imm : Nat) : thumbMovt rd imm < 2 ^ 32 := by
  unfold thumbMovt
  exact Nat.or_lt_two_pow (Nat.or_lt_two_pow (by decide)
    (field_lt _ 0xf 4 8 (by decide) (by decide))) (thumbImmFields_lt imm)

theorem thumbImm16_lt (op : Nat) : thumbImm16 op < 2 ^ 16 := by
  unfold thumbImm16
  refine Nat.or_lt_two_pow (Nat.or_lt_two_pow (Nat.or_lt_two_pow ?_ ?_) ?_) ?_
  · exact Nat.shiftLeft_lt (Nat.and_lt_two_pow _ (show 0xf < 2 ^ 4 by decide))
  · exact Nat.lt_of_lt_of_le (Nat.shiftLeft_lt (Nat.and_lt_two_pow _ (show 1 < 2 ^ 1 by decide)))
      (by decide)
  · exact Nat.lt_of_lt_of_le (Nat.shiftLeft_lt (Nat.and_lt_two_pow _ (show 7 < 2 ^ 3 by decide)))
      (by decide)
  · exact Nat.and_lt_two_pow _ (by decide)

set_option maxHeartbeats 2000000 in
theorem thumb_lo (lo : Nat) (hlo : lo < 2 ^ 16) (j : Nat) (hj : j < 32) :
    (((thumbMovw 12 lo >>> 4) &&& 0x0000f700) ||| ((thumbMovw 12 lo >>> 15) &&& 0x00000800) |||
      ((thumbMovw 12 lo >>> 0) &&& 0x000000ff)).testBit j = lo.testBit j := by
  have hb : ∀ k, 16 ≤ k → lo.testBit k = false := fun k hk => testBit_of_lt hlo hk
  have hlo2 : lo < 65536 := hlo
  unfold thumbMovw thumbImmFields
  interval_cases j <;>
    simp only [Nat.testBit_or, Nat.testBit_and, Nat.testBit_shiftRight, Nat.testBit_shiftLeft] <;>
    simp [hb, Nat.testBit] <;>
    (simp only [Nat.shiftRight_eq_div_pow]; omega)

set_option maxHeartbeats 2000000 in
theorem thumb_hi (hi : Nat) (hhi : hi < 2 ^ 16) (j : Nat) (hj : j < 32) :
    (((thumbMovt 12 hi <<< 12) &&& 0xf7000000) ||| ((thumbMovt 12 hi <<< 1) &&& 0x08000000) |||
      ((thumbMovt 12 hi <<< 16) &&& 0x00ff0000)).testBit j = (hi <<< 16).testBit j := by
  have hb : ∀ k, 16 ≤ k → hi.testBit k = false := fun k hk => testBit_of_lt hhi hk
  unfold thumbMovt thumbImmFields
  interval_cases j <;>
    simp only [Nat.testBit_or, Nat.testBit_and, Nat.testBit_shiftRight, Nat.testBit_shiftLeft] <;>
    simp [hb, Nat.testBit]

/-- The slot rebuilt from the opcodes of `movw r12, #lo` and `movt r12, #hi`. -/
theorem thumbSlot_spec (lo hi : Nat) (hlo : lo < 2 ^ 16) (hhi : hi < 2 ^ 16) :
    thumbSlot (thumbMovw 12 lo) (thumbMovt 12 hi) = (hi <<< 16) ||| lo := by
  have hR : (hi <<< 16) ||| lo < 2 ^ 32 :=
    Nat.or_lt_two_pow (Nat.shiftLeft_lt hhi)
      (Nat.lt_of_lt_of_le hlo (Nat.pow_le_pow_right (by decide) (by decide)))
  have hL : thumbSlot (thumbMovw 12 lo) (thumbMovt 12 hi) < 2 ^ 32 := by
    unfold thumbSlot
    refine Nat.or_lt_two_pow (Nat.or_lt_two_pow (Nat.or_lt_two_pow (Nat.or_lt_two_pow
      (Nat.or_lt_two_pow ?_ ?_) ?_) ?_) ?_) ?_ <;>
      exact Nat.and_lt_two_pow _ (by decide)
  apply eq_of_bits32 hL hR
  intro j hj
  have h1 := thumb_lo lo hlo j hj
  have h2 := thumb_hi hi hhi j hj
  simp only [Nat.testBit_or] at h1 h2
  unfold thumbSlot
  simp only [Nat.testBit_or]
  rw [← h1, ← h2]
  simp only [Bool.or_assoc]

set_option maxHeartbeats 2000000 in
theorem fields_decode_bits (op : Nat) (j : Nat) (hj : j < 32) :
    (thumbImmFields (thumbImm16 op)).testBit j = (op &&& 0x040f70ff).testBit j := by
  unfold thumbImmFields thumbImm16
  interval_cases j <;>
    simp only [Nat.testBit_or, Nat.testBit_and, Nat.testBit_shiftRight, Nat.testBit_shiftLeft] <;>
    simp [Nat.testBit]

theorem fields_decode (op : Nat) : thumbImmFields (thumbImm16 op) = op &&& 0x040f70ff :=
  eq_of_bits32 (thumbImmFields_lt _) (Nat.and_lt_two_pow _ (by decide))
    (fields_decode_bits op)

set_option maxHeartbeats 2000000 in
theorem fields_mask_bits (imm : Nat) (j : Nat) (hj : j < 32) :
    (0xfbf08f00 &&& thumbImmFields imm).testBit j = (0 : Nat).testBit j := by
  unfold thumbImmFields
  interval_cases j <;>
    simp only [Nat.testBit_or, Nat.testBit_and, Nat.testBit_shiftRight, Nat.testBit_shiftLeft] <;>
    simp [Nat.testBit]

theorem fields_mask (imm : Nat) : 0xfbf08f00 &&& thumbImmFields imm = 0 :=
  eq_of_bits32 (Nat.lt_of_le_of_lt Nat.and_le_left (by decide)) (by decide)
    (fields_mask_bits imm)

/-- The mask test of `detour_skip_jmp` accepts exactly the opcodes made of the constant `c`
and an immediate. -/
theorem thumb_mask_iff (c : Nat) (hc : 0xfbf08f00 &&& c = c) (op : Nat) (hop : op < 2 ^ 32) :
    op &&& 0xfbf08f00 = c ↔ ∃ imm, imm < 2 ^ 16 ∧ op = c ||| thumbImmFields imm := by
  constructor
  · intro h
    refine ⟨thumbImm16 op, thumbImm16_lt op, ?_⟩
    rw [fields_decode, ← h, ← Nat.and_or_distrib_left]
    have e : (0xfbf08f00 ||| 0x040f70ff : Nat) = 2 ^ 32 - 1 := by decide
    rw [e, Nat.and_pow_two_sub_one_eq_mod, Nat.mod_eq_of_lt hop]
  · rintro ⟨imm, _, rfl⟩
    rw [Nat.and_comm, Nat.and_or_distrib_left, hc, fields_mask, Nat.or_zero]

theorem thumbMovw_eq (imm : Nat) : thumbMovw 12 imm = 0xf2400c00 ||| thumbImmFields imm := rfl

theorem thumbMovt_eq (imm : Nat) : thumbMovt 12 imm = 0xf2c00c00 ||| thumbImmFields imm := rfl

/-- What `detour_skip_jmp` of ARM does at a `movw r12 / movt r12 / ldr pc, [r12]` thunk. -/
theorem skip_jmp_ARM_thunk (h : Host) (m : Mem) (p lo hi : Nat) (hp : p ≠ 0)
    (hlo : lo < 2 ^ 16) (hhi : hi < 2 ^ 16)
    (h1 : fetch_thumb_opcode m (DETOURS_PFUNC_TO_PBYTE p) = thumbMovw 12 lo)
    (h2 : fetch_thumb_opcode m (DETOURS_PFUNC_TO_PBYTE p + 4) = thumbMovt 12 hi)
    (h3 : fetch_thumb_opcode m (DETOURS_PFUNC_TO_PBYTE p + 8) = 0xf8dcf000) :
    detour_skip_jmp Arch.ARM h m p =
      if detour_is_imported Arch.ARM h m (DETOURS_PFUNC_TO_PBYTE p) ((hi <<< 16) ||| lo) then
        DETOURS_PFUNC_TO_PBYTE (readPtr Arch.ARM m ((hi <<< 16) ||| lo))
      else DETOURS_PFUNC_TO_PBYTE p := by
  have e1 : thumbMovw 12 lo &&& 0xfbf08f00 = 0xf2400c00 :=
    (thumb_mask_iff 0xf2400c00 (by decide) _ (thumbMovw_lt 12 lo)).mpr ⟨lo, hlo, thumbMovw_eq lo⟩
  have e2 : thumbMovt 12 hi &&& 0xfbf08f00 = 0xf2c00c00 :=
    (thumb_mask_iff 0xf2c00c00 (by decide) _ (thumbMovt_lt 12 hi)).mpr ⟨hi, hhi, thumbMovt_eq hi⟩
  have e3 := thumbSlot_spec lo hi hlo hhi
  show detour_skip_jmp_ARM h m p = _
  unfold detour_skip_jmp_ARM
  rw [if_neg hp]
  dsimp only
  rw [h1, h2, h3, if_pos e1, if_pos e2, if_pos rfl]
  unfold thumbSlot at e3
  rw [e3]

/-- A mask test on a 32-bit opcode accepts exactly the opcodes made of the constant `c` and a
field, when the field lies outside the mask. -/
theorem mask_iff (mask cmask c bound : Nat) (F D : Nat → Nat)
    (hall : mask ||| cmask = 2 ^ 32 - 1) (hc : mask &&& c = c)
    (hF : ∀ imm, imm < bound → mask &&& F imm = 0) (hD : ∀ op, D op < bound)
    (hFD : ∀ op, F (D op) = op &&& cmask) (op : Nat) (hop : op < 2 ^ 32) :
    op &&& mask = c ↔ ∃ imm, imm < bound ∧ op = c ||| F imm := by
  constructor
  · intro h
    refine ⟨D op, hD op, ?_⟩
    rw [hFD, ← h, ← Nat.and_or_distrib_left, hall, Nat.and_pow_two_sub_one_eq_mod,
      Nat.mod_eq_of_lt hop]
  · rintro ⟨imm, himm, rfl⟩
    rw [Nat.and_comm, Nat.and_or_distrib_left, hc, hF imm himm, Nat.or_zero]

set_option maxHeartbeats 2000000 in
theorem reg_field_mask_bits (rn : Nat) (hrn : rn < 2 ^ 5) (j : Nat) (hj : j < 32) :
    (0xfffffc1f &&& (rn <<< 5)).testBit j = (0 : Nat).testBit j := by
  have hb : ∀ k, 5 ≤ k → rn.testBit k = false := fun k hk => testBit_of_lt hrn hk
  have hrn2 : rn < 32 := hrn
  interval_cases j <;>
    simp only [Nat.testBit_or, Nat.testBit_and, Nat.testBit_shiftRight, Nat.testBit_shiftLeft] <;>
    simp [hb, Nat.testBit] <;>
    (simp only [Nat.shiftRight_eq_div_pow]; omega)

set_option maxHeartbeats 2000000 in
theorem reg_field_decode_bits (op : Nat) (j : Nat) (hj : j < 32) :
    (((op >>> 5) &&& 0x1f) <<< 5).testBit j = (op &&& 0x3e0).testBit j := by
  interval_cases j <;>
    simp only [Nat.testBit_or, Nat.testBit_and, Nat.testBit_shiftRight, Nat.testBit_shiftLeft] <;>
    simp [Nat.testBit]

set_option maxHeartbeats 2000000 in
theorem imm26_mask_bits (imm : Nat) (himm : imm < 2 ^ 26) (j : Nat) (hj : j < 32) :
    (0xfc000000 &&& imm).testBit j = (0 : Nat).testBit j := by
  have hb : ∀ k, 26 ≤ k → imm.testBit k = false := fun k hk => testBit_of_lt himm hk
  have himm2 : imm < 67108864 := himm
  interval_cases j <;>
    simp only [Nat.testBit_or, Nat.testBit_and, Nat.testBit_shiftRight, Nat.testBit_shiftLeft] <;>
    simp [hb, Nat.testBit] <;>
    (simp only [Nat.shiftRight_eq_div_pow]; omega)

/-- The two mask tests of `detour_does_code_end_function` of ARM64 accept exactly the
encodings of `ret xn` and of `b`. -/
theorem arm64_end_masks (op : Nat) (hop : op < 2 ^ 32) :
    (op &&& 0xfffffc1f = 0xd65f0000 ↔ ∃ rn, rn < 2 ^ 5 ∧ op = arm64Ret rn) ∧
    (op &&& 0xfc000000 = 0x14000000 ↔ ∃ imm, imm < 2 ^ 26 ∧ op = arm64B imm) := by
  constructor
  · exact mask_iff 0xfffffc1f 0x3e0 0xd65f0000 (2 ^ 5) (fun rn => rn <<< 5)
      (fun op => (op >>> 5) &&& 0x1f) (by decide) (by decide)
      (fun rn hrn => eq_of_bits32 (Nat.lt_of_le_of_lt Nat.and_le_left (by decide)) (by decide)
        (reg_field_mask_bits rn hrn))
      (fun op => Nat.and_lt_two_pow _ (by decide))
      (fun op => eq_of_bits32 (field_lt _ 0x1f 5 5 (by decide) (by decide))
        (Nat.and_lt_two_pow _ (by decide)) (reg_field_decode_bits op)) op hop
  · exact mask_iff 0xfc000000 0x03ffffff 0x14000000 (2 ^ 26) (fun imm => imm)
      (fun op => op &&& 0x03ffffff) (by decide) (by decide)
      (fun imm himm => eq_of_bits32 (Nat.lt_of_le_of_lt Nat.and_le_left (by decide))
        (by decide) (imm26_mask_bits imm himm))
      (fun op => Nat.and_lt_two_pow _ (by decide)) (fun op => rfl) op hop

/-- No encoding of `br xn` passes either test. -/
theorem arm64_br_rejected : ∀ rn, rn < 32 →
    ¬ (arm64Br rn &&& 0xfffffc1f = 0xd65f0000 ∨ arm64Br rn &&& 0xfc000000 = 0x14000000) := by
  decide

/-! ## The iterations of the copy loops -/

theorem copy_loop_succ (arch : Arch) (copier : Copier) (pbTarget t cbJump fuel : Nat)
    (st : CopyState) :
    attach_copy_loop arch copier pbTarget t cbJump (fuel + 1) st =
      if st.cbTarget < cbJump then
        if (attach_copy_body arch copier pbTarget t st).nAlign ≥ sizeof_rAlign then
          attach_copy_body arch copier pbTarget t st
        else if (attach_copy_item arch copier pbTarget t st).ends then
          attach_copy_body arch copier pbTarget t st
        else attach_copy_loop arch copier pbTarget t cbJump fuel
          (attach_copy_body arch copier pbTarget t st)
      else st := rfl

theorem copy_trace_succ (arch : Arch) (copier : Copier) (pbTarget t cbJump fuel : Nat)
    (st : CopyState) :
    attach_copy_trace arch copier pbTarget t cbJump (fuel + 1) st =
      if st.cbTarget < cbJump then
        if (attach_copy_body arch copier pbTarget t st).nAlign ≥ sizeof_rAlign then
          [attach_copy_item arch copier pbTarget t st]
        else if (attach_copy_item arch copier pbTarget t st).ends then
          [attach_copy_item arch copier pbTarget t st]
        else
          attach_copy_item arch copier pbTarget t st ::
            attach_copy_trace arch copier pbTarget t cbJump fuel
              (attach_copy_body arch copier pbTarget t st)
      else [] := rfl

theorem copy_body_fields (arch : Arch) (copier : Copier) (pbTarget t : Nat) (st : CopyState) :
    (attach_copy_body arch copier pbTarget t st).pbSrc =
      st.pbSrc + (attach_copy_item arch copier pbTarget t st).len ∧
    (attach_copy_body arch copier pbTarget t st).cbTarget =
      (attach_copy_body arch copier pbTarget t st).pbSrc - pbTarget ∧
    (attach_copy_body arch copier pbTarget t st).nAlign = st.nAlign + 1 ∧
    (attach_copy_item arch copier pbTarget t st).pbOp = st.pbSrc ∧
    (attach_copy_item arch copier pbTarget t st).index = st.nAlign ∧
    (attach_copy_item arch copier pbTarget t st).obTarget =
      st.pbSrc + (attach_copy_item arch copier pbTarget t st).len - pbTarget :=
  ⟨rfl, rfl, rfl, rfl, rfl, rfl⟩

theorem chained_append {b c : Nat} {l1 l2 : List (Nat × Nat)} :
    ∀ {a : Nat}, Chained a l1 b → Chained b l2 c → Chained a (l1 ++ l2) c := by
  induction l1 with
  | nil =>
    intro a h1 h2
    have e : a = b := h1
    subst e
    exact h2
  | cons x xs ih =>
    intro a h1 h2
    obtain ⟨x1, x2⟩ := x
    exact ⟨h1.1, ih h1.2 h2⟩

theorem chained_cover {l : List (Nat × Nat)} : ∀ {a b : Nat}, Chained a l b →
    ∀ x, a ≤ x → x < b → ∃ c ∈ l, c.1 ≤ x ∧ x < c.1 + c.2 := by
  induction l with
  | nil =>
    intro a b h x h1 h2
    have e : a = b := h
    omega
  | cons c cs ih =>
    intro a b h x h1 h2
    obtain ⟨c1, c2⟩ := c
    have e : c1 = a := h.1
    by_cases hx : x < a + c2
    · exact ⟨(c1, c2), List.mem_cons_self _ _, by show c1 ≤ x; omega, by show x < c1 + c2; omega⟩
    · obtain ⟨d, hd, hd2⟩ := ih h.2 x (by omega) h2
      exact ⟨d, List.mem_cons_of_mem _ hd, hd2⟩

/-- The first loop of `DetourAttachEx` and the list of its iterations. -/
theorem copy_trace_spec (arch : Arch) (copier : Copier) (pbTarget t cbJump : Nat) :
    ∀ (fuel : Nat) (st : CopyState), pbTarget ≤ st.pbSrc →
      st.cbTarget = st.pbSrc - pbTarget →
      Chained st.pbSrc
        ((attach_copy_trace arch copier pbTarget t cbJump fuel st).map
          (fun i => (i.pbOp, i.len)))
        (attach_copy_loop arch copier pbTarget t cbJump fuel st).pbSrc ∧
      (attach_copy_loop arch copier pbTarget t cbJump fuel st).nAlign =
        st.nAlign + (attach_copy_trace arch copier pbTarget t cbJump fuel st).length ∧
      (∀ i ∈ (attach_copy_trace arch copier pbTarget t cbJump fuel st).dropLast,
        i.ends = false) ∧
      (∀ (k : Nat) (i : CopiedInstr),
        (attach_copy_trace arch copier pbTarget t cbJump fuel st)[k]? = some i →
        i.index = st.nAlign + k ∧ i.obTarget = i.pbOp + i.len - pbTarget) ∧
      pbTarget ≤ (attach_copy_loop arch copier pbTarget t cbJump fuel st).pbSrc ∧
      (attach_copy_loop arch copier pbTarget t cbJump fuel st).cbTarget =
        (attach_copy_loop arch copier pbTarget t cbJump fuel st).pbSrc - pbTarget := by
  intro fuel
  induction fuel with
  | zero =>
    intro st h1 h2
    exact ⟨rfl, rfl, fun i hi => (by cases hi), fun k i hk => (by cases hk), h1, h2⟩
  | succ fuel ih =>
    intro st h1 h2
    rw [copy_loop_succ, copy_trace_succ]
    obtain ⟨f1, f2, f3, f4, f5, f6⟩ := copy_body_fields arch copier pbTarget t st
    have hone : Chained st.pbSrc
          ([attach_copy_item arch copier pbTarget t st].map (fun i => (i.pbOp, i.len)))
          (attach_copy_body arch copier pbTarget t st).pbSrc ∧
        (attach_copy_body arch copier pbTarget t st).nAlign =
          st.nAlign + [attach_copy_item arch copier pbTarget t st].length ∧
        (∀ i ∈ [attach_copy_item arch copier pbTarget t st].dropLast, i.ends = false) ∧
        (∀ (k : Nat) (i : CopiedInstr),
          [attach_copy_item arch copier pbTarget t st][k]? = some i →
          i.index = st.nAlign + k ∧ i.obTarget = i.pbOp + i.len - pbTarget) ∧
        pbTarget ≤ (attach_copy_body arch copier pbTarget t st).pbSrc ∧
        (attach_copy_body arch copier pbTarget t st).cbTarget =
          (attach_copy_body arch copier pbTarget t st).pbSrc - pbTarget := by
      refine ⟨⟨f4, f1.symm⟩, f3, fun i hi => (by cases hi), ?_, (by omega), f2⟩
      intro k i hk
      cases k with
      | zero =>
        have e : attach_copy_item arch copier pbTarget t st = i := by simpa using hk
        subst e
        exact ⟨f5, by rw [f6, f4]⟩
      | succ k => simp at hk
    by_cases hlt : st.cbTarget < cbJump
    · rw [if_pos hlt, if_pos hlt]
      by_cases h8 : (attach_copy_body arch copier pbTarget t st).nAlign ≥ sizeof_rAlign
      · rw [if_pos h8, if_pos h8]
        exact hone
      · rw [if_neg h8, if_neg h8]
        by_cases he : (attach_copy_item arch copier pbTarget t st).ends = true
        · rw [if_pos he, if_pos he]
          exact hone
        · rw [if_neg he, if_neg he]
          obtain ⟨g1, g2, g3, g4, g5, g6⟩ :=
            ih (attach_copy_body arch copier pbTarget t st) (by omega) f2
          refine ⟨⟨f4, ?_⟩, ?_, ?_, ?_, g5, g6⟩
          · show Chained (st.pbSrc + (attach_copy_item arch copier pbTarget t st).len) _ _
            rw [← f1]
            exact g1
          · rw [g2, f3, List.length_cons]
            omega
          · intro i hi
            cases hrest : attach_copy_trace arch copier pbTarget t cbJump fuel
                (attach_copy_body arch copier pbTarget t st) with
            | nil =>
              rw [hrest] at hi
              cases hi
            | cons y ys =>
              rw [hrest, List.dropLast_cons₂] at hi
              rcases List.mem_cons.mp hi with e | e
              · rw [e]
                simpa using he
              · exact g3 i (by rw [hrest]; exact e)
          · intro k i hk
            cases k with
            | zero =>
              have e : attach_copy_item arch copier pbTarget t st = i := by simpa using hk
              subst e
              exact ⟨f5, by rw [f6, f4]⟩
            | succ k =>
              have hk2 : (attach_copy_trace arch copier pbTarget t cbJump fuel
                  (attach_copy_body arch copier pbTarget t st))[k]? = some i := by
                simpa using hk
              obtain ⟨q1, q2⟩ := g4 k i hk2
              exact ⟨by rw [q1, f3]; omega, q2⟩
    · rw [if_neg hlt, if_neg hlt]
      exact ⟨rfl, rfl, fun i hi => (by cases hi), fun k i hk => (by cases hk), h1, h2⟩

/-- The first loop makes at most `sizeof_rAlign - nAlign` iterations, and more fuel than that
changes nothing. -/
theorem copy_loop_fuel (arch : Arch) (copier : Copier) (pbTarget t cbJump : Nat) :
    ∀ (n : Nat) (st : CopyState) (f1 f2 : Nat), st.nAlign < sizeof_rAlign →
      sizeof_rAlign - st.nAlign ≤ n → n ≤ f1 → n ≤ f2 →
      attach_copy_loop arch copier pbTarget t cbJump f1 st =
        attach_copy_loop arch copier pbTarget t cbJump f2 st ∧
      attach_copy_trace arch copier pbTarget t cbJump f1 st =
        attach_copy_trace arch copier pbTarget t cbJump f2 st ∧
      (attach_copy_trace arch copier pbTarget t cbJump f1 st).length ≤
        sizeof_rAlign - st.nAlign := by
  intro n
  induction n with
  | zero =>
    intro st f1 f2 h1 h2 _ _
    omega
  | succ n ih =>
    intro st f1 f2 h1 h2 h3 h4
    obtain ⟨g1, rfl⟩ : ∃ g, f1 = g + 1 := ⟨f1 - 1, by omega⟩
    obtain ⟨g2, rfl⟩ : ∃ g, f2 = g + 1 := ⟨f2 - 1, by omega⟩
    rw [copy_loop_succ, copy_loop_succ, copy_trace_succ, copy_trace_succ]
    have f3 : (attach_copy_body arch copier pbTarget t st).nAlign = st.nAlign + 1 := rfl
    by_cases hlt : st.cbTarget < cbJump
    · simp only [if_pos hlt]
      by_cases h8 : (attach_copy_body arch copier pbTarget t st).nAlign ≥ sizeof_rAlign
      · simp only [if_pos h8]
        refine ⟨trivial, trivial, ?_⟩
        show 1 ≤ _
        omega
      · simp only [if_neg h8]
        by_cases he : (attach_copy_item arch copier pbTarget t st).ends = true
        · simp only [if_pos he]
          refine ⟨trivial, trivial, ?_⟩
          show 1 ≤ _
          omega
        · simp only [if_neg he]
          obtain ⟨q1, q2, q3⟩ := ih (attach_copy_body arch copier pbTarget t st) g1 g2
            (by omega) (by omega) (by omega) (by omega)
          refine ⟨q1, by rw [q2], ?_⟩
          rw [List.length_cons]
          omega
    · simp only [if_neg hlt]
      exact ⟨trivial, trivial, Nat.zero_le _⟩

theorem filler_loop_succ (arch : Arch) (pbTarget cbJump fuel : Nat) (st : CopyState) :
    attach_filler_loop arch pbTarget cbJump (fuel + 1) st =
      if st.cbTarget < cbJump then
        if detour_is_code_filler arch st.mem st.pbSrc = 0 then st
        else attach_filler_loop arch pbTarget cbJump fuel
          { st with pbSrc := st.pbSrc + detour_is_code_filler arch st.mem st.pbSrc,
                    cbTarget := st.pbSrc + detour_is_code_filler arch st.mem st.pbSrc - pbTarget }
      else st := rfl

theorem filler_trace_succ (arch : Arch) (pbTarget cbJump fuel : Nat) (st : CopyState) :
    attach_filler_trace arch pbTarget cbJump (fuel + 1) st =
      if st.cbTarget < cbJump then
        if detour_is_code_filler arch st.mem st.pbSrc = 0 then []
        else (st.pbSrc, detour_is_code_filler arch st.mem st.pbSrc) ::
          attach_filler_trace arch pbTarget cbJump fuel
            { st with pbSrc := st.pbSrc + detour_is_code_filler arch st.mem st.pbSrc,
                      cbTarget :=
                        st.pbSrc + detour_is_code_filler arch st.mem st.pbSrc - pbTarget }
      else [] := rfl

/-- The second loop of `DetourAttachEx` and the list of its iterations. -/
theorem filler_trace_spec (arch : Arch) (pbTarget cbJump : Nat) :
    ∀ (fuel : Nat) (st : CopyState), pbTarget ≤ st.pbSrc →
      st.cbTarget = st.pbSrc - pbTarget →
      Chained st.pbSrc (attach_filler_trace arch pbTarget cbJump fuel st)
        (attach_filler_loop arch pbTarget cbJump fuel st).pbSrc ∧
      (∀ c ∈ attach_filler_trace arch pbTarget cbJump fuel st,
        1 ≤ c.2 ∧ c.2 = detour_is_code_filler arch st.mem c.1) ∧
      (attach_filler_loop arch pbTarget cbJump fuel st).mem = st.mem ∧
      (attach_filler_loop arch pbTarget cbJump fuel st).nAlign = st.nAlign ∧
      (attach_filler_loop arch pbTarget cbJump fuel st).cbTarget =
        st.cbTarget + ((attach_filler_trace arch pbTarget cbJump fuel st).map Prod.snd).sum ∧
      (attach_filler_loop arch pbTarget cbJump fuel st).cbTarget =
        (attach_filler_loop arch pbTarget cbJump fuel st).pbSrc - pbTarget ∧
      pbTarget ≤ (attach_filler_loop arch pbTarget cbJump fuel st).pbSrc := by
  intro fuel
  induction fuel with
  | zero =>
    intro st h1 h2
    exact ⟨rfl, fun c hc => (by cases hc), rfl, rfl, rfl, h2, h1⟩
  | succ fuel ih =>
    intro st h1 h2
    rw [filler_loop_succ, filler_trace_succ]
    by_cases hlt : st.cbTarget < cbJump
    · rw [if_pos hlt, if_pos hlt]
      by_cases hz : detour_is_code_filler arch st.mem st.pbSrc = 0
      · rw [if_pos hz, if_pos hz]
        exact ⟨rfl, fun c hc => (by cases hc), rfl, rfl, rfl, h2, h1⟩
      · rw [if_neg hz, if_neg hz]
        obtain ⟨g1, g2, g3, g4, g5, g6, g7⟩ := ih
          { st with pbSrc := st.pbSrc + detour_is_code_filler arch st.mem st.pbSrc,
                    cbTarget := st.pbSrc + detour_is_code_filler arch st.mem st.pbSrc - pbTarget }
          (Nat.le_trans h1 (Nat.le_add_right _ _)) rfl
        refine ⟨⟨rfl, g1⟩, ?_, g3, g4, ?_, g6, g7⟩
        · intro c hc
          rcases List.mem_cons.mp hc with e | e
          · rw [e]
            exact ⟨Nat.pos_of_ne_zero hz, rfl⟩
          · exact g2 c e
        · rw [g5, List.map_cons, List.sum_cons]
          show st.pbSrc + detour_is_code_filler arch st.mem st.pbSrc - pbTarget + _ = _
          omega
    · rw [if_neg hlt, if_neg hlt]
      exact ⟨rfl, fun c hc => (by cases hc), rfl, rfl, rfl, h2, h1⟩

theorem filler_done (arch : Arch) (pbTarget cbJump : Nat) (st : CopyState)
    (h : ¬ st.cbTarget < cbJump) (f : Nat) :
    attach_filler_loop arch pbTarget cbJump f st = st ∧
    attach_filler_trace arch pbTarget cbJump f st = [] := by
  cases f with
  | zero => exact ⟨rfl, rfl⟩
  | succ f =>
    rw [filler_loop_succ, filler_trace_succ, if_neg h, if_neg h]
    exact ⟨rfl, rfl⟩

/-- The second loop makes at most `cbJump - cbTarget` iterations, and more fuel than that
changes nothing. -/
theorem filler_loop_fuel (arch : Arch) (pbTarget cbJump : Nat) :
    ∀ (n : Nat) (st : CopyState) (f1 f2 : Nat), pbTarget ≤ st.pbSrc →
      st.cbTarget = st.pbSrc - pbTarget →
      cbJump - st.cbTarget ≤ n → n ≤ f1 → n ≤ f2 →
      attach_filler_loop arch pbTarget cbJump f1 st =
        attach_filler_loop arch pbTarget cbJump f2 st ∧
      attach_filler_trace arch pbTarget cbJump f1 st =
        attach_filler_trace arch pbTarget cbJump f2 st ∧
      (attach_filler_trace arch pbTarget cbJump f1 st).length ≤ cbJump - st.cbTarget := by
  intro n
  induction n with
  | zero =>
    intro st f1 f2 h1 h2 h3 _ _
    have hd : ¬ st.cbTarget < cbJump := by omega
    rw [(filler_done arch pbTarget cbJump st hd f1).1,
      (filler_done arch pbTarget cbJump st hd f2).1,
      (filler_done arch pbTarget cbJump st hd f1).2,
      (filler_done arch pbTarget cbJump st hd f2).2]
    exact ⟨rfl, rfl, Nat.zero_le _⟩
  | succ n ih =>
    intro st f1 f2 h1 h2 h3 h4 h5
    obtain ⟨g1, rfl⟩ : ∃ g, f1 = g + 1 := ⟨f1 - 1, by omega⟩
    obtain ⟨g2, rfl⟩ : ∃ g, f2 = g + 1 := ⟨f2 - 1, by omega⟩
    rw [filler_loop_succ, filler_loop_succ, filler_trace_succ, filler_trace_succ]
    by_cases hlt : st.cbTarget < cbJump
    · simp only [if_pos hlt]
      by_cases hz : detour_is_code_filler arch st.mem st.pbSrc = 0
      · simp only [if_pos hz]
        exact ⟨trivial, trivial, Nat.zero_le _⟩
      · simp only [if_neg hz]
        obtain ⟨q1, q2, q3⟩ := ih
          { st with pbSrc := st.pbSrc + detour_is_code_filler arch st.mem st.pbSrc,
                    cbTarget := st.pbSrc + detour_is_code_filler arch st.mem st.pbSrc - pbTarget }
          g1 g2 (Nat.le_trans h1 (Nat.le_add_right _ _)) rfl
          (by
            show cbJump - (st.pbSrc + detour_is_code_filler arch st.mem st.pbSrc - pbTarget) ≤ n
            omega)
          (by omega) (by omega)
        refine ⟨q1, by rw [q2], ?_⟩
        rw [List.length_cons]
        have q4 : (attach_filler_trace arch pbTarget cbJump g1
            { st with pbSrc := st.pbSrc + detour_is_code_filler arch st.mem st.pbSrc,
                      cbTarget :=
                        st.pbSrc + detour_is_code_filler arch st.mem st.pbSrc - pbTarget }).length ≤
            cbJump - (st.pbSrc + detour_is_code_filler arch st.mem st.pbSrc - pbTarget) := q3
        omega
    · simp only [if_neg hlt]
      exact ⟨trivial, trivial, Nat.zero_le _⟩

/-! ## The loops inside `DetourAttachEx` -/

theorem attachScan_eq (arch : Arch) (h : Host) (copier : Copier) (hc : HostCall) (s : State)
    (pp : Nat) :
    attachScan arch h copier hc s pp =
      ((attachPre arch h hc s pp).1,
        attach_filler_loop arch (attachTarget arch h s pp) (attachPre arch h hc s pp).1
          (attachPre arch h hc s pp).1
          (attach_copy_loop arch copier (attachTarget arch h s pp) (attachAlloc arch h hc s pp).1
            (attachPre arch h hc s pp).1 sizeof_rAlign (attachPre arch h hc s pp).2)) := by
  cases arch <;> rfl

theorem arm_prelude_fields (pbTarget : Nat) (st : CopyState) (h1 : st.pbSrc = pbTarget)
    (h2 : st.cbTarget = 0) :
    pbTarget ≤ (attach_arm_prelude pbTarget st).2.pbSrc ∧
    (attach_arm_prelude pbTarget st).2.cbTarget =
      (attach_arm_prelude pbTarget st).2.pbSrc - pbTarget ∧
    (attach_arm_prelude pbTarget st).2.nAlign = st.nAlign ∧
    1 ≤ (attach_arm_prelude pbTarget st).1 := by
  unfold attach_arm_prelude
  split
  · split
    · exact ⟨(by show pbTarget ≤ st.pbSrc + 10; omega), rfl, rfl,
        (by show 1 ≤ SIZE_OF_JMP Arch.ARM + 2; decide)⟩
    · exact ⟨(by show pbTarget ≤ st.pbSrc; omega),
        (by show st.cbTarget = st.pbSrc - pbTarget; omega), rfl,
        (by show 1 ≤ SIZE_OF_JMP Arch.ARM + 2; decide)⟩
  · split
    · exact ⟨(by show pbTarget ≤ st.pbSrc + 8; omega), rfl, rfl,
        (by show 1 ≤ SIZE_OF_JMP Arch.ARM; decide)⟩
    · exact ⟨(by show pbTarget ≤ st.pbSrc; omega),
        (by show st.cbTarget = st.pbSrc - pbTarget; omega), rfl,
        (by show 1 ≤ SIZE_OF_JMP Arch.ARM; decide)⟩

theorem attachPre_eq (arch : Arch) (h : Host) (hc : HostCall) (s : State) (pp : Nat)
    (hn : arch ≠ Arch.ARM) :
    attachPre arch h hc s pp =
      (SIZE_OF_JMP arch,
        attach_init arch (attachAlloc arch h hc s pp).2.mem (attachTarget arch h s pp)
          (attachAlloc arch h hc s pp).1) := by
  cases arch <;> first | rfl | exact absurd rfl hn

theorem size_of_jmp_pos (arch : Arch) : 1 ≤ SIZE_OF_JMP arch := by
  cases arch <;> decide

theorem attachPre_spec (arch : Arch) (h : Host) (hc : HostCall) (s : State) (pp : Nat) :
    attachTarget arch h s pp ≤ (attachPre arch h hc s pp).2.pbSrc ∧
    (attachPre arch h hc s pp).2.cbTarget =
      (attachPre arch h hc s pp).2.pbSrc - attachTarget arch h s pp ∧
    (attachPre arch h hc s pp).2.nAlign = 0 ∧
    1 ≤ (attachPre arch h hc s pp).1 ∧
    (arch ≠ Arch.ARM → (attachPre arch h hc s pp).2.pbSrc = attachTarget arch h s pp ∧
      (attachPre arch h hc s pp).1 = SIZE_OF_JMP arch) := by
  by_cases ha : arch = Arch.ARM
  · subst ha
    obtain ⟨a1, a2, a3, a4⟩ := arm_prelude_fields (attachTarget Arch.ARM h s pp)
      (attach_init Arch.ARM (attachAlloc Arch.ARM h hc s pp).2.mem (attachTarget Arch.ARM h s pp)
        (attachAlloc Arch.ARM h hc s pp).1) rfl rfl
    exact ⟨a1, a2, a3, a4, fun hn => absurd rfl hn⟩
  · rw [attachPre_eq arch h hc s pp ha]
    generalize attachTarget arch h s pp = T
    generalize attachAlloc arch h hc s pp = a
    refine ⟨Nat.le_refl T, ?_, rfl, size_of_jmp_pos arch, fun _ => ⟨rfl, rfl⟩⟩
    show (0 : Nat) = T - T
    omega

/-! ## The fields of the trampoline after a recorded attach -/

theorem leBytes_mod (n : Nat) : ∀ v : Nat, leBytes n (v % 256 ^ n) = leBytes n v := by
  induction n with
  | zero => intro v; rfl
  | succ n ih =>
    intro v
    show (v % 256 ^ (n + 1)) % 256 :: leBytes n (v % 256 ^ (n + 1) / 256) =
      v % 256 :: leBytes n (v / 256)
    have e1 : (v % 256 ^ (n + 1)) % 256 = v % 256 :=
      Nat.mod_mod_of_dvd v (Dvd.intro_left (256 ^ n) rfl)
    have e2 : v % 256 ^ (n + 1) / 256 = v / 256 % 256 ^ n := by
      rw [pow_succ, Nat.mul_comm, Nat.mod_mul_right_div_self]
    rw [e1, e2, ih]

theorem readPtr_writePtr_mod (arch : Arch) (m : Mem) (a v : Nat) :
    readPtr arch (writePtr arch m a v) a = v % 2 ^ ptrBits arch := by
  have e : (2 : Nat) ^ ptrBits arch = 256 ^ ptrSize arch := by
    cases arch <;> decide
  have hw : writePtr arch m a v = writePtr arch m a (v % 2 ^ ptrBits arch) := by
    show writeBytes m a (leBytes (ptrSize arch) v) =
      writeBytes m a (leBytes (ptrSize arch) (v % 2 ^ ptrBits arch))
    rw [e, leBytes_mod]
  rw [hw]
  exact readPtr_writePtr arch m a _ (Nat.mod_lt _ (pow_pos (by decide) _))

theorem attach_link_remain (arch : Arch) (m : Mem) (t T cb D p : Nat)
    (hc : m (t + off_cbCode arch) ≤ sizeof_rbCode arch) (h3 : p ≤ t + sizeof_rbCode arch)
    (h4 : t + maxPool arch ≤ p) :
    readPtr arch (attach_link arch m t T cb D p) (t + off_pbRemain arch) =
      (T + cb) % 2 ^ ptrBits arch := by
  have hK := arch_bounds arch
  have hK2 := arch_bounds2 arch
  have hw1 := conf_writePtr arch (t + off_pbRemain arch) (t + off_pbRemain arch + ptrSize arch)
    m (t + off_pbRemain arch) (T + cb) ⟨Nat.le_refl _, Nat.le_refl _⟩
  have hw2 := conf_writePtr arch (t + off_pbDetour arch) (t + off_pbDetour arch + ptrSize arch)
    (writePtr arch m (t + off_pbRemain arch) (T + cb)) (t + off_pbDetour arch) D
    ⟨Nat.le_refl _, Nat.le_refl _⟩
  have hcode : writePtr arch (writePtr arch m (t + off_pbRemain arch) (T + cb))
      (t + off_pbDetour arch) D (t + off_cbCode arch) = m (t + off_cbCode arch) := by
    rw [hw2 _ (Or.inl (by omega)), hw1 _ (Or.inl (by omega))]
  have hj := jump_to_remain_conf arch
    (writePtr arch (writePtr arch m (t + off_pbRemain arch) (T + cb)) (t + off_pbDetour arch) D)
    t (t + m (t + off_cbCode arch)) p (Nat.le_add_right _ _) (by omega) h3 h4
  unfold attach_link
  dsimp only
  rw [hcode, ← readPtr_writePtr_mod arch m (t + off_pbRemain arch) (T + cb)]
  apply readPtr_congr
  intro x hx1 hx2
  rw [hj x (Or.inr (by omega)), hw2 x (Or.inl (by omega))]

theorem with_trampoline_form (arch : Arch) (copier : Copier) (hc : HostCall) (s : State)
    (pp T D t : Nat) (ht : t ≠ 0) :
    (attach_with_trampoline arch copier hc s pp T D t).2.s_pPendingOperations =
      s.s_pPendingOperations ∨
    (¬ (attach_scan arch copier T t (attach_init arch s.mem T t)).2.cbTarget <
        (attach_scan arch copier T t (attach_init arch s.mem T t)).1 ∧
      ¬ (attach_scan arch copier T t (attach_init arch s.mem T t)).2.pbTrampoline >
        (attach_scan arch copier T t (attach_init arch s.mem T t)).2.pbPool ∧
      (attach_with_trampoline arch copier hc s pp T D t).2.mem =
        attach_link arch
          (attach_store arch (attach_scan arch copier T t (attach_init arch s.mem T t)).2.mem t
            (attach_scan arch copier T t (attach_init arch s.mem T t)).2.pbTrampoline T
            (attach_scan arch copier T t (attach_init arch s.mem T t)).2.cbTarget)
          t T (attach_scan arch copier T t (attach_init arch s.mem T t)).2.cbTarget D
          (attach_scan arch copier T t (attach_init arch s.mem T t)).2.pbPool) := by
  unfold attach_with_trampoline
  dsimp only
  generalize attach_scan arch copier T t (attach_init arch s.mem T t) = scan
  have hfail : ∀ (s2 : State) (e : Status), s2.s_pPendingOperations = s.s_pPendingOperations →
      (attach_fail arch s2 e t pp).2.s_pPendingOperations = s.s_pPendingOperations := by
    intro s2 e h2
    rw [attach_fail_eq _ _ _ _ _ ht]
    exact ((free_trampoline_fields arch { s2 with s_nPendingError := e } t).2.2.2.1).trans h2
  have hstop : ∀ (s2 : State) (e : Status), s2.s_pPendingOperations = s.s_pPendingOperations →
      (attach_stop arch s2 e t pp).2.s_pPendingOperations = s.s_pPendingOperations := by
    intro s2 e h2
    rw [attach_stop_eq _ _ _ _ _ ht]
    exact ((free_trampoline_fields arch s2 t).2.2.2.1).trans h2
  by_cases h1 : scan.2.cbTarget < scan.1 ∨ scan.2.nAlign > sizeof_rAlign
  · rw [if_pos h1]
    left
    by_cases hi : s.s_fIgnoreTooSmall = true
    · rw [if_pos hi]
      exact hstop _ _ rfl
    · rw [if_neg hi]
      exact hfail _ _ rfl
  rw [if_neg h1]
  by_cases h2 : scan.2.pbTrampoline > scan.2.pbPool
  · rw [if_pos h2]
    exact Or.inl (hfail _ _ rfl)
  rw [if_neg h2]
  by_cases h3 : scan.2.cbTarget >
      sizeof_rbCode arch - (if arch = Arch.X64 then SIZE_OF_JMP_TO_REMAIN else scan.1)
  · rw [if_pos h3]
    exact Or.inl (hfail _ _ rfl)
  rw [if_neg h3]
  by_cases h4 : hc.remapMdl = 0
  · rw [if_pos h4]
    exact Or.inl (hfail _ _ rfl)
  rw [if_neg h4]
  exact Or.inr ⟨fun h => h1 (Or.inl h), h2, rfl⟩

/-- The trampoline fields that a recorded attach leaves: the loops covered at least the jump
size, `cbRestore` is the number of covered bytes, `pbRemain` points just after them, and the
source cursor stands there. -/
theorem attach_success_form (arch : Arch) (h : Host) (copier : Copier)
    (hcop : CopierContract arch copier) (hc : HostCall) (tid : Nat) (s : State) (pp d : Nat)
    (o : DetourOperation)
    (hrec : (DetourAttachEx arch h copier hc tid s pp d).2.s_pPendingOperations =
      o :: s.s_pPendingOperations) :
    ¬ (attachScan arch h copier hc s pp).2.cbTarget < (attachScan arch h copier hc s pp).1 ∧
    (DetourAttachEx arch h copier hc tid s pp d).2.mem
        ((attachAlloc arch h hc s pp).1 + off_cbRestore arch) =
      (attachScan arch h copier hc s pp).2.cbTarget ∧
    readPtr arch (DetourAttachEx arch h copier hc tid s pp d).2.mem
        ((attachAlloc arch h hc s pp).1 + off_pbRemain arch) =
      (attachTarget arch h s pp + (attachScan arch h copier hc s pp).2.cbTarget) %
        2 ^ ptrBits arch ∧
    (attachScan arch h copier hc s pp).2.pbSrc =
      attachTarget arch h s pp + (attachScan arch h copier hc s pp).2.cbTarget := by
  have hne : (DetourAttachEx arch h copier hc tid s pp d).2.s_pPendingOperations ≠
      s.s_pPendingOperations := by
    rw [hrec]
    exact List.cons_ne_self _ _
  revert hne
  clear hrec
  unfold attachScan attachAlloc attachTarget
  unfold DetourAttachEx
  by_cases h1 : d = 0
  · rw [if_pos h1]; exact fun hne => absurd rfl hne
  rw [if_neg h1]
  by_cases h2 : s.s_nPendingThreadId ≠ tid
  · rw [if_pos h2]; exact fun hne => absurd rfl hne
  rw [if_neg h2]
  by_cases h3 : s.s_nPendingError ≠ Status.success
  · rw [if_pos h3]; exact fun hne => absurd rfl hne
  rw [if_neg h3]
  by_cases h4 : pp = 0
  · rw [if_pos h4]; exact fun hne => absurd rfl hne
  rw [if_neg h4]
  by_cases h5 : readPtr arch s.mem pp = 0
  · rw [if_pos h5]; exact fun hne => absurd rfl hne
  rw [if_neg h5]
  dsimp only
  by_cases h6 : DetourCodeFromPointer arch h s.mem d =
      DetourCodeFromPointer arch h s.mem (readPtr arch s.mem pp)
  · rw [if_pos h6]
    by_cases h7 : s.s_fIgnoreTooSmall = true
    · rw [if_pos h7, attach_stop_zero]; exact fun hne => absurd rfl hne
    · rw [if_neg h7, attach_fail_zero]; exact fun hne => absurd rfl hne
  rw [if_neg h6]
  by_cases h8 : (!hc.opAlloc) = true
  · rw [if_pos h8, attach_fail_zero]; exact fun hne => absurd rfl hne
  rw [if_neg h8]
  have hf := alloc_fields arch hc.page s
    (DetourCodeFromPointer arch h s.mem (readPtr arch s.mem pp))
  generalize detour_alloc_trampoline arch hc.page s
    (DetourCodeFromPointer arch h s.mem (readPtr arch s.mem pp)) = a at hf ⊢
  by_cases h9 : a.1 = 0
  · rw [if_pos h9, attach_fail_zero]
    exact fun hne => absurd hf.1 hne
  · rw [if_neg h9]
    intro hne
    obtain ⟨i1, i2, i3, i4⟩ := scan_inv arch copier hcop a.2.mem
      (DetourCodeFromPointer arch h s.mem (readPtr arch s.mem pp)) a.1
    rcases with_trampoline_form arch copier hc a.2 pp
      (DetourCodeFromPointer arch h s.mem (readPtr arch s.mem pp))
      (DetourCodeFromPointer arch h s.mem d) a.1 h9 with hsame | ⟨f1, f2, f3⟩
    · exact absurd (hsame.trans hf.1) hne
    · obtain ⟨t1, t2, t3, t4⟩ := tail_spec arch
        (DetourCodeFromPointer arch h s.mem (readPtr arch s.mem pp)) a.1 _
        (DetourCodeFromPointer arch h s.mem d) a.2.mem _ i2 i4 f2
      have hK := arch_bounds arch
      have hK2 := arch_bounds2 arch
      obtain ⟨s1, s2, s3⟩ := attach_store_spec arch
        (attach_scan arch copier (DetourCodeFromPointer arch h s.mem (readPtr arch s.mem pp))
          a.1 (attach_init arch a.2.mem
            (DetourCodeFromPointer arch h s.mem (readPtr arch s.mem pp)) a.1)).2.mem a.1
        (attach_scan arch copier (DetourCodeFromPointer arch h s.mem (readPtr arch s.mem pp))
          a.1 (attach_init arch a.2.mem
            (DetourCodeFromPointer arch h s.mem (readPtr arch s.mem pp)) a.1)).2.pbTrampoline
        (DetourCodeFromPointer arch h s.mem (readPtr arch s.mem pp)) _ t4
      have hlo := i4.lo
      have hph := i4.poolHi
      have hpl := i4.poolLo
      have hcnt := i4.count
      have hmul : (attach_scan arch copier
          (DetourCodeFromPointer arch h s.mem (readPtr arch s.mem pp)) a.1
          (attach_init arch a.2.mem
            (DetourCodeFromPointer arch h s.mem (readPtr arch s.mem pp)) a.1)).2.nAlign *
          maxPool arch ≤ 8 * maxPool arch := Nat.mul_le_mul_right _ (by omega)
      refine ⟨f1, ?_, ?_, i4.src⟩
      · rw [f3]
        exact t3
      · rw [f3]
        apply attach_link_remain
        · rw [s3, Nat.mod_eq_of_lt (by omega)]
          omega
        · exact hph
        · omega

theorem copy_done (arch : Arch) (copier : Copier) (pbTarget t cbJump : Nat) (st : CopyState)
    (h : ¬ st.cbTarget < cbJump) (f : Nat) :
    attach_copy_loop arch copier pbTarget t cbJump f st = st ∧
    attach_copy_trace arch copier pbTarget t cbJump f st = [] := by
  cases f with
  | zero => exact ⟨rfl, rfl⟩
  | succ f =>
    rw [copy_loop_succ, copy_trace_succ, if_neg h, if_neg h]
    exact ⟨rfl, rfl⟩

/-- The ARM prelude either leaves the local variables alone, or it has found an
`ldr pc, [pc]` jump at the target (after a `nop` when the target is not 4-byte aligned) and
moved both cursors over it, which covers the jump size. -/
theorem arm_prelude_cases (pbTarget : Nat) (st : CopyState) (h1 : st.pbSrc = pbTarget) :
    (attach_arm_prelude pbTarget st).2 = st ∨
    (¬ (attach_arm_prelude pbTarget st).2.cbTarget < (attach_arm_prelude pbTarget st).1 ∧
      (fetch_thumb_opcode st.mem pbTarget = 0xf8dff000 ∨
        (fetch_thumb_opcode st.mem pbTarget = 0xbf00 ∧
          fetch_thumb_opcode st.mem (pbTarget + 2) = 0xf8dff000)) ∧
      (attach_arm_prelude pbTarget st).2.pbSrc + st.pbTrampoline =
        (attach_arm_prelude pbTarget st).2.pbTrampoline + pbTarget) := by
  subst h1
  unfold attach_arm_prelude
  split
  · split
    · rename_i hc
      refine Or.inr ⟨?_, Or.inr hc, ?_⟩
      · show ¬ st.pbSrc + 10 - st.pbSrc < SIZE_OF_JMP Arch.ARM + 2
        have e : SIZE_OF_JMP Arch.ARM = 8 := rfl
        omega
      · show st.pbSrc + 10 + st.pbTrampoline = st.pbTrampoline + 10 + st.pbSrc
        omega
    · exact Or.inl rfl
  · split
    · rename_i hc
      refine Or.inr ⟨?_, Or.inl hc, ?_⟩
      · show ¬ st.pbSrc + 8 - st.pbSrc < SIZE_OF_JMP Arch.ARM
        have e : SIZE_OF_JMP Arch.ARM = 8 := rfl
        omega
      · show st.pbSrc + 8 + st.pbTrampoline = st.pbTrampoline + 8 + st.pbSrc
        omega
    · exact Or.inl rfl

theorem memcpy_apply (m : Mem) (dst src n x : Nat) :
    memcpy m dst src n x = if dst ≤ x ∧ x < dst + n then m (src + (x - dst)) else m x := by
  unfold memcpy writeBytes
  rw [readBytes_length]
  by_cases hx : dst ≤ x ∧ x < dst + n
  · rw [if_pos hx, if_pos hx]
    unfold readBytes
    rw [List.getD_eq_getElem?_getD, List.getElem?_map, List.getElem?_range (by omega)]
    rfl
  · rw [if_neg hx, if_neg hx]

/-- When the ARM prelude has moved the cursors over an `ldr pc, [pc]` jump and the target
does not overlap the start of the trampoline, the bytes passed over are in the trampoline. -/
theorem arm_prelude_copy (pbTarget : Nat) (st : CopyState) (h1 : st.pbSrc = pbTarget)
    (hd : st.pbTrampoline + 10 ≤ pbTarget ∨ pbTarget + 10 ≤ st.pbTrampoline) (i : Nat)
    (hi : i < (attach_arm_prelude pbTarget st).2.pbSrc - pbTarget) :
    (attach_arm_prelude pbTarget st).2.mem (st.pbTrampoline + i) = st.mem (pbTarget + i) := by
  subst h1
  revert hi
  unfold attach_arm_prelude
  split
  · split
    · intro hi
      have hi2 : i < 10 := by
        have : i < st.pbSrc + 10 - st.pbSrc := hi
        omega
      show memcpy (memcpy (memcpy st.mem st.pbTrampoline st.pbSrc 2) (st.pbTrampoline + 2)
        (st.pbSrc + 2) 4) (st.pbTrampoline + 6) (st.pbSrc + 6) 4 (st.pbTrampoline + i) = _
      simp only [memcpy_apply]
      split_ifs <;> (congr 1; omega)
    · intro hi
      have : i < st.pbSrc - st.pbSrc := hi
      omega
  · split
    · intro hi
      have hi2 : i < 8 := by
        have : i < st.pbSrc + 8 - st.pbSrc := hi
        omega
      show memcpy (memcpy st.mem st.pbTrampoline st.pbSrc 4) (st.pbTrampoline + 4)
        (st.pbSrc + 4) 4 (st.pbTrampoline + i) = _
      simp only [memcpy_apply]
      split_ifs <;> (congr 1; omega)
    · intro hi
      have : i < st.pbSrc - st.pbSrc := hi
      omega

/-- Either the first loop starts at the target, or (on ARM) the prelude has moved the cursors
over an existing `ldr pc, [pc]` jump and neither loop runs. -/
theorem attachPre_cases (arch : Arch) (h : Host) (copier : Copier) (hc : HostCall) (s : State)
    (pp : Nat) :
    (attachPre arch h hc s pp).2.pbSrc = attachTarget arch h s pp ∨
    (arch = Arch.ARM ∧ attachCopied arch h copier hc s pp = [] ∧
      attachFillers arch h copier hc s pp = [] ∧
      (fetch_thumb_opcode
          (attach_init arch (attachAlloc arch h hc s pp).2.mem (attachTarget arch h s pp)
            (attachAlloc arch h hc s pp).1).mem (attachTarget arch h s pp) = 0xf8dff000 ∨
        (fetch_thumb_opcode
            (attach_init arch (attachAlloc arch h hc s pp).2.mem (attachTarget arch h s pp)
              (attachAlloc arch h hc s pp).1).mem (attachTarget arch h s pp) = 0xbf00 ∧
          fetch_thumb_opcode
            (attach_init arch (attachAlloc arch h hc s pp).2.mem (attachTarget arch h s pp)
              (attachAlloc arch h hc s pp).1).mem (attachTarget arch h s pp + 2) =
            0xf8dff000)) ∧
      (attachPre arch h hc s pp).2.pbSrc + (attachAlloc arch h hc s pp).1 =
        (attachPre arch h hc s pp).2.pbTrampoline + attachTarget arch h s pp ∧
      ((attachAlloc arch h hc s pp).1 + 10 ≤ attachTarget arch h s pp ∨
          attachTarget arch h s pp + 10 ≤ (attachAlloc arch h hc s pp).1 →
        ∀ i, i < (attachPre arch h hc s pp).2.pbSrc - attachTarget arch h s pp →
          (attachScan arch h copier hc s pp).2.mem ((attachAlloc arch h hc s pp).1 + i) =
            (attach_init arch (attachAlloc arch h hc s pp).2.mem (attachTarget arch h s pp)
              (attachAlloc arch h hc s pp).1).mem (attachTarget arch h s pp + i))) := by
  by_cases ha : arch = Arch.ARM
  · subst ha
    have hpre : attachPre Arch.ARM h hc s pp =
        attach_arm_prelude (attachTarget Arch.ARM h s pp)
          (attach_init Arch.ARM (attachAlloc Arch.ARM h hc s pp).2.mem
            (attachTarget Arch.ARM h s pp) (attachAlloc Arch.ARM h hc s pp).1) := rfl
    rcases arm_prelude_cases (attachTarget Arch.ARM h s pp)
      (attach_init Arch.ARM (attachAlloc Arch.ARM h hc s pp).2.mem
        (attachTarget Arch.ARM h s pp) (attachAlloc Arch.ARM h hc s pp).1) rfl with e | ⟨e1, e2, e3⟩
    · left
      rw [hpre, e]
      rfl
    · right
      rw [← hpre] at e1 e3
      have hcopy := copy_done Arch.ARM copier (attachTarget Arch.ARM h s pp)
        (attachAlloc Arch.ARM h hc s pp).1 (attachPre Arch.ARM h hc s pp).1
        (attachPre Arch.ARM h hc s pp).2 e1 sizeof_rAlign
      have hfill := filler_done Arch.ARM (attachTarget Arch.ARM h s pp)
        (attachPre Arch.ARM h hc s pp).1 (attachPre Arch.ARM h hc s pp).2 e1
        (attachPre Arch.ARM h hc s pp).1
      refine ⟨rfl, hcopy.2, ?_, e2, e3, ?_⟩
      · unfold attachFillers
        rw [hcopy.1]
        exact hfill.2
      · intro hd i hi
        rw [attachScan_eq]
        dsimp only
        rw [hcopy.1, hfill.1, hpre]
        rw [hpre] at hi
        exact arm_prelude_copy (attachTarget Arch.ARM h s pp)
          (attach_init Arch.ARM (attachAlloc Arch.ARM h hc s pp).2.mem
            (attachTarget Arch.ARM h s pp) (attachAlloc Arch.ARM h hc s pp).1) rfl hd i hi
  · exact Or.inl ((attachPre_spec arch h hc s pp).2.2.2.2 ha).1

/-- The two loops of `DetourAttachEx` as lists of pieces of the target. -/
theorem attach_window (arch : Arch) (h : Host) (copier : Copier) (hc : HostCall) (s : State)
    (pp : Nat) :
    Chained (attachPre arch h hc s pp).2.pbSrc
      ((attachCopied arch h copier hc s pp).map (fun i => (i.pbOp, i.len)) ++
        attachFillers arch h copier hc s pp)
      (attachTarget arch h s pp + (attachScan arch h copier hc s pp).2.cbTarget) ∧
    (∀ i ∈ (attachCopied arch h copier hc s pp).dropLast, i.ends = false) ∧
    (∀ c ∈ attachFillers arch h copier hc s pp,
      1 ≤ c.2 ∧ c.2 = detour_is_code_filler arch (attachScan arch h copier hc s pp).2.mem c.1) ∧
    (∀ (k : Nat) (i : CopiedInstr), (attachCopied arch h copier hc s pp)[k]? = some i →
      i.index = k ∧ i.obTarget = i.pbOp + i.len - attachTarget arch h s pp) ∧
    (attachCopied arch h copier hc s pp).length ≤ sizeof_rAlign ∧
    (attachScan arch h copier hc s pp).2.nAlign = (attachCopied arch h copier hc s pp).length ∧
    (attachFillers arch h copier hc s pp).length ≤ (attachPre arch h hc s pp).1 := by
  obtain ⟨p1, p2, p3, p4, -⟩ := attachPre_spec arch h hc s pp
  obtain ⟨c1, c2, c3, c4, c5, c6⟩ := copy_trace_spec arch copier (attachTarget arch h s pp)
    (attachAlloc arch h hc s pp).1 (attachPre arch h hc s pp).1 sizeof_rAlign
    (attachPre arch h hc s pp).2 p1 p2
  obtain ⟨f1, f2, f3, f4, f5, f6, f7⟩ := filler_trace_spec arch (attachTarget arch h s pp)
    (attachPre arch h hc s pp).1 (attachPre arch h hc s pp).1
    (attach_copy_loop arch copier (attachTarget arch h s pp) (attachAlloc arch h hc s pp).1
      (attachPre arch h hc s pp).1 sizeof_rAlign (attachPre arch h hc s pp).2) c5 c6
  have hlen := (copy_loop_fuel arch copier (attachTarget arch h s pp)
    (attachAlloc arch h hc s pp).1 (attachPre arch h hc s pp).1 sizeof_rAlign
    (attachPre arch h hc s pp).2 sizeof_rAlign sizeof_rAlign (by rw [p3]; decide)
    (by rw [p3]; exact Nat.le_refl _) (Nat.le_refl _) (Nat.le_refl _)).2.2
  have hfl := (filler_loop_fuel arch (attachTarget arch h s pp) (attachPre arch h hc s pp).1
    (attachPre arch h hc s pp).1
    (attach_copy_loop arch copier (attachTarget arch h s pp) (attachAlloc arch h hc s pp).1
      (attachPre arch h hc s pp).1 sizeof_rAlign (attachPre arch h hc s pp).2)
    (attachPre arch h hc s pp).1 (attachPre arch h hc s pp).1 c5 c6 (Nat.sub_le _ _)
    (Nat.le_refl _) (Nat.le_refl _)).2.2
  rw [attachScan_eq]
  dsimp only
  rw [f3, f4]
  refine ⟨?_, c3, f2, ?_, ?_, ?_, ?_⟩
  · have e : attachTarget arch h s pp +
        (attach_filler_loop arch (attachTarget arch h s pp) (attachPre arch h hc s pp).1
          (attachPre arch h hc s pp).1
          (attach_copy_loop arch copier (attachTarget arch h s pp)
            (attachAlloc arch h hc s pp).1 (attachPre arch h hc s pp).1 sizeof_rAlign
            (attachPre arch h hc s pp).2)).cbTarget =
        (attach_filler_loop arch (attachTarget arch h s pp) (attachPre arch h hc s pp).1
          (attachPre arch h hc s pp).1
          (attach_copy_loop arch copier (attachTarget arch h s pp)
            (attachAlloc arch h hc s pp).1 (attachPre arch h hc s pp).1 sizeof_rAlign
            (attachPre arch h hc s pp).2)).pbSrc := by
      rw [f6]
      omega
    rw [e]
    exact chained_append c1 f1
  · intro k i hk
    have q := c4 k i hk
    rw [p3, Nat.zero_add] at q
    exact q
  · rw [p3] at hlen
    exact hlen
  · rw [c2, p3, Nat.zero_add]
    rfl
  · exact Nat.le_trans hfl (Nat.sub_le _ _)

theorem chained_cover_append {l1 : List CopiedInstr} {l2 : List (Nat × Nat)} {a b : Nat}
    (hch : Chained a (l1.map (fun i => (i.pbOp, i.len)) ++ l2) b) (x : Nat) (h1 : a ≤ x)
    (h2 : x < b) :
    (∃ i ∈ l1, i.pbOp ≤ x ∧ x < i.pbOp + i.len) ∨ (∃ c ∈ l2, c.1 ≤ x ∧ x < c.1 + c.2) := by
  obtain ⟨c, hc, hx⟩ := chained_cover hch x h1 h2
  rcases List.mem_append.mp hc with hm | hm
  · obtain ⟨i, hi, rfl⟩ := List.mem_map.mp hm
    exact Or.inl ⟨i, hi, hx⟩
  · exact Or.inr ⟨c, hm, hx⟩

/-! ## Decoding a displacement, transaction ownership, fuel of the loops -/

/-- Decoding on X86: the destination modulo `2 ^ 32`, whatever the addresses. -/
theorem decode32_mod (base d : Nat) :
    addSigned 32 base 32 (subMod 32 d base) = d % 2 ^ 32 := by
  unfold addSigned subMod
  have hp : (2 : Nat) ^ 32 = 4294967296 := by decide
  have hq : (2 : Nat) ^ (32 - 1) = 2147483648 := by decide
  rw [hp, hq]
  split <;> omega

/-- The stored displacement, read as a signed 32-bit integer, is the difference when that
fits. -/
theorem signExtend_subMod (base d : Nat) (h0 : -(2 ^ 31 : Int) ≤ (d : Int) - (base : Int))
    (h1 : (d : Int) - (base : Int) < 2 ^ 31) :
    signExtend 32 (subMod 32 d base) = (d : Int) - (base : Int) := by
  unfold signExtend subMod
  have hp : (2 : Nat) ^ 32 = 4294967296 := by decide
  have hq : (2 : Nat) ^ (32 - 1) = 2147483648 := by decide
  rw [hp, hq]
  norm_num at h0 h1 ⊢
  split <;> omega

theorem jmp_immediate_byte (m : Mem) (c s d k : Nat) (hk : k < 4) :
    (detour_gen_jmp_immediate_x86 m c s d).1 (c + 1 + k) =
      (leBytes 4 (subMod 32 d (s + 5))).getD k 0 := by
  show writeBytes (writeBytes m c [0xE9]) (c + 1) (leBytes 4 _) (c + 1 + k) = _
  rw [writeBytes_inside _ _ _ _ ⟨by omega, by rw [leBytes_length]; omega⟩]
  congr 1
  omega

theorem jmp_indirect_byte (m : Mem) (c s v k : Nat) (hk : k < 4) :
    (detour_gen_jmp_indirect_X64 m c s v).1 (c + 2 + k) =
      (leBytes 4 (subMod 32 v (s + 6))).getD k 0 := by
  show writeBytes (writeBytes (writeBytes m c [0xff]) (c + 1) [0x25]) (c + 2)
    (leBytes 4 _) (c + 2 + k) = _
  rw [writeBytes_inside _ _ _ _ ⟨by omega, by rw [leBytes_length]; omega⟩]
  congr 1
  omega

theorem begin_eq (h : Host) (tid : Nat) (s : State) (hidle : s.s_nPendingThreadId = 0) :
    DetourTransactionBegin h tid s =
      ((detour_writable_trampoline_regions h s.s_pRegions s.protection).1,
        { s with s_nPendingThreadId := tid, s_pPendingOperations := [], s_ppPendingError := 0,
                 protection :=
                   (detour_writable_trampoline_regions h s.s_pRegions s.protection).2,
                 s_nPendingError :=
                   (detour_writable_trampoline_regions h s.s_pRegions s.protection).1 }) := by
  unfold DetourTransactionBegin
  rw [if_neg (not_not.mpr hidle)]

theorem begin_refused (h : Host) (tid : Nat) (s : State) (hopen : s.s_nPendingThreadId ≠ 0) :
    DetourTransactionBegin h tid s = (Status.invalid_operation, s) := by
  unfold DetourTransactionBegin
  rw [if_pos hopen]

theorem abort_refused (arch : Arch) (h : Host) (tid : Nat) (s : State)
    (hother : s.s_nPendingThreadId ≠ tid) :
    DetourTransactionAbort arch h tid s = (Status.invalid_operation, s) := by
  unfold DetourTransactionAbort
  rw [if_pos hother]

theorem commit_refused (arch : Arch) (h : Host) (tid : Nat) (s : State)
    (hother : s.s_nPendingThreadId ≠ tid) :
    DetourTransactionCommitEx arch h tid s =
      (Status.invalid_operation, s.s_ppPendingError, s) := by
  unfold DetourTransactionCommitEx
  rw [if_pos hother]

theorem commit_latched (arch : Arch) (h : Host) (tid : Nat) (s : State)
    (hown : s.s_nPendingThreadId = tid) (herr : s.s_nPendingError ≠ Status.success) :
    (DetourTransactionCommitEx arch h tid s).1 = s.s_nPendingError ∧
    (DetourTransactionCommitEx arch h tid s).2.2 = (DetourTransactionAbort arch h tid s).2 := by
  unfold DetourTransactionCommitEx
  rw [if_neg (not_not.mpr hown), if_pos herr]
  exact ⟨(abort_result arch h tid s hown).2.2.2.1, rfl⟩

/-- Neither loop of `DetourAttachEx` is stopped by the fuel of the model. -/
theorem attach_loops_fuel (arch : Arch) (h : Host) (copier : Copier) (hc : HostCall)
    (s : State) (pp f : Nat) :
    (sizeof_rAlign ≤ f →
      attach_copy_loop arch copier (attachTarget arch h s pp) (attachAlloc arch h hc s pp).1
          (attachPre arch h hc s pp).1 f (attachPre arch h hc s pp).2 =
        attach_copy_loop arch copier (attachTarget arch h s pp) (attachAlloc arch h hc s pp).1
          (attachPre arch h hc s pp).1 sizeof_rAlign (attachPre arch h hc s pp).2) ∧
    ((attachPre arch h hc s pp).1 ≤ f →
      attach_filler_loop arch (attachTarget arch h s pp) (attachPre arch h hc s pp).1 f
          (attach_copy_loop arch copier (attachTarget arch h s pp)
            (attachAlloc arch h hc s pp).1 (attachPre arch h hc s pp).1 sizeof_rAlign
            (attachPre arch h hc s pp).2) =
        attach_filler_loop arch (attachTarget arch h s pp) (attachPre arch h hc s pp).1
          (attachPre arch h hc s pp).1
          (attach_copy_loop arch copier (attachTarget arch h s pp)
            (attachAlloc arch h hc s pp).1 (attachPre arch h hc s pp).1 sizeof_rAlign
            (attachPre arch h hc s pp).2)) := by
  obtain ⟨p1, p2, p3, p4, -⟩ := attachPre_spec arch h hc s pp
  obtain ⟨c1, c2, c3, c4, c5, c6⟩ := copy_trace_spec arch copier (attachTarget arch h s pp)
    (attachAlloc arch h hc s pp).1 (attachPre arch h hc s pp).1 sizeof_rAlign
    (attachPre arch h hc s pp).2 p1 p2
  constructor
  · intro hf
    exact (copy_loop_fuel arch copier (attachTarget arch h s pp)
      (attachAlloc arch h hc s pp).1 (attachPre arch h hc s pp).1 sizeof_rAlign
      (attachPre arch h hc s pp).2 f sizeof_rAlign (by rw [p3]; decide)
      (by rw [p3]; exact Nat.le_refl _) hf (Nat.le_refl _)).1
  · intro hf
    exact (filler_loop_fuel arch (attachTarget arch h s pp) (attachPre arch h hc s pp).1
      (attachPre arch h hc s pp).1
      (attach_copy_loop arch copier (attachTarget arch h s pp) (attachAlloc arch h hc s pp).1
        (attachPre arch h hc s pp).1 sizeof_rAlign (attachPre arch h hc s pp).2)
      f (attachPre arch h hc s pp).1 c5 c6 (Nat.sub_le _ _) hf (Nat.le_refl _)).1

/-- The filler loop adds the lengths of the consumed pieces to the byte count. -/
theorem attach_filler_sum (arch : Arch) (h : Host) (copier : Copier) (hc : HostCall)
    (s : State) (pp : Nat) :
    (attachScan arch h copier hc s pp).2.cbTarget =
      (attach_copy_loop arch copier (attachTarget arch h s pp) (attachAlloc arch h hc s pp).1
        (attachPre arch h hc s pp).1 sizeof_rAlign (attachPre arch h hc s pp).2).cbTarget +
      ((attachFillers arch h copier hc s pp).map Prod.snd).sum := by
  obtain ⟨p1, p2, p3, p4, -⟩ := attachPre_spec arch h hc s pp
  obtain ⟨c1, c2, c3, c4, c5, c6⟩ := copy_trace_spec arch copier (attachTarget arch h s pp)
    (attachAlloc arch h hc s pp).1 (attachPre arch h hc s pp).1 sizeof_rAlign
    (attachPre arch h hc s pp).2 p1 p2
  rw [attachScan_eq]
  exact (filler_trace_spec arch (attachTarget arch h s pp)
    (attachPre arch h hc s pp).1 (attachPre arch h hc s pp).1
    (attach_copy_loop arch copier (attachTarget arch h s pp) (attachAlloc arch h hc s pp).1
      (attachPre arch h hc s pp).1 sizeof_rAlign (attachPre arch h hc s pp).2) c5 c6).2.2.2.2.1

/-! ## ARM64: the opcodes that end a function -/

theorem code_end_ARM64_iff (m : Mem) (p : Nat) (hop : fetch_opcode m p < 2 ^ 32) :
    detour_does_code_end_function Arch.ARM64 m p = true ↔
      (∃ rn, rn < 2 ^ 5 ∧ fetch_opcode m p = arm64Ret rn) ∨
      (∃ imm, imm < 2 ^ 26 ∧ fetch_opcode m p = arm64B imm) := by
  obtain ⟨e1, e2⟩ := arm64_end_masks (fetch_opcode m p) hop
  rw [← e1, ← e2]
  show (if fetch_opcode m p &&& 0xfffffc1f = 0xd65f0000 ∨
      fetch_opcode m p &&& 0xfc000000 = 0x14000000 then true else false) = true ↔ _
  by_cases hcnd : fetch_opcode m p &&& 0xfffffc1f = 0xd65f0000 ∨
      fetch_opcode m p &&& 0xfc000000 = 0x14000000
  · rw [if_pos hcnd]
    exact ⟨fun _ => hcnd, fun _ => rfl⟩
  · rw [if_neg hcnd]
    exact ⟨fun hf => absurd hf (by decide), fun hc2 => absurd hc2 hcnd⟩

theorem code_end_ARM64_br (m : Mem) (p rn : Nat) (hrn : rn < 32)
    (hop : fetch_opcode m p = arm64Br rn) :
    detour_does_code_end_function Arch.ARM64 m p = false := by
  show (if fetch_opcode m p &&& 0xfffffc1f = 0xd65f0000 ∨
      fetch_opcode m p &&& 0xfc000000 = 0x14000000 then true else false) = false
  rw [hop, if_neg (arm64_br_rejected rn hrn)]

theorem gen_jmp_ARM64_second (m : Mem) (c : Nat) (pool : Option Nat) (d : Nat) :
    fetch_opcode (detour_gen_jmp_immediate_ARM64 m c pool d).1 (c + 4) = arm64Br 17 := by
  have hv : (0xd61f0000 ||| (17 <<< 5) : Nat) < 256 ^ 4 := by decide
  cases pool with
  | none => exact readLE_writeLE _ _ _ _ hv
  | some q => exact readLE_writeLE _ _ _ _ hv

/-! ## The claims -/

/-- C1 (evaluation at the failing input): on X64, with the target `jo +0` (four times),
`sub rsp, 28h`, every call of `begin; attach; commit; begin; detach; commit` returns success,
yet the first target byte, 0x70 before the first begin, is 0x00 after the last commit:
the jump to `pbRemain` emitted at `rbCode[28..34)` has overwritten `rbRestore[0..2)`. -/
theorem C1_round_trip_fails_at_jcc_target :
    (Scenario.attached Scenario.jccCode).1 = Status.success ∧
    (Scenario.committed Scenario.jccCode).1 = Status.success ∧
    (Scenario.detached Scenario.jccCode).1 = Status.success ∧
    (Scenario.restored Scenario.jccCode).1 = Status.success ∧
    (Scenario.idle Scenario.jccCode false).mem Scenario.target = 0x70 ∧
    (Scenario.restored Scenario.jccCode).2.mem Scenario.target = 0x00 ∧
    readPtr Arch.X64 (Scenario.restored Scenario.jccCode).2.mem Scenario.slot =
      Scenario.target := by
  decide

/-- C2 (evaluation at the failing input): on X64, after the committed attach on the target
`jo +0` (four times), `sub rsp, 28h`, the trampoline has `cbRestore = 12` and
`pbRemain = target + 12`, the slot holds the address of `rbCode`, but `rbRestore[0]` is 0x00
while the byte at the target before the attach was 0x70. -/
theorem C2_rbRestore_clobbered_at_jcc_target :
    (Scenario.attached Scenario.jccCode).1 = Status.success ∧
    (Scenario.committed Scenario.jccCode).1 = Status.success ∧
    (Scenario.attached Scenario.jccCode).2.s_pPendingOperations.map (·.pTrampoline) =
      [Scenario.trampoline] ∧
    (Scenario.committed Scenario.jccCode).2.mem
      (Scenario.trampoline + off_cbRestore Arch.X64) = 12 ∧
    readPtr Arch.X64 (Scenario.committed Scenario.jccCode).2.mem
      (Scenario.trampoline + off_pbRemain Arch.X64) = Scenario.target + 12 ∧
    readPtr Arch.X64 (Scenario.committed Scenario.jccCode).2.mem Scenario.slot =
      Scenario.trampoline ∧
    (Scenario.idle Scenario.jccCode false).mem Scenario.target = 0x70 ∧
    (Scenario.committed Scenario.jccCode).2.mem
      (Scenario.trampoline + off_rbRestore Arch.X64) = 0x00 := by
  decide

/-- C3 (counterexample): on X64, for the target `48 89 5C 24 08 48 89 74 24 10 57`
followed by `sub rsp, 20h`, the attach succeeds with `cbRestore = 15`, not 11, and after
the commit the target starts with `48 B8` (`mov rax, imm64`), not with `FF 25`. -/
theorem C3_prologue_counterexample :
    (Scenario.attached Scenario.prologueCode).1 = Status.success ∧
    (Scenario.committed Scenario.prologueCode).1 = Status.success ∧
    (Scenario.committed Scenario.prologueCode).2.mem
      (Scenario.trampoline + off_cbRestore Arch.X64) ≠ 11 ∧
    readBytes (Scenario.committed Scenario.prologueCode).2.mem Scenario.target 2 ≠
      [0xFF, 0x25] := by
  decide

/-- C3 (amended): on X64 the overwrite jump is the 12-byte far jump, not a 6-byte indirect
jump.  For every operation recorded by `DetourAttachEx` on X64 (copier contract assumed,
target and pointer slot apart from the trampoline), `cbRestore` is at least 12, so it is never
11: at the 11-byte prologue the copy loop takes a fourth instruction.  After the install
branch of the commit loop the target starts with `48 B8 imm64 50 C3`, where `imm64` is the
address of `rbCodeIn`; `rbCodeIn` starts with `FF 25 rel32` whose operand is the field
`pbDetour`; and the pointer slot holds the trampoline. -/
theorem C3_x64_install_is_far_jump (h : Host) (copier : Copier) (hc : HostCall) (tid : Nat)
    (s : State) (pp d : Nat) (o : DetourOperation) (m : Mem)
    (hcop : CopierContract Arch.X64 copier)
    (hrec : (DetourAttachEx Arch.X64 h copier hc tid s pp d).2.s_pPendingOperations =
      o :: s.s_pPendingOperations)
    (hm : m (o.pTrampoline + off_cbRestore Arch.X64) =
      (DetourAttachEx Arch.X64 h copier hc tid s pp d).2.mem
        (o.pTrampoline + off_cbRestore Arch.X64))
    (hdisj : o.pTrampoline + sizeof_DETOUR_TRAMPOLINE Arch.X64 ≤ o.pbTarget ∨
      o.pbTarget + sizeof_rbRestore Arch.X64 ≤ o.pTrampoline)
    (hpT : o.ppbPointer + ptrSize Arch.X64 ≤ o.pbTarget ∨
      o.pbTarget + SIZE_OF_JMP Arch.X64 ≤ o.ppbPointer)
    (hpt : o.ppbPointer + ptrSize Arch.X64 ≤ o.pTrampoline ∨
      o.pTrampoline + sizeof_DETOUR_TRAMPOLINE Arch.X64 ≤ o.ppbPointer)
    (hbits : o.pTrampoline + sizeof_DETOUR_TRAMPOLINE Arch.X64 ≤ 2 ^ 64) :
    SIZE_OF_JMP Arch.X64 = 12 ∧
    12 ≤ m (o.pTrampoline + off_cbRestore Arch.X64) ∧
    readBytes (commit_install Arch.X64 m o) o.pbTarget 2 = [0x48, 0xB8] ∧
    readLE (commit_install Arch.X64 m o) (o.pbTarget + 2) 8 = o.pTrampoline + off_rbCodeIn ∧
    readBytes (commit_install Arch.X64 m o) (o.pbTarget + 10) 2 = [0x50, 0xC3] ∧
    readBytes (commit_install Arch.X64 m o) (o.pTrampoline + off_rbCodeIn) 2 = [0xFF, 0x25] ∧
    addSigned 64 (o.pTrampoline + off_rbCodeIn + 6) 32
      (readLE (commit_install Arch.X64 m o) (o.pTrampoline + off_rbCodeIn + 2) 4) =
      o.pTrampoline + off_pbDetour Arch.X64 ∧
    readPtr Arch.X64 (commit_install Arch.X64 m o) o.ppbPointer = o.pTrampoline :=
  install_X64_bytes h copier hc tid s pp d o m hcop hrec hm hdisj hpT hpt hbits

/-- Witness of C3 (amended), at the prologue `48 89 5C 24 08 48 89 74 24 10 57` continued
by `sub rsp, 20h; ret`: the attach records `Scenario.operation` with `cbRestore = 15` and
`rbRestore[0..15)` equal to the 15 original bytes; the install leaves `48 B8` at the target;
and after the committed detach of the next transaction the 16 bytes of the target are the
original ones. -/
theorem C3_x64_install_is_far_jump_witness :
    (Scenario.attached Scenario.prologueCode).2.s_pPendingOperations =
      [Scenario.operation] ∧
    (Scenario.attached Scenario.prologueCode).2.mem
      (Scenario.trampoline + off_cbRestore Arch.X64) = 15 ∧
    readBytes (Scenario.attached Scenario.prologueCode).2.mem
      (Scenario.trampoline + off_rbRestore Arch.X64) 15 = Scenario.prologueCode.take 15 ∧
    readBytes (commit_install Arch.X64 (Scenario.attached Scenario.prologueCode).2.mem
      Scenario.operation) Scenario.operation.pbTarget 2 = [0x48, 0xB8] ∧
    (Scenario.restored Scenario.prologueCode).1 = Status.success ∧
    readBytes (Scenario.restored Scenario.prologueCode).2.mem Scenario.target 16 =
      Scenario.prologueCode :=
  ⟨by decide, by decide, by decide,
   (C3_x64_install_is_far_jump Scenario.host Scenario.copier Scenario.hostCall 7
      (DetourTransactionBegin Scenario.host 7 (Scenario.idle Scenario.prologueCode false)).2
      Scenario.slot Scenario.detour Scenario.operation
      (Scenario.attached Scenario.prologueCode).2.mem scenario_copier_contract
      (by decide) rfl (Or.inr (by decide)) (Or.inr (by decide)) (Or.inl (by decide))
      (by decide)).2.2.1,
   by decide, by decide⟩

/-- C4: for an operation `o` recorded by `DetourAttachEx` (copier contract assumed) whose
target does not overlap its trampoline, and any memory `m` in which the trampoline still has
the `cbRestore` the attach stored, the install branch of the commit loop emits a jump that
ends at or before `pbTarget + cbRestore`, leaves the break opcode pattern in every byte from
the end of the jump up to `pbTarget + cbRestore`, and changes no byte before `pbTarget` or
from `pbTarget + cbRestore` on, apart from the trampoline and the pointer slot. -/
theorem C4_install_stays_in_saved_window (arch : Arch) (h : Host) (copier : Copier)
    (hc : HostCall) (tid : Nat) (s : State) (pp d : Nat) (o : DetourOperation) (m : Mem)
    (hcop : CopierContract arch copier)
    (hrec : (DetourAttachEx arch h copier hc tid s pp d).2.s_pPendingOperations =
      o :: s.s_pPendingOperations)
    (hm : m (o.pTrampoline + off_cbRestore arch) =
      (DetourAttachEx arch h copier hc tid s pp d).2.mem (o.pTrampoline + off_cbRestore arch))
    (hdisj : o.pTrampoline + sizeof_DETOUR_TRAMPOLINE arch ≤ o.pbTarget ∨
      o.pbTarget + sizeof_rbRestore arch ≤ o.pTrampoline)
    (harm : arch = Arch.ARM → o.pbTarget + 10 ≤ 2 ^ 32) :
    o.pbTarget + SIZE_OF_JMP arch ≤ (commit_jump arch m o).2 ∧
    (commit_jump arch m o).2 ≤ o.pbTarget + m (o.pTrampoline + off_cbRestore arch) ∧
    (∀ x, x < (commit_jump arch m o).2 ∨
        o.pbTarget + m (o.pTrampoline + off_cbRestore arch) ≤ x →
      ¬ (o.ppbPointer ≤ x ∧ x < o.ppbPointer + ptrSize arch) →
      commit_install arch m o x = (commit_jump arch m o).1 x) ∧
    (∀ x, (commit_jump arch m o).2 ≤ x →
      x < o.pbTarget + m (o.pTrampoline + off_cbRestore arch) →
      ¬ (o.ppbPointer ≤ x ∧ x < o.ppbPointer + ptrSize arch) →
      commit_install arch m o x =
        (brkBytes arch).getD ((x - (commit_jump arch m o).2) % (brkBytes arch).length) 0) ∧
    (∀ x, x < o.pbTarget ∨ o.pbTarget + m (o.pTrampoline + off_cbRestore arch) ≤ x →
      ¬ inSlot arch o.pTrampoline x →
      ¬ (o.ppbPointer ≤ x ∧ x < o.ppbPointer + ptrSize arch) →
      commit_install arch m o x = m x) :=
  install_spec arch h copier hc tid s pp d o m hcop hrec hm hdisj harm

/-- Witness of C4: in the prologue scenario `cbRestore` is 15, the 12-byte jump ends before
`target + cbRestore`, and the three bytes that follow it are break opcodes. -/
theorem C4_install_stays_in_saved_window_witness :
    Scenario.operation.pbTarget + sizeof_rbRestore Arch.X64 ≤ Scenario.operation.pTrampoline ∧
    (commit_jump Arch.X64 (Scenario.attached Scenario.prologueCode).2.mem
      Scenario.operation).2 ≤
      Scenario.operation.pbTarget + (Scenario.attached Scenario.prologueCode).2.mem
        (Scenario.operation.pTrampoline + off_cbRestore Arch.X64) ∧
    (Scenario.attached Scenario.prologueCode).2.mem
      (Scenario.operation.pTrampoline + off_cbRestore Arch.X64) = 15 ∧
    readBytes (commit_install Arch.X64 (Scenario.attached Scenario.prologueCode).2.mem
      Scenario.operation) (Scenario.operation.pbTarget + 12) 4 = [0xCC, 0xCC, 0xCC, 0xC3] :=
  ⟨by decide,
   (C4_install_stays_in_saved_window Arch.X64 Scenario.host Scenario.copier Scenario.hostCall 7
      (DetourTransactionBegin Scenario.host 7 (Scenario.idle Scenario.prologueCode false)).2
      Scenario.slot Scenario.detour Scenario.operation
      (Scenario.attached Scenario.prologueCode).2.mem scenario_copier_contract
      (by decide) rfl (Or.inr (by decide)) (fun e => nomatch e)).2.1,
   by decide, by decide⟩

/-- C5: with a copier that satisfies the copier contract, whenever `DetourAttachEx` records
an operation `o` (which it does only when it returns success), the byte `cbRestore` of the
trampoline of `o` satisfies `SIZE_OF_JMP ≤ cbRestore ≤ sizeof(rbRestore)`, and a `memcpy` of
`cbRestore` bytes to `rbRestore` changes no byte outside `rbRestore`. -/
theorem C5_cbRestore_within_rbRestore (arch : Arch) (h : Host) (copier : Copier)
    (hc : HostCall) (tid : Nat) (s : State) (pp d : Nat) (o : DetourOperation)
    (hcop : CopierContract arch copier)
    (hrec : (DetourAttachEx arch h copier hc tid s pp d).2.s_pPendingOperations =
      o :: s.s_pPendingOperations) :
    (DetourAttachEx arch h copier hc tid s pp d).1 = Status.success ∧
    SIZE_OF_JMP arch ≤
      (DetourAttachEx arch h copier hc tid s pp d).2.mem
        (o.pTrampoline + off_cbRestore arch) ∧
    (DetourAttachEx arch h copier hc tid s pp d).2.mem (o.pTrampoline + off_cbRestore arch) ≤
      sizeof_rbRestore arch ∧
    ∀ (m : Mem) (src x : Nat),
      x < o.pTrampoline + off_rbRestore arch ∨
        o.pTrampoline + off_rbRestore arch + sizeof_rbRestore arch ≤ x →
      memcpy m (o.pTrampoline + off_rbRestore arch) src
        ((DetourAttachEx arch h copier hc tid s pp d).2.mem
          (o.pTrampoline + off_cbRestore arch)) x = m x := by
  obtain ⟨h1, -, h3, h4, -⟩ := attach_recorded arch h copier hcop hc tid s pp d o hrec
  have hj := (scan_inv arch copier hcop (attachAlloc arch h hc s pp).2.mem
    (attachTarget arch h s pp) (attachAlloc arch h hc s pp).1).1
  refine ⟨h1, Nat.le_trans hj h3, h4, ?_⟩
  intro m src x hx
  exact conf_memcpy _ _ _ _ _ _ ⟨Nat.le_refl _, Nat.add_le_add_left h4 _⟩ x hx

/-- Witness of C5: the attach of the prologue scenario records the operation
`Scenario.operation`, so its `cbRestore` lies between `SIZE_OF_JMP` and `sizeof(rbRestore)`. -/
theorem C5_cbRestore_within_rbRestore_witness :
    (Scenario.attached Scenario.prologueCode).2.s_pPendingOperations =
      [Scenario.operation] ∧
    SIZE_OF_JMP Arch.X64 ≤ (Scenario.attached Scenario.prologueCode).2.mem
      (Scenario.operation.pTrampoline + off_cbRestore Arch.X64) ∧
    (Scenario.attached Scenario.prologueCode).2.mem
      (Scenario.operation.pTrampoline + off_cbRestore Arch.X64) ≤ sizeof_rbRestore Arch.X64 :=
  ⟨by decide,
   (C5_cbRestore_within_rbRestore Arch.X64 Scenario.host Scenario.copier Scenario.hostCall 7
      (DetourTransactionBegin Scenario.host 7 (Scenario.idle Scenario.prologueCode false)).2
      Scenario.slot Scenario.detour Scenario.operation scenario_copier_contract
      (by decide)).2.1,
   (C5_cbRestore_within_rbRestore Arch.X64 Scenario.host Scenario.copier Scenario.hostCall 7
      (DetourTransactionBegin Scenario.host 7 (Scenario.idle Scenario.prologueCode false)).2
      Scenario.slot Scenario.detour Scenario.operation scenario_copier_contract
      (by decide)).2.2.1⟩

/-- C6: abort is a full rollback.  From an idle, well-formed state `sI`, after `begin` and any
sequence `cs` of attach and detach calls (copier contract assumed, fresh pages from the host),
the abort by the owner returns success, empties the pending list and clears the owner; a byte
that differs from its value at begin lay in a slot that was free at begin or lies in the page
of a region created since (so target bytes and pointer slots are as at begin); every region
of `sI` has the free list it had at begin; the trampoline of every attach that was pending is
on the free list of its region; and every slot that was live at begin, such as the trampoline
of a pending detach, has the bytes it had at begin and, the free lists being the same, is
still live. -/
theorem C6_abort_is_full_rollback (arch : Arch) (h : Host) (copier : Copier) (tid : Nat)
    (sI : State) (cs : List Call) (hcop : CopierContract arch copier)
    (hidle : sI.s_nPendingThreadId = 0) (hg : GoodOps arch [] sI.mem sI.s_pRegions)
    (hv : ValidRun arch h copier tid (DetourTransactionBegin h tid sI).2 cs) :
    (DetourTransactionAbort arch h tid
      (run arch h copier tid (DetourTransactionBegin h tid sI).2 cs)).1 = Status.success ∧
    (DetourTransactionAbort arch h tid
      (run arch h copier tid (DetourTransactionBegin h tid sI).2 cs)).2.s_pPendingOperations
        = [] ∧
    (DetourTransactionAbort arch h tid
      (run arch h copier tid (DetourTransactionBegin h tid sI).2 cs)).2.s_nPendingThreadId
        = 0 ∧
    (∀ x, (DetourTransactionAbort arch h tid
        (run arch h copier tid (DetourTransactionBegin h tid sI).2 cs)).2.mem x ≠ sI.mem x →
      Loose arch [] sI.mem sI.s_pRegions x ∨
      InNewPage sI.s_pRegions (DetourTransactionAbort arch h tid
        (run arch h copier tid (DetourTransactionBegin h tid sI).2 cs)).2.s_pRegions x) ∧
    (∀ r ∈ sI.s_pRegions, ∀ l, FreeChain arch sI.mem r.pFree l →
      ∃ r2 ∈ (DetourTransactionAbort arch h tid
          (run arch h copier tid (DetourTransactionBegin h tid sI).2 cs)).2.s_pRegions,
        r2.base = r.base ∧
        FreeChain arch (DetourTransactionAbort arch h tid
          (run arch h copier tid (DetourTransactionBegin h tid sI).2 cs)).2.mem r2.pFree l) ∧
    (∀ o ∈ (run arch h copier tid (DetourTransactionBegin h tid sI).2 cs).s_pPendingOperations,
      o.fIsRemove = false →
      ∃ r2 ∈ (DetourTransactionAbort arch h tid
          (run arch h copier tid (DetourTransactionBegin h tid sI).2 cs)).2.s_pRegions,
        r2.base = pageOf o.pTrampoline ∧
        ∃ l, FreeChain arch (DetourTransactionAbort arch h tid
          (run arch h copier tid (DetourTransactionBegin h tid sI).2 cs)).2.mem r2.pFree l ∧
          o.pTrampoline ∈ l) ∧
    (∀ r ∈ sI.s_pRegions, ∀ t l, IsSlot arch r.base t → FreeChain arch sI.mem r.pFree l →
      t ∉ l → ∀ x, inSlot arch t x →
      (DetourTransactionAbort arch h tid
        (run arch h copier tid (DetourTransactionBegin h tid sI).2 cs)).2.mem x = sI.mem x) := by
  obtain ⟨b1, b2, b3, b4⟩ := begin_fields h tid sI hidle
  have hg0 : Good arch (DetourTransactionBegin h tid sI).2 := by
    unfold Good
    rw [b1, b2, b3]
    exact hg
  obtain ⟨g1, e1, w1⟩ := run_good arch h copier hcop tid cs _ hg0 hv
  obtain ⟨a1, a2, a3, -, -, a6, a7⟩ := abort_result arch h tid
    (run arch h copier tid (DetourTransactionBegin h tid sI).2 cs) (w1.trans b4)
  obtain ⟨g2, e2⟩ := abort_loop_good arch _ _ g1
  have e02 := evolves_trans hg0 g1 e1 e2
  rw [b1, b2, b3] at e02
  refine ⟨a1, a2, a3, ?_, ?_, ?_, ?_⟩
  · rw [a6, a7]
    exact e02.frame
  · rw [a6, a7]
    intro r hr l hl
    obtain ⟨r2, hr2, hb, hbl⟩ := e02.base r hr
    exact ⟨r2, hr2, hb, (baseline_nil arch _ r2 l).1 (hbl l ((baseline_nil arch _ r l).2 hl))⟩
  · rw [a6, a7]
    intro o ho hr
    exact abort_loop_returns arch _ _ g1 o ho hr
  · rw [a6]
    intro r hr t l hs hl ht x hx
    exact live_slot_frame hg g2 e02 hr hs hl ht hx

/-- Witness of C6: `begin; attach; abort` in the prologue scenario. -/
theorem C6_abort_is_full_rollback_witness :
    (Scenario.idle Scenario.prologueCode false).s_nPendingThreadId = 0 ∧
    (DetourTransactionAbort Arch.X64 Scenario.host 7
      (run Arch.X64 Scenario.host Scenario.copier 7
        (DetourTransactionBegin Scenario.host 7 (Scenario.idle Scenario.prologueCode false)).2
        [Call.attach Scenario.hostCall Scenario.slot Scenario.detour])).1 = Status.success ∧
    (DetourTransactionAbort Arch.X64 Scenario.host 7
      (run Arch.X64 Scenario.host Scenario.copier 7
        (DetourTransactionBegin Scenario.host 7 (Scenario.idle Scenario.prologueCode false)).2
        [Call.attach Scenario.hostCall Scenario.slot Scenario.detour])).2.s_pPendingOperations
      = [] :=
  ⟨rfl,
   (C6_abort_is_full_rollback Arch.X64 Scenario.host Scenario.copier 7
      (Scenario.idle Scenario.prologueCode false)
      [Call.attach Scenario.hostCall Scenario.slot Scenario.detour] scenario_copier_contract
      rfl (goodOps_no_regions _ _) ⟨scenario_fresh _ rfl, trivial⟩).1,
   (C6_abort_is_full_rollback Arch.X64 Scenario.host Scenario.copier 7
      (Scenario.idle Scenario.prologueCode false)
      [Call.attach Scenario.hostCall Scenario.slot Scenario.detour] scenario_copier_contract
      rfl (goodOps_no_regions _ _) ⟨scenario_fresh _ rfl, trivial⟩).2.1⟩

/-- C7: commit of a poisoned transaction.  If the call `c`, made by the owner of a clean
transaction in a well-formed state, latches an error, then after any further calls `cs` the
state is still the one `c` left, and `DetourTransactionCommitEx` by the owner returns exactly
the status `c` returned (the latched error), stores the pointer-slot argument of `c` through
its out-parameter, ends in the state that `DetourTransactionAbort` produces (pending list
empty, owner cleared), changes no byte outside the slots and region headers of the
trampolines of the pending attaches, and leaves each of these trampolines on the free list of
its region. -/
theorem C7_poisoned_commit_is_atomic_failure (arch : Arch) (h : Host) (copier : Copier)
    (tid : Nat) (s : State) (c : Call) (cs : List Call) (hcop : CopierContract arch copier)
    (hg : Good arch s) (hfresh : FreshPage arch s c.hc) (hown : s.s_nPendingThreadId = tid)
    (hclean : s.s_nPendingError = Status.success)
    (hlatch : (step arch h copier tid s c).2.s_nPendingError ≠ Status.success) :
    run arch h copier tid (step arch h copier tid s c).2 cs = (step arch h copier tid s c).2 ∧
    (DetourTransactionCommitEx arch h tid
      (run arch h copier tid (step arch h copier tid s c).2 cs)).1 =
        (step arch h copier tid s c).1 ∧
    (DetourTransactionCommitEx arch h tid
      (run arch h copier tid (step arch h copier tid s c).2 cs)).1 =
        (step arch h copier tid s c).2.s_nPendingError ∧
    (DetourTransactionCommitEx arch h tid
      (run arch h copier tid (step arch h copier tid s c).2 cs)).2.1 = c.ppPointer ∧
    (DetourTransactionCommitEx arch h tid
      (run arch h copier tid (step arch h copier tid s c).2 cs)).2.2 =
        (DetourTransactionAbort arch h tid (step arch h copier tid s c).2).2 ∧
    (DetourTransactionCommitEx arch h tid
      (run arch h copier tid (step arch h copier tid s c).2 cs)).2.2.s_pPendingOperations
        = [] ∧
    (DetourTransactionCommitEx arch h tid
      (run arch h copier tid (step arch h copier tid s c).2 cs)).2.2.s_nPendingThreadId = 0 ∧
    (∀ x, (∀ o ∈ (step arch h copier tid s c).2.s_pPendingOperations, o.fIsRemove = false →
        ¬ inSlot arch o.pTrampoline x ∧ ¬ inHeader arch o.pTrampoline x) →
      (DetourTransactionCommitEx arch h tid
        (run arch h copier tid (step arch h copier tid s c).2 cs)).2.2.mem x =
          (step arch h copier tid s c).2.mem x) ∧
    (∀ o ∈ (step arch h copier tid s c).2.s_pPendingOperations, o.fIsRemove = false →
      ∃ r2 ∈ (DetourTransactionCommitEx arch h tid
          (run arch h copier tid (step arch h copier tid s c).2 cs)).2.2.s_pRegions,
        r2.base = pageOf o.pTrampoline ∧
        ∃ l, FreeChain arch (DetourTransactionCommitEx arch h tid
          (run arch h copier tid (step arch h copier tid s c).2 cs)).2.2.mem r2.pFree l ∧
          o.pTrampoline ∈ l) := by
  have hs := step_good arch h copier hcop tid s c hg hfresh
  have hown1 : (step arch h copier tid s c).2.s_nPendingThreadId = tid := hs.owner.trans hown
  obtain ⟨l1, l2⟩ := step_latch arch h copier hcop tid s c hclean hlatch
  have hrun := run_of_latched arch h copier tid _ cs hown1 hlatch
  rw [hrun, commit_of_latched arch h tid _ hown1 hlatch]
  obtain ⟨-, a2, a3, -, -, a6, a7⟩ := abort_result arch h tid _ hown1
  refine ⟨rfl, l1.symm, rfl, l2, rfl, a2, a3, ?_, ?_⟩
  · intro x hx
    show (DetourTransactionAbort arch h tid (step arch h copier tid s c).2).2.mem x = _
    rw [a6]
    exact abort_loop_frame arch _ _ x hx
  · intro o ho hr
    show ∃ r2 ∈ (DetourTransactionAbort arch h tid (step arch h copier tid s c).2).2.s_pRegions,
      r2.base = pageOf o.pTrampoline ∧
      ∃ l, FreeChain arch (DetourTransactionAbort arch h tid
        (step arch h copier tid s c).2).2.mem r2.pFree l ∧ o.pTrampoline ∈ l
    rw [a6, a7]
    exact abort_loop_returns arch _ _ hs.good o ho hr

/-- Witness of C7: `begin; attach(&nullSlot, detour)` latches invalid-handle; after a further
detach the commit returns invalid-handle and reports `nullSlot`. -/
theorem C7_poisoned_commit_is_atomic_failure_witness :
    Scenario.poisoned.2.s_nPendingError = Status.invalid_handle ∧
    (DetourTransactionCommitEx Arch.X64 Scenario.host 7
      (run Arch.X64 Scenario.host Scenario.copier 7
        (step Arch.X64 Scenario.host Scenario.copier 7
          (DetourTransactionBegin Scenario.host 7
            (Scenario.idle Scenario.prologueCode false)).2
          (Call.attach Scenario.hostCall Scenario.nullSlot Scenario.detour)).2
        [Call.detach Scenario.hostCall Scenario.slot Scenario.detour])).2.1 =
      Scenario.nullSlot :=
  ⟨by decide,
   (C7_poisoned_commit_is_atomic_failure Arch.X64 Scenario.host Scenario.copier 7
      (DetourTransactionBegin Scenario.host 7 (Scenario.idle Scenario.prologueCode false)).2
      (Call.attach Scenario.hostCall Scenario.nullSlot Scenario.detour)
      [Call.detach Scenario.hostCall Scenario.slot Scenario.detour] scenario_copier_contract
      (goodOps_no_regions _ _) (scenario_fresh _ rfl) rfl rfl (by decide)).2.2.2.1⟩

/-- C8 (counterexample): in the transaction poisoned by `attach(&nullSlot, detour)`, which
latched invalid-handle, a following attach with a null detour returns invalid-parameter, not
the latched error. -/
theorem C8_null_detour_counterexample :
    Scenario.poisoned.1 = Status.invalid_handle ∧
    Scenario.poisoned.2.s_nPendingError = Status.invalid_handle ∧
    Scenario.poisoned.2.s_nPendingThreadId = 7 ∧
    (DetourAttach Arch.X64 Scenario.host Scenario.copier Scenario.hostCall 7
      Scenario.poisoned.2 Scenario.slot 0).1 = Status.invalid_parameter ∧
    (DetourAttach Arch.X64 Scenario.host Scenario.copier Scenario.hostCall 7
      Scenario.poisoned.2 Scenario.slot 0).1 ≠ Scenario.poisoned.2.s_nPendingError := by
  decide

/-- C8 (amended): once an error is latched in a transaction, every detach and every attach
with a non-null detour made by the owner returns the latched error, an attach with a null
detour returns invalid-parameter, and in each case the whole state, with the latched error,
the recorded failing pointer, the pending list and all memory, is unchanged. -/
theorem C8_latched_error_is_sticky (arch : Arch) (h : Host) (copier : Copier) (tid : Nat)
    (s : State) (c : Call) (hown : s.s_nPendingThreadId = tid)
    (herr : s.s_nPendingError ≠ Status.success) :
    (step arch h copier tid s c).2 = s ∧
    (match c with
      | .attach _ _ d =>
        (step arch h copier tid s c).1 =
          if d = 0 then Status.invalid_parameter else s.s_nPendingError
      | .detach _ _ _ => (step arch h copier tid s c).1 = s.s_nPendingError) :=
  step_of_latched arch h copier tid s c hown herr

/-- Witness of C8 (amended): in the poisoned scenario a detach returns the latched
invalid-handle and leaves the state as it was. -/
theorem C8_latched_error_is_sticky_witness :
    Scenario.poisoned.2.s_nPendingError ≠ Status.success ∧
    (step Arch.X64 Scenario.host Scenario.copier 7 Scenario.poisoned.2
      (Call.detach Scenario.hostCall Scenario.slot Scenario.detour)).2 = Scenario.poisoned.2 ∧
    (step Arch.X64 Scenario.host Scenario.copier 7 Scenario.poisoned.2
      (Call.detach Scenario.hostCall Scenario.slot Scenario.detour)).1 =
      Scenario.poisoned.2.s_nPendingError :=
  ⟨by decide,
   (C8_latched_error_is_sticky Arch.X64 Scenario.host Scenario.copier 7 Scenario.poisoned.2
      (Call.detach Scenario.hostCall Scenario.slot Scenario.detour) rfl (by decide)).1,
   (C8_latched_error_is_sticky Arch.X64 Scenario.host Scenario.copier 7 Scenario.poisoned.2
      (Call.detach Scenario.hostCall Scenario.slot Scenario.detour) rfl (by decide)).2⟩

/-- C9: too-small rejection.  When the owner of a clean transaction in a well-formed state
attaches, the checks before the scan pass and a trampoline is allocated, but the copy loop and
the filler loop cover fewer bytes than the jump size, then with ignore-too-small false the
attach returns out-of-memory, latches out-of-memory with the pointer-slot argument, leaves
the pending list as it was, and the allocated trampoline is the head of the free list of its
region again, the state being well formed with the other free lists as before. -/
theorem C9_too_small_is_rejected (arch : Arch) (h : Host) (copier : Copier) (hc : HostCall)
    (tid : Nat) (s : State) (pp d : Nat) (hcop : CopierContract arch copier)
    (hg : Good arch s) (hfresh : FreshPage arch s hc) (hd : d ≠ 0)
    (hown : s.s_nPendingThreadId = tid) (hclean : s.s_nPendingError = Status.success)
    (hpp : pp ≠ 0) (hp : readPtr arch s.mem pp ≠ 0)
    (hne : DetourCodeFromPointer arch h s.mem d ≠ attachTarget arch h s pp)
    (hop : hc.opAlloc = true) (ha : (attachAlloc arch h hc s pp).1 ≠ 0)
    (hsmall : (attachScan arch h copier hc s pp).2.cbTarget <
      (attachScan arch h copier hc s pp).1)
    (hign : s.s_fIgnoreTooSmall = false) :
    (DetourAttachEx arch h copier hc tid s pp d).1 = Status.outofmemory ∧
    (DetourAttachEx arch h copier hc tid s pp d).2.s_nPendingError = Status.outofmemory ∧
    (DetourAttachEx arch h copier hc tid s pp d).2.s_ppPendingError = pp ∧
    (DetourAttachEx arch h copier hc tid s pp d).2.s_pPendingOperations =
      s.s_pPendingOperations ∧
    (∃ r ∈ (DetourAttachEx arch h copier hc tid s pp d).2.s_pRegions,
      r.base = pageOf (attachAlloc arch h hc s pp).1 ∧
      r.pFree = (attachAlloc arch h hc s pp).1) ∧
    Good arch (DetourAttachEx arch h copier hc tid s pp d).2 ∧
    Evolves arch s.s_pPendingOperations s.mem s.s_pRegions
      (DetourAttachEx arch h copier hc tid s pp d).2.s_pPendingOperations
      (DetourAttachEx arch h copier hc tid s pp d).2.mem
      (DetourAttachEx arch h copier hc tid s pp d).2.s_pRegions := by
  have hok := attach_good arch h copier hcop hc tid s pp d hg hfresh
  have heq := attach_small arch h copier hc tid s pp d hd hown hclean hpp hp hne hop ha hsmall
  have hf := alloc_fields arch hc.page s (attachTarget arch h s pp)
  obtain ⟨ga, -⟩ := (good_alloc hc.page s (attachTarget arch h s pp) hg hfresh).2 ha
    (attach_operation hc pp (attachTarget arch h s pp) (attachAlloc arch h hc s pp).1) rfl rfl
  obtain ⟨g2, -⟩ := conf_pending_slot ga (List.mem_cons_self _ _) rfl
    (scan_inv arch copier hcop (attachAlloc arch h hc s pp).2.mem (attachTarget arch h s pp)
      (attachAlloc arch h hc s pp).1).2.2.2.conf
  have hfree := free_returns arch _ _
    { (attachAlloc arch h hc s pp).2 with
      mem := (attachScan arch h copier hc s pp).2.mem,
      s_nPendingError :=
        if s.s_fIgnoreTooSmall then s.s_nPendingError else Status.outofmemory } g2 rfl
  have hff := free_trampoline_fields arch
    { (attachAlloc arch h hc s pp).2 with
      mem := (attachScan arch h copier hc s pp).2.mem,
      s_nPendingError :=
        if s.s_fIgnoreTooSmall then s.s_nPendingError else Status.outofmemory }
    (attachAlloc arch h hc s pp).1
  refine ⟨?_, ?_, ?_, ?_, ?_, hok.good, hok.evolves⟩
  · rw [heq]
  · rw [heq]
    refine hff.2.1.trans ?_
    show (if s.s_fIgnoreTooSmall then s.s_nPendingError else Status.outofmemory) = _
    rw [hign]
    rfl
  · rw [heq]
  · rw [heq]
    exact hff.2.2.2.1.trans hf.1
  · rw [heq]
    exact hfree

/-- Witness of C9: the target `Scenario.smallCode` ends after 11 bytes, one fewer than the
12 bytes of the jump, and the attach is rejected with out-of-memory. -/
theorem C9_too_small_is_rejected_witness :
    (attachScan Arch.X64 Scenario.host Scenario.copier Scenario.hostCall
      (DetourTransactionBegin Scenario.host 7 (Scenario.idle Scenario.smallCode false)).2
      Scenario.slot).2.cbTarget = 11 ∧
    (DetourAttachEx Arch.X64 Scenario.host Scenario.copier Scenario.hostCall 7
      (DetourTransactionBegin Scenario.host 7 (Scenario.idle Scenario.smallCode false)).2
      Scenario.slot Scenario.detour).1 = Status.outofmemory ∧
    (DetourAttachEx Arch.X64 Scenario.host Scenario.copier Scenario.hostCall 7
      (DetourTransactionBegin Scenario.host 7 (Scenario.idle Scenario.smallCode false)).2
      Scenario.slot Scenario.detour).2.s_nPendingError = Status.outofmemory :=
  ⟨by decide,
   (C9_too_small_is_rejected Arch.X64 Scenario.host Scenario.copier Scenario.hostCall 7
      (DetourTransactionBegin Scenario.host 7 (Scenario.idle Scenario.smallCode false)).2
      Scenario.slot Scenario.detour scenario_copier_contract (goodOps_no_regions _ _)
      (scenario_fresh _ rfl) (by decide) rfl rfl (by decide) (by decide) (by decide) rfl
      (by decide) (by decide) rfl).1,
   (C9_too_small_is_rejected Arch.X64 Scenario.host Scenario.copier Scenario.hostCall 7
      (DetourTransactionBegin Scenario.host 7 (Scenario.idle Scenario.smallCode false)).2
      Scenario.slot Scenario.detour scenario_copier_contract (goodOps_no_regions _ _)
      (scenario_fresh _ rfl) (by decide) rfl rfl (by decide) (by decide) (by decide) rfl
      (by decide) (by decide) rfl).2.1⟩

/-- C10: ignore-too-small keeps the transaction clean.  Under the conditions of C9 but with
ignore-too-small set, in a transaction with no pending operation, the attach (which returns
out-of-memory) records no pending operation, leaves the latched error equal to success, and
the allocated trampoline is the head of the free list of its region again; the following
`DetourTransactionCommitEx` by the owner returns success and changes no byte, and a byte that
differs from its value before the attach lay in a free slot or lies in the page of the region
the attach created. -/
theorem C10_ignore_too_small_keeps_clean (arch : Arch) (h : Host) (copier : Copier)
    (hc : HostCall) (tid : Nat) (s : State) (pp d : Nat) (hcop : CopierContract arch copier)
    (hg : Good arch s) (hfresh : FreshPage arch s hc) (hd : d ≠ 0)
    (hown : s.s_nPendingThreadId = tid) (hclean : s.s_nPendingError = Status.success)
    (hempty : s.s_pPendingOperations = [])
    (hpp : pp ≠ 0) (hp : readPtr arch s.mem pp ≠ 0)
    (hne : DetourCodeFromPointer arch h s.mem d ≠ attachTarget arch h s pp)
    (hop : hc.opAlloc = true) (ha : (attachAlloc arch h hc s pp).1 ≠ 0)
    (hsmall : (attachScan arch h copier hc s pp).2.cbTarget <
      (attachScan arch h copier hc s pp).1)
    (hign : s.s_fIgnoreTooSmall = true) :
    (DetourAttachEx arch h copier hc tid s pp d).1 = Status.outofmemory ∧
    (DetourAttachEx arch h copier hc tid s pp d).2.s_nPendingError = Status.success ∧
    (DetourAttachEx arch h copier hc tid s pp d).2.s_pPendingOperations = [] ∧
    (∃ r ∈ (DetourAttachEx arch h copier hc tid s pp d).2.s_pRegions,
      r.base = pageOf (attachAlloc arch h hc s pp).1 ∧
      r.pFree = (attachAlloc arch h hc s pp).1) ∧
    (DetourTransactionCommitEx arch h tid
      (DetourAttachEx arch h copier hc tid s pp d).2).1 = Status.success ∧
    (DetourTransactionCommitEx arch h tid
      (DetourAttachEx arch h copier hc tid s pp d).2).2.2.mem =
        (DetourAttachEx arch h copier hc tid s pp d).2.mem ∧
    (∀ x, (DetourTransactionCommitEx arch h tid
        (DetourAttachEx arch h copier hc tid s pp d).2).2.2.mem x ≠ s.mem x →
      Loose arch [] s.mem s.s_pRegions x ∨
      InNewPage s.s_pRegions (DetourAttachEx arch h copier hc tid s pp d).2.s_pRegions x) := by
  have hok := attach_good arch h copier hcop hc tid s pp d hg hfresh
  have heq := attach_small arch h copier hc tid s pp d hd hown hclean hpp hp hne hop ha hsmall
  have hf := alloc_fields arch hc.page s (attachTarget arch h s pp)
  obtain ⟨ga, -⟩ := (good_alloc hc.page s (attachTarget arch h s pp) hg hfresh).2 ha
    (attach_operation hc pp (attachTarget arch h s pp) (attachAlloc arch h hc s pp).1) rfl rfl
  obtain ⟨g2, -⟩ := conf_pending_slot ga (List.mem_cons_self _ _) rfl
    (scan_inv arch copier hcop (attachAlloc arch h hc s pp).2.mem (attachTarget arch h s pp)
      (attachAlloc arch h hc s pp).1).2.2.2.conf
  have hfree := free_returns arch _ _
    { (attachAlloc arch h hc s pp).2 with
      mem := (attachScan arch h copier hc s pp).2.mem,
      s_nPendingError :=
        if s.s_fIgnoreTooSmall then s.s_nPendingError else Status.outofmemory } g2 rfl
  have hff := free_trampoline_fields arch
    { (attachAlloc arch h hc s pp).2 with
      mem := (attachScan arch h copier hc s pp).2.mem,
      s_nPendingError :=
        if s.s_fIgnoreTooSmall then s.s_nPendingError else Status.outofmemory }
    (attachAlloc arch h hc s pp).1
  have herr : (DetourAttachEx arch h copier hc tid s pp d).2.s_nPendingError =
      Status.success := by
    rw [heq]
    refine hff.2.1.trans ?_
    show (if s.s_fIgnoreTooSmall then s.s_nPendingError else Status.outofmemory) = _
    rw [hign]
    exact hclean
  have hops : (DetourAttachEx arch h copier hc tid s pp d).2.s_pPendingOperations = [] := by
    rw [heq]
    exact (hff.2.2.2.1.trans hf.1).trans hempty
  obtain ⟨c1, c2, -, -, -⟩ := commit_empty arch h tid _ (hok.owner.trans hown) herr hops
  refine ⟨?_, herr, hops, ?_, c1, c2, ?_⟩
  · rw [heq]
  · rw [heq]
    exact hfree
  · rw [c2]
    have hev := hok.evolves
    rw [hempty] at hev
    exact hev.frame

/-- Witness of C10: the same target with ignore-too-small set; the commit that follows the
skipped attach returns success. -/
theorem C10_ignore_too_small_keeps_clean_witness :
    (attachScan Arch.X64 Scenario.host Scenario.copier Scenario.hostCall
      (DetourTransactionBegin Scenario.host 7 (Scenario.idle Scenario.smallCode true)).2
      Scenario.slot).2.cbTarget = 11 ∧
    (DetourAttachEx Arch.X64 Scenario.host Scenario.copier Scenario.hostCall 7
      (DetourTransactionBegin Scenario.host 7 (Scenario.idle Scenario.smallCode true)).2
      Scenario.slot Scenario.detour).2.s_nPendingError = Status.success ∧
    (DetourTransactionCommitEx Arch.X64 Scenario.host 7
      (DetourAttachEx Arch.X64 Scenario.host Scenario.copier Scenario.hostCall 7
        (DetourTransactionBegin Scenario.host 7 (Scenario.idle Scenario.smallCode true)).2
        Scenario.slot Scenario.detour).2).1 = Status.success :=
  ⟨by decide,
   (C10_ignore_too_small_keeps_clean Arch.X64 Scenario.host Scenario.copier Scenario.hostCall 7
      (DetourTransactionBegin Scenario.host 7 (Scenario.idle Scenario.smallCode true)).2
      Scenario.slot Scenario.detour scenario_copier_contract (goodOps_no_regions _ _)
      (scenario_fresh _ rfl) (by decide) rfl rfl rfl (by decide) (by decide) (by decide) rfl
      (by decide) (by decide) rfl).2.1,
   (C10_ignore_too_small_keeps_clean Arch.X64 Scenario.host Scenario.copier Scenario.hostCall 7
      (DetourTransactionBegin Scenario.host 7 (Scenario.idle Scenario.smallCode true)).2
      Scenario.slot Scenario.detour scenario_copier_contract (goodOps_no_regions _ _)
      (scenario_fresh _ rfl) (by decide) rfl rfl rfl (by decide) (by decide) (by decide) rfl
      (by decide) (by decide) rfl).2.2.2.2.1⟩

/-! ## The claims on validation and ownership -/

/-- C11 (counterexample): on X64 with ignore-too-small set, the attach to the 11-byte target
`Scenario.smallCode` (the jump needs 12 bytes) returns out-of-memory, not success. -/
theorem C11_ignored_small_attach_counterexample :
    (Scenario.opened Scenario.smallCode true).s_fIgnoreTooSmall = true ∧
    (attachScan Arch.X64 Scenario.host Scenario.copier Scenario.hostCall
      (Scenario.opened Scenario.smallCode true) Scenario.slot).2.cbTarget = 11 ∧
    (attachScan Arch.X64 Scenario.host Scenario.copier Scenario.hostCall
      (Scenario.opened Scenario.smallCode true) Scenario.slot).1 = 12 ∧
    (DetourAttachEx Arch.X64 Scenario.host Scenario.copier Scenario.hostCall 7
      (Scenario.opened Scenario.smallCode true) Scenario.slot Scenario.detour).1 =
        Status.outofmemory ∧
    (DetourAttachEx Arch.X64 Scenario.host Scenario.copier Scenario.hostCall 7
      (Scenario.opened Scenario.smallCode true) Scenario.slot Scenario.detour).1 ≠
        Status.success := by
  decide

/-- C11 (amended): with ignore-too-small set, an attach by the owner of a clean transaction
that reaches the size check with fewer target bytes than the jump needs is not latched and
records nothing, but the status that the attach itself returns is out-of-memory, not
success. -/
theorem C11_ignored_small_attach_returns_outofmemory (arch : Arch) (h : Host)
    (copier : Copier) (hc : HostCall) (tid : Nat) (s : State) (pp d : Nat) (hd : d ≠ 0)
    (hown : s.s_nPendingThreadId = tid) (hclean : s.s_nPendingError = Status.success)
    (hpp : pp ≠ 0) (hp : readPtr arch s.mem pp ≠ 0)
    (hne : DetourCodeFromPointer arch h s.mem d ≠ attachTarget arch h s pp)
    (hop : hc.opAlloc = true) (ha : (attachAlloc arch h hc s pp).1 ≠ 0)
    (hsmall : (attachScan arch h copier hc s pp).2.cbTarget <
      (attachScan arch h copier hc s pp).1)
    (hign : s.s_fIgnoreTooSmall = true) :
    (DetourAttachEx arch h copier hc tid s pp d).1 = Status.outofmemory ∧
    (DetourAttachEx arch h copier hc tid s pp d).1 ≠ Status.success ∧
    (DetourAttachEx arch h copier hc tid s pp d).2.s_nPendingError = Status.success ∧
    (DetourAttachEx arch h copier hc tid s pp d).2.s_pPendingOperations =
      s.s_pPendingOperations := by
  have heq := attach_small arch h copier hc tid s pp d hd hown hclean hpp hp hne hop ha hsmall
  have hf := alloc_fields arch hc.page s (attachTarget arch h s pp)
  have hff := free_trampoline_fields arch
    { (attachAlloc arch h hc s pp).2 with
      mem := (attachScan arch h copier hc s pp).2.mem,
      s_nPendingError :=
        if s.s_fIgnoreTooSmall then s.s_nPendingError else Status.outofmemory }
    (attachAlloc arch h hc s pp).1
  rw [heq]
  refine ⟨rfl, fun e => Status.noConfusion e, ?_, ?_⟩
  · refine hff.2.1.trans ?_
    show (if s.s_fIgnoreTooSmall then s.s_nPendingError else Status.outofmemory) = _
    rw [hign]
    exact hclean
  · exact hff.2.2.2.1.trans hf.1

/-- Witness of C11 (amended): the 11-byte target of `Scenario.smallCode` with
ignore-too-small set. -/
theorem C11_ignored_small_attach_returns_outofmemory_witness :
    (attachScan Arch.X64 Scenario.host Scenario.copier Scenario.hostCall
      (Scenario.opened Scenario.smallCode true) Scenario.slot).2.cbTarget <
    (attachScan Arch.X64 Scenario.host Scenario.copier Scenario.hostCall
      (Scenario.opened Scenario.smallCode true) Scenario.slot).1 ∧
    (DetourAttachEx Arch.X64 Scenario.host Scenario.copier Scenario.hostCall 7
      (Scenario.opened Scenario.smallCode true) Scenario.slot Scenario.detour).1 =
        Status.outofmemory ∧
    (DetourAttachEx Arch.X64 Scenario.host Scenario.copier Scenario.hostCall 7
      (Scenario.opened Scenario.smallCode true) Scenario.slot
      Scenario.detour).2.s_nPendingError = Status.success :=
  ⟨by decide,
   (C11_ignored_small_attach_returns_outofmemory Arch.X64 Scenario.host Scenario.copier
      Scenario.hostCall 7 (Scenario.opened Scenario.smallCode true) Scenario.slot
      Scenario.detour (by decide) rfl rfl (by decide) (by decide) (by decide) rfl (by decide)
      (by decide) rfl).1,
   (C11_ignored_small_attach_returns_outofmemory Arch.X64 Scenario.host Scenario.copier
      Scenario.hostCall 7 (Scenario.opened Scenario.smallCode true) Scenario.slot
      Scenario.detour (by decide) rfl rfl (by decide) (by decide) (by decide) rfl (by decide)
      (by decide) rfl).2.2.1⟩

/-- C12 (evaluation at the failing input): on X64 with ignore-too-small clear, the owner of a
clean transaction attaches the target to itself (`Scenario.slot` holds `Scenario.target` and
the detour is `Scenario.target`): the attach returns success, no error is latched, nothing is
recorded, and the commit that follows returns success. -/
theorem C12_self_detour_is_not_rejected :
    (Scenario.opened Scenario.prologueCode false).s_fIgnoreTooSmall = false ∧
    DetourCodeFromPointer Arch.X64 Scenario.host
      (Scenario.opened Scenario.prologueCode false).mem Scenario.target =
      attachTarget Arch.X64 Scenario.host (Scenario.opened Scenario.prologueCode false)
        Scenario.slot ∧
    (DetourAttachEx Arch.X64 Scenario.host Scenario.copier Scenario.hostCall 7
      (Scenario.opened Scenario.prologueCode false) Scenario.slot Scenario.target).1 =
        Status.success ∧
    (DetourAttachEx Arch.X64 Scenario.host Scenario.copier Scenario.hostCall 7
      (Scenario.opened Scenario.prologueCode false) Scenario.slot
      Scenario.target).2.s_nPendingError = Status.success ∧
    (DetourAttachEx Arch.X64 Scenario.host Scenario.copier Scenario.hostCall 7
      (Scenario.opened Scenario.prologueCode false) Scenario.slot
      Scenario.target).2.s_pPendingOperations = [] ∧
    (DetourTransactionCommitEx Arch.X64 Scenario.host 7
      (DetourAttachEx Arch.X64 Scenario.host Scenario.copier Scenario.hostCall 7
        (Scenario.opened Scenario.prologueCode false) Scenario.slot
        Scenario.target).2).1 = Status.success := by
  decide

/-- C13 (counterexample): on X64 the owner of a clean transaction calls attach with a null
pointer-slot and the non-null detour `Scenario.detour`: the attach returns invalid-handle but
latches nothing, and the commit that follows returns success. -/
theorem C13_null_slot_counterexample :
    (DetourAttachEx Arch.X64 Scenario.host Scenario.copier Scenario.hostCall 7
      (Scenario.opened Scenario.prologueCode false) 0 Scenario.detour).1 =
        Status.invalid_handle ∧
    (DetourAttachEx Arch.X64 Scenario.host Scenario.copier Scenario.hostCall 7
      (Scenario.opened Scenario.prologueCode false) 0 Scenario.detour).2.s_nPendingError =
        Status.success ∧
    (DetourTransactionCommitEx Arch.X64 Scenario.host 7
      (DetourAttachEx Arch.X64 Scenario.host Scenario.copier Scenario.hostCall 7
        (Scenario.opened Scenario.prologueCode false) 0 Scenario.detour).2).1 =
        Status.success := by
  decide

/-- C13 (amended): for the owner of a clean transaction and a non-null detour, an attach with
a null pointer-slot returns invalid-handle and leaves the state as it was (nothing is
latched); an attach with a non-null slot that stores a null target returns invalid-handle,
latches it with the slot as failed pointer, records nothing, and the commit that follows
returns invalid-handle. -/
theorem C13_null_slot_refused_null_target_latched (arch : Arch) (h : Host) (copier : Copier)
    (hc : HostCall) (tid : Nat) (s : State) (pp d : Nat) (hd : d ≠ 0)
    (hown : s.s_nPendingThreadId = tid) (hclean : s.s_nPendingError = Status.success) :
    DetourAttachEx arch h copier hc tid s 0 d = (Status.invalid_handle, s) ∧
    (pp ≠ 0 → readPtr arch s.mem pp = 0 →
      (DetourAttachEx arch h copier hc tid s pp d).1 = Status.invalid_handle ∧
      (DetourAttachEx arch h copier hc tid s pp d).2.s_nPendingError = Status.invalid_handle ∧
      (DetourAttachEx arch h copier hc tid s pp d).2.s_ppPendingError = pp ∧
      (DetourAttachEx arch h copier hc tid s pp d).2.s_pPendingOperations =
        s.s_pPendingOperations ∧
      (DetourTransactionCommitEx arch h tid
        (DetourAttachEx arch h copier hc tid s pp d).2).1 = Status.invalid_handle) := by
  have hown2 : ¬ s.s_nPendingThreadId ≠ tid := not_not.mpr hown
  have hclean2 : ¬ s.s_nPendingError ≠ Status.success := not_not.mpr hclean
  constructor
  · unfold DetourAttachEx
    rw [if_neg hd, if_neg hown2, if_neg hclean2, if_pos rfl]
  · intro hpp hp
    have heq : DetourAttachEx arch h copier hc tid s pp d =
        (Status.invalid_handle,
          { s with s_nPendingError := Status.invalid_handle, s_ppPendingError := pp }) := by
      unfold DetourAttachEx
      rw [if_neg hd, if_neg hown2, if_neg hclean2, if_neg hpp, if_pos hp]
    rw [heq]
    refine ⟨rfl, rfl, rfl, rfl, ?_⟩
    have hc2 := commit_of_latched arch h tid
      { s with s_nPendingError := Status.invalid_handle, s_ppPendingError := pp } hown
      (fun e => Status.noConfusion e)
    exact congrArg Prod.fst hc2

/-- Witness of C13 (amended): the null slot, and the slot `Scenario.nullSlot` that stores
null, in the opened prologue scenario. -/
theorem C13_null_slot_refused_null_target_latched_witness :
    DetourAttachEx Arch.X64 Scenario.host Scenario.copier Scenario.hostCall 7
      (Scenario.opened Scenario.prologueCode false) 0 Scenario.detour =
      (Status.invalid_handle, Scenario.opened Scenario.prologueCode false) ∧
    (DetourTransactionCommitEx Arch.X64 Scenario.host 7
      (DetourAttachEx Arch.X64 Scenario.host Scenario.copier Scenario.hostCall 7
        (Scenario.opened Scenario.prologueCode false) Scenario.nullSlot
        Scenario.detour).2).1 = Status.invalid_handle :=
  ⟨(C13_null_slot_refused_null_target_latched Arch.X64 Scenario.host Scenario.copier
      Scenario.hostCall 7 (Scenario.opened Scenario.prologueCode false) Scenario.nullSlot
      Scenario.detour (by decide) rfl rfl).1,
   ((C13_null_slot_refused_null_target_latched Arch.X64 Scenario.host Scenario.copier
      Scenario.hostCall 7 (Scenario.opened Scenario.prologueCode false) Scenario.nullSlot
      Scenario.detour (by decide) rfl rfl).2 (by decide) (by decide)).2.2.2.2⟩

/-- C14: single owner.  `DetourTransactionBegin` called while a transaction is open (owner id
not 0) returns invalid-operation and leaves the state as it was; called while idle, when
making the regions writable succeeds, it returns success with the caller as owner, the
pending list empty, the latched error success and the failed-pointer cell null. -/
theorem C14_begin_single_owner (h : Host) (tid : Nat) (s : State) :
    (s.s_nPendingThreadId ≠ 0 →
      DetourTransactionBegin h tid s = (Status.invalid_operation, s)) ∧
    (s.s_nPendingThreadId = 0 →
      (detour_writable_trampoline_regions h s.s_pRegions s.protection).1 = Status.success →
      (DetourTransactionBegin h tid s).1 = Status.success ∧
      (DetourTransactionBegin h tid s).2.s_nPendingThreadId = tid ∧
      (DetourTransactionBegin h tid s).2.s_pPendingOperations = [] ∧
      (DetourTransactionBegin h tid s).2.s_nPendingError = Status.success ∧
      (DetourTransactionBegin h tid s).2.s_ppPendingError = 0 ∧
      (DetourTransactionBegin h tid s).2.mem = s.mem ∧
      (DetourTransactionBegin h tid s).2.s_pRegions = s.s_pRegions) := by
  constructor
  · intro hopen
    unfold DetourTransactionBegin
    rw [if_pos hopen]
  · intro hidle hw
    have heq : DetourTransactionBegin h tid s =
        ((detour_writable_trampoline_regions h s.s_pRegions s.protection).1,
          { s with s_nPendingThreadId := tid, s_pPendingOperations := [], s_ppPendingError := 0,
                   protection :=
                     (detour_writable_trampoline_regions h s.s_pRegions s.protection).2,
                   s_nPendingError :=
                     (detour_writable_trampoline_regions h s.s_pRegions s.protection).1 }) := by
      unfold DetourTransactionBegin
      rw [if_neg (not_not.mpr hidle)]
    rw [heq]
    exact ⟨hw, rfl, rfl, hw, rfl, rfl, rfl⟩

/-- Witness of C14: `begin` by thread 7 on the idle prologue scenario succeeds and makes 7 the
owner; a second `begin`, by thread 8, is refused and changes nothing. -/
theorem C14_begin_single_owner_witness :
    (DetourTransactionBegin Scenario.host 7 (Scenario.idle Scenario.prologueCode false)).1 =
      Status.success ∧
    (DetourTransactionBegin Scenario.host 7
      (Scenario.idle Scenario.prologueCode false)).2.s_nPendingThreadId = 7 ∧
    DetourTransactionBegin Scenario.host 8 (Scenario.opened Scenario.prologueCode false) =
      (Status.invalid_operation, Scenario.opened Scenario.prologueCode false) :=
  ⟨((C14_begin_single_owner Scenario.host 7 (Scenario.idle Scenario.prologueCode false)).2
      rfl rfl).1,
   ((C14_begin_single_owner Scenario.host 7 (Scenario.idle Scenario.prologueCode false)).2
      rfl rfl).2.1,
   (C14_begin_single_owner Scenario.host 8 (Scenario.opened Scenario.prologueCode false)).1
      (by decide)⟩

/-- C15 (counterexample): on X64 thread 8 calls attach with a null detour while thread 7 owns
the transaction: the attach returns invalid-parameter, not invalid-operation. -/
theorem C15_null_detour_counterexample :
    (Scenario.opened Scenario.prologueCode false).s_nPendingThreadId = 7 ∧
    (DetourAttachEx Arch.X64 Scenario.host Scenario.copier Scenario.hostCall 8
      (Scenario.opened Scenario.prologueCode false) Scenario.slot 0).1 =
        Status.invalid_parameter ∧
    (DetourAttachEx Arch.X64 Scenario.host Scenario.copier Scenario.hostCall 8
      (Scenario.opened Scenario.prologueCode false) Scenario.slot 0).1 ≠
        Status.invalid_operation := by
  decide

/-- C15 (amended): when the caller is not the owner of the transaction (also when none is
open), detach, commit and abort return invalid-operation for every argument tuple, and
attach returns invalid-operation for every tuple with a non-null detour and
invalid-parameter when the detour is null; the state is left as it was in every case. -/
theorem C15_non_owner_is_refused (arch : Arch) (h : Host) (copier : Copier) (hc : HostCall)
    (tid : Nat) (s : State) (pp d : Nat) (hne : s.s_nPendingThreadId ≠ tid) :
    DetourDetach arch h hc tid s pp d = (Status.invalid_operation, s) ∧
    (DetourTransactionCommitEx arch h tid s).1 = Status.invalid_operation ∧
    (DetourTransactionCommitEx arch h tid s).2.2 = s ∧
    DetourTransactionCommit arch h tid s = (Status.invalid_operation, s) ∧
    DetourTransactionAbort arch h tid s = (Status.invalid_operation, s) ∧
    (d ≠ 0 → DetourAttachEx arch h copier hc tid s pp d = (Status.invalid_operation, s)) ∧
    (d = 0 → DetourAttachEx arch h copier hc tid s pp d = (Status.invalid_parameter, s)) := by
  have hcommit : DetourTransactionCommitEx arch h tid s =
      (Status.invalid_operation, s.s_ppPendingError, s) := by
    unfold DetourTransactionCommitEx
    rw [if_pos hne]
  refine ⟨?_, ?_, ?_, ?_, ?_, ?_, ?_⟩
  · unfold DetourDetach
    rw [if_pos hne]
  · rw [hcommit]
  · rw [hcommit]
  · unfold DetourTransactionCommit
    rw [hcommit]
  · unfold DetourTransactionAbort
    rw [if_pos hne]
  · intro hd
    unfold DetourAttachEx
    rw [if_neg hd, if_pos hne]
  · intro hd
    unfold DetourAttachEx
    rw [if_pos hd]

/-- Witness of C15 (amended): thread 8 against the transaction that thread 7 opened. -/
theorem C15_non_owner_is_refused_witness :
    (Scenario.opened Scenario.prologueCode false).s_nPendingThreadId ≠ 8 ∧
    DetourDetach Arch.X64 Scenario.host Scenario.hostCall 8
      (Scenario.opened Scenario.prologueCode false) Scenario.slot Scenario.detour =
      (Status.invalid_operation, Scenario.opened Scenario.prologueCode false) ∧
    DetourAttachEx Arch.X64 Scenario.host Scenario.copier Scenario.hostCall 8
      (Scenario.opened Scenario.prologueCode false) Scenario.slot Scenario.detour =
      (Status.invalid_operation, Scenario.opened Scenario.prologueCode false) :=
  ⟨by decide,
   (C15_non_owner_is_refused Arch.X64 Scenario.host Scenario.copier Scenario.hostCall 8
      (Scenario.opened Scenario.prologueCode false) Scenario.slot Scenario.detour
      (by decide)).1,
   (C15_non_owner_is_refused Arch.X64 Scenario.host Scenario.copier Scenario.hostCall 8
      (Scenario.opened Scenario.prologueCode false) Scenario.slot Scenario.detour
      (by decide)).2.2.2.2.2.1 (by decide)⟩

/-- C16: abort of an open transaction with no pending operations, by its owner `tid` (not 0):
it returns success and clears the owner; memory (slots, free-list links, target bytes), the
region list with its free-list heads and the default region are as before; a second abort by
the same thread returns invalid-operation and changes nothing. -/
theorem C16_abort_of_empty_transaction (arch : Arch) (h : Host) (tid : Nat) (s : State)
    (hown : s.s_nPendingThreadId = tid) (htid : tid ≠ 0)
    (hempty : s.s_pPendingOperations = []) :
    (DetourTransactionAbort arch h tid s).1 = Status.success ∧
    (DetourTransactionAbort arch h tid s).2.s_nPendingThreadId = 0 ∧
    (DetourTransactionAbort arch h tid s).2.s_pPendingOperations = [] ∧
    (DetourTransactionAbort arch h tid s).2.mem = s.mem ∧
    (DetourTransactionAbort arch h tid s).2.s_pRegions = s.s_pRegions ∧
    (DetourTransactionAbort arch h tid s).2.s_pRegion = s.s_pRegion ∧
    DetourTransactionAbort arch h tid (DetourTransactionAbort arch h tid s).2 =
      (Status.invalid_operation, (DetourTransactionAbort arch h tid s).2) := by
  have heq : DetourTransactionAbort arch h tid s =
      (Status.success,
        { s with s_pPendingOperations := [],
                 protection := detour_runnable_trampoline_regions h s.s_pRegions s.protection,
                 s_nPendingThreadId := 0 }) := by
    unfold DetourTransactionAbort
    rw [if_neg (not_not.mpr hown), hempty]
    rfl
  rw [heq]
  refine ⟨rfl, rfl, rfl, rfl, rfl, rfl, ?_⟩
  unfold DetourTransactionAbort
  rw [if_pos (fun e : (0 : Nat) = tid => htid e.symm)]

/-- Witness of C16: abort by thread 7 right after its `begin` in the prologue scenario. -/
theorem C16_abort_of_empty_transaction_witness :
    (DetourTransactionAbort Arch.X64 Scenario.host 7
      (Scenario.opened Scenario.prologueCode false)).1 = Status.success ∧
    (DetourTransactionAbort Arch.X64 Scenario.host 7
      (DetourTransactionAbort Arch.X64 Scenario.host 7
        (Scenario.opened Scenario.prologueCode false)).2).1 = Status.invalid_operation :=
  ⟨(C16_abort_of_empty_transaction Arch.X64 Scenario.host 7
      (Scenario.opened Scenario.prologueCode false) rfl (by decide) rfl).1,
   congrArg Prod.fst (C16_abort_of_empty_transaction Arch.X64 Scenario.host 7
      (Scenario.opened Scenario.prologueCode false) rfl (by decide) rfl).2.2.2.2.2.2⟩

/-- C17: commit of an open (clean) transaction with no pending operations, by its owner: it
returns success and clears the owner; memory (free-list links, target bytes), the region list
with its free-list heads, the default region and the retain-regions flag are as before,
whatever the value of that flag. -/
theorem C17_commit_of_empty_transaction (arch : Arch) (h : Host) (tid : Nat) (s : State)
    (hown : s.s_nPendingThreadId = tid) (hclean : s.s_nPendingError = Status.success)
    (hempty : s.s_pPendingOperations = []) :
    (DetourTransactionCommitEx arch h tid s).1 = Status.success ∧
    (DetourTransactionCommitEx arch h tid s).2.2.s_nPendingThreadId = 0 ∧
    (DetourTransactionCommitEx arch h tid s).2.2.s_pPendingOperations = [] ∧
    (DetourTransactionCommitEx arch h tid s).2.2.mem = s.mem ∧
    (DetourTransactionCommitEx arch h tid s).2.2.s_pRegions = s.s_pRegions ∧
    (DetourTransactionCommitEx arch h tid s).2.2.s_pRegion = s.s_pRegion ∧
    (DetourTransactionCommitEx arch h tid s).2.2.s_fRetainRegions = s.s_fRetainRegions := by
  have heq : DetourTransactionCommitEx arch h tid s =
      (Status.success, s.s_ppPendingError,
        { s with protection := detour_runnable_trampoline_regions h s.s_pRegions s.protection,
                 s_nPendingThreadId := 0 }) := by
    unfold DetourTransactionCommitEx
    rw [if_neg (not_not.mpr hown), if_neg (not_not.mpr hclean), hempty]
    simp [commit_apply, commit_cleanup, hclean, hempty]
  rw [heq]
  exact ⟨rfl, rfl, hempty, rfl, rfl, rfl, rfl⟩

/-- Witness of C17: commit by thread 7 right after its `begin`, with retain-regions clear and
with retain-regions set. -/
theorem C17_commit_of_empty_transaction_witness :
    (DetourTransactionCommitEx Arch.X64 Scenario.host 7
      (DetourTransactionBegin Scenario.host 7 (Scenario.idleRetain false)).2).1 =
        Status.success ∧
    (DetourTransactionCommitEx Arch.X64 Scenario.host 7
      (DetourTransactionBegin Scenario.host 7 (Scenario.idleRetain true)).2).1 =
        Status.success :=
  ⟨(C17_commit_of_empty_transaction Arch.X64 Scenario.host 7
      (DetourTransactionBegin Scenario.host 7 (Scenario.idleRetain false)).2 rfl rfl rfl).1,
   (C17_commit_of_empty_transaction Arch.X64 Scenario.host 7
      (DetourTransactionBegin Scenario.host 7 (Scenario.idleRetain true)).2 rfl rfl rfl).1⟩

/-! ## The claims on the allocator -/

/-- C18: empty-region reclamation.  Start idle with no region; the host hands out the
zero-filled page `P` for the first region.  A transaction whose attach records `o` is
committed, then a transaction whose detach records the removal `o2` of the same trampoline
is committed; the target windows and the pointer slots lie outside the page.  After the
second commit, if retain-regions is false the region list is empty again; if it is true the
region of `P` is the only one listed, its free list is the whole pool the region was created
with (slots 3 to `N`, the trampoline first), and every slot passes the free test of
`detour_is_region_empty`. -/
theorem C18_empty_region_reclamation (arch : Arch) (h : Host) (copier : Copier)
    (hcop : CopierContract arch copier) (hc1 hc2 : HostCall) (tid : Nat) (s : State)
    (pp d pp2 d2 : Nat) (o o2 : DetourOperation) (pMdl P : Nat)
    (hidle : s.s_nPendingThreadId = 0) (hnone : s.s_pRegions = [])
    (hpage : hc1.page = some (pMdl, P)) (hal : P % DETOUR_REGION_SIZE = 0)
    (hbits : P + DETOUR_REGION_SIZE ≤ 2 ^ ptrBits arch)
    (hzero : ∀ x, inPage P x → s.mem x = 0)
    (hrec : (DetourAttachEx arch h copier hc1 tid (DetourTransactionBegin h tid s).2
      pp d).2.s_pPendingOperations = [o])
    (hrec2 : (DetourDetach arch h hc2 tid
      (DetourTransactionBegin h tid (attachTransaction arch h copier hc1 tid s pp d)).2
      pp2 d2).2.s_pPendingOperations = [o2])
    (hsame : o2.pTrampoline = o.pTrampoline)
    (hT : o.pbTarget + sizeof_rbRestore arch ≤ P ∨ P + DETOUR_REGION_SIZE ≤ o.pbTarget)
    (hpp : pp + ptrSize arch ≤ P ∨ P + DETOUR_REGION_SIZE ≤ pp)
    (hT2 : o2.pbTarget + sizeof_rbRestore arch ≤ P ∨ P + DETOUR_REGION_SIZE ≤ o2.pbTarget)
    (hpp2 : pp2 + ptrSize arch ≤ P ∨ P + DETOUR_REGION_SIZE ≤ pp2)
    (harm : arch = Arch.ARM → o.pbTarget + 10 ≤ 2 ^ 32) :
    (s.s_fRetainRegions = false →
      (detachTransaction arch h hc2 tid (attachTransaction arch h copier hc1 tid s pp d)
        pp2 d2).s_pRegions = []) ∧
    (s.s_fRetainRegions = true →
      (detachTransaction arch h hc2 tid (attachTransaction arch h copier hc1 tid s pp d)
        pp2 d2).s_pRegions =
        [{ base := P, dwSignature := DETOUR_REGION_SIGNATURE, pMdl := pMdl,
           pFree := o.pTrampoline }] ∧
      FreeChain arch
        (detachTransaction arch h hc2 tid (attachTransaction arch h copier hc1 tid s pp d)
          pp2 d2).mem
        o.pTrampoline (slotsFrom arch P 3 (DETOUR_TRAMPOLINES_PER_REGION arch - 2)) ∧
      detour_is_region_empty arch
        (detachTransaction arch h hc2 tid (attachTransaction arch h copier hc1 tid s pp d)
          pp2 d2).mem
        { base := P, dwSignature := DETOUR_REGION_SIGNATURE, pMdl := pMdl,
          pFree := o.pTrampoline } = true) := by
  obtain ⟨r1, r2, r3, r4⟩ := reclaim_spec arch h copier hcop hc1 hc2 tid s pp d pp2 d2 o o2
    pMdl P hidle hnone hpage hal hbits hzero hrec hrec2 hsame hT hpp hT2 hpp2 harm
  rw [r2]
  constructor
  · intro hf
    rw [r1, hf]
    rfl
  · intro ht
    refine ⟨?_, r3, r4⟩
    rw [r1, ht]
    rfl

set_option maxRecDepth 100000 in
/-- Witness of C18: the prologue scenario on X64, with retain-regions clear (the region list
is empty after the second commit) and set (the region of `Scenario.page` is still listed,
with the trampoline at the head of its free list). -/
theorem C18_empty_region_reclamation_witness :
    (detachTransaction Arch.X64 Scenario.host Scenario.hostCall 7
      (attachTransaction Arch.X64 Scenario.host Scenario.copier Scenario.hostCall 7
        (Scenario.idleRetain false) Scenario.slot Scenario.detour)
      Scenario.slot Scenario.detour).s_pRegions = [] ∧
    (detachTransaction Arch.X64 Scenario.host Scenario.hostCall 7
      (attachTransaction Arch.X64 Scenario.host Scenario.copier Scenario.hostCall 7
        (Scenario.idleRetain true) Scenario.slot Scenario.detour)
      Scenario.slot Scenario.detour).s_pRegions =
      [{ base := Scenario.page, dwSignature := DETOUR_REGION_SIGNATURE, pMdl := 1,
         pFree := Scenario.operation.pTrampoline }] :=
  ⟨(C18_empty_region_reclamation Arch.X64 Scenario.host Scenario.copier
      scenario_copier_contract Scenario.hostCall Scenario.hostCall 7
      (Scenario.idleRetain false) Scenario.slot Scenario.detour Scenario.slot Scenario.detour
      Scenario.operation Scenario.removal 1 Scenario.page rfl rfl rfl (by decide) (by decide)
      (scenario_page_zero false) (by decide) (by decide) rfl (Or.inl (by decide))
      (Or.inl (by decide)) (Or.inl (by decide)) (Or.inl (by decide))
      (fun e => nomatch e)).1 rfl,
   ((C18_empty_region_reclamation Arch.X64 Scenario.host Scenario.copier
      scenario_copier_contract Scenario.hostCall Scenario.hostCall 7
      (Scenario.idleRetain true) Scenario.slot Scenario.detour Scenario.slot Scenario.detour
      Scenario.operation Scenario.removal 1 Scenario.page rfl rfl rfl (by decide) (by decide)
      (scenario_page_zero true) (by decide) (by decide) rfl (Or.inl (by decide))
      (Or.inl (by decide)) (Or.inl (by decide)) (Or.inl (by decide))
      (fun e => nomatch e)).2 rfl).1⟩

/-- C19 (counterexample): on X64, when the host hands out the page `Scenario.farPage`, which
lies more than 2 GiB above `Scenario.target`, `detour_alloc_trampoline` returns slot 3 of
that page, above the upper bound of `detour_find_jmp_bounds`, and the attach that uses it
succeeds. -/
theorem C19_x64_far_region_counterexample :
    (detour_alloc_trampoline Arch.X64 Scenario.farCall.page
      (Scenario.opened Scenario.prologueCode false) Scenario.target).1 =
      Scenario.farPage + 3 * sizeof_DETOUR_TRAMPOLINE Arch.X64 ∧
    (detour_alloc_trampoline Arch.X64 Scenario.farCall.page
      (Scenario.opened Scenario.prologueCode false) Scenario.target).1 ≠ 0 ∧
    (detour_find_jmp_bounds Arch.X64 (Scenario.opened Scenario.prologueCode false).mem
      Scenario.target).2 <
      (detour_alloc_trampoline Arch.X64 Scenario.farCall.page
        (Scenario.opened Scenario.prologueCode false) Scenario.target).1 ∧
    (DetourAttachEx Arch.X64 Scenario.host Scenario.copier Scenario.farCall 7
      (Scenario.opened Scenario.prologueCode false) Scenario.slot Scenario.detour).1 =
        Status.success := by
  decide

/-- C19 (amended): on X86, ARM and ARM64, for every target, every allocator state and every
page the host may hand out, a non-null slot returned by `detour_alloc_trampoline` lies
between the two bounds of `detour_find_jmp_bounds`; on X64 the range check is compiled
out. -/
theorem C19_alloc_in_range_except_x64 (arch : Arch) (page : Option (Nat × Nat)) (s : State)
    (T : Nat) (hx : arch ≠ Arch.X64)
    (hnz : (detour_alloc_trampoline arch page s T).1 ≠ 0) :
    (detour_find_jmp_bounds arch s.mem T).1 ≤ (detour_alloc_trampoline arch page s T).1 ∧
    (detour_alloc_trampoline arch page s T).1 ≤ (detour_find_jmp_bounds arch s.mem T).2 :=
  alloc_range arch page s T hx hnz

/-- Witness of C19 (amended): on X86 the first allocation for the target 0x401000 with the
page 0x500000. -/
theorem C19_alloc_in_range_except_x64_witness :
    (detour_alloc_trampoline Arch.X86 (some (1, 0x500000))
      (Scenario.opened Scenario.prologueCode false) 0x401000).1 ≠ 0 ∧
    (detour_find_jmp_bounds Arch.X86 (Scenario.opened Scenario.prologueCode false).mem
      0x401000).1 ≤
      (detour_alloc_trampoline Arch.X86 (some (1, 0x500000))
        (Scenario.opened Scenario.prologueCode false) 0x401000).1 :=
  ⟨by decide,
   (C19_alloc_in_range_except_x64 Arch.X86 (some (1, 0x500000))
      (Scenario.opened Scenario.prologueCode false) 0x401000 (by decide) (by decide)).1⟩

/-- C20 (what the code does instead): when no listed region has a free slot and
`detour_alloc_trampoline` builds a new region in the page `P`, it returns slot 3 of the page
and leaves slots 4 to `N` on the free list, where `N + 1 = floor(page_size / slot_size)`:
the free list has `floor(page_size / slot_size) - 4` entries, and slots 1 and 2 of the page
are neither returned nor on the free list. -/
theorem C20_new_region_pool_omits_two_slots (arch : Arch) (s : State) (T pMdl P : Nat)
    (hfull : ∀ r ∈ s.s_pRegions, r.pFree = 0) (hfresh : ∀ r ∈ s.s_pRegions, r.base ≠ P)
    (hbits : P + DETOUR_REGION_SIZE ≤ 2 ^ ptrBits arch)
    (hnz : (detour_alloc_trampoline arch (some (pMdl, P)) s T).1 ≠ 0) :
    (detour_alloc_trampoline arch (some (pMdl, P)) s T).1 =
      P + 3 * sizeof_DETOUR_TRAMPOLINE arch ∧
    (∃ r, (detour_alloc_trampoline arch (some (pMdl, P)) s T).2.s_pRegions =
        r :: s.s_pRegions ∧ r.base = P ∧
      FreeChain arch (detour_alloc_trampoline arch (some (pMdl, P)) s T).2.mem r.pFree
        (slotsFrom arch P 4 (DETOUR_REGION_SIZE / sizeof_DETOUR_TRAMPOLINE arch - 4))) ∧
    (slotsFrom arch P 4 (DETOUR_REGION_SIZE / sizeof_DETOUR_TRAMPOLINE arch - 4)).length =
      DETOUR_REGION_SIZE / sizeof_DETOUR_TRAMPOLINE arch - 4 ∧
    (∀ k, k = 1 ∨ k = 2 →
      P + k * sizeof_DETOUR_TRAMPOLINE arch ≠
        (detour_alloc_trampoline arch (some (pMdl, P)) s T).1 ∧
      P + k * sizeof_DETOUR_TRAMPOLINE arch ∉
        slotsFrom arch P 4 (DETOUR_REGION_SIZE / sizeof_DETOUR_TRAMPOLINE arch - 4)) := by
  have hsz := (slot_size_bounds arch).2.1
  have hN := (region_count_bounds arch).2
  have hcount : DETOUR_REGION_SIZE / sizeof_DETOUR_TRAMPOLINE arch - 4 =
      DETOUR_TRAMPOLINES_PER_REGION arch - 3 := by omega
  rw [alloc_new_region_spec arch s T pMdl P hfull hfresh hbits hnz, hcount]
  refine ⟨rfl, ⟨_, rfl, rfl, ?_⟩, slotsFrom_length _ _ _ _, ?_⟩
  · apply new_region_chain arch s.mem _ P hbits
    intro x hx1 hx2
    exact conf_memset _ _ _ _ _ _ ⟨Nat.le_refl _, Nat.le_refl _⟩ x
      (Or.inr (by
        have : 4 * sizeof_DETOUR_TRAMPOLINE arch =
          3 * sizeof_DETOUR_TRAMPOLINE arch + sizeof_DETOUR_TRAMPOLINE arch := by omega
        omega))
  · intro k hk
    have hk3 : k * sizeof_DETOUR_TRAMPOLINE arch < 3 * sizeof_DETOUR_TRAMPOLINE arch :=
      Nat.mul_lt_mul_of_pos_right (by omega) hsz
    refine ⟨?_, ?_⟩
    · show P + k * sizeof_DETOUR_TRAMPOLINE arch ≠ P + 3 * sizeof_DETOUR_TRAMPOLINE arch
      omega
    · intro hmem
      obtain ⟨j, -, hj⟩ := mem_slotsFrom.mp hmem
      have : 3 * sizeof_DETOUR_TRAMPOLINE arch ≤ (4 + j) * sizeof_DETOUR_TRAMPOLINE arch :=
        Nat.mul_le_mul_right _ (by omega)
      omega

/-- Witness of C20: the first allocation of the X64 scenario.  A page holds 42 slots of 96
bytes; slot 3 is returned and the free list has 38 entries, not 40. -/
theorem C20_new_region_pool_omits_two_slots_witness :
    DETOUR_REGION_SIZE / sizeof_DETOUR_TRAMPOLINE Arch.X64 = 42 ∧
    (detour_alloc_trampoline Arch.X64 (some (1, Scenario.page))
      (Scenario.opened Scenario.prologueCode false) Scenario.target).1 =
      Scenario.page + 3 * sizeof_DETOUR_TRAMPOLINE Arch.X64 ∧
    (slotsFrom Arch.X64 Scenario.page 4
      (DETOUR_REGION_SIZE / sizeof_DETOUR_TRAMPOLINE Arch.X64 - 4)).length = 38 :=
  ⟨by decide,
   (C20_new_region_pool_omits_two_slots Arch.X64 (Scenario.opened Scenario.prologueCode false)
      Scenario.target 1 Scenario.page (fun _ hr => nomatch hr) (fun _ hr => nomatch hr)
      (by decide) (by decide)).1,
   (C20_new_region_pool_omits_two_slots Arch.X64 (Scenario.opened Scenario.prologueCode false)
      Scenario.target 1 Scenario.page (fun _ hr => nomatch hr) (fun _ hr => nomatch hr)
      (by decide) (by decide)).2.2.1⟩

/-! ## The claims on the free lists and on the reachability range -/

/-- C21: free-list closure is an invariant of the allocator.  Start with no region and run any
sequence of `detour_alloc_trampoline` and `detour_free_trampoline` calls in which every free
is applied to a slot that is allocated at that moment (the host hands out fresh, page-aligned
pages).  Then for every listed region the walk from `pFree` through the `pbRemain` links ends
at null after visiting a list `l` of slots of that same region, none twice and none of them
allocated. -/
theorem C21_free_list_closure (arch : Arch) (s : State) (cs : List AllocCall)
    (hnone : s.s_pRegions = []) (hv : ValidCalls arch (s, []) cs) :
    ∀ r ∈ (allocRun arch (s, []) cs).1.s_pRegions,
      ∃ l, FreeChain arch (allocRun arch (s, []) cs).1.mem r.pFree l ∧ l.Nodup ∧
        (∀ a ∈ l, IsSlot arch r.base a) ∧
        ∀ a ∈ l, a ∉ (allocRun arch (s, []) cs).2 := by
  intro r hr
  have hg0 : GoodOps arch (liveOps []) s.mem s.s_pRegions := by
    rw [hnone]
    exact goodOps_no_regions arch s.mem
  exact good_free_list (allocRun_good arch cs (s, []) hg0 hv) r hr

set_option maxRecDepth 100000 in
/-- Witness of C21: on X64, two allocations near the target of the scenarios followed by the
release of the first slot leave one allocated slot, and the free list of the region is
closed. -/
theorem C21_free_list_closure_witness :
    (allocRun Arch.X64 (Scenario.idle Scenario.prologueCode false, []) Scenario.allocCalls).2 =
      [Scenario.page + 4 * 96] ∧
    ∀ r ∈ (allocRun Arch.X64 (Scenario.idle Scenario.prologueCode false, [])
        Scenario.allocCalls).1.s_pRegions,
      ∃ l, FreeChain Arch.X64 (allocRun Arch.X64 (Scenario.idle Scenario.prologueCode false, [])
          Scenario.allocCalls).1.mem r.pFree l ∧ l.Nodup ∧
        (∀ a ∈ l, IsSlot Arch.X64 r.base a) ∧
        ∀ a ∈ l, a ∉ (allocRun Arch.X64 (Scenario.idle Scenario.prologueCode false, [])
          Scenario.allocCalls).2 :=
  ⟨by decide,
   C21_free_list_closure Arch.X64 (Scenario.idle Scenario.prologueCode false)
     Scenario.allocCalls rfl (by
      refine ⟨?_, ⟨?_, ⟨?_, trivial⟩⟩⟩
      · intro pMdl pbTry h
        cases h
        refine ⟨by decide, by decide, ?_⟩
        intro r hr
        cases hr
      · intro pMdl pbTry h
        cases h
      · show Scenario.trampoline ∈ (allocRun Arch.X64
          (Scenario.idle Scenario.prologueCode false, [])
          [AllocCall.alloc (some (1, Scenario.page)) Scenario.target,
            AllocCall.alloc none Scenario.target]).2
        decide)⟩

/-- C22 (counterexample): for the address 0x7FF80001 the code yields the lower bound 1, where
`max(a - 0x7FF80000, 0x80000)` is 0x80000; `detour_find_jmp_bounds` returns this bound on X64
for a target without a leading jump. -/
theorem C22_lower_bound_counterexample :
    detour_2gb_below 0x7FF80001 = 1 ∧
    max ((0x7FF80001 : Int) - 0x7FF80000) 0x80000 = 0x80000 ∧
    detour_2gb_below 0x7FF80001 < 0x80000 ∧
    (detour_find_jmp_bounds Arch.X64 (fun _ => 0) 0x7FF80001).1 = 1 := by
  decide

/-- C22 (amended): for every address `a`, on X64 `detour_2gb_above(a)` is
`min(a + 0x7FF80000, 0xFFFFFFFFFFF80000)` in unbounded integers and never exceeds
`2^64 - 0x80000`; `detour_2gb_below(a)` is `max(a - 0x7FF80000, 0x80000)` when
`a ≤ 0x7FF80000` or `a ≥ 0x80000000`, but for `0x7FF80000 < a < 0x80000000` it is
`a - 0x7FF80000`, which is below 0x80000; it is never 0.  For a target that starts with
neither `FF 25` nor `E9`, `detour_find_jmp_bounds` returns exactly this pair. -/
theorem C22_base_range (a : Nat) :
    ((detour_2gb_above Arch.X64 a : Nat) : Int) =
      min ((a : Int) + 0x7FF80000) 0xFFFFFFFFFFF80000 ∧
    detour_2gb_above Arch.X64 a ≤ 2 ^ 64 - 0x80000 ∧
    (a ≤ 0x7FF80000 ∨ 0x80000000 ≤ a →
      ((detour_2gb_below a : Nat) : Int) = max ((a : Int) - 0x7FF80000) 0x80000) ∧
    (0x7FF80000 < a → a < 0x80000000 →
      ((detour_2gb_below a : Nat) : Int) = (a : Int) - 0x7FF80000 ∧
      detour_2gb_below a < 0x80000) ∧
    1 ≤ detour_2gb_below a ∧
    (∀ m : Mem, ¬ (m a = 0xff ∧ m (a + 1) = 0x25) → m a ≠ 0xe9 →
      detour_find_jmp_bounds Arch.X64 m a =
        (detour_2gb_below a, detour_2gb_above Arch.X64 a)) := by
  have hb := below_cases a
  have ha := above64_cases a
  have e1 : detour_2gb_below a = 0x80000 ∧ a ≤ 0x7ff80000 ∨
      detour_2gb_below a = a - 0x7ff80000 ∧ 0x7ff80000 < a := by
    by_cases h1 : a ≤ 0x7ff80000
    · exact Or.inl ⟨hb.1 h1, h1⟩
    · exact Or.inr ⟨hb.2 (by omega), by omega⟩
  have e2 : detour_2gb_above Arch.X64 a = a + 0x7ff80000 ∧ a < 0xffffffff80000000 ∨
      detour_2gb_above Arch.X64 a = 0xfffffffffff80000 ∧ 0xffffffff80000000 ≤ a := by
    by_cases h2 : a < 0xffffffff80000000
    · exact Or.inl ⟨ha.1 h2, h2⟩
    · exact Or.inr ⟨ha.2 (by omega), by omega⟩
  have hp : (2 : Nat) ^ 64 = 0x10000000000000000 := by decide
  refine ⟨by omega, by omega, fun _ => by omega, fun _ _ => by omega, by omega, ?_⟩
  intro m h1 h2
  show detour_find_jmp_bounds_x86 Arch.X64 m a = _
  unfold detour_find_jmp_bounds_x86
  dsimp only
  rw [if_neg (fun hc => h1 hc.2), if_neg h2]

/-- Witness of C22 (amended): the bounds of the target of the scenarios. -/
theorem C22_base_range_witness :
    detour_2gb_below Scenario.target = 0xC0081000 ∧
    detour_2gb_above Arch.X64 Scenario.target = 0x1BFF81000 ∧
    detour_find_jmp_bounds Arch.X64 (Scenario.idle Scenario.prologueCode false).mem
      Scenario.target = (detour_2gb_below Scenario.target,
        detour_2gb_above Arch.X64 Scenario.target) :=
  ⟨by decide, by decide,
   (C22_base_range Scenario.target).2.2.2.2.2 (Scenario.idle Scenario.prologueCode false).mem
     (by decide) (by decide)⟩

/-- C23: reachability narrowing.  On X86 and X64, let the target `T` start with `E9` and let
its destination `d = T + 5 + signext32(imm32)` lie in the address space (no wrap-around).  If
`d` is above `T` and above 0x7FF80000, `detour_find_jmp_bounds` returns the lower bound
`d - 0x7FF80000`, strictly greater than `T - 0x7FF80000`, and the upper bound
`detour_2gb_above(T)` of a target without a leading jump; if `d` is below `T` it returns the
lower bound `detour_2gb_below(T)` and the upper bound `detour_2gb_above(d)`. -/
theorem C23_range_is_narrowed (arch : Arch) (hx : arch = Arch.X86 ∨ arch = Arch.X64)
    (m : Mem) (T : Nat) (hE9 : m T = 0xE9) (h0 : 0 ≤ jumpDestination m T)
    (h1 : jumpDestination m T < 2 ^ ptrBits arch) :
    ((T : Int) < jumpDestination m T → 0x7FF80000 < jumpDestination m T →
      (((detour_find_jmp_bounds arch m T).1 : Nat) : Int) = jumpDestination m T - 0x7FF80000 ∧
      (T : Int) - 0x7FF80000 < (((detour_find_jmp_bounds arch m T).1 : Nat) : Int) ∧
      (detour_find_jmp_bounds arch m T).2 = detour_2gb_above arch T) ∧
    (jumpDestination m T < (T : Int) →
      (detour_find_jmp_bounds arch m T).1 = detour_2gb_below T ∧
      (detour_find_jmp_bounds arch m T).2 =
        detour_2gb_above arch (jumpDestination m T).toNat) := by
  have hw : 32 ≤ ptrBits arch := by rcases hx with rfl | rfl <;> decide
  have hd : ((addSigned (ptrBits arch) (T + 5) 32 (readLE m (T + 1) 4) : Nat) : Int) =
      jumpDestination m T := by
    have := addSigned_exact (ptrBits arch) (T + 5) 32 (readLE m (T + 1) 4) hw
      (by unfold jumpDestination at h0; push_cast; exact h0)
      (by unfold jumpDestination at h1; push_cast; exact_mod_cast h1)
    rw [this]
    unfold jumpDestination
    push_cast
    rfl
  rw [find_bounds_E9 arch hx m T hE9]
  generalize addSigned (ptrBits arch) (T + 5) 32 (readLE m (T + 1) 4) = p at hd ⊢
  generalize jumpDestination m T = d at hd h0 h1 ⊢
  have hb := below_cases p
  constructor
  · intro h2 h3
    rw [if_neg (by omega)]
    refine ⟨?_, ?_, rfl⟩
    · show ((detour_2gb_below p : Nat) : Int) = _
      rw [hb.2 (by omega)]
      omega
    · show _ < ((detour_2gb_below p : Nat) : Int)
      rw [hb.2 (by omega)]
      omega
  · intro h2
    rw [if_pos (by omega)]
    refine ⟨rfl, ?_⟩
    show detour_2gb_above arch p = _
    rw [← hd, Int.toNat_ofNat]

/-- Witness of C23: on X64 the target 0x140001000 starts with `E9 FB FF FF 6F`, a jump
0x70000000 bytes ahead; the lower bound becomes 0x130081000. -/
theorem C23_range_is_narrowed_witness :
    jumpDestination (writeBytes (fun _ => 0) 0x140001000 [0xE9, 0xFB, 0xFF, 0xFF, 0x6F])
      0x140001000 = 0x1B0001000 ∧
    (detour_find_jmp_bounds Arch.X64
      (writeBytes (fun _ => 0) 0x140001000 [0xE9, 0xFB, 0xFF, 0xFF, 0x6F]) 0x140001000).2 =
      detour_2gb_above Arch.X64 0x140001000 :=
  ⟨by decide,
   ((C23_range_is_narrowed Arch.X64 (Or.inr rfl)
      (writeBytes (fun _ => 0) 0x140001000 [0xE9, 0xFB, 0xFF, 0xFF, 0x6F]) 0x140001000
      (by decide) (by decide) (by decide)).1 (by decide) (by decide)).2.2⟩

/-- C24: every address of the returned range is reachable.  On X86 and X64, every `x` between
the two bounds of `detour_find_jmp_bounds(T)` is within 0x7FF80000 of `T`; when `T` starts
with `E9` and its destination `d` lies in the address space, `x` is within 0x7FF80000 of `d`
as well. -/
theorem C24_range_is_reachable (arch : Arch) (hx : arch = Arch.X86 ∨ arch = Arch.X64)
    (m : Mem) (T x : Nat) (hlo : (detour_find_jmp_bounds arch m T).1 ≤ x)
    (hhi : x ≤ (detour_find_jmp_bounds arch m T).2) :
    |(x : Int) - (T : Int)| ≤ 0x7FF80000 ∧
    (m T = 0xE9 → 0 ≤ jumpDestination m T → jumpDestination m T < 2 ^ ptrBits arch →
      |(x : Int) - jumpDestination m T| ≤ 0x7FF80000) := by
  have hT := bounds_near arch hx T
  constructor
  · obtain ⟨p, hs⟩ := find_bounds_shape arch hx m T
    have hp := bounds_near arch hx p
    rw [abs_le]
    rcases hs with h | ⟨h1, h⟩ | ⟨h1, h⟩
    · rw [h] at hlo hhi
      dsimp only at hlo hhi
      omega
    · rw [h] at hlo hhi
      dsimp only at hlo hhi
      omega
    · rw [h] at hlo hhi
      dsimp only at hlo hhi
      omega
  · intro hE9 h0 h1
    have hw : 32 ≤ ptrBits arch := by rcases hx with rfl | rfl <;> decide
    have hd : ((addSigned (ptrBits arch) (T + 5) 32 (readLE m (T + 1) 4) : Nat) : Int) =
        jumpDestination m T := by
      have := addSigned_exact (ptrBits arch) (T + 5) 32 (readLE m (T + 1) 4) hw
        (by unfold jumpDestination at h0; push_cast; exact h0)
        (by unfold jumpDestination at h1; push_cast; exact_mod_cast h1)
      rw [this]
      unfold jumpDestination
      push_cast
      rfl
    rw [find_bounds_E9 arch hx m T hE9] at hlo hhi
    generalize addSigned (ptrBits arch) (T + 5) 32 (readLE m (T + 1) 4) = p at hd hlo hhi
    have hp := bounds_near arch hx p
    rw [← hd, abs_le]
    by_cases hc : p < T
    · rw [if_pos hc] at hlo hhi
      dsimp only at hlo hhi
      omega
    · rw [if_neg hc] at hlo hhi
      dsimp only at hlo hhi
      omega

/-- Witness of C24: the trampoline of the scenarios lies in the range of its target. -/
theorem C24_range_is_reachable_witness :
    (detour_find_jmp_bounds Arch.X64 (Scenario.idle Scenario.prologueCode false).mem
      Scenario.target).1 ≤ Scenario.trampoline ∧
    |(Scenario.trampoline : Int) - (Scenario.target : Int)| ≤ 0x7FF80000 :=
  ⟨by decide,
   (C24_range_is_reachable Arch.X64 (Or.inr rfl) (Scenario.idle Scenario.prologueCode false).mem
      Scenario.target Scenario.trampoline (by decide) (by decide)).1⟩

/-! ## The claims on the jump skipper, on detach and on the commit -/

/-- C26: patch-stub skip on X86 and X64.  `detour_skip_jmp(null)` is null.  For a non-null
`p`: if `p` starts with neither an import thunk (`FF 25` with a slot in the IAT) nor `EB`, the
result is `p`; if `p` starts with `EB imm8` and `q = p + 2 + signext8(imm8)`, the result is
`q + 5 + signext32(imm32)` when `q` starts with `E9 imm32`, the content of the IAT slot when
`q` starts with an imported `FF 25` thunk, and `q` otherwise (sums modulo the pointer width).
The result is given by these cases alone, whatever code is found at the returned address. -/
theorem C26_patch_stub_skip (arch : Arch) (hx : arch = Arch.X86 ∨ arch = Arch.X64) (h : Host)
    (m : Mem) (p : Nat) :
    detour_skip_jmp arch h m 0 = 0 ∧
    (p ≠ 0 → ¬ IsImportThunk arch h m p → m p ≠ 0xEB → detour_skip_jmp arch h m p = p) ∧
    (p ≠ 0 → m p = 0xEB →
      (m (shortJumpTarget arch m p) = 0xE9 →
        detour_skip_jmp arch h m p = longJumpTarget arch m (shortJumpTarget arch m p)) ∧
      (IsImportThunk arch h m (shortJumpTarget arch m p) →
        detour_skip_jmp arch h m p =
          readPtr arch m (importSlot arch m (shortJumpTarget arch m p))) ∧
      (m (shortJumpTarget arch m p) ≠ 0xE9 →
        ¬ IsImportThunk arch h m (shortJumpTarget arch m p) →
        detour_skip_jmp arch h m p = shortJumpTarget arch m p)) ∧
    ((shortJumpTarget arch m p : Nat) : Int) =
      ((p : Int) + 2 + signExtend 8 (m (p + 1))) % 2 ^ ptrBits arch ∧
    ((longJumpTarget arch m p : Nat) : Int) =
      ((p : Int) + 5 + signExtend 32 (readLE m (p + 1) 4)) % 2 ^ ptrBits arch := by
  have hw : 32 ≤ ptrBits arch := by rcases hx with rfl | rfl <;> decide
  have hc := skip_jmp_cases arch hx h m p
  refine ⟨hc.1, hc.2.1, hc.2.2, ?_, ?_⟩
  · have e := addSigned_int (ptrBits arch) (p + 2) 8 (m (p + 1)) (by omega)
    push_cast at e
    exact e
  · have e := addSigned_int (ptrBits arch) (p + 5) 32 (readLE m (p + 1) 4) hw
    push_cast at e
    exact e

set_option maxRecDepth 100000 in
/-- Witness of C26: on X64 the patch stub of the module scenario leads to a `jmp +imm32` whose
destination is the import thunk; the thunk is returned and not followed. -/
theorem C26_patch_stub_skip_witness :
    longJumpTarget Arch.X64 Scenario.moduleMem
      (shortJumpTarget Arch.X64 Scenario.moduleMem Scenario.stub) = Scenario.thunk ∧
    IsImportThunk Arch.X64 Scenario.moduleHost Scenario.moduleMem Scenario.thunk ∧
    detour_skip_jmp Arch.X64 Scenario.moduleHost Scenario.moduleMem Scenario.stub =
      longJumpTarget Arch.X64 Scenario.moduleMem
        (shortJumpTarget Arch.X64 Scenario.moduleMem Scenario.stub) :=
  ⟨by decide, by decide,
   ((C26_patch_stub_skip Arch.X64 (Or.inr rfl) Scenario.moduleHost Scenario.moduleMem
      Scenario.stub).2.2.1 (by decide) (by decide)).1 (by decide)⟩

set_option maxRecDepth 100000 in
/-- C27 (counterexample): in an open transaction with no region and no detour at all, the
slot `forgedSlot` points at plain memory whose bytes at the offsets of `cbRestore`, `pbRemain`
and `pbDetour` are 5, `target + 5` and `detour`.  `DetourDetach` returns success and records a
removal for that block; and for a slot that holds null it returns invalid-handle, not
invalid-block. -/
theorem C27_forged_block_counterexample :
    Scenario.forgedState.s_pRegions.length = 0 ∧
    Scenario.forgedState.s_pPendingOperations.length = 0 ∧
    Scenario.forgedState.s_nPendingThreadId = 7 ∧
    detachBlock Arch.X64 Scenario.host Scenario.forgedState.mem Scenario.forgedSlot =
      Scenario.forged ∧
    (DetourDetach Arch.X64 Scenario.host Scenario.hostCall 7 Scenario.forgedState
      Scenario.forgedSlot Scenario.detour).1 = Status.success ∧
    (DetourDetach Arch.X64 Scenario.host Scenario.hostCall 7 Scenario.forgedState
      Scenario.forgedSlot Scenario.detour).2.s_pPendingOperations =
      [{ fIsRemove := true, ppbPointer := Scenario.forgedSlot, pbTarget := Scenario.target,
         pbTargetEditable := Scenario.target, pbTargetMdl := 2,
         pTrampoline := Scenario.forged }] ∧
    (DetourDetach Arch.X64 Scenario.host Scenario.hostCall 7 Scenario.forgedState
      Scenario.nullSlot Scenario.detour).1 = Status.invalid_handle := by
  decide

/-- C27 (amended): in an open transaction owned by the caller with no latched error, for
non-null arguments, a non-null `*slot`, and a host that supplies the operation record and the
writable alias, `DetourDetach` looks only at two fields of the block
`DetourCodeFromPointer(*slot)`: when its `cbRestore` is between 1 and `sizeof(rbCode)` and its
`pbDetour` equals `DetourCodeFromPointer(detour)` the call returns success and records a
removal for the block, whether or not the block is a trampoline of a live detour; otherwise
it returns invalid-block and records no operation. -/
theorem C27_detach_checks_two_fields (arch : Arch) (h : Host) (hc : HostCall) (tid : Nat)
    (s : State) (pp d : Nat) (hown : s.s_nPendingThreadId = tid)
    (herr : s.s_nPendingError = Status.success) (hd : d ≠ 0) (hpp : pp ≠ 0)
    (hslot : readPtr arch s.mem pp ≠ 0) (ha : hc.opAlloc = true) (hr : hc.remapMdl ≠ 0) :
    (BlockAccepted arch h s.mem (detachBlock arch h s.mem pp) d →
      DetourDetach arch h hc tid s pp d =
        (Status.success,
          { s with s_pPendingOperations :=
            { fIsRemove := true, ppbPointer := pp,
              pTrampoline := detachBlock arch h s.mem pp,
              pbTarget := subMod (ptrBits arch)
                (readPtr arch s.mem (detachBlock arch h s.mem pp + off_pbRemain arch))
                (s.mem (detachBlock arch h s.mem pp + off_cbRestore arch)),
              pbTargetEditable := subMod (ptrBits arch)
                (readPtr arch s.mem (detachBlock arch h s.mem pp + off_pbRemain arch))
                (s.mem (detachBlock arch h s.mem pp + off_cbRestore arch)),
              pbTargetMdl := hc.remapMdl } :: s.s_pPendingOperations })) ∧
    (¬ BlockAccepted arch h s.mem (detachBlock arch h s.mem pp) d →
      (DetourDetach arch h hc tid s pp d).1 = Status.invalid_block ∧
      (DetourDetach arch h hc tid s pp d).2.s_pPendingOperations = s.s_pPendingOperations) :=
  detach_block_cases arch h hc tid s pp d hown herr hd hpp hslot ha hr

set_option maxRecDepth 100000 in
/-- Witness of C27 (amended): the detach of the forged block, and the detach of the same
block with another detour, which is refused. -/
theorem C27_detach_checks_two_fields_witness :
    BlockAccepted Arch.X64 Scenario.host Scenario.forgedState.mem
      (detachBlock Arch.X64 Scenario.host Scenario.forgedState.mem Scenario.forgedSlot)
      Scenario.detour ∧
    (DetourDetach Arch.X64 Scenario.host Scenario.hostCall 7 Scenario.forgedState
      Scenario.forgedSlot Scenario.detour2).1 = Status.invalid_block ∧
    (DetourDetach Arch.X64 Scenario.host Scenario.hostCall 7 Scenario.forgedState
      Scenario.forgedSlot Scenario.detour2).2.s_pPendingOperations =
      Scenario.forgedState.s_pPendingOperations :=
  ⟨by decide,
   (C27_detach_checks_two_fields Arch.X64 Scenario.host Scenario.hostCall 7
      Scenario.forgedState Scenario.forgedSlot Scenario.detour2 (by decide) (by decide)
      (by decide) (by decide) (by decide) (by decide) (by decide)).2 (by decide)⟩

set_option maxRecDepth 100000 in
/-- C28 (counterexample): on X64, one transaction attaches `detour` through `slot` and then
`detour2` through `slot2`, both to the same target; both calls succeed.  The pending list
holds the second operation first, and after the commit the jump at the target leads to the
trampoline of the first attach: the patch of the first call was applied last.  Applied in the
order of the calls, the jump would lead to the trampoline of the second attach. -/
theorem C28_commit_order_counterexample :
    (step Arch.X64 Scenario.host Scenario.copier 7 Scenario.twoSlots
      (Call.attach Scenario.hostCall Scenario.slot Scenario.detour)).1 = Status.success ∧
    (step Arch.X64 Scenario.host Scenario.copier 7
      (step Arch.X64 Scenario.host Scenario.copier 7 Scenario.twoSlots
        (Call.attach Scenario.hostCall Scenario.slot Scenario.detour)).2
      (Call.attach Scenario.hostCall Scenario.slot2 Scenario.detour2)).1 = Status.success ∧
    Scenario.doubleAttach.s_pPendingOperations.map (fun o => o.ppbPointer) =
      [Scenario.slot2, Scenario.slot] ∧
    Scenario.doubleCommitted.1 = Status.success ∧
    readPtr Arch.X64 Scenario.doubleCommitted.2.2.mem Scenario.slot = Scenario.trampoline ∧
    readPtr Arch.X64 Scenario.doubleCommitted.2.2.mem Scenario.slot2 =
      Scenario.trampoline + 96 ∧
    readLE Scenario.doubleCommitted.2.2.mem (Scenario.target + 2) 8 =
      Scenario.trampoline + off_rbCodeIn ∧
    readLE (commit_apply Arch.X64 Scenario.doubleAttach.s_pPendingOperations.reverse
      Scenario.doubleAttach.mem) (Scenario.target + 2) 8 =
      Scenario.trampoline + 96 + off_rbCodeIn := by
  decide

/-- C28 (amended): a transacted call leaves the pending list as it is or places its operation
at the head of the list, and the commit loop walks the list from its head.  So if call A
recorded the operation `oA` and the later call B of the same transaction recorded `oB`, the
pending list is `oB, oA, ...` and the commit applies the patch of B before the patch of A:
the operations are applied in the reverse of the order of the calls. -/
theorem C28_commit_applies_newest_first (arch : Arch) (h : Host) (copier : Copier)
    (hcop : CopierContract arch copier) (tid : Nat) (s : State) (cA cB : Call)
    (oA oB : DetourOperation)
    (hA : (step arch h copier tid s cA).2.s_pPendingOperations = oA :: s.s_pPendingOperations)
    (hB : (step arch h copier tid (step arch h copier tid s cA).2 cB).2.s_pPendingOperations =
      oB :: (step arch h copier tid s cA).2.s_pPendingOperations) (m : Mem) :
    (run arch h copier tid s [cA, cB]).s_pPendingOperations =
      oB :: oA :: s.s_pPendingOperations ∧
    commit_apply arch (run arch h copier tid s [cA, cB]).s_pPendingOperations m =
      commit_apply arch s.s_pPendingOperations
        (applyOperation arch (applyOperation arch m oB) oA) ∧
    ∀ (s2 : State) (c : Call),
      (step arch h copier tid s2 c).2.s_pPendingOperations = s2.s_pPendingOperations ∨
      ∃ o, (step arch h copier tid s2 c).2.s_pPendingOperations =
        o :: s2.s_pPendingOperations :=
  ⟨(commit_order arch h copier tid s cA cB oA oB hA hB m).1,
   (commit_order arch h copier tid s cA cB oA oB hA hB m).2,
   fun s2 c => step_pending_cases arch h copier hcop tid s2 c⟩

set_option maxRecDepth 100000 in
/-- Witness of C28 (amended): the two attaches of the scenario. -/
theorem C28_commit_applies_newest_first_witness :
    (run Arch.X64 Scenario.host Scenario.copier 7 Scenario.twoSlots
      [Call.attach Scenario.hostCall Scenario.slot Scenario.detour,
        Call.attach Scenario.hostCall Scenario.slot2 Scenario.detour2]).s_pPendingOperations =
      Scenario.operation2 :: Scenario.operation :: Scenario.twoSlots.s_pPendingOperations ∧
    Scenario.twoSlots.s_pPendingOperations.length = 0 :=
  ⟨(C28_commit_applies_newest_first Arch.X64 Scenario.host Scenario.copier
      scenario_copier_contract 7 Scenario.twoSlots
      (Call.attach Scenario.hostCall Scenario.slot Scenario.detour)
      (Call.attach Scenario.hostCall Scenario.slot2 Scenario.detour2)
      Scenario.operation Scenario.operation2 (by decide) (by decide) (fun _ => 0)).1,
   by decide⟩

set_option maxRecDepth 100000 in
/-- C30 (evaluation): `detour_sign_extend(0x1FFFFF, 21)` is `0xFFFFF800001FFFFF`, not the
sign extension `0xFFFFFFFFFFFFFFFF` of the 21-bit pattern of -1.  The ARM64 thunk at
`armThunk` is `adrp x16, #-1 ; ldr x16, [x16, #0x10] ; br x16`; its slot
`(pc & ~0xFFF) - 4096 + 2 * 8` is the IAT entry, which lies inside the IAT of a valid image and
holds the target, but `detour_skip_jmp` does not follow the thunk.  For a page immediate with
a clear sign bit the function returns its argument. -/
theorem C30_sign_extend_negative_page :
    detour_sign_extend 0x1FFFFF 21 = 0xFFFFF800001FFFFF ∧
    (signExtend 21 0x1FFFFF % 2 ^ 64).toNat = 0xFFFFFFFFFFFFFFFF ∧
    fetch_opcode Scenario.moduleMem Scenario.armThunk = 0xF0FFFFF0 ∧
    fetch_opcode Scenario.moduleMem (Scenario.armThunk + 4) = 0xF9400A10 ∧
    fetch_opcode Scenario.moduleMem (Scenario.armThunk + 8) = 0xD61F0200 ∧
    (((Scenario.armThunk &&& 0xfffffffffffff000 : Nat) : Int) + signExtend 21 0x1FFFFF * 4096 +
      2 * 8) % 2 ^ 64 = (Scenario.iatEntry : Int) ∧
    InIat Arch.ARM64 Scenario.moduleHost Scenario.moduleMem Scenario.armThunk
      Scenario.iatEntry ∧
    readPtr Arch.ARM64 Scenario.moduleMem Scenario.iatEntry = Scenario.target ∧
    detour_skip_jmp Arch.ARM64 Scenario.moduleHost Scenario.moduleMem Scenario.armThunk =
      Scenario.armThunk ∧
    ∀ v, v < 2 ^ 20 → detour_sign_extend v 21 = v :=
  ⟨by decide, by decide, by decide, by decide, by decide, by decide, by decide, by decide,
   by decide, sign_extend_nonneg⟩

theorem thumb_rd_mask (c rd imm : Nat) :
    (c ||| ((rd &&& 0xf) <<< 8) ||| thumbImmFields imm) &&& 0xfbf08f00 =
      (0xfbf08f00 &&& c) ||| (0xfbf08f00 &&& ((rd &&& 0xf) <<< 8)) := by
  rw [Nat.and_comm, Nat.and_or_distrib_left, Nat.and_or_distrib_left, fields_mask, Nat.or_zero]

theorem thumb_rd_iff (rd imm : Nat) (hrd : rd < 16) :
    (thumbMovw rd imm &&& 0xfbf08f00 = 0xf2400c00 ↔ rd = 12) ∧
    (thumbMovt rd imm &&& 0xfbf08f00 = 0xf2c00c00 ↔ rd = 12) := by
  have e1 : thumbMovw rd imm &&& 0xfbf08f00 =
      (0xfbf08f00 &&& 0xf2400000) ||| (0xfbf08f00 &&& ((rd &&& 0xf) <<< 8)) :=
    thumb_rd_mask 0xf2400000 rd imm
  have e2 : thumbMovt rd imm &&& 0xfbf08f00 =
      (0xfbf08f00 &&& 0xf2c00000) ||| (0xfbf08f00 &&& ((rd &&& 0xf) <<< 8)) :=
    thumb_rd_mask 0xf2c00000 rd imm
  rw [e1, e2]
  interval_cases rd <;> decide

/-! ## The claims C31 to C35 -/

/-- C31: reconstruction of the import slot by `detour_skip_jmp` on ARM (Thumb-2).  With the
16-bit immediate laid out as imm4:i:imm3:imm8 in opcode bits 19..16, 26, 14..12 and 7..0,
for all immediates `lo` and `hi` below `2 ^ 16` the address rebuilt from the opcodes of
`movw r12, #lo` and `movt r12, #hi` is `(hi << 16) | lo`.  The mask test
`(op & 0xfbf08f00) == 0xf2400c00` accepts a 32-bit opcode exactly when it is `movw r12, #imm`
for some 16-bit `imm`, the test against `0xf2c00c00` exactly when it is `movt r12, #imm`, and
among the encodings with a destination register `rd < 16` only `rd = 12` passes.  At a
non-null pointer whose code is that pair followed by `ldr pc, [r12]` (0xF8DCF000),
`detour_skip_jmp` tests IAT membership of exactly that slot and follows the slot if
`detour_is_imported` accepts it. -/
theorem C31_thumb_slot_reconstruction (h : Host) (m : Mem) (p lo hi op rd : Nat)
    (hlo : lo < 2 ^ 16) (hhi : hi < 2 ^ 16) (hop : op < 2 ^ 32) (hrd : rd < 16) :
    thumbSlot (thumbMovw 12 lo) (thumbMovt 12 hi) = (hi <<< 16) ||| lo ∧
    (op &&& 0xfbf08f00 = 0xf2400c00 ↔ ∃ imm, imm < 2 ^ 16 ∧ op = thumbMovw 12 imm) ∧
    (op &&& 0xfbf08f00 = 0xf2c00c00 ↔ ∃ imm, imm < 2 ^ 16 ∧ op = thumbMovt 12 imm) ∧
    (thumbMovw rd lo &&& 0xfbf08f00 = 0xf2400c00 ↔ rd = 12) ∧
    (thumbMovt rd hi &&& 0xfbf08f00 = 0xf2c00c00 ↔ rd = 12) ∧
    (p ≠ 0 → fetch_thumb_opcode m (DETOURS_PFUNC_TO_PBYTE p) = thumbMovw 12 lo →
      fetch_thumb_opcode m (DETOURS_PFUNC_TO_PBYTE p + 4) = thumbMovt 12 hi →
      fetch_thumb_opcode m (DETOURS_PFUNC_TO_PBYTE p + 8) = 0xf8dcf000 →
      detour_skip_jmp Arch.ARM h m p =
        if detour_is_imported Arch.ARM h m (DETOURS_PFUNC_TO_PBYTE p) ((hi <<< 16) ||| lo) then
          DETOURS_PFUNC_TO_PBYTE (readPtr Arch.ARM m ((hi <<< 16) ||| lo))
        else DETOURS_PFUNC_TO_PBYTE p) :=
  ⟨thumbSlot_spec lo hi hlo hhi,
    thumb_mask_iff 0xf2400c00 (by decide) op hop,
    thumb_mask_iff 0xf2c00c00 (by decide) op hop,
    (thumb_rd_iff rd lo hrd).1, (thumb_rd_iff rd hi hrd).2,
    fun hp h1 h2 h3 => skip_jmp_ARM_thunk h m p lo hi hp hlo hhi h1 h2 h3⟩

set_option maxRecDepth 100000 in
/-- Witness of C31: the thunk `movw r12, #0x5010 ; movt r12, #0x4000 ; ldr pc, [r12]` at
0x10000, entered through the Thumb pointer 0x10001, names the slot 0x40005010. -/
theorem C31_thumb_slot_reconstruction_witness :
    ((0x5010 : Nat) < 2 ^ 16 ∧ (0x4000 : Nat) < 2 ^ 16 ∧ thumbMovw 12 0x5010 < 2 ^ 32 ∧
      (12 : Nat) < 16) ∧
    thumbSlot (thumbMovw 12 0x5010) (thumbMovt 12 0x4000) = (0x4000 <<< 16) ||| 0x5010 ∧
    detour_skip_jmp Arch.ARM Scenario.host Scenario.thumbMem Scenario.thumbThunk =
      if detour_is_imported Arch.ARM Scenario.host Scenario.thumbMem
          (DETOURS_PFUNC_TO_PBYTE Scenario.thumbThunk) ((0x4000 <<< 16) ||| 0x5010) then
        DETOURS_PFUNC_TO_PBYTE (readPtr Arch.ARM Scenario.thumbMem ((0x4000 <<< 16) ||| 0x5010))
      else DETOURS_PFUNC_TO_PBYTE Scenario.thumbThunk :=
  ⟨⟨by decide, by decide, by decide, by decide⟩,
    (C31_thumb_slot_reconstruction Scenario.host Scenario.thumbMem Scenario.thumbThunk 0x5010
      0x4000 (thumbMovw 12 0x5010) 12 (by decide) (by decide) (by decide) (by decide)).1,
    (C31_thumb_slot_reconstruction Scenario.host Scenario.thumbMem Scenario.thumbThunk 0x5010
      0x4000 (thumbMovw 12 0x5010) 12 (by decide) (by decide) (by decide)
      (by decide)).2.2.2.2.2 (by decide) (by decide!) (by decide!) (by decide!)⟩

set_option maxRecDepth 100000 in
/-- C32 (evaluation at the failing input): on X64, with a copier that satisfies the copier
contract and relocates `jo rel8` to the six-byte `jo rel32` (four extra bytes), the attach on
the target `jo +0` (four times), `sub rsp, 28h` succeeds.  The five copied instructions end at
target offsets 2, 4, 6, 8, 12 and at `rbCode` offsets 6, 12, 18, 24, 28, so the copied code
has 28 bytes and 28 + 6 exceeds `sizeof(rbCode) = 30`.  The jump to `pbRemain` is stored at
`rbCode[28..34)` as `FF 25 26 00 00 00`: the byte of `cbCode` (offset 30) holds 0x26 and
`rbRestore[0]` holds 0x00 although the first target byte was 0x70. -/
theorem C32_jump_to_remain_leaves_rbCode :
    CopierContract Arch.X64 Scenario.copier ∧
    ((Scenario.attached Scenario.jccCode).1 = Status.success ∧
      (Scenario.attached Scenario.jccCode).2.s_pPendingOperations.map (·.pTrampoline) =
        [Scenario.trampoline] ∧
      (attachCopied Arch.X64 Scenario.host Scenario.copier Scenario.hostCall
          (Scenario.opened Scenario.jccCode false) Scenario.slot).map
        (fun i => (i.len, i.obTarget, i.obTrampoline)) =
        [(2, 2, 6), (2, 4, 12), (2, 6, 18), (2, 8, 24), (4, 12, 28)] ∧
      (attachScan Arch.X64 Scenario.host Scenario.copier Scenario.hostCall
          (Scenario.opened Scenario.jccCode false) Scenario.slot).2.pbTrampoline =
        Scenario.trampoline + 28 ∧
      ¬ 28 + SIZE_OF_JMP_TO_REMAIN ≤ sizeof_rbCode Arch.X64 ∧
      readBytes (Scenario.attached Scenario.jccCode).2.mem (Scenario.trampoline + 28) 6 =
        [0xFF, 0x25, 0x26, 0x00, 0x00, 0x00] ∧
      (Scenario.attached Scenario.jccCode).2.mem
        (Scenario.trampoline + off_cbCode Arch.X64) = 0x26 ∧
      (Scenario.attached Scenario.jccCode).2.mem
        (Scenario.trampoline + off_rbRestore Arch.X64) = 0x00 ∧
      (Scenario.idle Scenario.jccCode false).mem Scenario.target = 0x70) :=
  ⟨scenario_copier_contract, by decide!⟩

set_option maxRecDepth 100000 in
/-- C33 (evaluation at the failing input): on X64 the attach on the prologue
`mov [rsp+8], rbx; mov [rsp+10h], rsi; push rdi; sub rsp, 20h` succeeds and copies four
instructions, which end at the target offsets 5, 10, 11, 15 and at the same `rbCode`
offsets.  The bytes of `rAlign[0..4)` hold 45, 82, 91, 127: the three-bit field `obTarget`
(the low three bits) reads 5, 2, 3, 7, so the offsets 10, 11 and 15 are stored modulo 8; the
five-bit field `obTrampoline` reads 5, 10, 11, 15.  The entries 4 to 7 are zero. -/
theorem C33_rAlign_offsets_truncated :
    (Scenario.attached Scenario.prologueCode).1 = Status.success ∧
    (attachCopied Arch.X64 Scenario.host Scenario.copier Scenario.hostCall
        (Scenario.opened Scenario.prologueCode false) Scenario.slot).map
      (fun i => (i.index, i.obTarget, i.obTrampoline)) =
      [(0, 5, 5), (1, 10, 10), (2, 11, 11), (3, 15, 15)] ∧
    (List.range 8).map (fun i => (Scenario.attached Scenario.prologueCode).2.mem
      (Scenario.trampoline + off_rAlign Arch.X64 + i)) = [45, 82, 91, 127, 0, 0, 0, 0] ∧
    (List.range 4).map (fun i => (Scenario.attached Scenario.prologueCode).2.mem
      (Scenario.trampoline + off_rAlign Arch.X64 + i) % 8) = [5, 2, 3, 7] ∧
    (List.range 4).map (fun i => (Scenario.attached Scenario.prologueCode).2.mem
      (Scenario.trampoline + off_rAlign Arch.X64 + i) / 8) = [5, 10, 11, 15] := by
  decide!

/-- C34: the window that a recorded attach overwrites.  Let `T` be the target, `t` the
trampoline and `cbRestore` the byte stored in the trampoline.  The pieces of the target that
the first loop hands to the copier, followed by the pieces of padding that the second loop
consumes, follow one another without gap from the start cursor of the first loop up to
`T + cbRestore`; so every byte from that cursor up to `T + cbRestore` lies in a copied
instruction or in a piece of padding, each of which has the non-zero length that
`detour_is_code_filler` returned at its address.  The start cursor is `T`, except on ARM when
the target starts with an `ldr pc, [pc]` jump (after a `nop` if `T` is not 4-byte aligned):
then both cursors were moved over that jump, whose bytes are then at the start of `rbCode`
when the loops are left (for a target that does not overlap them), and neither loop copies or
consumes anything.
Every copied instruction but the last has `detour_does_code_end_function` false, so nothing
is copied after an instruction that ends the function.  The field `pbRemain` is
`T + cbRestore` (modulo the pointer width). -/
theorem C34_window_is_copied_or_filler (arch : Arch) (h : Host) (copier : Copier)
    (hcop : CopierContract arch copier) (hc : HostCall) (tid : Nat) (s : State) (pp d : Nat)
    (o : DetourOperation)
    (hrec : (DetourAttachEx arch h copier hc tid s pp d).2.s_pPendingOperations =
      o :: s.s_pPendingOperations) :
    (DetourAttachEx arch h copier hc tid s pp d).1 = Status.success ∧
    o.pTrampoline = (attachAlloc arch h hc s pp).1 ∧ o.pbTarget = attachTarget arch h s pp ∧
    Chained (attachPre arch h hc s pp).2.pbSrc
      ((attachCopied arch h copier hc s pp).map (fun i => (i.pbOp, i.len)) ++
        attachFillers arch h copier hc s pp)
      (o.pbTarget + (DetourAttachEx arch h copier hc tid s pp d).2.mem
        (o.pTrampoline + off_cbRestore arch)) ∧
    (∀ x, (attachPre arch h hc s pp).2.pbSrc ≤ x →
      x < o.pbTarget + (DetourAttachEx arch h copier hc tid s pp d).2.mem
        (o.pTrampoline + off_cbRestore arch) →
      (∃ i ∈ attachCopied arch h copier hc s pp, i.pbOp ≤ x ∧ x < i.pbOp + i.len) ∨
      (∃ c ∈ attachFillers arch h copier hc s pp, c.1 ≤ x ∧ x < c.1 + c.2)) ∧
    ((attachPre arch h hc s pp).2.pbSrc = o.pbTarget ∨
      (arch = Arch.ARM ∧ attachCopied arch h copier hc s pp = [] ∧
        attachFillers arch h copier hc s pp = [] ∧
        (fetch_thumb_opcode
            (attach_init arch (attachAlloc arch h hc s pp).2.mem (attachTarget arch h s pp)
              (attachAlloc arch h hc s pp).1).mem (attachTarget arch h s pp) = 0xf8dff000 ∨
          (fetch_thumb_opcode
              (attach_init arch (attachAlloc arch h hc s pp).2.mem (attachTarget arch h s pp)
                (attachAlloc arch h hc s pp).1).mem (attachTarget arch h s pp) = 0xbf00 ∧
            fetch_thumb_opcode
              (attach_init arch (attachAlloc arch h hc s pp).2.mem (attachTarget arch h s pp)
                (attachAlloc arch h hc s pp).1).mem (attachTarget arch h s pp + 2) =
              0xf8dff000)) ∧
        (attachPre arch h hc s pp).2.pbSrc + (attachAlloc arch h hc s pp).1 =
          (attachPre arch h hc s pp).2.pbTrampoline + attachTarget arch h s pp ∧
        ((attachAlloc arch h hc s pp).1 + 10 ≤ attachTarget arch h s pp ∨
            attachTarget arch h s pp + 10 ≤ (attachAlloc arch h hc s pp).1 →
          ∀ i, i < (attachPre arch h hc s pp).2.pbSrc - attachTarget arch h s pp →
            (attachScan arch h copier hc s pp).2.mem ((attachAlloc arch h hc s pp).1 + i) =
              (attach_init arch (attachAlloc arch h hc s pp).2.mem (attachTarget arch h s pp)
                (attachAlloc arch h hc s pp).1).mem (attachTarget arch h s pp + i)))) ∧
    (∀ i ∈ (attachCopied arch h copier hc s pp).dropLast, i.ends = false) ∧
    (∀ c ∈ attachFillers arch h copier hc s pp,
      1 ≤ c.2 ∧ c.2 = detour_is_code_filler arch (attachScan arch h copier hc s pp).2.mem c.1) ∧
    readPtr arch (DetourAttachEx arch h copier hc tid s pp d).2.mem
        (o.pTrampoline + off_pbRemain arch) =
      (o.pbTarget + (DetourAttachEx arch h copier hc tid s pp d).2.mem
        (o.pTrampoline + off_cbRestore arch)) % 2 ^ ptrBits arch := by
  obtain ⟨r1, r2, -⟩ := attach_recorded arch h copier hcop hc tid s pp d o hrec
  obtain ⟨-, a2, a3, -⟩ := attach_success_form arch h copier hcop hc tid s pp d o hrec
  obtain ⟨w1, w2, w3, -⟩ := attach_window arch h copier hc s pp
  have e1 : o.pTrampoline = (attachAlloc arch h hc s pp).1 := by rw [r2]; rfl
  have e2 : o.pbTarget = attachTarget arch h s pp := by rw [r2]; rfl
  rw [e1, e2, a2]
  refine ⟨r1, rfl, rfl, w1, fun x hx1 hx2 => chained_cover_append w1 x hx1 hx2,
    attachPre_cases arch h copier hc s pp, w2, w3, a3⟩

set_option maxRecDepth 100000 in
/-- Witness of C34: the attach on the X64 prologue.  The copied instructions are the pieces
of 5, 5, 1 and 4 bytes at the target, no padding is consumed, and they reach
`target + 15`. -/
theorem C34_window_is_copied_or_filler_witness :
    CopierContract Arch.X64 Scenario.copier ∧
    (DetourAttachEx Arch.X64 Scenario.host Scenario.copier Scenario.hostCall 7
        (Scenario.opened Scenario.prologueCode false) Scenario.slot
        Scenario.detour).2.s_pPendingOperations =
      Scenario.operation :: (Scenario.opened Scenario.prologueCode false).s_pPendingOperations ∧
    (attachCopied Arch.X64 Scenario.host Scenario.copier Scenario.hostCall
        (Scenario.opened Scenario.prologueCode false) Scenario.slot).map
      (fun i => (i.pbOp, i.len)) =
      [(Scenario.target, 5), (Scenario.target + 5, 5), (Scenario.target + 10, 1),
        (Scenario.target + 11, 4)] ∧
    Chained (attachPre Arch.X64 Scenario.host Scenario.hostCall
        (Scenario.opened Scenario.prologueCode false) Scenario.slot).2.pbSrc
      ((attachCopied Arch.X64 Scenario.host Scenario.copier Scenario.hostCall
          (Scenario.opened Scenario.prologueCode false) Scenario.slot).map
          (fun i => (i.pbOp, i.len)) ++
        attachFillers Arch.X64 Scenario.host Scenario.copier Scenario.hostCall
          (Scenario.opened Scenario.prologueCode false) Scenario.slot)
      (Scenario.operation.pbTarget +
        (DetourAttachEx Arch.X64 Scenario.host Scenario.copier Scenario.hostCall 7
          (Scenario.opened Scenario.prologueCode false) Scenario.slot Scenario.detour).2.mem
          (Scenario.operation.pTrampoline + off_cbRestore Arch.X64)) :=
  ⟨scenario_copier_contract, by decide!, by decide!,
    (C34_window_is_copied_or_filler Arch.X64 Scenario.host Scenario.copier
      scenario_copier_contract Scenario.hostCall 7 (Scenario.opened Scenario.prologueCode false)
      Scenario.slot Scenario.detour Scenario.operation (by decide!)).2.2.2.1⟩

set_option maxRecDepth 100000 in
/-- C35 (evaluation at the failing input, with what holds in general):
`detour_free_unused_trampoline_regions` keeps exactly the regions for which
`detour_is_region_empty` is false, in their order, and changes no memory; and a region with
a slot whose `pbRemain` is neither null nor inside the page of the region is kept.  But
`detour_is_region_empty` takes a slot for free whenever its `pbRemain` is null or points into
the page.  On X64: attach `detour` through `slot` (trampoline `trampoline`), copy the pointer
of `slot` into `slot2`, attach `detour2` through `slot2` (trampoline `trampoline + 96`, whose
target is the first trampoline and whose `pbRemain` is `trampoline + 15`), then detach
`detour` through `slot`.  With regions retained, the state after the third commit has one
region, at `page`, whose free list does not hold `trampoline + 96`, while `slot2` still
points at that trampoline and its `pbDetour` is `detour2`; the region passes
`detour_is_region_empty` and `detour_free_unused_trampoline_regions` removes it.  Without
retention the third commit itself leaves no region. -/
theorem C35_free_regions_releases_live_slot (arch : Arch) (s : State) (r : DETOUR_REGION)
    (i : Nat) :
    (r ∈ (detour_free_unused_trampoline_regions arch s).s_pRegions ↔
      r ∈ s.s_pRegions ∧ detour_is_region_empty arch s.mem r = false) ∧
    List.Sublist (detour_free_unused_trampoline_regions arch s).s_pRegions s.s_pRegions ∧
    (detour_free_unused_trampoline_regions arch s).mem = s.mem ∧
    (r.dwSignature ≠ DETOUR_REGION_SIGNATURE → detour_is_region_empty arch s.mem r = false) ∧
    (i < DETOUR_TRAMPOLINES_PER_REGION arch →
      readPtr arch s.mem (r.base + sizeof_DETOUR_TRAMPOLINE arch +
        i * sizeof_DETOUR_TRAMPOLINE arch + off_pbRemain arch) ≠ 0 →
      (readPtr arch s.mem (r.base + sizeof_DETOUR_TRAMPOLINE arch +
          i * sizeof_DETOUR_TRAMPOLINE arch + off_pbRemain arch) < r.base ∨
        r.base + DETOUR_REGION_SIZE ≤ readPtr arch s.mem (r.base + sizeof_DETOUR_TRAMPOLINE arch +
          i * sizeof_DETOUR_TRAMPOLINE arch + off_pbRemain arch)) →
      detour_is_region_empty arch s.mem r = false) ∧
    (Scenario.stacked.s_pRegions.map (fun r => r.base) = [Scenario.page] ∧
      readPtr Arch.X64 Scenario.stacked.mem Scenario.slot2 = Scenario.trampoline + 96 ∧
      Scenario.unstackedRetained.s_nPendingError = Status.success ∧
      Scenario.unstackedRetained.s_pRegions.map
          (fun r => (r.base, r.dwSignature, r.pFree,
            detour_is_region_empty Arch.X64 Scenario.unstackedRetained.mem r)) =
        [(Scenario.page, DETOUR_REGION_SIGNATURE, Scenario.trampoline, true)] ∧
      FreeChain Arch.X64 Scenario.unstackedRetained.mem Scenario.trampoline
        (Scenario.trampoline :: slotsFrom Arch.X64 Scenario.page 5 37) ∧
      Scenario.trampoline + 96 ∉ Scenario.trampoline :: slotsFrom Arch.X64 Scenario.page 5 37 ∧
      readPtr Arch.X64 Scenario.unstackedRetained.mem Scenario.slot2 =
        Scenario.trampoline + 96 ∧
      readPtr Arch.X64 Scenario.unstackedRetained.mem
        (Scenario.trampoline + 96 + off_pbDetour Arch.X64) = Scenario.detour2 ∧
      readPtr Arch.X64 Scenario.unstackedRetained.mem
        (Scenario.trampoline + 96 + off_pbRemain Arch.X64) = Scenario.trampoline + 15 ∧
      (detour_free_unused_trampoline_regions Arch.X64
        Scenario.unstackedRetained).s_pRegions.length = 0 ∧
      Scenario.unstacked.s_pRegions.length = 0 ∧
      readPtr Arch.X64 Scenario.unstacked.mem Scenario.slot2 = Scenario.trampoline + 96 ∧
      readPtr Arch.X64 Scenario.unstacked.mem
        (Scenario.trampoline + 96 + off_pbDetour Arch.X64) = Scenario.detour2) := by
  obtain ⟨f1, f2, f3⟩ := free_unused_spec arch s
  refine ⟨f1 r, f2, f3, ?_, fun hi h0 hout => region_not_empty arch s.mem r i hi h0 hout, ?_⟩
  · intro hsig
    unfold detour_is_region_empty
    rw [if_pos hsig]
  · decide!

/-- Witness of C35: a header whose signature is not `DETOUR_REGION_SIGNATURE` never passes
the emptiness test, and the release changes no memory. -/
theorem C35_free_regions_releases_live_slot_witness :
    (0 : Nat) ≠ DETOUR_REGION_SIGNATURE ∧
    detour_is_region_empty Arch.X64 Scenario.unstackedRetained.mem
      { base := Scenario.page, dwSignature := 0, pMdl := 1, pFree := 0 } = false ∧
    (detour_free_unused_trampoline_regions Arch.X64 Scenario.unstackedRetained).mem =
      Scenario.unstackedRetained.mem :=
  ⟨by decide,
    (C35_free_regions_releases_live_slot Arch.X64 Scenario.unstackedRetained
      { base := Scenario.page, dwSignature := 0, pMdl := 1, pFree := 0 } 0).2.2.2.1 (by decide),
    (C35_free_regions_releases_live_slot Arch.X64 Scenario.unstackedRetained
      { base := Scenario.page, dwSignature := 0, pMdl := 1, pFree := 0 } 0).2.2.1⟩

/-! ## The claims C36 to C40 -/

set_option maxRecDepth 100000 in
/-- C36 (counterexample): on X64 with retain-regions false and no region at the start, the
attach on the prologue creates the region at `page`.  After `abort` the region is still in the
list although the transaction left no detour: its free list is the whole pool of slots again
and it passes `detour_is_region_empty`.  Likewise for the 11-byte function with
ignore-too-small set: the attach is skipped with out-of-memory, nothing is latched, the commit
returns success, and the region it created stays in the list with every slot of its pool
free. -/
theorem C36_empty_region_kept_counterexample :
    (Scenario.idle Scenario.prologueCode false).s_fRetainRegions = false ∧
    (Scenario.idle Scenario.prologueCode false).s_pRegions.length = 0 ∧
    (Scenario.attached Scenario.prologueCode).1 = Status.success ∧
    Scenario.aborted.1 = Status.success ∧
    Scenario.aborted.2.s_nPendingThreadId = 0 ∧
    Scenario.aborted.2.s_pPendingOperations.length = 0 ∧
    Scenario.aborted.2.s_pRegions.map
        (fun r => (r.base, r.pFree, detour_is_region_empty Arch.X64 Scenario.aborted.2.mem r)) =
      [(Scenario.page, Scenario.trampoline, true)] ∧
    FreeChain Arch.X64 Scenario.aborted.2.mem Scenario.trampoline
      (slotsFrom Arch.X64 Scenario.page 3 39) ∧
    (Scenario.idle Scenario.smallCode true).s_fRetainRegions = false ∧
    (Scenario.idle Scenario.smallCode true).s_pRegions.length = 0 ∧
    Scenario.attachedSmall.1 = Status.outofmemory ∧
    Scenario.attachedSmall.2.s_nPendingError = Status.success ∧
    Scenario.skipped.1 = Status.success ∧
    Scenario.skipped.2.s_nPendingThreadId = 0 ∧
    Scenario.skipped.2.s_pRegions.map
        (fun r => (r.base, r.pFree, detour_is_region_empty Arch.X64 Scenario.skipped.2.mem r)) =
      [(Scenario.page, Scenario.trampoline, true)] ∧
    FreeChain Arch.X64 Scenario.skipped.2.mem Scenario.trampoline
      (slotsFrom Arch.X64 Scenario.page 3 39) := by
  decide!

/-- C36 (amended): regions are released only by a commit that applies a removal.  For a
transaction owned by the caller: `abort` leaves the region list with the same regions in the
same order, and so does the commit of a transaction with a latched error; the commit of a
clean transaction without any removal leaves the region list as it is; and with
retain-regions false the commit of a clean transaction with at least one removal of a non-null
trampoline leaves no region in the list that passes `detour_is_region_empty`. -/
theorem C36_regions_released_only_by_removal (arch : Arch) (h : Host) (tid : Nat) (s : State)
    (hown : s.s_nPendingThreadId = tid) :
    (DetourTransactionAbort arch h tid s).2.s_pRegions.map (fun r => r.base) =
      s.s_pRegions.map (fun r => r.base) ∧
    (s.s_nPendingError ≠ Status.success →
      (DetourTransactionCommitEx arch h tid s).2.2.s_pRegions.map (fun r => r.base) =
        s.s_pRegions.map (fun r => r.base)) ∧
    (s.s_nPendingError = Status.success →
      (∀ o ∈ s.s_pPendingOperations, o.fIsRemove = false) →
      (DetourTransactionCommitEx arch h tid s).2.2.s_pRegions = s.s_pRegions) ∧
    (s.s_nPendingError = Status.success → s.s_fRetainRegions = false →
      (∃ o ∈ s.s_pPendingOperations, o.fIsRemove = true ∧ o.pTrampoline ≠ 0) →
      ∀ r ∈ (DetourTransactionCommitEx arch h tid s).2.2.s_pRegions,
        detour_is_region_empty arch (DetourTransactionCommitEx arch h tid s).2.2.mem r =
          false) :=
  regions_at_end arch h tid s hown

set_option maxRecDepth 100000 in
/-- Witness of C36: the abort after the attach on the X64 prologue keeps the region at
`page`; the commit after the detach of the committed detour, which applies a removal, leaves
no region that passes the emptiness test. -/
theorem C36_regions_released_only_by_removal_witness :
    (Scenario.attached Scenario.prologueCode).2.s_nPendingThreadId = 7 ∧
    (Scenario.attached Scenario.prologueCode).2.s_pRegions.map (fun r => r.base) =
      [Scenario.page] ∧
    (DetourTransactionAbort Arch.X64 Scenario.host 7
        (Scenario.attached Scenario.prologueCode).2).2.s_pRegions.map (fun r => r.base) =
      (Scenario.attached Scenario.prologueCode).2.s_pRegions.map (fun r => r.base) ∧
    (Scenario.detached Scenario.prologueCode).2.s_nPendingThreadId = 7 ∧
    (∀ r ∈ (DetourTransactionCommitEx Arch.X64 Scenario.host 7
        (Scenario.detached Scenario.prologueCode).2).2.2.s_pRegions,
      detour_is_region_empty Arch.X64 (DetourTransactionCommitEx Arch.X64 Scenario.host 7
        (Scenario.detached Scenario.prologueCode).2).2.2.mem r = false) :=
  ⟨by decide!, by decide!,
    (C36_regions_released_only_by_removal Arch.X64 Scenario.host 7
      (Scenario.attached Scenario.prologueCode).2 (by decide!)).1,
    by decide!,
    (C36_regions_released_only_by_removal Arch.X64 Scenario.host 7
      (Scenario.detached Scenario.prologueCode).2 (by decide!)).2.2.2 (by decide!) (by decide!)
      ⟨Scenario.removal, by decide!, by decide, by decide⟩⟩

/-- C37 (evaluation at the failing input, with what holds in general): for a 32-bit opcode
at `p`, `detour_does_code_end_function` of ARM64 is true exactly when the opcode is
`ret <reg>` (0xD65F0000 | Rn << 5) or `b <imm26>` (top six bits 000101); the constant under
the comment `br <reg>` is that of `ret`.  For every register the opcode `br <reg>`
(0xD61F0000 | Rn << 5) gives false, and so does the second opcode of the jump that
`detour_gen_jmp_immediate` writes, which is `br x17`. -/
theorem C37_arm64_br_not_detected (m : Mem) (p rn c d : Nat) (pool : Option Nat)
    (hop : fetch_opcode m p < 2 ^ 32) (hrn : rn < 32) :
    (detour_does_code_end_function Arch.ARM64 m p = true ↔
      (∃ r, r < 2 ^ 5 ∧ fetch_opcode m p = arm64Ret r) ∨
      (∃ imm, imm < 2 ^ 26 ∧ fetch_opcode m p = arm64B imm)) ∧
    (fetch_opcode m p = arm64Br rn → detour_does_code_end_function Arch.ARM64 m p = false) ∧
    arm64Br rn ≠ arm64Ret rn ∧
    fetch_opcode (detour_gen_jmp_immediate_ARM64 m c pool d).1 (c + 4) = arm64Br 17 ∧
    detour_does_code_end_function Arch.ARM64 (detour_gen_jmp_immediate_ARM64 m c pool d).1
      (c + 4) = false := by
  refine ⟨code_end_ARM64_iff m p hop, code_end_ARM64_br m p rn hrn, ?_,
    gen_jmp_ARM64_second m c pool d,
    code_end_ARM64_br _ _ 17 (by decide) (gen_jmp_ARM64_second m c pool d)⟩
  have hall : ∀ r, r < 32 → arm64Br r ≠ arm64Ret r := by decide
  exact hall rn hrn

set_option maxRecDepth 100000 in
/-- Witness of C37: memory that holds `br x17` (0xD61F0220) at 0x1000. -/
theorem C37_arm64_br_not_detected_witness :
    (fetch_opcode (writeLE (fun _ => 0) 0x1000 4 0xD61F0220) 0x1000 < 2 ^ 32 ∧
      (17 : Nat) < 32 ∧
      fetch_opcode (writeLE (fun _ => 0) 0x1000 4 0xD61F0220) 0x1000 = arm64Br 17) ∧
    detour_does_code_end_function Arch.ARM64 (writeLE (fun _ => 0) 0x1000 4 0xD61F0220)
      0x1000 = false :=
  ⟨⟨by decide, by decide, by decide⟩,
    (C37_arm64_br_not_detected (writeLE (fun _ => 0) 0x1000 4 0xD61F0220) 0x1000 17 0 0 none
      (by decide) (by decide)).2.1 (by decide)⟩

/-- C38: the jump encoders and the decoders agree.  `detour_gen_jmp_immediate(code, s, d)` of
X86 and X64 returns `code + 5`, changes no byte outside `[code, code + 5)`, and stores `E9`
followed by the four little-endian bytes of `(d - (s + 5)) mod 2 ^ 32`.  Decoding that
immediate as `s + 5 + signext32(imm32)` gives `d mod 2 ^ 32` in 32-bit arithmetic, whatever
`s` and `d`; in 64-bit arithmetic it gives `d` when `d < 2 ^ 64` and `d - (s + 5)` fits in 32
signed bits, and then the sign-extended immediate is that difference.
`detour_gen_jmp_indirect(code, s, slot)` of X64 returns `code + 6`, changes no byte outside
`[code, code + 6)`, and stores `FF 25` followed by the immediate for which
`s + 6 + signext32(imm32)` is `slot`, under the same condition.  Written at `s` itself, the
jumps are decoded to `d` by the expressions of `detour_skip_jmp` and
`detour_find_jmp_bounds`. -/
theorem C38_jump_codecs_agree (m : Mem) (c s d : Nat) :
    ((detour_gen_jmp_immediate_x86 m c s d).2 = c + 5 ∧
      Conf c (c + 5) m (detour_gen_jmp_immediate_x86 m c s d).1 ∧
      (detour_gen_jmp_immediate_x86 m c s d).1 c = 0xE9 ∧
      (∀ k, k < 4 → (detour_gen_jmp_immediate_x86 m c s d).1 (c + 1 + k) =
        (leBytes 4 (subMod 32 d (s + 5))).getD k 0) ∧
      readLE (detour_gen_jmp_immediate_x86 m c s d).1 (c + 1) 4 = subMod 32 d (s + 5) ∧
      ((subMod 32 d (s + 5) : Nat) : Int) = ((d : Int) - ((s + 5 : Nat) : Int)) % 2 ^ 32) ∧
    (addSigned 32 (s + 5) 32 (readLE (detour_gen_jmp_immediate_x86 m c s d).1 (c + 1) 4) =
        d % 2 ^ 32 ∧
      longJumpTarget Arch.X86 (detour_gen_jmp_immediate_x86 m s s d).1 s = d % 2 ^ 32) ∧
    (d < 2 ^ 64 → -(2 ^ 31 : Int) ≤ (d : Int) - ((s + 5 : Nat) : Int) →
      (d : Int) - ((s + 5 : Nat) : Int) < 2 ^ 31 →
      signExtend 32 (readLE (detour_gen_jmp_immediate_x86 m c s d).1 (c + 1) 4) =
        (d : Int) - ((s + 5 : Nat) : Int) ∧
      addSigned 64 (s + 5) 32 (readLE (detour_gen_jmp_immediate_x86 m c s d).1 (c + 1) 4) = d ∧
      longJumpTarget Arch.X64 (detour_gen_jmp_immediate_x86 m s s d).1 s = d) ∧
    ((detour_gen_jmp_indirect_X64 m c s d).2 = c + 6 ∧
      Conf c (c + 6) m (detour_gen_jmp_indirect_X64 m c s d).1 ∧
      (detour_gen_jmp_indirect_X64 m c s d).1 c = 0xFF ∧
      (detour_gen_jmp_indirect_X64 m c s d).1 (c + 1) = 0x25 ∧
      (∀ k, k < 4 → (detour_gen_jmp_indirect_X64 m c s d).1 (c + 2 + k) =
        (leBytes 4 (subMod 32 d (s + 6))).getD k 0) ∧
      readLE (detour_gen_jmp_indirect_X64 m c s d).1 (c + 2) 4 = subMod 32 d (s + 6) ∧
      ((subMod 32 d (s + 6) : Nat) : Int) = ((d : Int) - ((s + 6 : Nat) : Int)) % 2 ^ 32) ∧
    (d < 2 ^ 64 → -(2 ^ 31 : Int) ≤ (d : Int) - ((s + 6 : Nat) : Int) →
      (d : Int) - ((s + 6 : Nat) : Int) < 2 ^ 31 →
      signExtend 32 (readLE (detour_gen_jmp_indirect_X64 m c s d).1 (c + 2) 4) =
        (d : Int) - ((s + 6 : Nat) : Int) ∧
      addSigned 64 (s + 6) 32 (readLE (detour_gen_jmp_indirect_X64 m c s d).1 (c + 2) 4) = d ∧
      importSlot Arch.X64 (detour_gen_jmp_indirect_X64 m s s d).1 s = d) := by
  obtain ⟨a1, a2⟩ := jmp_immediate_x86_spec m c s d
  obtain ⟨b1, b2⟩ := jmp_immediate_bytes m c s d
  obtain ⟨i1, i2⟩ := jmp_indirect_X64_spec m c s d
  obtain ⟨j1, j2, j3⟩ := jmp_indirect_bytes m c s d
  refine ⟨⟨a2, a1, b1, fun k hk => jmp_immediate_byte m c s d k hk, b2,
      subMod_int d (s + 5)⟩, ⟨?_, ?_⟩, ?_,
    ⟨i2, i1, j1, j2, fun k hk => jmp_indirect_byte m c s d k hk, j3, subMod_int d (s + 6)⟩, ?_⟩
  · rw [b2]
    exact decode32_mod (s + 5) d
  · show addSigned 32 (s + 5) 32 (readLE (detour_gen_jmp_immediate_x86 m s s d).1 (s + 1) 4) = _
    rw [(jmp_immediate_bytes m s s d).2]
    exact decode32_mod (s + 5) d
  · intro hd h0 h1
    refine ⟨?_, ?_, ?_⟩
    · rw [b2]
      exact signExtend_subMod (s + 5) d h0 h1
    · rw [b2]
      exact decode64 (s + 5) d hd h0 h1
    · show addSigned 64 (s + 5) 32
        (readLE (detour_gen_jmp_immediate_x86 m s s d).1 (s + 1) 4) = _
      rw [(jmp_immediate_bytes m s s d).2]
      exact decode64 (s + 5) d hd h0 h1
  · intro hd h0 h1
    refine ⟨?_, ?_, ?_⟩
    · rw [j3]
      exact signExtend_subMod (s + 6) d h0 h1
    · rw [j3]
      exact decode64 (s + 6) d hd h0 h1
    · show addSigned 64 (s + 6) 32
        (readLE (detour_gen_jmp_indirect_X64 m s s d).1 (s + 2) 4) = _
      rw [(jmp_indirect_bytes m s s d).2.2]
      exact decode64 (s + 6) d hd h0 h1

/-- Witness of C38: the jump from `target` to `detour` (forwards) and the jump from `detour`
back to `target` (a negative displacement) on X64, and the indirect jump at `target` through
the slot. -/
theorem C38_jump_codecs_agree_witness :
    longJumpTarget Arch.X64
      (detour_gen_jmp_immediate_x86 (fun _ => 0) Scenario.target Scenario.target
        Scenario.detour).1 Scenario.target = Scenario.detour ∧
    longJumpTarget Arch.X64
      (detour_gen_jmp_immediate_x86 (fun _ => 0) Scenario.detour Scenario.detour
        Scenario.target).1 Scenario.detour = Scenario.target ∧
    importSlot Arch.X64
      (detour_gen_jmp_indirect_X64 (fun _ => 0) Scenario.target Scenario.target
        Scenario.slot).1 Scenario.target = Scenario.slot :=
  ⟨((C38_jump_codecs_agree (fun _ => 0) Scenario.target Scenario.target Scenario.detour).2.2.1
      (by decide) (by decide) (by decide)).2.2,
    ((C38_jump_codecs_agree (fun _ => 0) Scenario.detour Scenario.detour Scenario.target).2.2.1
      (by decide) (by decide) (by decide)).2.2,
    ((C38_jump_codecs_agree (fun _ => 0) Scenario.target Scenario.target Scenario.slot).2.2.2.2
      (by decide) (by decide) (by decide)).2.2⟩

/-- C39: a `begin` that fails after it took the ownership.  When no transaction is open and
making the regions writable fails with the status `e`, `begin` by thread `tid` returns `e`,
leaves `tid` as the owner with `e` as the latched error and an empty pending list, and changes
neither memory nor the region list.  From that state every further `begin`, by any thread,
returns invalid-operation and changes nothing; attach and detach by the owner change nothing;
abort and commit by another thread are refused; the owner's abort returns success and clears
the owner, the owner's commit returns `e` and clears the owner, and after either of them
`begin` is accepted again. -/
theorem C39_failed_begin_keeps_ownership (arch : Arch) (h : Host) (copier : Copier)
    (tid tid2 : Nat) (s : State) (e : Status) (c : Call)
    (hidle : s.s_nPendingThreadId = 0) (htid : tid ≠ 0)
    (hfail : (detour_writable_trampoline_regions h s.s_pRegions s.protection).1 = e)
    (he : e ≠ Status.success) :
    (DetourTransactionBegin h tid s).1 = e ∧
    (DetourTransactionBegin h tid s).2.s_nPendingThreadId = tid ∧
    (DetourTransactionBegin h tid s).2.s_nPendingError = e ∧
    (DetourTransactionBegin h tid s).2.s_pPendingOperations = [] ∧
    (DetourTransactionBegin h tid s).2.mem = s.mem ∧
    (DetourTransactionBegin h tid s).2.s_pRegions = s.s_pRegions ∧
    DetourTransactionBegin h tid2 (DetourTransactionBegin h tid s).2 =
      (Status.invalid_operation, (DetourTransactionBegin h tid s).2) ∧
    (step arch h copier tid (DetourTransactionBegin h tid s).2 c).2 =
      (DetourTransactionBegin h tid s).2 ∧
    (tid2 ≠ tid →
      DetourTransactionAbort arch h tid2 (DetourTransactionBegin h tid s).2 =
        (Status.invalid_operation, (DetourTransactionBegin h tid s).2) ∧
      (DetourTransactionCommitEx arch h tid2 (DetourTransactionBegin h tid s).2).1 =
        Status.invalid_operation ∧
      (DetourTransactionCommitEx arch h tid2 (DetourTransactionBegin h tid s).2).2.2 =
        (DetourTransactionBegin h tid s).2) ∧
    (DetourTransactionAbort arch h tid (DetourTransactionBegin h tid s).2).1 =
      Status.success ∧
    (DetourTransactionAbort arch h tid (DetourTransactionBegin h tid s).2).2.s_nPendingThreadId =
      0 ∧
    (DetourTransactionCommitEx arch h tid (DetourTransactionBegin h tid s).2).1 = e ∧
    (DetourTransactionCommitEx arch h tid
      (DetourTransactionBegin h tid s).2).2.2.s_nPendingThreadId = 0 ∧
    (DetourTransactionBegin h tid2
      (DetourTransactionAbort arch h tid
        (DetourTransactionBegin h tid s).2).2).2.s_nPendingThreadId = tid2 := by
  have hb := begin_eq h tid s hidle
  have hown : (DetourTransactionBegin h tid s).2.s_nPendingThreadId = tid := by rw [hb]
  have herr : (DetourTransactionBegin h tid s).2.s_nPendingError = e := by rw [hb]; exact hfail
  have hne : (DetourTransactionBegin h tid s).2.s_nPendingError ≠ Status.success := by
    rw [herr]; exact he
  have hopen : (DetourTransactionBegin h tid s).2.s_nPendingThreadId ≠ 0 := by
    rw [hown]; exact htid
  obtain ⟨ab1, -, ab3, -⟩ := abort_result arch h tid (DetourTransactionBegin h tid s).2 hown
  obtain ⟨cl1, cl2⟩ := commit_latched arch h tid (DetourTransactionBegin h tid s).2 hown hne
  refine ⟨?_, hown, herr, ?_, ?_, ?_, begin_refused h tid2 _ hopen,
    (step_of_latched arch h copier tid _ c hown hne).1, ?_, ab1, ab3, ?_, ?_, ?_⟩
  · rw [hb]; exact hfail
  · rw [hb]
  · rw [hb]
  · rw [hb]
  · intro hother
    have ho : (DetourTransactionBegin h tid s).2.s_nPendingThreadId ≠ tid2 := by
      rw [hown]; exact fun e2 => hother e2.symm
    refine ⟨abort_refused arch h tid2 _ ho, ?_, ?_⟩
    · rw [commit_refused arch h tid2 _ ho]
    · rw [commit_refused arch h tid2 _ ho]
  · rw [cl1]; exact herr
  · rw [cl2]; exact ab3
  · exact (begin_fields h tid2 _ ab3).2.2.2

set_option maxRecDepth 100000 in
/-- Witness of C39: in the state after the committed attach on the X64 prologue, which has one
region, a host that refuses every protection change with the status 5 makes `begin` by thread
7 fail with that status; thread 7 stays the owner. -/
theorem C39_failed_begin_keeps_ownership_witness :
    ((Scenario.committed Scenario.prologueCode).2.s_nPendingThreadId = 0 ∧
      (detour_writable_trampoline_regions Scenario.failHost
        (Scenario.committed Scenario.prologueCode).2.s_pRegions
        (Scenario.committed Scenario.prologueCode).2.protection).1 = Status.host 5) ∧
    (DetourTransactionBegin Scenario.failHost 7
      (Scenario.committed Scenario.prologueCode).2).1 = Status.host 5 ∧
    (DetourTransactionBegin Scenario.failHost 7
      (Scenario.committed Scenario.prologueCode).2).2.s_nPendingThreadId = 7 ∧
    DetourTransactionBegin Scenario.failHost 8
        (DetourTransactionBegin Scenario.failHost 7
          (Scenario.committed Scenario.prologueCode).2).2 =
      (Status.invalid_operation,
        (DetourTransactionBegin Scenario.failHost 7
          (Scenario.committed Scenario.prologueCode).2).2) :=
  ⟨⟨by decide!, by decide!⟩,
    (C39_failed_begin_keeps_ownership Arch.X64 Scenario.failHost Scenario.copier 7 8
      (Scenario.committed Scenario.prologueCode).2 (Status.host 5)
      (Call.attach Scenario.hostCall Scenario.slot Scenario.detour) (by decide!) (by decide)
      (by decide!) (by decide)).1,
    (C39_failed_begin_keeps_ownership Arch.X64 Scenario.failHost Scenario.copier 7 8
      (Scenario.committed Scenario.prologueCode).2 (Status.host 5)
      (Call.attach Scenario.hostCall Scenario.slot Scenario.detour) (by decide!) (by decide)
      (by decide!) (by decide)).2.1,
    (C39_failed_begin_keeps_ownership Arch.X64 Scenario.failHost Scenario.copier 7 8
      (Scenario.committed Scenario.prologueCode).2 (Status.host 5)
      (Call.attach Scenario.hostCall Scenario.slot Scenario.detour) (by decide!) (by decide)
      (by decide!) (by decide)).2.2.2.2.2.2.1⟩

/-- C40: the two loops of `DetourAttachEx` end, for every architecture, host, state and
pointer slot and for every copier (no contract is assumed).  The first loop copies at most 8
instructions; the k-th copied instruction writes `rAlign[k]` with `k < 8`; when the loops are
left `nAlign` is the number of copied instructions and is not above the capacity 8, so the
guard `nAlign > capacity` is false.  The second loop consumes at most `cbJump` pieces of
padding, every piece has a length of at least 1, the pieces follow one another, and the byte
count after the loop is the byte count before it plus the sum of the lengths.  Neither loop
is ended by the fuel of the model: with any larger fuel the loops give the same result. -/
theorem C40_attach_loops_terminate (arch : Arch) (h : Host) (copier : Copier) (hc : HostCall)
    (s : State) (pp f : Nat) :
    (attachCopied arch h copier hc s pp).length ≤ 8 ∧
    (∀ (k : Nat) (i : CopiedInstr), (attachCopied arch h copier hc s pp)[k]? = some i →
      i.index = k ∧ k < 8) ∧
    (attachScan arch h copier hc s pp).2.nAlign = (attachCopied arch h copier hc s pp).length ∧
    ¬ (attachScan arch h copier hc s pp).2.nAlign > sizeof_rAlign ∧
    (attachFillers arch h copier hc s pp).length ≤ (attachScan arch h copier hc s pp).1 ∧
    (∀ c ∈ attachFillers arch h copier hc s pp, 1 ≤ c.2) ∧
    (attachScan arch h copier hc s pp).2.cbTarget =
      (attach_copy_loop arch copier (attachTarget arch h s pp) (attachAlloc arch h hc s pp).1
        (attachPre arch h hc s pp).1 sizeof_rAlign (attachPre arch h hc s pp).2).cbTarget +
      ((attachFillers arch h copier hc s pp).map Prod.snd).sum ∧
    (sizeof_rAlign ≤ f →
      attach_copy_loop arch copier (attachTarget arch h s pp) (attachAlloc arch h hc s pp).1
          (attachPre arch h hc s pp).1 f (attachPre arch h hc s pp).2 =
        attach_copy_loop arch copier (attachTarget arch h s pp) (attachAlloc arch h hc s pp).1
          (attachPre arch h hc s pp).1 sizeof_rAlign (attachPre arch h hc s pp).2) ∧
    ((attachPre arch h hc s pp).1 ≤ f →
      attach_filler_loop arch (attachTarget arch h s pp) (attachPre arch h hc s pp).1 f
          (attach_copy_loop arch copier (attachTarget arch h s pp)
            (attachAlloc arch h hc s pp).1 (attachPre arch h hc s pp).1 sizeof_rAlign
            (attachPre arch h hc s pp).2) =
        attach_filler_loop arch (attachTarget arch h s pp) (attachPre arch h hc s pp).1
          (attachPre arch h hc s pp).1
          (attach_copy_loop arch copier (attachTarget arch h s pp)
            (attachAlloc arch h hc s pp).1 (attachPre arch h hc s pp).1 sizeof_rAlign
            (attachPre arch h hc s pp).2)) := by
  obtain ⟨w1, w2, w3, w4, w5, w6, w7⟩ := attach_window arch h copier hc s pp
  obtain ⟨l1, l2⟩ := attach_loops_fuel arch h copier hc s pp f
  have h8 : sizeof_rAlign = 8 := rfl
  have hpre : (attachScan arch h copier hc s pp).1 = (attachPre arch h hc s pp).1 := by
    rw [attachScan_eq]
  refine ⟨by omega, ?_, w6, by omega, by rw [hpre]; exact w7, fun c hc2 => (w3 c hc2).1,
    attach_filler_sum arch h copier hc s pp, l1, l2⟩
  intro k i hk
  refine ⟨(w4 k i hk).1, ?_⟩
  have hlt : k < (attachCopied arch h copier hc s pp).length := by
    by_contra hge
    rw [List.getElem?_eq_none (Nat.le_of_not_lt hge)] at hk
    cases hk
  omega

set_option maxRecDepth 100000 in
/-- Witness of C40: the attach on the X64 prologue copies four instructions and consumes no
padding; a fuel of 100 gives the same result as the fuel 8. -/
theorem C40_attach_loops_terminate_witness :
    (attachCopied Arch.X64 Scenario.host Scenario.copier Scenario.hostCall
      (Scenario.opened Scenario.prologueCode false) Scenario.slot).length = 4 ∧
    (attachScan Arch.X64 Scenario.host Scenario.copier Scenario.hostCall
      (Scenario.opened Scenario.prologueCode false) Scenario.slot).2.nAlign =
      (attachCopied Arch.X64 Scenario.host Scenario.copier Scenario.hostCall
        (Scenario.opened Scenario.prologueCode false) Scenario.slot).length ∧
    attach_copy_loop Arch.X64 Scenario.copier
        (attachTarget Arch.X64 Scenario.host (Scenario.opened Scenario.prologueCode false)
          Scenario.slot)
        (attachAlloc Arch.X64 Scenario.host Scenario.hostCall
          (Scenario.opened Scenario.prologueCode false) Scenario.slot).1
        (attachPre Arch.X64 Scenario.host Scenario.hostCall
          (Scenario.opened Scenario.prologueCode false) Scenario.slot).1 100
        (attachPre Arch.X64 Scenario.host Scenario.hostCall
          (Scenario.opened Scenario.prologueCode false) Scenario.slot).2 =
      attach_copy_loop Arch.X64 Scenario.copier
        (attachTarget Arch.X64 Scenario.host (Scenario.opened Scenario.prologueCode false)
          Scenario.slot)
        (attachAlloc Arch.X64 Scenario.host Scenario.hostCall
          (Scenario.opened Scenario.prologueCode false) Scenario.slot).1
        (attachPre Arch.X64 Scenario.host Scenario.hostCall
          (Scenario.opened Scenario.prologueCode false) Scenario.slot).1 sizeof_rAlign
        (attachPre Arch.X64 Scenario.host Scenario.hostCall
          (Scenario.opened Scenario.prologueCode false) Scenario.slot).2 :=
  ⟨by decide!,
    (C40_attach_loops_terminate Arch.X64 Scenario.host Scenario.copier Scenario.hostCall
      (Scenario.opened Scenario.prologueCode false) Scenario.slot 100).2.2.1,
    (C40_attach_loops_terminate Arch.X64 Scenario.host Scenario.copier Scenario.hostCall
      (Scenario.opened Scenario.prologueCode false) Scenario.slot 100).2.2.2.2.2.2.2.1
      (by decide)⟩

/-- A processor in the wait loop stays there as long as the counter is not 0. -/
theorem ipi_wait_stuck (arch : Arch) (issuer : Nat) (pending : List DetourOperation)
    (st : IpiState) (cpu : Nat) (hw : st.pc[cpu]? = some IpiPc.wait) (hc : st.count ≠ 0) :
    ipiStep arch issuer pending st cpu = st := by
  unfold ipiStep
  rw [hw]
  exact if_neg hc

/-! ## The claim C29 -/

set_option maxRecDepth 100000 in
/-- C29 (evaluation at the failing input, with what holds when the counter is right).  When
the counter starts at the number `n` of processors that run the callback, in any interleaving
of their steps: once a processor has left the callback the counter is 0, every processor has
executed `detour_ipi_signal_done` and the memory holds all the pending patches; only the
issuing processor writes; until it starts to patch the memory is the one before the commit;
and every interleaving can be continued until all processors have left.  But
`detour_ipi_call` takes the counter from the active processors of group 0 alone.  On four
processors in two groups of two the counter starts at 2: after the processors 2 and 3 have
signalled the counter is 0 and processor 2 leaves while the issuing processor 1 has not
entered the patch loop and both targets are unpatched; after the first patch of the issuer
`target2` starts with the jump `48 B8` and `slot2` holds its trampoline while `target` still
starts with `48 89` and `slot` still holds `target`, with processor 2 outside the callback.
When the remaining processors signal, the counter passes below 0 and they stay in the wait
loop, where a step changes nothing as long as the counter is not 0.  The same early exit
occurs on 128 processors in two groups of 64. -/
theorem C29_rendezvous_short_count (arch : Arch) (pending : List DetourOperation) (m : Mem)
    (n issuer : Nat) (hi : issuer < n) (hn : n < 2 ^ 32) (sched : List Nat) (st : IpiState)
    (c0 : Nat) :
    ((∀ cpu : Nat,
        (ipiRun arch issuer pending (detour_ipi_call n n m) sched).pc[cpu]? = some IpiPc.left →
        (ipiRun arch issuer pending (detour_ipi_call n n m) sched).count = 0 ∧
        (∀ c, c < n →
          (ipiRun arch issuer pending (detour_ipi_call n n m) sched).pc[c]? = some IpiPc.wait ∨
          (ipiRun arch issuer pending (detour_ipi_call n n m) sched).pc[c]? = some IpiPc.left) ∧
        (ipiRun arch issuer pending (detour_ipi_call n n m) sched).mem =
          commit_apply arch pending m) ∧
      (∀ cpu : Nat, cpu ≠ issuer →
        (ipiStep arch issuer pending
          (ipiRun arch issuer pending (detour_ipi_call n n m) sched) cpu).mem =
        (ipiRun arch issuer pending (detour_ipi_call n n m) sched).mem) ∧
      ((ipiRun arch issuer pending (detour_ipi_call n n m) sched).pc[issuer]? =
          some IpiPc.entry →
        (ipiRun arch issuer pending (detour_ipi_call n n m) sched).mem = m) ∧
      ∃ more, ∀ c, c < n →
        (ipiRun arch issuer pending (detour_ipi_call n n m) (sched ++ more)).pc[c]? =
          some IpiPc.left) ∧
    (st.pc[c0]? = some IpiPc.wait → st.count ≠ 0 → ipiStep arch issuer pending st c0 = st) ∧
    (Scenario.twoTargetAttach.s_nPendingError = Status.success ∧
      Scenario.twoTargetAttach.s_pPendingOperations.map
          (fun o => (o.fIsRemove, o.pbTarget, o.pTrampoline, o.ppbPointer)) =
        [(false, Scenario.target2, Scenario.trampoline + 96, Scenario.slot2),
          (false, Scenario.target, Scenario.trampoline, Scenario.slot)] ∧
      Scenario.shortCall.count = 2 ∧ Scenario.shortCall.pc.length = 4 ∧
      (ipiRun Arch.X64 1 Scenario.twoTargetAttach.s_pPendingOperations Scenario.shortCall
          Scenario.earlySchedule).pc =
        [IpiPc.entry, IpiPc.entry, IpiPc.left, IpiPc.wait] ∧
      (ipiRun Arch.X64 1 Scenario.twoTargetAttach.s_pPendingOperations Scenario.shortCall
          Scenario.earlySchedule).count = 0 ∧
      readBytes (ipiRun Arch.X64 1 Scenario.twoTargetAttach.s_pPendingOperations
          Scenario.shortCall Scenario.earlySchedule).mem Scenario.target 2 = [0x48, 0x89] ∧
      readBytes (ipiRun Arch.X64 1 Scenario.twoTargetAttach.s_pPendingOperations
          Scenario.shortCall Scenario.earlySchedule).mem Scenario.target2 2 = [0x48, 0x89] ∧
      (ipiRun Arch.X64 1 Scenario.twoTargetAttach.s_pPendingOperations Scenario.shortCall
          (Scenario.earlySchedule ++ [1, 1])).pc[2]? = some IpiPc.left ∧
      readBytes (ipiRun Arch.X64 1 Scenario.twoTargetAttach.s_pPendingOperations
          Scenario.shortCall (Scenario.earlySchedule ++ [1, 1])).mem Scenario.target2 2 =
        [0x48, 0xB8] ∧
      readBytes (ipiRun Arch.X64 1 Scenario.twoTargetAttach.s_pPendingOperations
          Scenario.shortCall (Scenario.earlySchedule ++ [1, 1])).mem Scenario.target 2 =
        [0x48, 0x89] ∧
      readPtr Arch.X64 (ipiRun Arch.X64 1 Scenario.twoTargetAttach.s_pPendingOperations
          Scenario.shortCall (Scenario.earlySchedule ++ [1, 1])).mem Scenario.slot2 =
        Scenario.trampoline + 96 ∧
      readPtr Arch.X64 (ipiRun Arch.X64 1 Scenario.twoTargetAttach.s_pPendingOperations
          Scenario.shortCall (Scenario.earlySchedule ++ [1, 1])).mem Scenario.slot =
        Scenario.target ∧
      (ipiRun Arch.X64 1 Scenario.twoTargetAttach.s_pPendingOperations Scenario.shortCall
          (Scenario.earlySchedule ++ [1, 1, 1, 1, 1, 1, 0, 0, 0, 3, 1, 0])).pc =
        [IpiPc.wait, IpiPc.wait, IpiPc.left, IpiPc.wait] ∧
      (ipiRun Arch.X64 1 Scenario.twoTargetAttach.s_pPendingOperations Scenario.shortCall
          (Scenario.earlySchedule ++ [1, 1, 1, 1, 1, 1, 0, 0, 0, 3, 1, 0])).count =
        2 ^ 32 - 2 ∧
      Scenario.wideCall.count = 64 ∧ Scenario.wideCall.pc.length = 128 ∧
      (ipiRun Arch.X64 0 Scenario.twoTargetAttach.s_pPendingOperations Scenario.wideCall
          Scenario.wideSchedule).pc[64]? = some IpiPc.left ∧
      (ipiRun Arch.X64 0 Scenario.twoTargetAttach.s_pPendingOperations Scenario.wideCall
          Scenario.wideSchedule).pc[0]? = some IpiPc.entry ∧
      (ipiRun Arch.X64 0 Scenario.twoTargetAttach.s_pPendingOperations Scenario.wideCall
          Scenario.wideSchedule).count = 0) := by
  have hinv := ipi_run_inv hn sched _ (ipi_call_inv arch issuer pending m n hn)
  obtain ⟨more, hm⟩ := ipi_completes hn _ _ hinv (Nat.le_refl _)
  refine ⟨⟨fun cpu hl => ipi_inv_left hi hinv cpu hl,
    fun cpu hc => ipi_inv_writer hinv cpu hc, hinv.2.2.2.1, more, ?_⟩,
    fun hw hc => ipi_wait_stuck arch issuer pending st c0 hw hc, ?_⟩
  · intro c hc
    rw [ipiRun_append]
    exact hm c hc
  · decide!

set_option maxRecDepth 100000 in
/-- Witness of C29: with the counter at the number of processors (three processors, the
issuer is processor 1, the pending list holds the two attaches), in this schedule every
processor leaves and the memory then holds both patches; and in the state of the two-group
scenario in which the counter has passed below 0, a step of the issuer in the wait loop
changes nothing. -/
theorem C29_rendezvous_short_count_witness :
    (ipiRun Arch.X64 1 Scenario.doubleAttach.s_pPendingOperations
      (detour_ipi_call 3 3 Scenario.doubleAttach.mem)
      [0, 0, 2, 2, 1, 1, 1, 1, 1, 0, 1, 2]).pc = [IpiPc.left, IpiPc.left, IpiPc.left] ∧
    (ipiRun Arch.X64 1 Scenario.doubleAttach.s_pPendingOperations
      (detour_ipi_call 3 3 Scenario.doubleAttach.mem)
      [0, 0, 2, 2, 1, 1, 1, 1, 1, 0, 1, 2]).mem =
      commit_apply Arch.X64 Scenario.doubleAttach.s_pPendingOperations
        Scenario.doubleAttach.mem ∧
    ipiStep Arch.X64 1 Scenario.twoTargetAttach.s_pPendingOperations
        (ipiRun Arch.X64 1 Scenario.twoTargetAttach.s_pPendingOperations Scenario.shortCall
          (Scenario.earlySchedule ++ [1, 1, 1, 1, 1, 1, 0, 0, 0, 3, 1, 0])) 1 =
      ipiRun Arch.X64 1 Scenario.twoTargetAttach.s_pPendingOperations Scenario.shortCall
        (Scenario.earlySchedule ++ [1, 1, 1, 1, 1, 1, 0, 0, 0, 3, 1, 0]) :=
  ⟨by decide,
   ((C29_rendezvous_short_count Arch.X64 Scenario.doubleAttach.s_pPendingOperations
      Scenario.doubleAttach.mem 3 1 (by decide) (by decide)
      [0, 0, 2, 2, 1, 1, 1, 1, 1, 0, 1, 2] Scenario.shortCall 0).1.1 0 (by decide)).2.2,
   (C29_rendezvous_short_count Arch.X64 Scenario.twoTargetAttach.s_pPendingOperations
      Scenario.twoTargetAttach.mem 4 1 (by decide) (by decide) []
      (ipiRun Arch.X64 1 Scenario.twoTargetAttach.s_pPendingOperations Scenario.shortCall
        (Scenario.earlySchedule ++ [1, 1, 1, 1, 1, 1, 0, 0, 0, 3, 1, 0])) 1).2.1
      (by decide!) (by decide!)⟩

end Detours
